import Mathlib

/-!
# ARIES recovery manager (`LogMgr`) of guangsha/Database

A shallow embedding of `Final_Project/StudentComponent/LogMgr_100.cpp`.

* C++ `int` values (LSNs, transaction ids, page ids, offsets) are `Int`; the code only
  compares and copies them, so no overflow arises.
* `std::map<int, V>` is a list of key/value pairs kept in ascending key order, which is
  the order in which the C++ code iterates it.
* The storage engine `se` is an explicit state `σ` together with a record of transition
  functions, `StorageEngine σ`.  Every call the manager makes to it is also appended to
  `LogMgr.calls`, the call-order record of an instrumented stub engine.  No operation of
  the manager ever reads `calls`.
* The textual codec of `LogRecord` (`toString`, `stringToRecordPtr`) is not part of the
  sources under study.  A serialized chunk is represented by the list of records it
  encodes, and a parsed log by the list of parsed records.
-/

namespace Recovery

/-! ## Data model -/

/-- Modelled from the spec: `LogRecord.h` is not among the sources; `NULL_LSN` is the
sentinel LSN meaning "none" (spec section 3). The proofs of general statements never
unfold its value. -/
def NULL_LSN : Int := -1

/-- Modelled from the spec: `LogRecord.h` is not among the sources; `NULL_TX` is the
sentinel transaction id of system records (spec section 3). The proofs of general
statements never unfold its value. -/
def NULL_TX : Int := -1

/-- The `TxType` tag of a log record. -/
inductive TxType
  | UPDATE | COMMIT | ABORT | END | CLR | BEGIN_CKPT | END_CKPT
  deriving DecidableEq, Repr

/-- The `TxStatus` of a transaction table entry. -/
inductive TxStatus
  | U | C
  deriving DecidableEq, Repr

/-- The `txTableEntry` struct: value type of the transaction table. -/
structure txTableEntry where
  lastLSN : Int
  status : TxStatus
  deriving DecidableEq, Repr

/-- Modelled from the spec: `LogMgr.h` is not among the sources, so the value that
`tx_table[k]` default-constructs for an absent key is not visible.  Every path of the
code that is studied here overwrites both fields before reading them, except `write` and
`commit` called with `NULL_TX`. -/
def txTableEntry.fresh : txTableEntry := ⟨NULL_LSN, TxStatus.U⟩

/-- The variant part of a log record: `UpdateLogRecord`, `CompensationLogRecord`,
`ChkptLogRecord`, or a plain `LogRecord` of one of the four remaining types. -/
inductive RecordBody
  | update (pageID offset : Int) (beforeImage afterImage : String)
  | clr (pageID offset : Int) (afterImage : String) (undoNextLSN : Int)
  | commit
  | abort
  | endTx
  | beginCkpt
  | endCkpt (txTable : List (Int × txTableEntry)) (dirtyPageTable : List (Int × Int))
  deriving DecidableEq, Repr

/-- The class `LogRecord` and its subclasses. -/
structure LogRecord where
  lsn : Int
  prevLSN : Int
  txID : Int
  body : RecordBody
  deriving DecidableEq, Repr

/-- The accessor `getType()`. -/
def LogRecord.getType (r : LogRecord) : TxType :=
  match r.body with
  | .update _ _ _ _ => TxType.UPDATE
  | .clr _ _ _ _ => TxType.CLR
  | .commit => TxType.COMMIT
  | .abort => TxType.ABORT
  | .endTx => TxType.END
  | .beginCkpt => TxType.BEGIN_CKPT
  | .endCkpt _ _ => TxType.END_CKPT

/-- Modelled from the spec: the constructor `UpdateLogRecord(lsn, prevLSN, txID, pageID,
offset, beforeImage, afterImage)` is declared in `LogRecord.h`, which is not among the
sources; the argument order is that of spec section 4.4. -/
def UpdateLogRecord (lsn prevLSN txID pageID offset : Int) (beforeImage afterImage : String) :
    LogRecord :=
  ⟨lsn, prevLSN, txID, .update pageID offset beforeImage afterImage⟩

/-- Modelled from the spec: the constructor `CompensationLogRecord(lsn, prevLSN, txID,
pageID, offset, afterImage, undoNextLSN)` is declared in `LogRecord.h`, which is not among
the sources; the argument order is that of spec section 4.9. -/
def CompensationLogRecord (lsn prevLSN txID pageID offset : Int) (afterImage : String)
    (undoNextLSN : Int) : LogRecord :=
  ⟨lsn, prevLSN, txID, .clr pageID offset afterImage undoNextLSN⟩

/-- The constructor `ChkptLogRecord(lsn, prevLSN, txID, tx_table, dirty_page_table)`; the
two tables are copied by value. -/
def ChkptLogRecord (lsn prevLSN txID : Int) (txTable : List (Int × txTableEntry))
    (dirtyPageTable : List (Int × Int)) : LogRecord :=
  ⟨lsn, prevLSN, txID, .endCkpt txTable dirtyPageTable⟩

/-! ## `std::map<int, V>` -/

/-- The call `m.find(k)`: the value bound to `k`, if any. -/
def mapFind {V : Type} : List (Int × V) → Int → Option V
  | [], _ => none
  | (k, v) :: m, key => if key = k then some v else mapFind m key

/-- The assignment `m[k] = v`: replaces the binding of `k` or inserts it at its place in
ascending key order. -/
def mapSet {V : Type} : List (Int × V) → Int → V → List (Int × V)
  | [], key, val => [(key, val)]
  | (k, v) :: m, key, val =>
    if key < k then (key, val) :: (k, v) :: m
    else if key = k then (key, val) :: m
    else (k, v) :: mapSet m key val

/-- The call `m.erase(k)`. -/
def mapErase {V : Type} : List (Int × V) → Int → List (Int × V)
  | [], _ => []
  | (k, v) :: m, key => if k = key then mapErase m key else (k, v) :: mapErase m key

/-- The ascending key order in which `std::map` keeps and iterates its entries. -/
def mapSorted {V : Type} (m : List (Int × V)) : Prop :=
  m.Pairwise (fun a b => a.1 < b.1)

/-! ## Storage engine and manager state -/

/-- One call made by the manager to the storage engine, with its arguments and, where
there is one, its result. -/
inductive Call
  | nextLSN (ret : Int)
  | updateLog (chunk : List LogRecord)
  | getLog
  | pageWrite (pageID offset : Int) (text : String) (lsn : Int) (ok : Bool)
  | getLSN (pageID : Int) (ret : Int)
  | store_master (lsn : Int)
  deriving DecidableEq, Repr

/-- Modelled from the spec: `StorageEngine.h` is not among the sources; this is the
interface of spec section 6.1, as transition functions on an engine state `σ`.
`updateLog` receives the records whose serializations make up the chunk, `getLog` yields
the records that `stringToLRVector` parses out of the durable log text. -/
structure StorageEngine (σ : Type) where
  nextLSN : σ → Int × σ
  updateLog : List LogRecord → σ → σ
  getLog : σ → List LogRecord
  pageWrite : Int → Int → String → Int → σ → Bool × σ
  getLSN : Int → σ → Int
  store_master : Int → σ → σ

/-- The data members of class `LogMgr`, plus `calls`, the engine calls made so far,
oldest first. -/
structure LogMgr (σ : Type) where
  tx_table : List (Int × txTableEntry)
  dirty_page_table : List (Int × Int)
  logtail : List LogRecord
  se : σ
  calls : List Call

variable {σ : Type}

/-- The call `se->nextLSN()`. -/
def callNextLSN (E : StorageEngine σ) (m : LogMgr σ) : Int × LogMgr σ :=
  ((E.nextLSN m.se).1,
    { m with se := (E.nextLSN m.se).2, calls := m.calls ++ [Call.nextLSN (E.nextLSN m.se).1] })

/-- The call `se->updateLog(log_string)`. -/
def callUpdateLog (E : StorageEngine σ) (m : LogMgr σ) (chunk : List LogRecord) : LogMgr σ :=
  { m with se := E.updateLog chunk m.se, calls := m.calls ++ [Call.updateLog chunk] }

/-- The call `se->getLog()` followed by `stringToLRVector`. -/
def callGetLog (E : StorageEngine σ) (m : LogMgr σ) : List LogRecord × LogMgr σ :=
  (E.getLog m.se, { m with calls := m.calls ++ [Call.getLog] })

/-- The call `se->pageWrite(page_id, offset, text, lsn)`. -/
def callPageWrite (E : StorageEngine σ) (m : LogMgr σ) (pageID offset : Int) (text : String)
    (lsn : Int) : Bool × LogMgr σ :=
  ((E.pageWrite pageID offset text lsn m.se).1,
    { m with
      se := (E.pageWrite pageID offset text lsn m.se).2,
      calls := m.calls ++
        [Call.pageWrite pageID offset text lsn (E.pageWrite pageID offset text lsn m.se).1] })

/-- The call `se->getLSN(page_id)`. -/
def callGetLSN (E : StorageEngine σ) (m : LogMgr σ) (pageID : Int) : Int × LogMgr σ :=
  (E.getLSN pageID m.se, { m with calls := m.calls ++ [Call.getLSN pageID (E.getLSN pageID m.se)] })

/-- The call `se->store_master(lsn)`. -/
def callStoreMaster (E : StorageEngine σ) (m : LogMgr σ) (lsn : Int) : LogMgr σ :=
  { m with se := E.store_master lsn m.se, calls := m.calls ++ [Call.store_master lsn] }

/-- The statement `logtail.push_back(r)`. -/
def pushTail (m : LogMgr σ) (r : LogRecord) : LogMgr σ :=
  { m with logtail := m.logtail ++ [r] }

/-- The statement `tx_table[txnum].status = s`. -/
def setStatus (m : LogMgr σ) (txnum : Int) (s : TxStatus) : LogMgr σ :=
  { m with tx_table :=
      mapSet m.tx_table txnum ⟨((mapFind m.tx_table txnum).getD txTableEntry.fresh).lastLSN, s⟩ }

/-- The statement `if (txnum != NULL_TX) tx_table[txnum].status = s;`. -/
def setStatusGuarded (m : LogMgr σ) (txnum : Int) (s : TxStatus) : LogMgr σ :=
  if txnum ≠ NULL_TX then setStatus m txnum s else m

/-- The statement `tx_table.erase(txnum)`. -/
def eraseTx (m : LogMgr σ) (txnum : Int) : LogMgr σ :=
  { m with tx_table := mapErase m.tx_table txnum }

/-- The statement `if (dirty_page_table.find(p) == dirty_page_table.end())
dirty_page_table[p] = lsn;`. -/
def dirtyIfAbsent (m : LogMgr σ) (pageID lsn : Int) : LogMgr σ :=
  match mapFind m.dirty_page_table pageID with
  | none => { m with dirty_page_table := mapSet m.dirty_page_table pageID lsn }
  | some _ => m

/-- The `priority_queue<int>::push`: the queue is kept in descending order, so that
`top` is its head and `pop` drops the head. -/
def pqPush : List Int → Int → List Int
  | [], x => [x]
  | y :: q, x => if y ≤ x then x :: y :: q else y :: pqPush q x

/-- Faults of an execution: C++ undefined behaviour on reading the first element of an
empty vector, and exhaustion of the step budget of the `ToUndo` loop. -/
inductive Fault
  | emptyLogRead
  | outOfFuel
  deriving DecidableEq, Repr

end Recovery

namespace LogMgr_100

open Recovery

variable {σ : Type}

/-- `LogMgr::getLastLSN`. -/
def getLastLSN (m : LogMgr σ) (txnum : Int) : Int :=
  match mapFind m.tx_table txnum with
  | some e => e.lastLSN
  | none => NULL_LSN

/-- `LogMgr::setLastLSN`. -/
def setLastLSN (m : LogMgr σ) (txnum lsn : Int) : LogMgr σ :=
  if txnum = NULL_TX then m
  else
    { m with tx_table :=
        mapSet m.tx_table txnum ⟨lsn, ((mapFind m.tx_table txnum).getD txTableEntry.fresh).status⟩ }

/-- The `while` loop of `flushLogTail`: the records taken off the front of the tail, and
the records left. -/
def drainTail (maxLSN : Int) : List LogRecord → List LogRecord × List LogRecord
  | [] => ([], [])
  | r :: rest =>
    if r.lsn ≤ maxLSN then ((r :: (drainTail maxLSN rest).1), (drainTail maxLSN rest).2)
    else ([], r :: rest)

/-- `LogMgr::flushLogTail`. -/
def flushLogTail (E : StorageEngine σ) (m : LogMgr σ) (maxLSN : Int) : LogMgr σ :=
  callUpdateLog E { m with logtail := (drainTail maxLSN m.logtail).2 }
    (drainTail maxLSN m.logtail).1

/-- `LogMgr::write`. -/
def write (E : StorageEngine σ) (m : LogMgr σ) (txid page_id offset : Int)
    (input oldtext : String) : Int × LogMgr σ :=
  let lsn := (callNextLSN E m).1
  let m1 := (callNextLSN E m).2
  let prev_lsn := getLastLSN m1 txid
  let m2 := pushTail m1 (UpdateLogRecord lsn prev_lsn txid page_id offset oldtext input)
  let m3 := setLastLSN m2 txid lsn
  let m4 := setStatus m3 txid TxStatus.U
  (lsn, dirtyIfAbsent m4 page_id lsn)

/-- `LogMgr::commit`. -/
def commit (E : StorageEngine σ) (m : LogMgr σ) (txid : Int) : LogMgr σ :=
  let last_lsn := getLastLSN m txid
  let commit_lsn := (callNextLSN E m).1
  let m1 := (callNextLSN E m).2
  let m2 := pushTail m1 ⟨commit_lsn, last_lsn, txid, .commit⟩
  let m3 := setLastLSN m2 txid commit_lsn
  let m4 := setStatus m3 txid TxStatus.C
  let m5 := flushLogTail E m4 commit_lsn
  let m6 := eraseTx m5 txid
  let end_lsn := (callNextLSN E m6).1
  let m7 := (callNextLSN E m6).2
  pushTail m7 ⟨end_lsn, commit_lsn, txid, .endTx⟩

/-- `LogMgr::checkpoint`. -/
def checkpoint (E : StorageEngine σ) (m : LogMgr σ) : LogMgr σ :=
  let begin_lsn := (callNextLSN E m).1
  let m1 := (callNextLSN E m).2
  let end_lsn := (callNextLSN E m1).1
  let m2 := (callNextLSN E m1).2
  let m3 := pushTail m2 ⟨begin_lsn, NULL_LSN, NULL_TX, .beginCkpt⟩
  let m4 := pushTail m3 (ChkptLogRecord end_lsn begin_lsn NULL_TX m3.tx_table m3.dirty_page_table)
  let m5 := flushLogTail E m4 end_lsn
  callStoreMaster E m5 begin_lsn

/-- `LogMgr::pageFlushed`. -/
def pageFlushed (E : StorageEngine σ) (m : LogMgr σ) (page_id : Int) : LogMgr σ :=
  let lsn := (callGetLSN E m page_id).1
  let m1 := (callGetLSN E m page_id).2
  let m2 := flushLogTail E m1 lsn
  { m2 with dirty_page_table := mapErase m2.dirty_page_table page_id }

/-- The forward searches `while (it != log.end()) { if ((*it)->getLSN() == lsn) break; ++it; }`
of `analyze` and `redo`: the part of the log from the first record with that LSN on. -/
def seekLSN (lsn : Int) : List LogRecord → List LogRecord
  | [] => []
  | r :: rest => if r.lsn = lsn then r :: rest else seekLSN lsn rest

/-- The body of the forward scan of `analyze` for one record. -/
def analyzeRecord (m : LogMgr σ) (r : LogRecord) : LogMgr σ :=
  let m2 := setStatusGuarded (setLastLSN m r.txID r.lsn) r.txID TxStatus.U
  match r.body with
  | .commit => setStatusGuarded m2 r.txID TxStatus.C
  | .update pageID _ _ _ => dirtyIfAbsent m2 pageID r.lsn
  | .clr pageID _ _ _ => dirtyIfAbsent m2 pageID r.lsn
  | .endTx => eraseTx m2 r.txID
  | _ => m2

/-- The tables with which the forward scan of `analyze` starts: those of the last
`END_CKPT` record of the log if there is one, else the tables the manager holds. -/
def adoptCheckpoint (m : LogMgr σ) (log : List LogRecord) : LogMgr σ :=
  match log.reverse.find? (fun r => decide (r.getType = TxType.END_CKPT)) with
  | some ⟨_, _, _, .endCkpt txTable dirtyPageTable⟩ =>
    { m with tx_table := txTable, dirty_page_table := dirtyPageTable }
  | _ => m

/-- The variable `start_lsn` of `analyze` after the backward search. -/
def startLSN (log : List LogRecord) : Int :=
  match log.reverse.find? (fun r => decide (r.getType = TxType.END_CKPT)) with
  | some r => r.lsn
  | none => NULL_LSN

/-- `LogMgr::analyze`. Reading `*log.begin()` of an empty log is a fault. -/
def analyze (m : LogMgr σ) (log : List LogRecord) : Except Fault (LogMgr σ) :=
  match log with
  | [] => .error Fault.emptyLogRead
  | first :: _ =>
    let start_lsn := startLSN log
    let start :=
      if first.lsn < start_lsn ∨ start_lsn ≠ NULL_LSN then seekLSN start_lsn log else log
    .ok (start.foldl analyzeRecord (adoptCheckpoint m log))

/-- The variable `min_lsn` of `redo` after the loop over the dirty page table. -/
def minRecLSN (dpt : List (Int × Int)) : Int :=
  dpt.foldl (fun min_lsn e => if e.2 < min_lsn ∨ min_lsn = NULL_LSN then e.2 else min_lsn)
    NULL_LSN

/-- The page, offset and after-image that `redo` reads off an UPDATE or CLR record. -/
def redoTarget (r : LogRecord) : Option (Int × Int × String) :=
  match r.body with
  | .update pageID offset _ afterImage => some (pageID, offset, afterImage)
  | .clr pageID offset afterImage _ => some (pageID, offset, afterImage)
  | _ => none

/-- The page-writing loop of `redo` over the records from its starting point on; the
result is `false` when a `pageWrite` failed. -/
def redoScan (E : StorageEngine σ) : LogMgr σ → List LogRecord → Bool × LogMgr σ
  | m, [] => (true, m)
  | m, r :: rest =>
    match redoTarget r with
    | none => redoScan E m rest
    | some (page_id, offset, after_image) =>
      match mapFind m.dirty_page_table page_id with
      | none => redoScan E m rest
      | some recLSN =>
        if recLSN > r.lsn then redoScan E m rest
        else if (callGetLSN E m page_id).1 ≥ r.lsn then redoScan E (callGetLSN E m page_id).2 rest
        else if
            (callPageWrite E (callGetLSN E m page_id).2 page_id offset after_image r.lsn).1 = false
        then
          (false, (callPageWrite E (callGetLSN E m page_id).2 page_id offset after_image r.lsn).2)
        else
          redoScan E
            (callPageWrite E (callGetLSN E m page_id).2 page_id offset after_image r.lsn).2 rest

/-- The end of `redo`: an END record for every committed transaction, in table order, and
their removal from the transaction table. -/
def redoEnd (E : StorageEngine σ) (m : LogMgr σ) : LogMgr σ :=
  let appended :=
    m.tx_table.foldl
      (fun acc e =>
        if e.2.status = TxStatus.C then
          pushTail (callNextLSN E acc).2 ⟨(callNextLSN E acc).1, e.2.lastLSN, e.1, .endTx⟩
        else acc)
      m
  ((m.tx_table.filter (fun e => decide (e.2.status = TxStatus.C))).map Prod.fst).foldl eraseTx
    appended

/-- `LogMgr::redo`. Reading `*log.begin()` of an empty log is a fault. -/
def redo (E : StorageEngine σ) (m : LogMgr σ) (log : List LogRecord) :
    Except Fault (Bool × LogMgr σ) :=
  match m.dirty_page_table with
  | [] => .ok (true, redoEnd E m)
  | _ :: _ =>
    match log with
    | [] => .error Fault.emptyLogRead
    | first :: _ =>
      let min_lsn := minRecLSN m.dirty_page_table
      let start := if min_lsn ≠ NULL_LSN ∧ first.lsn < min_lsn then seekLSN min_lsn log else log
      if (redoScan E m start).1 then .ok (true, redoEnd E (redoScan E m start).2)
      else .ok (false, (redoScan E m start).2)

/-- The statements `logtail.push_back(new LogRecord(se->nextLSN(), prev, tx, END));
tx_table.erase(tx);` of `undo`. -/
def appendEnd (E : StorageEngine σ) (m : LogMgr σ) (prev tx : Int) : LogMgr σ :=
  eraseTx (pushTail (callNextLSN E m).2 ⟨(callNextLSN E m).1, prev, tx, .endTx⟩) tx

/-- The UPDATE branch of `undo` up to and including its `pageWrite` call, for the UPDATE
record `r` with the given page, offset and before-image: the result of `pageWrite` and the
state after it. -/
def compensate (E : StorageEngine σ) (m : LogMgr σ) (r : LogRecord) (pageID offset : Int)
    (beforeImage : String) : Bool × LogMgr σ :=
  let new_lsn := (callNextLSN E m).1
  let m1 := (callNextLSN E m).2
  let m2 := pushTail m1
    (CompensationLogRecord new_lsn (getLastLSN m1 r.txID) r.txID pageID offset beforeImage
      r.prevLSN)
  let m3 := setLastLSN m2 r.txID new_lsn
  let m4 := setStatusGuarded m3 r.txID TxStatus.U
  let m5 := dirtyIfAbsent m4 pageID new_lsn
  callPageWrite E m5 pageID offset beforeImage new_lsn

/-- One iteration of the `while` loop of `undo` on the record `r` found for the popped
LSN, `q` being `ToUndo` after the pop. The first component is `false` when the iteration
ends in the `return` that follows a failed `pageWrite`. In the UPDATE branch the variable
`new_lsn` of the source is `(E.nextLSN m.se).1`, the result of the `nextLSN` call made in
`compensate`. -/
def undoRecord (E : StorageEngine σ) (m : LogMgr σ) (r : LogRecord) (q : List Int) :
    Bool × LogMgr σ × List Int :=
  match r.body with
  | .update pageID offset beforeImage _ =>
    if (compensate E m r pageID offset beforeImage).1 = false then
      (false, (compensate E m r pageID offset beforeImage).2, q)
    else if r.prevLSN ≠ NULL_LSN then
      (true, (compensate E m r pageID offset beforeImage).2, pqPush q r.prevLSN)
    else
      (true,
        appendEnd E (compensate E m r pageID offset beforeImage).2 (E.nextLSN m.se).1 r.txID, q)
  | .clr _ _ _ undoNextLSN =>
    if undoNextLSN ≠ NULL_LSN then (true, m, pqPush q undoNextLSN)
    else (true, appendEnd E m r.lsn r.txID, q)
  | .abort =>
    if r.prevLSN ≠ NULL_LSN then (true, m, pqPush q r.prevLSN)
    else (true, appendEnd E m (getLastLSN m r.txID) r.txID, q)
  | _ => (true, m, q)

/-- The `while (!ToUndo.empty())` loop of `undo`, with a budget of iterations. -/
def undoLoop (E : StorageEngine σ) (log : List LogRecord) :
    Nat → LogMgr σ → List Int → Except Fault (LogMgr σ)
  | _, m, [] => .ok m
  | 0, _, _ :: _ => .error Fault.outOfFuel
  | fuel + 1, m, lsn :: q =>
    match log.find? (fun r => decide (r.lsn = lsn)) with
    | none => undoLoop E log fuel m q
    | some r =>
      if (undoRecord E m r q).1 then
        undoLoop E log fuel (undoRecord E m r q).2.1 (undoRecord E m r q).2.2
      else .ok (undoRecord E m r q).2.1

/-- The queue `ToUndo` as `undo` seeds it. -/
def seedToUndo (m : LogMgr σ) (txnum : Int) : List Int :=
  if txnum = NULL_TX then m.tx_table.foldl (fun q e => pqPush q e.2.lastLSN) []
  else
    match mapFind m.tx_table txnum with
    | some e => [e.lastLSN]
    | none => []

/-- `LogMgr::undo`; `txnum` is `NULL_TX` when the C++ caller leaves it out. -/
def undo (E : StorageEngine σ) (fuel : Nat) (m : LogMgr σ) (log : List LogRecord)
    (txnum : Int) : Except Fault (LogMgr σ) :=
  undoLoop E log fuel m (seedToUndo m txnum)

/-- `LogMgr::abort`. -/
def abort (E : StorageEngine σ) (fuel : Nat) (m : LogMgr σ) (txid : Int) :
    Except Fault (LogMgr σ) :=
  let last_lsn := getLastLSN m txid
  let lsn := (callNextLSN E m).1
  let m1 := (callNextLSN E m).2
  let m2 := pushTail m1 ⟨lsn, last_lsn, txid, .abort⟩
  let m3 := setLastLSN m2 txid lsn
  let m4 := setStatusGuarded m3 txid TxStatus.U
  let log := (callGetLog E m4).1
  let m5 := (callGetLog E m4).2
  undo E fuel m5 (log ++ m5.logtail) txid

/-- `LogMgr::recover`, on the record vector that `stringToLRVector` parses out of its
argument. -/
def recover (E : StorageEngine σ) (fuel : Nat) (m : LogMgr σ) (log : List LogRecord) :
    Except Fault (LogMgr σ) :=
  match analyze m log with
  | .error f => .error f
  | .ok m1 =>
    match redo E m1 log with
    | .error f => .error f
    | .ok (true, m2) => undo E fuel m2 log NULL_TX
    | .ok (false, m2) => .ok m2

/-! ## Engines, traces and reachable states -/

/-- The contract of `nextLSN` (spec invariant I5): `mark s` bounds the LSNs the engine has
handed out up to state `s`, `nextLSN` returns a value above it, and no call lowers it. -/
structure IncreasingLSN (E : StorageEngine σ) (mark : σ → Int) : Prop where
  nextLSN_gt : ∀ s, mark s < (E.nextLSN s).1
  nextLSN_mark : ∀ s, (E.nextLSN s).1 ≤ mark (E.nextLSN s).2
  updateLog_mark : ∀ c s, mark s ≤ mark (E.updateLog c s)
  pageWrite_mark : ∀ p o t l s, mark s ≤ mark (E.pageWrite p o t l s).2
  store_master_mark : ∀ l s, mark s ≤ mark (E.store_master l s)

/-- The records passed to `updateLog` by a sequence of engine calls, in order. -/
def flushed : List Call → List LogRecord
  | [] => []
  | Call.updateLog chunk :: cs => chunk ++ flushed cs
  | _ :: cs => flushed cs

/-- The `pageWrite` calls of a sequence of engine calls, in order. -/
def pageWrites : List Call → List Call
  | [] => []
  | Call.pageWrite p o t l ok :: cs => Call.pageWrite p o t l ok :: pageWrites cs
  | _ :: cs => pageWrites cs

/-- A manager as constructed: empty tables, empty log tail, no engine call made. -/
def freshMgr (s : σ) : LogMgr σ := ⟨[], [], [], s, []⟩

/-- The log tail is strictly increasing in LSN and holds no LSN above those handed out. -/
def TailInv (mark : σ → Int) (m : LogMgr σ) : Prop :=
  m.logtail.Pairwise (fun a b => a.lsn < b.lsn) ∧ ∀ r ∈ m.logtail, r.lsn ≤ mark m.se

/-- The states reached from a fresh manager by a sequence of `write`, `commit`, `abort`,
`checkpoint`, `pageFlushed` and `recover` calls that return. -/
inductive Reachable (E : StorageEngine σ) : LogMgr σ → Prop
  | init (s : σ) : Reachable E (freshMgr s)
  | write {m : LogMgr σ} (txid page_id offset : Int) (input oldtext : String) :
      Reachable E m → Reachable E (write E m txid page_id offset input oldtext).2
  | commit {m : LogMgr σ} (txid : Int) : Reachable E m → Reachable E (commit E m txid)
  | abort {m m2 : LogMgr σ} (fuel : Nat) (txid : Int) :
      Reachable E m → abort E fuel m txid = .ok m2 → Reachable E m2
  | checkpoint {m : LogMgr σ} : Reachable E m → Reachable E (checkpoint E m)
  | pageFlushed {m : LogMgr σ} (page_id : Int) :
      Reachable E m → Reachable E (pageFlushed E m page_id)
  | recover {m m2 : LogMgr σ} (fuel : Nat) (log : List LogRecord) :
      Reachable E m → recover E fuel m log = .ok m2 → Reachable E m2

/-- The state of a stub storage engine: the next LSN to hand out, the durable log, the LSN
stamped on each page, the page writes accepted so far, and the master record. -/
structure Stub where
  next : Int
  log : List LogRecord
  pageLSN : List (Int × Int)
  written : List (Int × Int × String)
  master : Int
  deriving DecidableEq, Repr

/-- A stub storage engine that hands out consecutive LSNs and accepts every page write. -/
def stubEngine : StorageEngine Stub where
  nextLSN s := (s.next, { s with next := s.next + 1 })
  updateLog chunk s := { s with log := s.log ++ chunk }
  getLog s := s.log
  pageWrite p o t l s :=
    (true, { s with pageLSN := mapSet s.pageLSN p l, written := s.written ++ [(p, o, t)] })
  getLSN p s := (mapFind s.pageLSN p).getD NULL_LSN
  store_master l s := { s with master := l }

/-- The stub engine with a storage that has stopped responding: every `pageWrite` fails. -/
def brokenEngine : StorageEngine Stub :=
  { stubEngine with pageWrite := fun _ _ _ _ s => (false, s) }

/-- The stub engine before any call: LSNs start at 1, nothing is logged or written. -/
def stubInit : Stub := ⟨1, [], [], [], NULL_LSN⟩

/-! ## Vocabulary of the statements -/

/-- The records the manager has emitted so far and not lost: those passed to `updateLog`,
followed by the log tail. -/
def emitted (m : LogMgr σ) : List LogRecord := flushed m.calls ++ m.logtail

/-- The record `c` is a CLR that compensates the UPDATE record `u`: same transaction, page
and offset, after-image the before-image of `u`, `undoNextLSN` the `prevLSN` of `u`. -/
def IsCLROf (u c : LogRecord) : Prop :=
  ∃ pageID offset beforeImage afterImage,
    u.body = .update pageID offset beforeImage afterImage ∧
    c.txID = u.txID ∧ c.body = .clr pageID offset beforeImage u.prevLSN

/-- The call `w` is the successful `pageWrite` that installs the after-image of the CLR `c`
at its page and offset under the LSN of `c`. -/
def IsWriteOfCLR (c : LogRecord) (w : Call) : Prop :=
  ∃ pageID offset afterImage undoNextLSN,
    c.body = .clr pageID offset afterImage undoNextLSN ∧
    w = Call.pageWrite pageID offset afterImage c.lsn true

/-- The record `u` is an UPDATE of transaction `T` with a proper LSN, and looking its LSN
up in `log` yields `u`. -/
def IsUpdateOf (T : Int) (log : List LogRecord) (u : LogRecord) : Prop :=
  u.txID = T ∧ u.getType = TxType.UPDATE ∧ u.lsn ≠ NULL_LSN ∧
    log.find? (fun r => decide (r.lsn = u.lsn)) = some u

/-- The UPDATE records of transaction `T`, latest first, chained by `prevLSN`, the oldest
being the first record of `T`. -/
def UpdateChain (T : Int) (log : List LogRecord) : List LogRecord → Prop
  | [] => False
  | [u] => IsUpdateOf T log u ∧ u.prevLSN = NULL_LSN
  | u :: v :: rest => IsUpdateOf T log u ∧ u.prevLSN = v.lsn ∧ UpdateChain T log (v :: rest)

/-- The record is one that `undo` acts on: an UPDATE, a CLR or an ABORT. -/
def Undoable (r : LogRecord) : Prop :=
  r.getType = TxType.UPDATE ∨ r.getType = TxType.CLR ∨ r.getType = TxType.ABORT

instance (r : LogRecord) : Decidable (Undoable r) :=
  inferInstanceAs (Decidable (_ ∨ _ ∨ _))

/-- The accessor `getUndoNextLSN()` of a CLR; `NULL_LSN` for the other records, which have
no such field. -/
def getUndoNextLSN (r : LogRecord) : Int :=
  match r.body with
  | .clr _ _ _ undoNextLSN => undoNextLSN
  | _ => NULL_LSN

/-- The LSN with which `undo` goes on after the record `r`: the `undoNextLSN` of a CLR,
the `prevLSN` of an UPDATE or an ABORT. -/
def followLSN (r : LogRecord) : Int :=
  match r.body with
  | .clr _ _ _ undoNextLSN => undoNextLSN
  | _ => r.prevLSN

/-- The LSN `n` carried by the record `r` is `NULL_LSN` or the LSN of an earlier record of
the same transaction in `log`. -/
def PointsBack (log : List LogRecord) (r : LogRecord) (n : Int) : Prop :=
  n = NULL_LSN ∨ ∃ r2 ∈ log, r2.lsn = n ∧ r2.lsn < r.lsn ∧ r2.txID = r.txID

instance (log : List LogRecord) (r : LogRecord) (n : Int) : Decidable (PointsBack log r n) :=
  inferInstanceAs (Decidable (_ ∨ ∃ r2 ∈ log, _))

/-- The log is strictly increasing in LSN and every `prevLSN` and `undoNextLSN` in it is
`NULL_LSN` or the LSN of an earlier record of the same transaction (spec I2 and I5). -/
def ChainedLog (log : List LogRecord) : Prop :=
  log.Pairwise (fun a b => a.lsn < b.lsn) ∧
    ∀ r ∈ log, PointsBack log r r.prevLSN ∧ PointsBack log r (getUndoNextLSN r)

instance (log : List LogRecord) : Decidable (ChainedLog log) :=
  inferInstanceAs (Decidable (_ ∧ ∀ r ∈ log, _))

/-- A log on which Undo can run every rollback to its end: it is not empty, strictly
increasing in LSN, every record of a transaction other than `NULL_TX` is an UPDATE, CLR,
ABORT, COMMIT or END, and the LSN that `undo` follows from an UPDATE, CLR or ABORT record is
`NULL_LSN` or the LSN of an earlier UPDATE, CLR or ABORT record of the same transaction. -/
def UndoableLog (log : List LogRecord) : Prop :=
  log ≠ [] ∧
  log.Pairwise (fun a b => a.lsn < b.lsn) ∧
  (∀ r ∈ log, r.txID ≠ NULL_TX →
    r.getType ≠ TxType.BEGIN_CKPT ∧ r.getType ≠ TxType.END_CKPT) ∧
  ∀ r ∈ log, Undoable r →
    followLSN r = NULL_LSN ∨
      ∃ r2 ∈ log, r2.lsn = followLSN r ∧ r2.lsn < r.lsn ∧ r2.txID = r.txID ∧ Undoable r2

instance (log : List LogRecord) : Decidable (UndoableLog log) :=
  inferInstanceAs (Decidable (_ ∧ _ ∧ (∀ r ∈ log, _) ∧ ∀ r ∈ log, _))

/-- A transaction table whose entries are of transactions other than `NULL_TX` and, when
their status is U, carry as `lastLSN` the LSN of an UPDATE, CLR or ABORT record of their
transaction in `log`. -/
def GoodTable (log : List LogRecord) (tt : List (Int × txTableEntry)) : Prop :=
  ∀ x ∈ tt, x.1 ≠ NULL_TX ∧
    (x.2.status = TxStatus.U →
      ∃ r ∈ log, r.lsn = x.2.lastLSN ∧ r.txID = x.1 ∧ Undoable r)

instance (log : List LogRecord) (tt : List (Int × txTableEntry)) :
    Decidable (GoodTable log tt) :=
  inferInstanceAs (Decidable (∀ x ∈ tt, _))

/-- The last record of transaction `T` in `tail` exists and is an END. -/
def EndsLast (tail : List LogRecord) (T : Int) : Prop :=
  ∃ r, (tail.filter (fun x => decide (x.txID = T))).getLast? = some r ∧
    r.getType = TxType.END

/-- The number of records of `log` with LSN at most `lsn`. -/
def rank (log : List LogRecord) (lsn : Int) : Nat :=
  (log.filter (fun r => decide (r.lsn ≤ lsn))).length

/-- A bound on the number of iterations Undo still needs for the queue `q`. -/
def weight (log : List LogRecord) (q : List Int) : Nat :=
  (q.map (rank log)).sum

/-- The invariant of the `ToUndo` loop on a log `log`, for a set `K` of transactions:
every queued LSN is that of an UPDATE, CLR or ABORT record of a transaction other than
`NULL_TX`; every transaction table entry has a queued LSN of a record of its transaction;
and every transaction of `K` is in the transaction table or has an END as its last record
in the tail. -/
def UndoInv (log : List LogRecord) (K : Int → Prop) (m : LogMgr σ) (q : List Int) : Prop :=
  (∀ L ∈ q, ∃ r, log.find? (fun x => decide (x.lsn = L)) = some r ∧ Undoable r ∧
    r.txID ≠ NULL_TX) ∧
  (∀ x ∈ m.tx_table, ∃ L ∈ q, ∃ r, log.find? (fun x => decide (x.lsn = L)) = some r ∧
    r.txID = x.1) ∧
  (∀ T, K T → (∃ e, (T, e) ∈ m.tx_table) ∨ EndsLast m.logtail T)

/-- The call is one after which the scan of `redo` goes on to the next record: a `getLSN`,
or a `pageWrite` that succeeded. -/
def IsPassedRedoCall (c : Call) : Prop :=
  (∃ p v, c = Call.getLSN p v) ∨ ∃ p o t l, c = Call.pageWrite p o t l true

/-- The `pageWrite` call with which `redo` redoes the record: page, offset and after-image
of the record under the record's LSN, accepted by the engine; none for a record that is
neither an UPDATE nor a CLR. -/
def redoWrite (r : LogRecord) : Option Call :=
  match redoTarget r with
  | some (p, o, a) => some (Call.pageWrite p o a r.lsn true)
  | none => none

/-- The records emitted so far are strictly increasing in LSN, in the order of their
emission, and none has an LSN above those handed out. -/
def EmitInv (mark : σ → Int) (m : LogMgr σ) : Prop :=
  (emitted m).Pairwise (fun a b => a.lsn < b.lsn) ∧ ∀ r ∈ emitted m, r.lsn ≤ mark m.se

/-- The last record of transaction `T` among `recs`, if there is one. -/
def lastOf (recs : List LogRecord) (T : Int) : Option LogRecord :=
  (recs.filter (fun r => decide (r.txID = T))).getLast?

/-- The LSN that the manager holds as `lastLSN` of transaction `T` after having emitted
the records `recs`: the LSN of the last record of `T` among them, `NULL_LSN` if there is
none or if that record is an END (the END removes `T` from the transaction table). -/
def expectedPrev (recs : List LogRecord) (T : Int) : Int :=
  match lastOf recs T with
  | none => NULL_LSN
  | some r => if r.getType = TxType.END then NULL_LSN else r.lsn

/-- Every UPDATE, CLR or ABORT record of `recs` of a transaction other than `NULL_TX`
carries as `prevLSN` what `expectedPrev` gives for the records before it. -/
def ChainOK (recs : List LogRecord) : Prop :=
  ∀ pre R post, recs = pre ++ R :: post → Undoable R → R.txID ≠ NULL_TX →
    R.prevLSN = expectedPrev pre R.txID

/-- The emitted records are chained, and the last LSN the transaction table gives for a
transaction other than `NULL_TX` is what `expectedPrev` gives for the emitted records. -/
def ChainInv (m : LogMgr σ) : Prop :=
  ChainOK (emitted m) ∧ ∀ T, T ≠ NULL_TX → getLastLSN m T = expectedPrev (emitted m) T

/-- The states reached from a fresh manager by a run of `write`, `commit` and `abort`
calls that return. -/
inductive Run (E : StorageEngine σ) : LogMgr σ → Prop
  | init (s : σ) : Run E (freshMgr s)
  | write {m : LogMgr σ} (txid page_id offset : Int) (input oldtext : String) :
      Run E m → Run E (write E m txid page_id offset input oldtext).2
  | commit {m : LogMgr σ} (txid : Int) : Run E m → Run E (commit E m txid)
  | abort {m m2 : LogMgr σ} (fuel : Nat) (txid : Int) :
      Run E m → abort E fuel m txid = .ok m2 → Run E m2

/-- The page, offset and text of the `pageWrite` calls that the engine accepted, in call
order. -/
def writeTargets : List Call → List (Int × Int × String)
  | [] => []
  | Call.pageWrite p o t _ true :: cs => (p, o, t) :: writeTargets cs
  | _ :: cs => writeTargets cs

/-- The text that the last of the page writes `ws` at page `p`, offset `o` has put there;
none if `ws` holds no write at that place. -/
def imageAt (ws : List (Int × Int × String)) (p o : Int) : Option String :=
  ((ws.filter (fun w => decide (w.1 = p ∧ w.2.1 = o))).getLast?).map (fun w => w.2.2)

/-- The page write with which `undo` compensates the record: page, offset and before-image
of an UPDATE; none for the other records. -/
def undoWrite (r : LogRecord) : List (Int × Int × String) :=
  match r.body with
  | .update pageID offset beforeImage _ => [(pageID, offset, beforeImage)]
  | _ => []

/-- What a stretch of `undo` that leads from state `m` to state `r` and writes the pages
`X` does to the engine and to the dirty page table: the accepted page writes grow by `X`;
the LSNs handed out do not go down, and a page LSN that was at least `L` stays so, for
every `L` handed out before; the entries of the dirty page table are kept, the pages of
`X` are added to it, and nothing is added when they were all there. -/
def UndoEffect (E : StorageEngine σ) (mark : σ → Int) (m r : LogMgr σ)
    (X : List (Int × Int × String)) : Prop :=
  writeTargets r.calls = writeTargets m.calls ++ X ∧
  mark m.se ≤ mark r.se ∧
  (∀ p L, L ≤ mark m.se → L ≤ E.getLSN p m.se → L ≤ E.getLSN p r.se) ∧
  (∀ p v, mapFind m.dirty_page_table p = some v → mapFind r.dirty_page_table p = some v) ∧
  (∀ p, (mapFind r.dirty_page_table p).isSome = true ↔
    ((mapFind m.dirty_page_table p).isSome = true ∨ ∃ o b, (p, o, b) ∈ X)) ∧
  ((∀ w ∈ X, (mapFind m.dirty_page_table w.1).isSome = true) →
    r.dirty_page_table = m.dirty_page_table)

/-- The records that the `while (!ToUndo.empty())` loop of `undo` finds for the LSNs it
pops, in the order of the pops: the trace of `undoLoop`. -/
def undoPopped (E : StorageEngine σ) (log : List LogRecord) :
    Nat → LogMgr σ → List Int → List LogRecord
  | _, _, [] => []
  | 0, _, _ :: _ => []
  | fuel + 1, m, lsn :: q =>
    match log.find? (fun r => decide (r.lsn = lsn)) with
    | none => undoPopped E log fuel m q
    | some r =>
      if (undoRecord E m r q).1 then
        r :: undoPopped E log fuel (undoRecord E m r q).2.1 (undoRecord E m r q).2.2
      else [r]

/-- The record is an UPDATE or a CLR whose `pageID` is `P`. -/
def dirties (r : LogRecord) (P : Int) : Bool :=
  match redoTarget r with
  | some (p, _, _) => decide (p = P)
  | none => false

/-- The states reached from a fresh manager by a sequence of `write`, `commit`, `abort`,
`checkpoint` and `pageFlushed` calls that return. -/
inductive Operated (E : StorageEngine σ) : LogMgr σ → Prop
  | init (s : σ) : Operated E (freshMgr s)
  | write {m : LogMgr σ} (txid page_id offset : Int) (input oldtext : String) :
      Operated E m → Operated E (write E m txid page_id offset input oldtext).2
  | commit {m : LogMgr σ} (txid : Int) : Operated E m → Operated E (commit E m txid)
  | abort {m m2 : LogMgr σ} (fuel : Nat) (txid : Int) :
      Operated E m → abort E fuel m txid = .ok m2 → Operated E m2
  | checkpoint {m : LogMgr σ} : Operated E m → Operated E (checkpoint E m)
  | pageFlushed {m : LogMgr σ} (page_id : Int) :
      Operated E m → Operated E (pageFlushed E m page_id)

/-- Every `recLSN` of the dirty page table is the LSN of an emitted UPDATE or CLR record of
its page. -/
def DirtyInv (m : LogMgr σ) : Prop :=
  ∀ P r, mapFind m.dirty_page_table P = some r →
    ∃ R ∈ emitted m, R.lsn = r ∧ dirties R P = true

/-- Modelled from the spec: `LogRecord::stringToRecordPtr` is declared in `LogRecord.h`,
which is not among the sources. By spec section 4.1 the codec turns one line of log text
into a record and fails with `CorruptLogRecord` on a malformed line; `parse` yields `none`
for that failure, which no code of `LogMgr` catches. -/
structure Codec where
  parse : String → Option LogRecord

/-- `LogMgr::stringToLRVector` on the lines that `getline` reads off the log text: the
records parsed, or `none` when `stringToRecordPtr` fails on a line. -/
def stringToLRVector (C : Codec) : List String → Option (List LogRecord)
  | [] => some []
  | line :: rest =>
    match C.parse line with
    | none => none
    | some lr =>
      match stringToLRVector C rest with
      | none => none
      | some result => some (lr :: result)

/-- The way a call that parses log text ends: it returns, or the failure of the codec
leaves the call as `CorruptLogRecord`; in both cases with the state of the manager at that
point. -/
inductive Ending (σ : Type)
  | returned (m : LogMgr σ)
  | corruptLogRecord (m : LogMgr σ)

/-- `LogMgr::recover` on the lines of its argument. -/
def recoverText (C : Codec) (E : StorageEngine σ) (fuel : Nat) (m : LogMgr σ)
    (log : List String) : Except Fault (Ending σ) :=
  match stringToLRVector C log with
  | none => .ok (Ending.corruptLogRecord m)
  | some log_vect =>
    match recover E fuel m log_vect with
    | .error f => .error f
    | .ok m2 => .ok (Ending.returned m2)

/-- `LogMgr::abort`, `text s` being the lines of the string that `se->getLog()` returns in
engine state `s`. -/
def abortText (C : Codec) (E : StorageEngine σ) (text : σ → List String) (fuel : Nat)
    (m : LogMgr σ) (txid : Int) : Except Fault (Ending σ) :=
  let last_lsn := getLastLSN m txid
  let lsn := (callNextLSN E m).1
  let m1 := (callNextLSN E m).2
  let m2 := pushTail m1 ⟨lsn, last_lsn, txid, .abort⟩
  let m3 := setLastLSN m2 txid lsn
  let m4 := setStatusGuarded m3 txid TxStatus.U
  let m5 := (callGetLog E m4).2
  match stringToLRVector C (text m4.se) with
  | none => .ok (Ending.corruptLogRecord m5)
  | some log_vec =>
    match undo E fuel m5 (log_vec ++ m5.logtail) txid with
    | .error f => .error f
    | .ok m6 => .ok (Ending.returned m6)

/-- A toy codec: the line `commit 1` is the COMMIT record of transaction 1 with LSN 1, every
other line is malformed. -/
def stubCodec : Codec :=
  ⟨fun line => if line = "commit 1" then some ⟨1, NULL_LSN, 1, .commit⟩ else none⟩

/-- A number of iterations that suffices for the `ToUndo` loop on the queue `q`: for every
queued LSN one iteration plus one for every record of `log` with an LSN at most that. -/
def budget (log : List LogRecord) (q : List Int) : Nat :=
  (q.map (fun lsn => rank log lsn + 1)).sum

/-- The record that `undo` finds for the LSN `lsn` in `log` is one of transaction `T`. -/
def findsTx (log : List LogRecord) (T : Int) (lsn : Int) : Bool :=
  match log.find? (fun r => decide (r.lsn = lsn)) with
  | some r => decide (r.txID = T)
  | none => false

/-- The records of transaction `T` that Undo visits one after the other: each is an
UPDATE, CLR or ABORT record of `T` found under its LSN in `log`, the LSN that Undo follows
from it is the LSN of the next one, and `NULL_LSN` for the last one. -/
def UndoPath (T : Int) (log : List LogRecord) : List LogRecord → Prop
  | [] => False
  | [r] =>
    (r.txID = T ∧ Undoable r ∧ log.find? (fun x => decide (x.lsn = r.lsn)) = some r) ∧
      followLSN r = NULL_LSN
  | r :: s :: rest =>
    (r.txID = T ∧ Undoable r ∧ log.find? (fun x => decide (x.lsn = r.lsn)) = some r) ∧
      followLSN r = s.lsn ∧ s.lsn ≠ NULL_LSN ∧ UndoPath T log (s :: rest)

end LogMgr_100

/-! ## The variant `LogMgr_xiabao7.cpp` -/

namespace LogMgr_xiabao7

open Recovery

variable {σ : Type}

/-- `LogMgr::getLastLSN`. -/
def getLastLSN (m : LogMgr σ) (txnum : Int) : Int :=
  match mapFind m.tx_table txnum with
  | some e => e.lastLSN
  | none => NULL_LSN

/-- `LogMgr::setLastLSN`. -/
def setLastLSN (m : LogMgr σ) (txnum lsn : Int) : LogMgr σ :=
  if txnum = NULL_TX then m
  else
    { m with tx_table :=
        mapSet m.tx_table txnum ⟨lsn, ((mapFind m.tx_table txnum).getD txTableEntry.fresh).status⟩ }

/-- The body of the forward scan of `analyze` for one record. -/
def analyzeRecord (m : LogMgr σ) (r : LogRecord) : LogMgr σ :=
  let m1 := setLastLSN m r.txID r.lsn
  if r.txID = NULL_TX then m1
  else
    match r.body with
    | .update pageID _ _ _ => dirtyIfAbsent (setStatus m1 r.txID TxStatus.U) pageID r.lsn
    | .commit => setStatus m1 r.txID TxStatus.C
    | .clr pageID _ _ _ => dirtyIfAbsent (setStatus m1 r.txID TxStatus.U) pageID r.lsn
    | .endTx => eraseTx m1 r.txID
    | _ => m1

/-- The position at which the backward search of `analyze` stops: the part of the log from
its last END_CKPT record on, if there is one. -/
def lastCkptSuffix : List LogRecord → Option (List LogRecord)
  | [] => none
  | r :: rest =>
    match lastCkptSuffix rest with
    | some s => some s
    | none => if r.getType = TxType.END_CKPT then some (r :: rest) else none

/-- `LogMgr::analyze`: both tables are cleared, an empty log ends the call, the snapshot of
the last END_CKPT is adopted and the forward scan starts at that record, or at the first
record of the log when there is no END_CKPT. -/
def analyze (m : LogMgr σ) (log : List LogRecord) : LogMgr σ :=
  match lastCkptSuffix log with
  | some (⟨lsn, prevLSN, txID, .endCkpt txTable dirtyPageTable⟩ :: rest) =>
    (⟨lsn, prevLSN, txID, .endCkpt txTable dirtyPageTable⟩ :: rest).foldl analyzeRecord
      { m with tx_table := txTable, dirty_page_table := dirtyPageTable }
  | _ => log.foldl analyzeRecord { m with tx_table := [], dirty_page_table := [] }

/-- The page-writing loop of `redo` (lines 198-235), which runs over the log from its first
record: the iterator `it` that the preceding search for `oldestLsn` advances is a second
variable, declared in the `for` statement of that search, so the search has no effect. The
result is `false` when a `pageWrite` failed. -/
def redoScan (E : StorageEngine σ) : LogMgr σ → List LogRecord → Bool × LogMgr σ
  | m, [] => (true, m)
  | m, r :: rest =>
    match LogMgr_100.redoTarget r with
    | none => redoScan E m rest
    | some (pageID, offset, afterImage) =>
      match mapFind m.dirty_page_table pageID with
      | none => redoScan E m rest
      | some recLSN =>
        if recLSN > r.lsn then redoScan E m rest
        else if (callGetLSN E m pageID).1 ≥ r.lsn then redoScan E (callGetLSN E m pageID).2 rest
        else if (callPageWrite E (callGetLSN E m pageID).2 pageID offset afterImage r.lsn).1 = false
        then (false, (callPageWrite E (callGetLSN E m pageID).2 pageID offset afterImage r.lsn).2)
        else
          redoScan E (callPageWrite E (callGetLSN E m pageID).2 pageID offset afterImage r.lsn).2
            rest

/-- `LogMgr::redo`. Line 181 reads `*log.begin()`, a fault on an empty log. The loop over
the transaction table that ends the function (lines 276-287) is, statement for statement,
the one of `LogMgr_100.cpp`. -/
def redo (E : StorageEngine σ) (m : LogMgr σ) (log : List LogRecord) :
    Except Fault (Bool × LogMgr σ) :=
  match log with
  | [] => .error Fault.emptyLogRead
  | _ :: _ =>
    if (redoScan E m log).1 then .ok (true, LogMgr_100.redoEnd E (redoScan E m log).2)
    else .ok (false, (redoScan E m log).2)

/-- The statements `nextLsn = se->nextLSN(); logtail.push_back(new LogRecord(nextLsn, lsn,
txID, END)); tx_table.erase(txID);` of `undo`. -/
def appendEnd (E : StorageEngine σ) (m : LogMgr σ) (prev tx : Int) : LogMgr σ :=
  eraseTx (pushTail (callNextLSN E m).2 ⟨(callNextLSN E m).1, prev, tx, .endTx⟩) tx

/-- The UPDATE branch of `undo` up to and including its `pageWrite` call: the result of
`pageWrite` and the state after it. -/
def compensate (E : StorageEngine σ) (m : LogMgr σ) (r : LogRecord) (pageID offset : Int)
    (beforeImage : String) : Bool × LogMgr σ :=
  let lastLsn := getLastLSN m r.txID
  let nextLsn := (callNextLSN E m).1
  let m1 := (callNextLSN E m).2
  let m2 := pushTail m1
    (CompensationLogRecord nextLsn lastLsn r.txID pageID offset beforeImage r.prevLSN)
  let m3 := setLastLSN m2 r.txID nextLsn
  let m4 := setStatus m3 r.txID TxStatus.U
  let m5 := dirtyIfAbsent m4 pageID nextLsn
  callPageWrite E m5 pageID offset beforeImage nextLsn

/-- One iteration of the `while` loop of `undo` on the record `r` found for the popped
LSN, `q` being `ToUndo` after the pop and `prevLsn` the value of the local variable
`prevLsn`, which only the UPDATE branch and the first arm of the ABORT branch assign. The
result carries the new value of `prevLsn`; its first component is `false` when the
iteration ends in the `return` after a failed `pageWrite`. -/
def undoRecord (E : StorageEngine σ) (m : LogMgr σ) (r : LogRecord) (q : List Int)
    (prevLsn : Int) : Bool × LogMgr σ × List Int × Int :=
  match r.body with
  | .update pageID offset beforeImage _ =>
    if (compensate E m r pageID offset beforeImage).1 = false then
      (false, (compensate E m r pageID offset beforeImage).2, q, r.prevLSN)
    else if r.prevLSN = NULL_LSN then
      (true,
        appendEnd E (compensate E m r pageID offset beforeImage).2 (E.nextLSN m.se).1 r.txID,
        q, r.prevLSN)
    else (true, (compensate E m r pageID offset beforeImage).2, pqPush q r.prevLSN, r.prevLSN)
  | .clr _ _ _ undoNextLsn =>
    if undoNextLsn ≠ NULL_LSN then (true, m, pqPush q undoNextLsn, prevLsn)
    else (true, appendEnd E m r.lsn r.txID, q, prevLsn)
  | .abort =>
    if prevLsn ≠ NULL_LSN then (true, m, pqPush q r.prevLSN, r.prevLSN)
    else (true, appendEnd E m r.lsn r.txID, q, prevLsn)
  | _ => (true, m, q, prevLsn)

/-- The `while (!ToUndo.empty())` loop of `undo`, with a budget of iterations. -/
def undoLoop (E : StorageEngine σ) (log : List LogRecord) :
    Nat → LogMgr σ → List Int → Int → Except Fault (LogMgr σ)
  | _, m, [], _ => .ok m
  | 0, _, _ :: _, _ => .error Fault.outOfFuel
  | fuel + 1, m, lsn :: q, prevLsn =>
    match log.find? (fun r => decide (r.lsn = lsn)) with
    | none => undoLoop E log fuel m q prevLsn
    | some r =>
      if (undoRecord E m r q prevLsn).1 then
        undoLoop E log fuel (undoRecord E m r q prevLsn).2.1 (undoRecord E m r q prevLsn).2.2.1
          (undoRecord E m r q prevLsn).2.2.2
      else .ok (undoRecord E m r q prevLsn).2.1

/-- `LogMgr::undo`; `txnum` is `NULL_TX` when the caller leaves it out, and `prevLsn0` is
the value that the local variable `prevLsn`, declared without an initialiser, holds when the
loop starts. -/
def undo (E : StorageEngine σ) (fuel : Nat) (m : LogMgr σ) (log : List LogRecord)
    (txnum : Int) (prevLsn0 : Int) : Except Fault (LogMgr σ) :=
  if txnum ≠ NULL_TX then
    let lsn := (callNextLSN E m).1
    let m1 := (callNextLSN E m).2
    let lastLsn := getLastLSN m1 txnum
    let m2 := setLastLSN m1 txnum lsn
    let m3 := pushTail m2 ⟨lsn, lastLsn, txnum, .abort⟩
    let m4 := setStatus (setLastLSN m3 txnum lsn) txnum TxStatus.U
    undoLoop E (log ++ [⟨lsn, lastLsn, txnum, .abort⟩]) fuel m4 [lsn] prevLsn0
  else
    undoLoop E log fuel m
      ((m.tx_table.filter (fun e => decide (e.2.status ≠ TxStatus.C))).foldl
        (fun q e => pqPush q e.2.lastLSN) [])
      prevLsn0

/-- `LogMgr::recover`, on the record vector that `stringToLRVector` parses out of its
argument. -/
def recover (E : StorageEngine σ) (fuel : Nat) (m : LogMgr σ) (log : List LogRecord)
    (prevLsn0 : Int) : Except Fault (LogMgr σ) :=
  match redo E (analyze m log) log with
  | .error f => .error f
  | .ok (true, m2) => undo E fuel m2 log NULL_TX prevLsn0
  | .ok (false, m2) => .ok m2

/-- The redo of the spec (section 4.9) for the tables and the engine of `m`: `startLSN` is
the smallest `recLSN` of the dirty page table, the scan runs from the first record of the
log with an LSN `>= startLSN` to the end of the log and treats each record as `redoScan`
does, and with an empty dirty page table no page is touched; an END is then appended for
every committed transaction as at the end of `redo`. -/
def redoFromStartLSN (E : StorageEngine σ) (m : LogMgr σ) (log : List LogRecord) :
    Bool × LogMgr σ :=
  match (m.dirty_page_table.map Prod.snd).min? with
  | none => (true, LogMgr_100.redoEnd E m)
  | some startLSN =>
    if (redoScan E m (log.dropWhile (fun r => decide (r.lsn < startLSN)))).1 then
      (true,
        LogMgr_100.redoEnd E
          (redoScan E m (log.dropWhile (fun r => decide (r.lsn < startLSN)))).2)
    else (false, (redoScan E m (log.dropWhile (fun r => decide (r.lsn < startLSN)))).2)

end LogMgr_xiabao7

/-! ## The variant `LogMgr_xiabao5.cpp` -/

namespace LogMgr_xiabao5

open Recovery

variable {σ : Type}

/-- `LogMgr::setLastLSN`, and the statement `tx_table[txID].lastLSN = lsn` of `analyze`. -/
def setLastLSN (m : LogMgr σ) (txnum lsn : Int) : LogMgr σ :=
  { m with tx_table :=
      mapSet m.tx_table txnum ⟨lsn, ((mapFind m.tx_table txnum).getD txTableEntry.fresh).status⟩ }

/-- The body of the forward scan of `analyze` for one record. -/
def analyzeRecord (m : LogMgr σ) (r : LogRecord) : LogMgr σ :=
  let m1 := setLastLSN m r.txID r.lsn
  if r.txID = NULL_TX then m1
  else
    match r.body with
    | .update pageID _ _ _ => dirtyIfAbsent (setStatus m1 r.txID TxStatus.U) pageID r.lsn
    | .commit => setStatus m1 r.txID TxStatus.C
    | .clr pageID _ _ _ => dirtyIfAbsent (setStatus m1 r.txID TxStatus.U) pageID r.lsn
    | .endTx => eraseTx m1 r.txID
    | _ => m1

/-- The position at which the backward search of `analyze` stops: the part of the log from
its last END_CKPT record on, if there is one. -/
def lastCkptSuffix : List LogRecord → Option (List LogRecord)
  | [] => none
  | r :: rest =>
    match lastCkptSuffix rest with
    | some s => some s
    | none => if r.getType = TxType.END_CKPT then some (r :: rest) else none

/-- `LogMgr::analyze`: both tables are cleared, an empty log ends the call, the snapshot of
the last END_CKPT is adopted and the forward scan starts at that record, or at the first
record of the log when there is no END_CKPT. -/
def analyze (m : LogMgr σ) (log : List LogRecord) : LogMgr σ :=
  match lastCkptSuffix log with
  | some (⟨lsn, prevLSN, txID, .endCkpt txTable dirtyPageTable⟩ :: rest) =>
    (⟨lsn, prevLSN, txID, .endCkpt txTable dirtyPageTable⟩ :: rest).foldl analyzeRecord
      { m with tx_table := txTable, dirty_page_table := dirtyPageTable }
  | _ => log.foldl analyzeRecord { m with tx_table := [], dirty_page_table := [] }

/-- The values of the local variables `pageID`, `offset` and `afterImage` of `redo` after
the type test of one iteration: the UPDATE and the CLR branch assign them, and there is no
third branch, so for any other record they keep the values they had. -/
def redoLocals (r : LogRecord) (pageID offset : Int) (afterImage : String) :
    Int × Int × String :=
  match r.body with
  | .update p o _ a => (p, o, a)
  | .clr p o a _ => (p, o, a)
  | _ => (pageID, offset, afterImage)

/-- The page-writing loop of `redo` (lines 164-196) over the whole log, in the state `m` and
with the current values of the locals `pageID`, `offset` and `afterImage`; the result is
`false` when a `pageWrite` failed. -/
def redoScan (E : StorageEngine σ) :
    LogMgr σ → List LogRecord → Int → Int → String → Bool × LogMgr σ
  | m, [], _, _, _ => (true, m)
  | m, r :: rest, pageID, offset, afterImage =>
    match mapFind m.dirty_page_table (redoLocals r pageID offset afterImage).1 with
    | none =>
      redoScan E m rest (redoLocals r pageID offset afterImage).1
        (redoLocals r pageID offset afterImage).2.1 (redoLocals r pageID offset afterImage).2.2
    | some recLSN =>
      if recLSN ≤ r.lsn then
        if (callGetLSN E m (redoLocals r pageID offset afterImage).1).1 < r.lsn then
          if (callPageWrite E (callGetLSN E m (redoLocals r pageID offset afterImage).1).2
              (redoLocals r pageID offset afterImage).1
              (redoLocals r pageID offset afterImage).2.1
              (redoLocals r pageID offset afterImage).2.2 r.lsn).1 = false
          then
            (false,
              (callPageWrite E (callGetLSN E m (redoLocals r pageID offset afterImage).1).2
                (redoLocals r pageID offset afterImage).1
                (redoLocals r pageID offset afterImage).2.1
                (redoLocals r pageID offset afterImage).2.2 r.lsn).2)
          else
            redoScan E
              (callPageWrite E (callGetLSN E m (redoLocals r pageID offset afterImage).1).2
                (redoLocals r pageID offset afterImage).1
                (redoLocals r pageID offset afterImage).2.1
                (redoLocals r pageID offset afterImage).2.2 r.lsn).2
              rest (redoLocals r pageID offset afterImage).1
              (redoLocals r pageID offset afterImage).2.1
              (redoLocals r pageID offset afterImage).2.2
        else
          redoScan E (callGetLSN E m (redoLocals r pageID offset afterImage).1).2 rest
            (redoLocals r pageID offset afterImage).1
            (redoLocals r pageID offset afterImage).2.1
            (redoLocals r pageID offset afterImage).2.2
      else
        redoScan E m rest (redoLocals r pageID offset afterImage).1
          (redoLocals r pageID offset afterImage).2.1 (redoLocals r pageID offset afterImage).2.2

/-- The end of `redo` (lines 198-211): an END record for every committed transaction other
than `NULL_TX`, in table order, and their removal from the transaction table. -/
def redoEnd (E : StorageEngine σ) (m : LogMgr σ) : LogMgr σ :=
  let appended :=
    m.tx_table.foldl
      (fun acc e =>
        if e.2.status = TxStatus.C ∧ e.1 ≠ NULL_TX then
          pushTail (callNextLSN E acc).2 ⟨(callNextLSN E acc).1, e.2.lastLSN, e.1, .endTx⟩
        else acc)
      m
  ((m.tx_table.filter
    (fun e => decide (e.2.status = TxStatus.C ∧ e.1 ≠ NULL_TX))).map Prod.fst).foldl eraseTx
    appended

/-- `LogMgr::redo`; `pageID0` and `offset0` are the values that the local variables `pageID`
and `offset`, declared without an initialiser, hold when the loop starts, and the string
`afterImage` starts empty. -/
def redo (E : StorageEngine σ) (m : LogMgr σ) (log : List LogRecord) (pageID0 offset0 : Int) :
    Bool × LogMgr σ :=
  if (redoScan E m log pageID0 offset0 "").1 then
    (true, redoEnd E (redoScan E m log pageID0 offset0 "").2)
  else (false, (redoScan E m log pageID0 offset0 "").2)

end LogMgr_xiabao5

/-! ## The variants `LogMgr_fanbao.cpp` and `LogMgr_guanglei70.cpp` -/

namespace Recovery

/-- Faults of an execution of `LogMgr_fanbao.cpp` or `LogMgr_guanglei70.cpp`: a member
access through the null pointer that a failed `dynamic_cast` yields, a failed `assert`, a
read of `*rbegin()` or `back()` of an empty vector, and exhaustion of the step budget of
the `ToUndo` loop. -/
inductive Crash
  | nullDeref
  | assertFailed
  | emptyRead
  | outOfFuel
  deriving DecidableEq, Repr

end Recovery

namespace LogMgr_fanbao

open Recovery

variable {σ : Type}

/-- `LogMgr::getLastLSN`. -/
def getLastLSN (m : LogMgr σ) (txnum : Int) : Int :=
  match mapFind m.tx_table txnum with
  | some e => e.lastLSN
  | none => NULL_LSN

/-- `LogMgr::setLastLSN`. -/
def setLastLSN (m : LogMgr σ) (txnum lsn : Int) : LogMgr σ :=
  if txnum = NULL_TX then m
  else
    { m with tx_table :=
        mapSet m.tx_table txnum ⟨lsn, ((mapFind m.tx_table txnum).getD txTableEntry.fresh).status⟩ }

/-- The statement `tx_table[txnum].lastLSN = lsn`. -/
def assignLastLSN (m : LogMgr σ) (txnum lsn : Int) : LogMgr σ :=
  { m with tx_table :=
      mapSet m.tx_table txnum ⟨lsn, ((mapFind m.tx_table txnum).getD txTableEntry.fresh).status⟩ }

/-- `LogMgr::write`. -/
def write (E : StorageEngine σ) (m : LogMgr σ) (txid page_id offset : Int)
    (input oldtext : String) : Int × LogMgr σ :=
  let lsn := (callNextLSN E m).1
  let m1 := (callNextLSN E m).2
  let prev_lsn := getLastLSN m1 txid
  let m2 := pushTail m1 (UpdateLogRecord lsn prev_lsn txid page_id offset oldtext input)
  let m3 := setLastLSN m2 txid lsn
  let m4 := setStatus m3 txid TxStatus.U
  (lsn, dirtyIfAbsent m4 page_id lsn)

/-- The statements of `undo` (lines 246-266) on a record whose LSN is `ToUndo.top()`, the
queue being popped by the caller: the record is cast to `UpdateLogRecord` without a test of
its type, so any other record yields a null pointer whose members are then read. The
result is `false` when the iteration ends in the `return` after a failed `pageWrite`. -/
def undoRecord (E : StorageEngine σ) (m : LogMgr σ) (r : LogRecord) :
    Except Crash (Bool × LogMgr σ) :=
  match r.body with
  | .update pageID offset beforeImage _ =>
    let lastLsn := getLastLSN m r.txID
    let nextLsn := (callNextLSN E m).1
    let m1 := (callNextLSN E m).2
    let m2 := pushTail m1
      (CompensationLogRecord nextLsn lastLsn r.txID pageID offset beforeImage r.prevLSN)
    let m3 := setLastLSN m2 r.txID nextLsn
    let m4 := setStatus m3 r.txID TxStatus.U
    let m5 := dirtyIfAbsent m4 pageID nextLsn
    if (callPageWrite E m5 pageID offset beforeImage nextLsn).1 = false then
      .ok (false, (callPageWrite E m5 pageID offset beforeImage nextLsn).2)
    else if r.prevLSN = NULL_LSN then
      .ok (true,
        eraseTx
          (pushTail (callNextLSN E (callPageWrite E m5 pageID offset beforeImage nextLsn).2).2
            ⟨(callNextLSN E (callPageWrite E m5 pageID offset beforeImage nextLsn).2).1, nextLsn,
              r.txID, .endTx⟩)
          r.txID)
    else .ok (true, (callPageWrite E m5 pageID offset beforeImage nextLsn).2)
  | _ => .error Crash.nullDeref

/-- The loop `while ( it >= log.begin() && !(ToUndo.empty()) )` of `undo` (lines 241-269);
its second argument holds the records from `*it` down to the first record of the log, and
its third argument is `ToUndo`, largest LSN first. Nothing is pushed on `ToUndo` in the
loop. -/
def undoScan (E : StorageEngine σ) :
    LogMgr σ → List LogRecord → List Int → Except Crash (LogMgr σ)
  | m, [], _ => .ok m
  | m, _ :: _, [] => .ok m
  | m, r :: rest, top :: q =>
    if r.lsn = top then
      match undoRecord E m r with
      | .error f => .error f
      | .ok (false, m2) => .ok m2
      | .ok (true, m2) => undoScan E m2 rest q
    else undoScan E m rest (top :: q)

/-- `LogMgr::undo`; `txnum` is `NULL_TX` when the caller leaves it out. The ABORT record of
a given `txnum` is pushed on `logtail` and not on `log`; the keys in `loserTxID` are keys of
`tx_table`, so that `tx_table[loserTxID[i]]` inserts nothing. -/
def undo (E : StorageEngine σ) (m : LogMgr σ) (log : List LogRecord) (txnum : Int) :
    Except Crash (LogMgr σ) :=
  let m4 :=
    if txnum ≠ NULL_TX then
      setStatus
        (assignLastLSN
          (pushTail (setLastLSN (callNextLSN E m).2 txnum (callNextLSN E m).1)
            ⟨(callNextLSN E m).1, getLastLSN (callNextLSN E m).2 txnum, txnum, .abort⟩)
          txnum (callNextLSN E m).1)
        txnum TxStatus.U
    else m
  let loserTxID :=
    if txnum ≠ NULL_TX then [txnum]
    else (m.tx_table.filter (fun e => decide (e.2.status ≠ TxStatus.C))).map Prod.fst
  match log with
  | [] => .ok m4
  | _ :: _ =>
    undoScan E m4 log.reverse
      (loserTxID.foldl
        (fun q t => pqPush q ((mapFind m4.tx_table t).getD txTableEntry.fresh).lastLSN) [])

/-- `LogMgr::abort`. -/
def abort (E : StorageEngine σ) (m : LogMgr σ) (txid : Int) : Except Crash (LogMgr σ) :=
  undo E (callGetLog E m).2 ((callGetLog E m).1 ++ (callGetLog E m).2.logtail) txid

end LogMgr_fanbao

namespace LogMgr_guanglei70

open Recovery

variable {σ : Type}

/-- The constant `INT_MAX` of `<climits>` for a 32-bit `int`. -/
def INT_MAX : Int := 2147483647

/-- `LogMgr::getLastLSN`. -/
def getLastLSN (m : LogMgr σ) (txnum : Int) : Int :=
  match mapFind m.tx_table txnum with
  | some e => e.lastLSN
  | none => NULL_LSN

/-- `LogMgr::setLastLSN`, and the statement `tx_table[tx_id].lastLSN = lsn` of `analyze`. -/
def setLastLSN (m : LogMgr σ) (txnum lsn : Int) : LogMgr σ :=
  { m with tx_table :=
      mapSet m.tx_table txnum ⟨lsn, ((mapFind m.tx_table txnum).getD txTableEntry.fresh).status⟩ }

/-- The body of the `while` loop of `analyze` for one record. -/
def analyzeRecord (m : LogMgr σ) (r : LogRecord) : LogMgr σ :=
  let m1 := setLastLSN m r.txID r.lsn
  match r.body with
  | .commit => setStatus m1 r.txID TxStatus.C
  | .update pageID _ _ _ => dirtyIfAbsent (setStatus m1 r.txID TxStatus.U) pageID r.lsn
  | .clr pageID _ _ _ => dirtyIfAbsent (setStatus m1 r.txID TxStatus.U) pageID r.lsn
  | .endTx => eraseTx m1 r.txID
  | _ => m1

/-- `LogMgr::analyze`; the vector `log` is read from its last element to its first. Reading
`*log.rbegin()` of an empty vector is a fault. -/
def analyze (m : LogMgr σ) (log : List LogRecord) : Except Crash (LogMgr σ) :=
  match log.reverse with
  | [] => .error Crash.emptyRead
  | ⟨_, _, _, .endCkpt txTable dirtyPageTable⟩ :: rest =>
    .ok (rest.foldl analyzeRecord
      { m with tx_table := txTable, dirty_page_table := dirtyPageTable })
  | first :: rest =>
    .ok ((first :: rest).foldl analyzeRecord { m with tx_table := [], dirty_page_table := [] })

/-- The loop of `redo` over the records in the order in which it visits them; the result
is `false` when a `pageWrite` failed. -/
def redoScan (E : StorageEngine σ) : LogMgr σ → List LogRecord → Bool × LogMgr σ
  | m, [] => (true, m)
  | m, r :: rest =>
    match r.body with
    | .update page_id offset _ after_image =>
      match mapFind m.dirty_page_table page_id with
      | none => redoScan E m rest
      | some recLSN =>
        if recLSN > r.lsn then redoScan E m rest
        else if (callGetLSN E m page_id).1 ≥ r.lsn then redoScan E (callGetLSN E m page_id).2 rest
        else if
            (callPageWrite E (callGetLSN E m page_id).2 page_id offset after_image r.lsn).1 = false
        then
          (false, (callPageWrite E (callGetLSN E m page_id).2 page_id offset after_image r.lsn).2)
        else
          redoScan E
            (callPageWrite E (callGetLSN E m page_id).2 page_id offset after_image r.lsn).2 rest
    | .clr page_id offset after_image _ =>
      match mapFind m.dirty_page_table page_id with
      | none => redoScan E m rest
      | some recLSN =>
        if recLSN > r.lsn then redoScan E m rest
        else if (callGetLSN E m page_id).1 ≥ r.lsn then redoScan E (callGetLSN E m page_id).2 rest
        else if
            (callPageWrite E (callGetLSN E m page_id).2 page_id offset after_image r.lsn).1 = false
        then
          (false, (callPageWrite E (callGetLSN E m page_id).2 page_id offset after_image r.lsn).2)
        else
          redoScan E
            (callPageWrite E (callGetLSN E m page_id).2 page_id offset after_image r.lsn).2 rest
    | _ => redoScan E m rest

/-- `LogMgr::redo`; the vector `log` is read from its last element to its first. -/
def redo (E : StorageEngine σ) (m : LogMgr σ) (log : List LogRecord) : Bool × LogMgr σ :=
  redoScan E m log.reverse

/-- The statements `logtail.push_back(new LogRecord(se->nextLSN(), getLastLSN(tx), tx, END));
tx_table.erase(tx);` of `undo`. -/
def appendEnd (E : StorageEngine σ) (m : LogMgr σ) (tx : Int) : LogMgr σ :=
  eraseTx (pushTail (callNextLSN E m).2 ⟨(callNextLSN E m).1, getLastLSN m tx, tx, .endTx⟩) tx

/-- The first loop of `undo` for `txnum == NULL_TX`, over the transaction table from its
largest key to its smallest: the last LSN of an entry with status `U` is pushed on `ToUndo`,
and an END record is appended for any other entry. -/
def seedLosers (E : StorageEngine σ) (m : LogMgr σ) : LogMgr σ × List Int :=
  m.tx_table.reverse.foldl
    (fun acc e =>
      if e.2.status = TxStatus.U then (acc.1, pqPush acc.2 e.2.lastLSN)
      else
        (pushTail (callNextLSN E acc.1).2
          ⟨(callNextLSN E acc.1).1, getLastLSN acc.1 e.1, e.1, .endTx⟩, acc.2))
    (m, [])

/-- The inner `while` loop of `undo`: the search for `lsn` from the position of `log_it`,
whose second argument holds the records from `*log_it` down to the first record of the log.
The result is the record found, if any, and the records left after the new position of
`log_it`. -/
def seek (lsn : Int) : List LogRecord → Option LogRecord × List LogRecord
  | [] => (none, [])
  | r :: rest => if r.lsn = lsn then (some r, rest) else seek lsn rest

/-- The statements of the `ToUndo` loop of `undo` after the `assert`, on the record that
`log_rec_ptr` points to, `q` being `ToUndo` after the pop. The UPDATE branch (lines
204-216) appends the CLR and makes no call of `pageWrite` and no change to the dirty page
table. -/
def undoRecord (E : StorageEngine σ) (m : LogMgr σ) (r : LogRecord) (q : List Int) :
    LogMgr σ × List Int :=
  match r.body with
  | .update pageID offset beforeImage _ =>
    let lsn := (callNextLSN E m).1
    let m1 := (callNextLSN E m).2
    let m2 := pushTail m1
      (CompensationLogRecord lsn (getLastLSN m1 r.txID) r.txID pageID offset beforeImage
        r.prevLSN)
    let m3 := setStatus (setLastLSN m2 r.txID lsn) r.txID TxStatus.U
    if r.prevLSN ≠ NULL_LSN then (m3, pqPush q r.prevLSN) else (appendEnd E m3 r.txID, q)
  | .clr _ _ _ undoNextLSN =>
    if undoNextLSN ≠ NULL_LSN then (m, pqPush q undoNextLSN) else (appendEnd E m r.txID, q)
  | .abort =>
    if r.prevLSN ≠ NULL_LSN then (m, pqPush q r.prevLSN) else (appendEnd E m r.txID, q)
  | _ => (m, q)

/-- The `while(!(ToUndo.empty()))` loop of `undo`, with a budget of iterations. The fourth
argument holds the records from `*log_it` down to the first record of the log, the fifth is
`log_rec_ptr`, which keeps its value when the search finds nothing. -/
def undoLoop (E : StorageEngine σ) :
    Nat → LogMgr σ → List Int → List LogRecord → Option LogRecord → Except Crash (LogMgr σ)
  | _, m, [], _, _ => .ok m
  | 0, _, _ :: _, _, _ => .error Crash.outOfFuel
  | fuel + 1, m, lsn :: q, it, log_rec_ptr =>
    match (seek lsn it).1 with
    | some r => undoLoop E fuel (undoRecord E m r q).1 (undoRecord E m r q).2 (seek lsn it).2 (some r)
    | none =>
      match log_rec_ptr with
      | none => .error Crash.assertFailed
      | some r =>
        undoLoop E fuel (undoRecord E m r q).1 (undoRecord E m r q).2 (seek lsn it).2 (some r)

/-- `LogMgr::undo`; `txnum` is `NULL_TX` when the caller leaves it out. Reading
`*log.rbegin()` of an empty vector is a fault. -/
def undo (E : StorageEngine σ) (fuel : Nat) (m : LogMgr σ) (log : List LogRecord)
    (txnum : Int) : Except Crash (LogMgr σ) :=
  if txnum = NULL_TX then
    undoLoop E fuel
      (((m.tx_table.reverse.filter (fun e => decide (e.2.status ≠ TxStatus.U))).map
        Prod.fst).foldl eraseTx (seedLosers E m).1)
      (seedLosers E m).2 log.reverse none
  else
    match log.reverse with
    | [] => .error Crash.emptyRead
    | last :: _ => undoLoop E fuel m [last.prevLSN] log.reverse none

/-- The first loop of `recover`, over the records of the log from the last one back: the
records pushed on `rev_log`, newest first, and the records from the position at which
`log_it` stops, a BEGIN_CKPT record or the end, down to the first record of the log. -/
def sinceBeginCkpt : List LogRecord → List LogRecord × List LogRecord
  | [] => ([], [])
  | r :: rest =>
    if r.getType = TxType.BEGIN_CKPT then ([], r :: rest)
    else (r :: (sinceBeginCkpt rest).1, (sinceBeginCkpt rest).2)

/-- The loop `while(rev_log.back()->getLSN() < sml_lsn) rev_log.pop_back();` of `recover`,
on `rev_log` read from its last element; reading `back()` of an empty vector is a fault. -/
def popOld (sml_lsn : Int) : List LogRecord → Option (List LogRecord)
  | [] => none
  | r :: rest => if r.lsn < sml_lsn then popOld sml_lsn rest else some (r :: rest)

/-- `LogMgr::recover`, on the record vector that `stringToLRVector` parses out of its
argument. The function `get_master` of the storage engine is a parameter; its call is not
entered in `calls`. -/
def recover (E : StorageEngine σ) (get_master : σ → Int) (fuel : Nat) (m : LogMgr σ)
    (log_vect : List LogRecord) : Except Crash (LogMgr σ) :=
  let begin_check_lsn := get_master m.se
  let rev_log := (sinceBeginCkpt log_vect.reverse).1
  let log_it := (sinceBeginCkpt log_vect.reverse).2
  match analyze m rev_log with
  | .error f => .error f
  | .ok m1 =>
    let sml_lsn :=
      m1.dirty_page_table.foldl (fun s e => if e.2 < s then e.2 else s) INT_MAX
    let rev_log2 : Option (List LogRecord) :=
      if begin_check_lsn ≠ NULL_LSN ∧ begin_check_lsn < sml_lsn then
        (popOld sml_lsn rev_log.reverse).map List.reverse
      else some (rev_log ++ log_it.takeWhile (fun r => decide (r.lsn ≥ sml_lsn)))
    match rev_log2 with
    | none => .error Crash.emptyRead
    | some rl =>
      if (redo E m1 rl).1 then undo E fuel (redo E m1 rl).2 log_vect NULL_TX
      else .ok (redo E m1 rl).2

end LogMgr_guanglei70

/-! ## Theorems -/

namespace LogMgr_100

open Recovery

variable {σ : Type}

/-! ### The map operations -/

theorem mapFind_mapSet {V : Type} (m : List (Int × V)) (k : Int) (v : V) (k' : Int) :
    mapFind (mapSet m k v) k' = if k' = k then some v else mapFind m k' := by
  induction m with
  | nil => simp [mapSet, mapFind]
  | cons e m ih =>
    obtain ⟨a, b⟩ := e
    by_cases h1 : k < a
    · by_cases h2 : k' = k
      · simp [mapSet, mapFind, h1, h2]
      · simp [mapSet, mapFind, h1, h2]
    · by_cases h3 : k = a
      · subst h3
        by_cases h2 : k' = k
        · simp [mapSet, mapFind, h2]
        · simp [mapSet, mapFind, h2]
      · by_cases h2 : k' = k
        · subst h2
          simp [mapSet, mapFind, h1, h3, ih]
        · by_cases h4 : k' = a
          · have h5 : ¬ a = k := fun h6 => h3 h6.symm
            simp [mapSet, mapFind, h1, h3, h4, h5]
          · simp [mapSet, mapFind, h1, h3, h4, h2, ih]

theorem mapFind_mapErase {V : Type} (m : List (Int × V)) (k k' : Int) :
    mapFind (mapErase m k) k' = if k' = k then none else mapFind m k' := by
  induction m with
  | nil => simp [mapErase, mapFind]
  | cons e m ih =>
    obtain ⟨a, b⟩ := e
    by_cases h : a = k
    · subst h
      by_cases h2 : k' = a
      · subst h2
        simpa [mapErase] using ih
      · simp [mapErase, ih, h2, mapFind]
    · by_cases h2 : k' = k
      · subst h2
        have h3 : ¬ k' = a := fun h4 => h h4.symm
        simp [mapErase, h, mapFind, ih, h3]
      · by_cases h4 : k' = a
        · simp [mapErase, h, mapFind, h4]
        · simp [mapErase, h, mapFind, ih, h2, h4]

theorem mapSet_bound {V : Type} (m : List (Int × V)) (k : Int) (v : V) (c : Int)
    (hk : c < k) (hm : ∀ x ∈ m, c < x.1) : ∀ x ∈ mapSet m k v, c < x.1 := by
  induction m with
  | nil => intro x hx; simp only [mapSet, List.mem_singleton] at hx; rw [hx]; exact hk
  | cons e m ih =>
    obtain ⟨a, b⟩ := e
    intro x hx
    simp only [mapSet] at hx
    split_ifs at hx
    · rcases List.mem_cons.mp hx with h | h
      · rw [h]; exact hk
      · exact hm x h
    · rcases List.mem_cons.mp hx with h | h
      · rw [h]; exact hk
      · exact hm x (List.mem_cons_of_mem _ h)
    · rcases List.mem_cons.mp hx with h | h
      · rw [h]; exact hm _ (List.mem_cons_self _ _)
      · exact ih (fun y hy => hm y (List.mem_cons_of_mem _ hy)) x h

theorem mapSet_sorted {V : Type} (m : List (Int × V)) (k : Int) (v : V) (h : mapSorted m) :
    mapSorted (mapSet m k v) := by
  unfold mapSorted at *
  induction m with
  | nil => simp [mapSet]
  | cons e m ih =>
    obtain ⟨a, b⟩ := e
    rw [List.pairwise_cons] at h
    simp only [mapSet]
    split_ifs with h1 h2
    · rw [List.pairwise_cons]
      refine ⟨?_, List.pairwise_cons.mpr h⟩
      intro x hx
      rcases List.mem_cons.mp hx with hx | hx
      · rw [hx]; exact h1
      · exact lt_trans h1 (h.1 x hx)
    · rw [List.pairwise_cons]
      exact ⟨fun x hx => by rw [h2]; exact h.1 x hx, h.2⟩
    · rw [List.pairwise_cons]
      refine ⟨?_, ih h.2⟩
      have hlt : a < k := lt_of_le_of_ne (not_lt.mp h1) (fun h3 => h2 h3.symm)
      exact mapSet_bound m k v a hlt h.1

theorem mapErase_sorted {V : Type} (m : List (Int × V)) (k : Int) (h : mapSorted m) :
    mapSorted (mapErase m k) := by
  unfold mapSorted at *
  induction m with
  | nil => simp [mapErase]
  | cons e m ih =>
    obtain ⟨a, b⟩ := e
    rw [List.pairwise_cons] at h
    simp only [mapErase]
    split_ifs
    · exact ih h.2
    · rw [List.pairwise_cons]
      refine ⟨?_, ih h.2⟩
      intro x hx
      have : ∀ (l : List (Int × V)), x ∈ mapErase l k → x ∈ l := by
        intro l
        induction l with
        | nil => intro hx; simp [mapErase] at hx
        | cons e2 l ih2 =>
          obtain ⟨a2, b2⟩ := e2
          intro hx
          simp only [mapErase] at hx
          split_ifs at hx
          · exact List.mem_cons_of_mem _ (ih2 hx)
          · rcases List.mem_cons.mp hx with h3 | h3
            · rw [h3]; exact List.mem_cons_self _ _
            · exact List.mem_cons_of_mem _ (ih2 h3)
      exact h.1 x (this m hx)

theorem mapFind_none_all {V : Type} (m : List (Int × V)) (h : ∀ k, mapFind m k = none) :
    m = [] := by
  cases m with
  | nil => rfl
  | cons e m =>
    obtain ⟨a, b⟩ := e
    have := h a
    simp [mapFind] at this

/-! ### Components of the state after each elementary statement -/

@[simp] theorem pushTail_logtail (m : LogMgr σ) (r : LogRecord) :
    (pushTail m r).logtail = m.logtail ++ [r] := rfl
@[simp] theorem pushTail_se (m : LogMgr σ) (r : LogRecord) : (pushTail m r).se = m.se := rfl
@[simp] theorem pushTail_calls (m : LogMgr σ) (r : LogRecord) :
    (pushTail m r).calls = m.calls := rfl
@[simp] theorem pushTail_tx_table (m : LogMgr σ) (r : LogRecord) :
    (pushTail m r).tx_table = m.tx_table := rfl
@[simp] theorem pushTail_dpt (m : LogMgr σ) (r : LogRecord) :
    (pushTail m r).dirty_page_table = m.dirty_page_table := rfl

@[simp] theorem setStatus_logtail (m : LogMgr σ) (t : Int) (s : TxStatus) :
    (setStatus m t s).logtail = m.logtail := rfl
@[simp] theorem setStatus_se (m : LogMgr σ) (t : Int) (s : TxStatus) :
    (setStatus m t s).se = m.se := rfl
@[simp] theorem setStatus_calls (m : LogMgr σ) (t : Int) (s : TxStatus) :
    (setStatus m t s).calls = m.calls := rfl
@[simp] theorem setStatus_dpt (m : LogMgr σ) (t : Int) (s : TxStatus) :
    (setStatus m t s).dirty_page_table = m.dirty_page_table := rfl

@[simp] theorem eraseTx_logtail (m : LogMgr σ) (t : Int) :
    (eraseTx m t).logtail = m.logtail := rfl
@[simp] theorem eraseTx_se (m : LogMgr σ) (t : Int) : (eraseTx m t).se = m.se := rfl
@[simp] theorem eraseTx_calls (m : LogMgr σ) (t : Int) : (eraseTx m t).calls = m.calls := rfl
@[simp] theorem eraseTx_dpt (m : LogMgr σ) (t : Int) :
    (eraseTx m t).dirty_page_table = m.dirty_page_table := rfl
@[simp] theorem eraseTx_tx_table (m : LogMgr σ) (t : Int) :
    (eraseTx m t).tx_table = mapErase m.tx_table t := rfl

@[simp] theorem dirtyIfAbsent_logtail (m : LogMgr σ) (p l : Int) :
    (dirtyIfAbsent m p l).logtail = m.logtail := by
  unfold dirtyIfAbsent; split <;> rfl
@[simp] theorem dirtyIfAbsent_se (m : LogMgr σ) (p l : Int) :
    (dirtyIfAbsent m p l).se = m.se := by
  unfold dirtyIfAbsent; split <;> rfl
@[simp] theorem dirtyIfAbsent_calls (m : LogMgr σ) (p l : Int) :
    (dirtyIfAbsent m p l).calls = m.calls := by
  unfold dirtyIfAbsent; split <;> rfl
@[simp] theorem dirtyIfAbsent_tx_table (m : LogMgr σ) (p l : Int) :
    (dirtyIfAbsent m p l).tx_table = m.tx_table := by
  unfold dirtyIfAbsent; split <;> rfl

@[simp] theorem setLastLSN_logtail (m : LogMgr σ) (t l : Int) :
    (setLastLSN m t l).logtail = m.logtail := by
  unfold setLastLSN; split <;> rfl
@[simp] theorem setLastLSN_se (m : LogMgr σ) (t l : Int) : (setLastLSN m t l).se = m.se := by
  unfold setLastLSN; split <;> rfl
@[simp] theorem setLastLSN_calls (m : LogMgr σ) (t l : Int) :
    (setLastLSN m t l).calls = m.calls := by
  unfold setLastLSN; split <;> rfl
@[simp] theorem setLastLSN_dpt (m : LogMgr σ) (t l : Int) :
    (setLastLSN m t l).dirty_page_table = m.dirty_page_table := by
  unfold setLastLSN; split <;> rfl

@[simp] theorem callNextLSN_logtail (E : StorageEngine σ) (m : LogMgr σ) :
    (callNextLSN E m).2.logtail = m.logtail := rfl
@[simp] theorem callNextLSN_se (E : StorageEngine σ) (m : LogMgr σ) :
    (callNextLSN E m).2.se = (E.nextLSN m.se).2 := rfl
@[simp] theorem callNextLSN_calls (E : StorageEngine σ) (m : LogMgr σ) :
    (callNextLSN E m).2.calls = m.calls ++ [Call.nextLSN (E.nextLSN m.se).1] := rfl
@[simp] theorem callNextLSN_tx_table (E : StorageEngine σ) (m : LogMgr σ) :
    (callNextLSN E m).2.tx_table = m.tx_table := rfl
@[simp] theorem callNextLSN_dpt (E : StorageEngine σ) (m : LogMgr σ) :
    (callNextLSN E m).2.dirty_page_table = m.dirty_page_table := rfl
@[simp] theorem callNextLSN_fst (E : StorageEngine σ) (m : LogMgr σ) :
    (callNextLSN E m).1 = (E.nextLSN m.se).1 := rfl

@[simp] theorem callPageWrite_logtail (E : StorageEngine σ) (m : LogMgr σ) (p o : Int)
    (t : String) (l : Int) : (callPageWrite E m p o t l).2.logtail = m.logtail := rfl
@[simp] theorem callPageWrite_se (E : StorageEngine σ) (m : LogMgr σ) (p o : Int)
    (t : String) (l : Int) :
    (callPageWrite E m p o t l).2.se = (E.pageWrite p o t l m.se).2 := rfl
@[simp] theorem callPageWrite_calls (E : StorageEngine σ) (m : LogMgr σ) (p o : Int)
    (t : String) (l : Int) :
    (callPageWrite E m p o t l).2.calls =
      m.calls ++ [Call.pageWrite p o t l (E.pageWrite p o t l m.se).1] := rfl
@[simp] theorem callPageWrite_tx_table (E : StorageEngine σ) (m : LogMgr σ) (p o : Int)
    (t : String) (l : Int) : (callPageWrite E m p o t l).2.tx_table = m.tx_table := rfl
@[simp] theorem callPageWrite_dpt (E : StorageEngine σ) (m : LogMgr σ) (p o : Int)
    (t : String) (l : Int) :
    (callPageWrite E m p o t l).2.dirty_page_table = m.dirty_page_table := rfl
@[simp] theorem callPageWrite_fst (E : StorageEngine σ) (m : LogMgr σ) (p o : Int)
    (t : String) (l : Int) :
    (callPageWrite E m p o t l).1 = (E.pageWrite p o t l m.se).1 := rfl

@[simp] theorem callGetLSN_logtail (E : StorageEngine σ) (m : LogMgr σ) (p : Int) :
    (callGetLSN E m p).2.logtail = m.logtail := rfl
@[simp] theorem callGetLSN_se (E : StorageEngine σ) (m : LogMgr σ) (p : Int) :
    (callGetLSN E m p).2.se = m.se := rfl
@[simp] theorem callGetLSN_calls (E : StorageEngine σ) (m : LogMgr σ) (p : Int) :
    (callGetLSN E m p).2.calls = m.calls ++ [Call.getLSN p (E.getLSN p m.se)] := rfl
@[simp] theorem callGetLSN_tx_table (E : StorageEngine σ) (m : LogMgr σ) (p : Int) :
    (callGetLSN E m p).2.tx_table = m.tx_table := rfl
@[simp] theorem callGetLSN_dpt (E : StorageEngine σ) (m : LogMgr σ) (p : Int) :
    (callGetLSN E m p).2.dirty_page_table = m.dirty_page_table := rfl
@[simp] theorem callGetLSN_fst (E : StorageEngine σ) (m : LogMgr σ) (p : Int) :
    (callGetLSN E m p).1 = E.getLSN p m.se := rfl

@[simp] theorem callGetLog_logtail (E : StorageEngine σ) (m : LogMgr σ) :
    (callGetLog E m).2.logtail = m.logtail := rfl
@[simp] theorem callGetLog_se (E : StorageEngine σ) (m : LogMgr σ) :
    (callGetLog E m).2.se = m.se := rfl
@[simp] theorem callGetLog_calls (E : StorageEngine σ) (m : LogMgr σ) :
    (callGetLog E m).2.calls = m.calls ++ [Call.getLog] := rfl
@[simp] theorem callGetLog_tx_table (E : StorageEngine σ) (m : LogMgr σ) :
    (callGetLog E m).2.tx_table = m.tx_table := rfl
@[simp] theorem callGetLog_dpt (E : StorageEngine σ) (m : LogMgr σ) :
    (callGetLog E m).2.dirty_page_table = m.dirty_page_table := rfl
@[simp] theorem callGetLog_fst (E : StorageEngine σ) (m : LogMgr σ) :
    (callGetLog E m).1 = E.getLog m.se := rfl

@[simp] theorem flushLogTail_logtail (E : StorageEngine σ) (m : LogMgr σ) (l : Int) :
    (flushLogTail E m l).logtail = (drainTail l m.logtail).2 := rfl
@[simp] theorem flushLogTail_se (E : StorageEngine σ) (m : LogMgr σ) (l : Int) :
    (flushLogTail E m l).se = E.updateLog (drainTail l m.logtail).1 m.se := rfl
@[simp] theorem flushLogTail_calls (E : StorageEngine σ) (m : LogMgr σ) (l : Int) :
    (flushLogTail E m l).calls = m.calls ++ [Call.updateLog (drainTail l m.logtail).1] := rfl
@[simp] theorem flushLogTail_tx_table (E : StorageEngine σ) (m : LogMgr σ) (l : Int) :
    (flushLogTail E m l).tx_table = m.tx_table := rfl
@[simp] theorem flushLogTail_dpt (E : StorageEngine σ) (m : LogMgr σ) (l : Int) :
    (flushLogTail E m l).dirty_page_table = m.dirty_page_table := rfl

theorem getLastLSN_congr (m m2 : LogMgr σ) (h : m2.tx_table = m.tx_table) (t : Int) :
    getLastLSN m2 t = getLastLSN m t := by
  unfold getLastLSN; rw [h]

theorem mapFind_setLastLSN (m : LogMgr σ) (t l k : Int) (ht : t ≠ NULL_TX) :
    mapFind (setLastLSN m t l).tx_table k =
      if k = t then some ⟨l, ((mapFind m.tx_table t).getD txTableEntry.fresh).status⟩
      else mapFind m.tx_table k := by
  unfold setLastLSN
  rw [if_neg ht]
  exact mapFind_mapSet _ _ _ _

theorem mapFind_setStatus (m : LogMgr σ) (t : Int) (s : TxStatus) (k : Int) :
    mapFind (setStatus m t s).tx_table k =
      if k = t then some ⟨((mapFind m.tx_table t).getD txTableEntry.fresh).lastLSN, s⟩
      else mapFind m.tx_table k :=
  mapFind_mapSet _ _ _ _

theorem mapFind_dirtyIfAbsent (m : LogMgr σ) (p l k : Int) :
    mapFind (dirtyIfAbsent m p l).dirty_page_table k =
      if k = p then some ((mapFind m.dirty_page_table p).getD l)
      else mapFind m.dirty_page_table k := by
  unfold dirtyIfAbsent
  split
  · next h =>
    simp only [mapFind_mapSet, h, Option.getD_none]
  · next v h =>
    by_cases hk : k = p
    · subst hk; simp [h]
    · simp [hk]

/-! ### The log tail -/

theorem drainTail_append (l : Int) (tail : List LogRecord) :
    (drainTail l tail).1 ++ (drainTail l tail).2 = tail := by
  induction tail with
  | nil => rfl
  | cons r rest ih =>
    by_cases h : r.lsn ≤ l
    · simp [drainTail, h, ih]
    · simp [drainTail, h]

theorem drainTail_all (l : Int) (tail : List LogRecord) (h : ∀ r ∈ tail, r.lsn ≤ l) :
    drainTail l tail = (tail, []) := by
  induction tail with
  | nil => rfl
  | cons r rest ih =>
    have h1 : r.lsn ≤ l := h r (List.mem_cons_self _ _)
    have h2 := ih (fun x hx => h x (List.mem_cons_of_mem _ hx))
    simp [drainTail, h1, h2]

theorem drainTail_sorted (l : Int) (tail : List LogRecord)
    (h : tail.Pairwise (fun a b => a.lsn < b.lsn)) :
    drainTail l tail =
      (tail.filter (fun r => decide (r.lsn ≤ l)), tail.filter (fun r => decide (l < r.lsn))) := by
  induction tail with
  | nil => rfl
  | cons r rest ih =>
    rw [List.pairwise_cons] at h
    by_cases h1 : r.lsn ≤ l
    · have h2 : ¬ l < r.lsn := not_lt.mpr h1
      simp [drainTail, h1, h2, ih h.2]
    · have h2 : l < r.lsn := not_le.mp h1
      have h3 : ∀ x ∈ rest, ¬ x.lsn ≤ l := fun x hx => not_le.mpr (lt_trans h2 (h.1 x hx))
      have h4 : ∀ x ∈ rest, l < x.lsn := fun x hx => lt_trans h2 (h.1 x hx)
      have e1 : rest.filter (fun r => decide (r.lsn ≤ l)) = [] := by
        rw [List.filter_eq_nil_iff]; intro x hx; simpa using h3 x hx
      have e2 : rest.filter (fun r => decide (l < r.lsn)) = rest := by
        rw [List.filter_eq_self]; intro x hx; simpa using h4 x hx
      simp [drainTail, h1, h2, List.filter_cons, e1, e2]

theorem drainTail_snd_sublist (l : Int) (tail : List LogRecord) :
    (drainTail l tail).2.Sublist tail := by
  have h := drainTail_append l tail
  conv_rhs => rw [← h]
  exact List.sublist_append_right _ _

theorem flushed_append (a b : List Call) : flushed (a ++ b) = flushed a ++ flushed b := by
  induction a with
  | nil => rfl
  | cons c cs ih => cases c <;> simp [flushed, ih]

theorem pageWrites_append (a b : List Call) :
    pageWrites (a ++ b) = pageWrites a ++ pageWrites b := by
  induction a with
  | nil => rfl
  | cons c cs ih => cases c <;> simp [pageWrites, ih]

/-! ### The tail invariant of reachable states -/

theorem tailInv_tables (mark : σ → Int) {m m2 : LogMgr σ} (h1 : m2.logtail = m.logtail)
    (h2 : m2.se = m.se) (h : TailInv mark m) : TailInv mark m2 := by
  unfold TailInv at *
  rw [h1, h2]; exact h

theorem tailInv_pushNext {E : StorageEngine σ} {mark : σ → Int} (hE : IncreasingLSN E mark)
    {m : LogMgr σ} (h : TailInv mark m) (r : LogRecord) (hr : r.lsn = (E.nextLSN m.se).1) :
    TailInv mark (pushTail (callNextLSN E m).2 r) := by
  obtain ⟨hp, hb⟩ := h
  have hgt := hE.nextLSN_gt m.se
  have hle := hE.nextLSN_mark m.se
  constructor
  · simp only [pushTail_logtail, callNextLSN_logtail]
    rw [List.pairwise_append]
    refine ⟨hp, List.pairwise_singleton _ _, ?_⟩
    intro a ha b hb2
    rw [List.mem_singleton] at hb2
    subst hb2
    rw [hr]
    exact lt_of_le_of_lt (hb a ha) hgt
  · intro x hx
    simp only [pushTail_logtail, callNextLSN_logtail, List.mem_append, List.mem_singleton] at hx
    simp only [pushTail_se, callNextLSN_se]
    rcases hx with hx | hx
    · exact le_trans (le_of_lt (lt_of_le_of_lt (hb x hx) hgt)) hle
    · subst hx; rw [hr]; exact hle

theorem tailInv_pageWrite {E : StorageEngine σ} {mark : σ → Int} (hE : IncreasingLSN E mark)
    {m : LogMgr σ} (h : TailInv mark m) (p o : Int) (t : String) (l : Int) :
    TailInv mark (callPageWrite E m p o t l).2 := by
  obtain ⟨hp, hb⟩ := h
  refine ⟨hp, fun x hx => ?_⟩
  exact le_trans (hb x hx) (hE.pageWrite_mark p o t l m.se)

theorem tailInv_flush {E : StorageEngine σ} {mark : σ → Int} (hE : IncreasingLSN E mark)
    {m : LogMgr σ} (h : TailInv mark m) (l : Int) : TailInv mark (flushLogTail E m l) := by
  obtain ⟨hp, hb⟩ := h
  have hs := drainTail_snd_sublist l m.logtail
  refine ⟨hp.sublist hs, fun x hx => ?_⟩
  exact le_trans (hb x (hs.subset hx)) (hE.updateLog_mark _ m.se)

theorem tailInv_write {E : StorageEngine σ} {mark : σ → Int} (hE : IncreasingLSN E mark)
    {m : LogMgr σ} (h : TailInv mark m) (txid page_id offset : Int) (input oldtext : String) :
    TailInv mark (write E m txid page_id offset input oldtext).2 := by
  refine tailInv_tables mark ?_ ?_
    (tailInv_pushNext hE h
      (UpdateLogRecord (E.nextLSN m.se).1 (getLastLSN (callNextLSN E m).2 txid) txid page_id
        offset oldtext input) rfl)
  · simp [write]
  · simp [write]

theorem tailInv_commit {E : StorageEngine σ} {mark : σ → Int} (hE : IncreasingLSN E mark)
    {m : LogMgr σ} (h : TailInv mark m) (txid : Int) : TailInv mark (commit E m txid) := by
  have h1 := tailInv_pushNext hE h ⟨(E.nextLSN m.se).1, getLastLSN m txid, txid, .commit⟩ rfl
  have h2 : TailInv mark
      (setStatus (setLastLSN (pushTail (callNextLSN E m).2
        ⟨(E.nextLSN m.se).1, getLastLSN m txid, txid, .commit⟩) txid (E.nextLSN m.se).1) txid
        TxStatus.C) := tailInv_tables mark (by simp) (by simp) h1
  have h3 := tailInv_flush hE h2 (E.nextLSN m.se).1
  have h4 : TailInv mark (eraseTx (flushLogTail E
      (setStatus (setLastLSN (pushTail (callNextLSN E m).2
        ⟨(E.nextLSN m.se).1, getLastLSN m txid, txid, .commit⟩) txid (E.nextLSN m.se).1) txid
        TxStatus.C) (E.nextLSN m.se).1) txid) := tailInv_tables mark (by simp) (by simp) h3
  exact tailInv_pushNext hE h4 _ rfl

theorem tailInv_checkpoint {E : StorageEngine σ} {mark : σ → Int} (hE : IncreasingLSN E mark)
    {m : LogMgr σ} (h : TailInv mark m) : TailInv mark (checkpoint E m) := by
  obtain ⟨hp, hb⟩ := h
  have hgt1 := hE.nextLSN_gt m.se
  have hle1 := hE.nextLSN_mark m.se
  have hgt2 := hE.nextLSN_gt (E.nextLSN m.se).2
  have hle2 := hE.nextLSN_mark (E.nextLSN m.se).2
  have hall : ∀ r ∈ m.logtail ++
      [(⟨(E.nextLSN m.se).1, NULL_LSN, NULL_TX, .beginCkpt⟩ : LogRecord),
        ChkptLogRecord (E.nextLSN (E.nextLSN m.se).2).1 (E.nextLSN m.se).1 NULL_TX m.tx_table
          m.dirty_page_table], r.lsn ≤ (E.nextLSN (E.nextLSN m.se).2).1 := by
    intro r hr
    simp only [List.mem_append, List.mem_cons, List.mem_singleton, List.not_mem_nil, or_false]
      at hr
    rcases hr with hr | hr | hr
    · have := hb r hr; linarith
    · subst hr; show (E.nextLSN m.se).1 ≤ _; linarith
    · subst hr; exact le_refl _
  have hd := drainTail_all _ _ hall
  constructor
  · simp [checkpoint, callStoreMaster, List.append_assoc, hd]
  · intro x hx
    simp [checkpoint, callStoreMaster, List.append_assoc, hd] at hx

theorem tailInv_pageFlushed {E : StorageEngine σ} {mark : σ → Int} (hE : IncreasingLSN E mark)
    {m : LogMgr σ} (h : TailInv mark m) (page_id : Int) :
    TailInv mark (pageFlushed E m page_id) := by
  have h1 : TailInv mark (callGetLSN E m page_id).2 := tailInv_tables mark rfl rfl h
  have h2 := tailInv_flush hE h1 (E.getLSN page_id m.se)
  exact tailInv_tables mark rfl rfl h2


@[simp] theorem setStatusGuarded_logtail (m : LogMgr σ) (t : Int) (s : TxStatus) :
    (setStatusGuarded m t s).logtail = m.logtail := by
  unfold setStatusGuarded; split <;> rfl
@[simp] theorem setStatusGuarded_se (m : LogMgr σ) (t : Int) (s : TxStatus) :
    (setStatusGuarded m t s).se = m.se := by
  unfold setStatusGuarded; split <;> rfl
@[simp] theorem setStatusGuarded_calls (m : LogMgr σ) (t : Int) (s : TxStatus) :
    (setStatusGuarded m t s).calls = m.calls := by
  unfold setStatusGuarded; split <;> rfl
@[simp] theorem setStatusGuarded_dpt (m : LogMgr σ) (t : Int) (s : TxStatus) :
    (setStatusGuarded m t s).dirty_page_table = m.dirty_page_table := by
  unfold setStatusGuarded; split <;> rfl

@[simp] theorem appendEnd_logtail (E : StorageEngine σ) (m : LogMgr σ) (prev tx : Int) :
    (appendEnd E m prev tx).logtail = m.logtail ++ [⟨(E.nextLSN m.se).1, prev, tx, .endTx⟩] :=
  rfl
@[simp] theorem appendEnd_se (E : StorageEngine σ) (m : LogMgr σ) (prev tx : Int) :
    (appendEnd E m prev tx).se = (E.nextLSN m.se).2 := rfl
@[simp] theorem appendEnd_calls (E : StorageEngine σ) (m : LogMgr σ) (prev tx : Int) :
    (appendEnd E m prev tx).calls = m.calls ++ [Call.nextLSN (E.nextLSN m.se).1] := rfl
@[simp] theorem appendEnd_tx_table (E : StorageEngine σ) (m : LogMgr σ) (prev tx : Int) :
    (appendEnd E m prev tx).tx_table = mapErase m.tx_table tx := rfl
@[simp] theorem appendEnd_dpt (E : StorageEngine σ) (m : LogMgr σ) (prev tx : Int) :
    (appendEnd E m prev tx).dirty_page_table = m.dirty_page_table := rfl

@[simp] theorem compensate_logtail (E : StorageEngine σ) (m : LogMgr σ) (r : LogRecord)
    (p o : Int) (b : String) :
    (compensate E m r p o b).2.logtail =
      m.logtail ++
        [CompensationLogRecord (E.nextLSN m.se).1 (getLastLSN m r.txID) r.txID p o b r.prevLSN] := by
  simp [compensate, getLastLSN]
@[simp] theorem compensate_se (E : StorageEngine σ) (m : LogMgr σ) (r : LogRecord)
    (p o : Int) (b : String) :
    (compensate E m r p o b).2.se =
      (E.pageWrite p o b (E.nextLSN m.se).1 (E.nextLSN m.se).2).2 := by
  simp [compensate]
@[simp] theorem compensate_fst (E : StorageEngine σ) (m : LogMgr σ) (r : LogRecord)
    (p o : Int) (b : String) :
    (compensate E m r p o b).1 =
      (E.pageWrite p o b (E.nextLSN m.se).1 (E.nextLSN m.se).2).1 := by
  simp [compensate]
@[simp] theorem compensate_calls (E : StorageEngine σ) (m : LogMgr σ) (r : LogRecord)
    (p o : Int) (b : String) :
    (compensate E m r p o b).2.calls =
      m.calls ++ [Call.nextLSN (E.nextLSN m.se).1,
        Call.pageWrite p o b (E.nextLSN m.se).1
          (E.pageWrite p o b (E.nextLSN m.se).1 (E.nextLSN m.se).2).1] := by
  simp [compensate]

theorem tailInv_appendEnd {E : StorageEngine σ} {mark : σ → Int} (hE : IncreasingLSN E mark)
    {m : LogMgr σ} (h : TailInv mark m) (prev tx : Int) :
    TailInv mark (appendEnd E m prev tx) :=
  tailInv_tables mark rfl rfl
    (tailInv_pushNext hE h ⟨(E.nextLSN m.se).1, prev, tx, .endTx⟩ rfl)

theorem tailInv_compensate {E : StorageEngine σ} {mark : σ → Int} (hE : IncreasingLSN E mark)
    {m : LogMgr σ} (h : TailInv mark m) (r : LogRecord) (p o : Int) (b : String) :
    TailInv mark (compensate E m r p o b).2 := by
  have h1 := tailInv_pushNext hE h
    (CompensationLogRecord (E.nextLSN m.se).1 (getLastLSN (callNextLSN E m).2 r.txID) r.txID
      p o b r.prevLSN) rfl
  have h2 : TailInv mark (dirtyIfAbsent (setStatusGuarded (setLastLSN
      (pushTail (callNextLSN E m).2
        (CompensationLogRecord (E.nextLSN m.se).1 (getLastLSN (callNextLSN E m).2 r.txID) r.txID
          p o b r.prevLSN)) r.txID (E.nextLSN m.se).1) r.txID TxStatus.U) p (E.nextLSN m.se).1) :=
    tailInv_tables mark (by simp) (by simp) h1
  exact tailInv_pageWrite hE h2 p o b (E.nextLSN m.se).1

theorem undoRecord_tailInv {E : StorageEngine σ} {mark : σ → Int} (hE : IncreasingLSN E mark)
    {m : LogMgr σ} (h : TailInv mark m) (r : LogRecord) (q : List Int) :
    TailInv mark (undoRecord E m r q).2.1 := by
  unfold undoRecord
  split
  · split_ifs
    · exact tailInv_compensate hE h r _ _ _
    · exact tailInv_compensate hE h r _ _ _
    · exact tailInv_appendEnd hE (tailInv_compensate hE h r _ _ _) _ _
  · split_ifs
    · exact h
    · exact tailInv_appendEnd hE h _ _
  · split_ifs
    · exact h
    · exact tailInv_appendEnd hE h _ _
  · exact h

theorem undoLoop_tailInv {E : StorageEngine σ} {mark : σ → Int} (hE : IncreasingLSN E mark)
    (log : List LogRecord) (fuel : Nat) :
    ∀ (m : LogMgr σ) (q : List Int) (m2 : LogMgr σ), TailInv mark m →
      undoLoop E log fuel m q = .ok m2 → TailInv mark m2 := by
  induction fuel with
  | zero =>
    intro m q m2 h hr
    cases q with
    | nil => simp only [undoLoop, Except.ok.injEq] at hr; rw [← hr]; exact h
    | cons a q => simp [undoLoop] at hr
  | succ n ih =>
    intro m q m2 h hr
    cases q with
    | nil => simp only [undoLoop, Except.ok.injEq] at hr; rw [← hr]; exact h
    | cons a q =>
      simp only [undoLoop] at hr
      split at hr
      · exact ih m q m2 h hr
      · next r hf =>
        split_ifs at hr
        · exact ih _ _ m2 (undoRecord_tailInv hE h r q) hr
        · simp only [Except.ok.injEq] at hr
          rw [← hr]; exact undoRecord_tailInv hE h r q

theorem redoScan_tailInv {E : StorageEngine σ} {mark : σ → Int} (hE : IncreasingLSN E mark)
    (log : List LogRecord) :
    ∀ (m : LogMgr σ), TailInv mark m → TailInv mark (redoScan E m log).2 := by
  induction log with
  | nil => intro m h; exact h
  | cons r rest ih =>
    intro m h
    unfold redoScan
    split
    · exact ih m h
    · split
      · exact ih m h
      · split_ifs
        · exact ih m h
        · exact ih _ (tailInv_tables mark rfl rfl h)
        · exact tailInv_pageWrite hE (tailInv_tables mark rfl rfl h) _ _ _ _
        · exact ih _ (tailInv_pageWrite hE (tailInv_tables mark rfl rfl h) _ _ _ _)

theorem foldl_eraseTx_frame (ks : List Int) :
    ∀ (m : LogMgr σ), (ks.foldl eraseTx m).logtail = m.logtail ∧
      (ks.foldl eraseTx m).se = m.se ∧ (ks.foldl eraseTx m).calls = m.calls ∧
      (ks.foldl eraseTx m).dirty_page_table = m.dirty_page_table := by
  induction ks with
  | nil => intro m; exact ⟨rfl, rfl, rfl, rfl⟩
  | cons k ks ih =>
    intro m
    simp only [List.foldl_cons]
    obtain ⟨h1, h2, h3, h4⟩ := ih (eraseTx m k)
    exact ⟨h1, h2, h3, h4⟩

theorem redoEnd_tailInv {E : StorageEngine σ} {mark : σ → Int} (hE : IncreasingLSN E mark)
    {m : LogMgr σ} (h : TailInv mark m) : TailInv mark (redoEnd E m) := by
  unfold redoEnd
  have key : ∀ (tt : List (Int × txTableEntry)) (acc : LogMgr σ), TailInv mark acc →
      TailInv mark (tt.foldl
        (fun acc e =>
          if e.2.status = TxStatus.C then
            pushTail (callNextLSN E acc).2 ⟨(callNextLSN E acc).1, e.2.lastLSN, e.1, .endTx⟩
          else acc) acc) := by
    intro tt
    induction tt with
    | nil => intro acc ha; exact ha
    | cons e tt ih =>
      intro acc ha
      simp only [List.foldl_cons]
      apply ih
      split_ifs
      · exact tailInv_pushNext hE ha _ rfl
      · exact ha
  have h1 := key m.tx_table m h
  obtain ⟨e1, e2, _, _⟩ := foldl_eraseTx_frame
    ((m.tx_table.filter (fun e => decide (e.2.status = TxStatus.C))).map Prod.fst)
    (m.tx_table.foldl
        (fun acc e =>
          if e.2.status = TxStatus.C then
            pushTail (callNextLSN E acc).2 ⟨(callNextLSN E acc).1, e.2.lastLSN, e.1, .endTx⟩
          else acc) m)
  exact tailInv_tables mark e1 e2 h1

theorem analyzeRecord_frame (m : LogMgr σ) (r : LogRecord) :
    (analyzeRecord m r).logtail = m.logtail ∧ (analyzeRecord m r).se = m.se ∧
      (analyzeRecord m r).calls = m.calls := by
  obtain ⟨l, p, t, b⟩ := r
  cases b <;> simp [analyzeRecord]

theorem foldl_analyzeRecord_frame (log : List LogRecord) :
    ∀ (m : LogMgr σ), (log.foldl analyzeRecord m).logtail = m.logtail ∧
      (log.foldl analyzeRecord m).se = m.se ∧ (log.foldl analyzeRecord m).calls = m.calls := by
  induction log with
  | nil => intro m; exact ⟨rfl, rfl, rfl⟩
  | cons r rest ih =>
    intro m
    simp only [List.foldl_cons]
    obtain ⟨h1, h2, h3⟩ := ih (analyzeRecord m r)
    obtain ⟨g1, g2, g3⟩ := analyzeRecord_frame m r
    exact ⟨h1.trans g1, h2.trans g2, h3.trans g3⟩

theorem adoptCheckpoint_frame (m : LogMgr σ) (log : List LogRecord) :
    (adoptCheckpoint m log).logtail = m.logtail ∧ (adoptCheckpoint m log).se = m.se ∧
      (adoptCheckpoint m log).calls = m.calls := by
  unfold adoptCheckpoint
  split <;> exact ⟨rfl, rfl, rfl⟩

theorem analyze_frame {m m1 : LogMgr σ} {log : List LogRecord} (h : analyze m log = .ok m1) :
    m1.logtail = m.logtail ∧ m1.se = m.se ∧ m1.calls = m.calls := by
  unfold analyze at h
  split at h
  · simp at h
  · simp only [Except.ok.injEq] at h
    rw [← h]
    obtain ⟨h1, h2, h3⟩ := foldl_analyzeRecord_frame
      (if _ < startLSN _ ∨ startLSN _ ≠ NULL_LSN then seekLSN (startLSN _) _ else _)
      (adoptCheckpoint m _)
    obtain ⟨g1, g2, g3⟩ := adoptCheckpoint_frame m _
    exact ⟨h1.trans g1, h2.trans g2, h3.trans g3⟩

theorem tailInv_abort {E : StorageEngine σ} {mark : σ → Int} (hE : IncreasingLSN E mark)
    {m m2 : LogMgr σ} (h : TailInv mark m) (fuel : Nat) (txid : Int)
    (hr : abort E fuel m txid = .ok m2) : TailInv mark m2 := by
  unfold abort undo at hr
  refine undoLoop_tailInv hE _ fuel _ _ m2 ?_ hr
  have h1 := tailInv_pushNext hE h ⟨(E.nextLSN m.se).1, getLastLSN m txid, txid, .abort⟩ rfl
  exact tailInv_tables mark (by simp) (by simp) h1

theorem tailInv_recover {E : StorageEngine σ} {mark : σ → Int} (hE : IncreasingLSN E mark)
    {m m2 : LogMgr σ} (h : TailInv mark m) (fuel : Nat) (log : List LogRecord)
    (hr : recover E fuel m log = .ok m2) : TailInv mark m2 := by
  unfold recover at hr
  split at hr
  · simp at hr
  · next m1 ha =>
    obtain ⟨a1, a2, _⟩ := analyze_frame ha
    have h1 : TailInv mark m1 := tailInv_tables mark a1 a2 h
    have hredo : ∀ b m3, redo E m1 log = .ok (b, m3) → TailInv mark m3 := by
      intro b m3 hredo
      unfold redo at hredo
      split at hredo
      · simp only [Except.ok.injEq, Prod.mk.injEq] at hredo
        rw [← hredo.2]; exact redoEnd_tailInv hE h1
      · split at hredo
        · simp at hredo
        · dsimp only at hredo
          split_ifs at hredo
          all_goals
            simp only [Except.ok.injEq, Prod.mk.injEq] at hredo
            rw [← hredo.2]
            first
              | exact redoEnd_tailInv hE (redoScan_tailInv hE _ _ h1)
              | exact redoScan_tailInv hE _ _ h1
    split at hr
    · simp at hr
    · next m3 hd =>
      unfold undo at hr
      exact undoLoop_tailInv hE _ fuel _ _ m2 (hredo true m3 hd) hr
    · next m3 hd =>
      simp only [Except.ok.injEq] at hr
      rw [← hr]; exact hredo false m3 hd

theorem reachable_tailInv {E : StorageEngine σ} {mark : σ → Int} (hE : IncreasingLSN E mark)
    {m : LogMgr σ} (h : Reachable E m) : TailInv mark m := by
  induction h with
  | init s => exact ⟨List.Pairwise.nil, fun r hr => by simp [freshMgr] at hr⟩
  | write txid page_id offset input oldtext _ ih =>
    exact tailInv_write hE ih txid page_id offset input oldtext
  | commit txid _ ih => exact tailInv_commit hE ih txid
  | abort fuel txid _ hr ih => exact tailInv_abort hE ih fuel txid hr
  | checkpoint _ ih => exact tailInv_checkpoint hE ih
  | pageFlushed page_id _ ih => exact tailInv_pageFlushed hE ih page_id
  | recover fuel log _ hr ih => exact tailInv_recover hE ih fuel log hr

/-! ### The stub engine -/

theorem stub_increasing : IncreasingLSN stubEngine (fun s => s.next - 1) := by
  constructor
  · intro s; show s.next - 1 < s.next; omega
  · intro s; show s.next ≤ s.next + 1 - 1; omega
  · intro c s; exact le_refl _
  · intro p o t l s; exact le_refl _
  · intro l s; exact le_refl _

/-! ### `write` -/

/-- C4: `write` returns the LSN of its single `nextLSN` call and appends exactly one record
to the end of the tail, the UPDATE record with that LSN, `prevLSN` the last LSN of `txid`
before the call, and the given page, offset, before- and after-image; the only engine
call is that `nextLSN`, so nothing is passed to `updateLog` and no page is written. -/
theorem write_emits (E : StorageEngine σ) (m : LogMgr σ) (txid page_id offset : Int)
    (input oldtext : String) :
    (write E m txid page_id offset input oldtext).1 = (E.nextLSN m.se).1 ∧
    (write E m txid page_id offset input oldtext).2.logtail =
      m.logtail ++ [UpdateLogRecord (E.nextLSN m.se).1 (getLastLSN m txid) txid page_id offset
        oldtext input] ∧
    (write E m txid page_id offset input oldtext).2.calls =
      m.calls ++ [Call.nextLSN (E.nextLSN m.se).1] ∧
    (write E m txid page_id offset input oldtext).2.se = (E.nextLSN m.se).2 := by
  refine ⟨rfl, ?_, ?_, ?_⟩
  · simp [write, getLastLSN]
  · simp [write]
  · simp [write]

/-- C5 as stated fails for the system transaction id: two successive `write` calls with
`txid = NULL_TX` return different LSNs, yet neither changes the `lastLSN` of the entry of
`NULL_TX`, so the entry cannot carry the returned LSN after both. -/
theorem write_tables_null_tx_counterexample :
    ¬ (mapFind (write stubEngine (freshMgr stubInit) NULL_TX 7 0 "new" "old").2.tx_table NULL_TX
          = some ⟨(write stubEngine (freshMgr stubInit) NULL_TX 7 0 "new" "old").1, TxStatus.U⟩ ∧
        mapFind (write stubEngine (write stubEngine (freshMgr stubInit) NULL_TX 7 0 "new" "old").2
            NULL_TX 7 0 "newer" "new").2.tx_table NULL_TX
          = some ⟨(write stubEngine (write stubEngine (freshMgr stubInit) NULL_TX 7 0 "new" "old").2
            NULL_TX 7 0 "newer" "new").1, TxStatus.U⟩) := by
  decide

/-- C5, amended: for `txid ≠ NULL_TX`, after `write` the transaction table maps `txid` to
the returned LSN with status U and every other entry is unchanged; the page is inserted
in the dirty page table with the returned LSN if it was absent and keeps its recLSN if it
was present, and every other dirty page table entry is unchanged. -/
theorem write_tables (E : StorageEngine σ) (m : LogMgr σ) (txid page_id offset : Int)
    (input oldtext : String) (htx : txid ≠ NULL_TX) :
    mapFind (write E m txid page_id offset input oldtext).2.tx_table txid =
      some ⟨(write E m txid page_id offset input oldtext).1, TxStatus.U⟩ ∧
    (∀ t, t ≠ txid →
      mapFind (write E m txid page_id offset input oldtext).2.tx_table t = mapFind m.tx_table t) ∧
    (mapFind m.dirty_page_table page_id = none →
      mapFind (write E m txid page_id offset input oldtext).2.dirty_page_table page_id =
        some (write E m txid page_id offset input oldtext).1) ∧
    (∀ recLSN, mapFind m.dirty_page_table page_id = some recLSN →
      mapFind (write E m txid page_id offset input oldtext).2.dirty_page_table page_id =
        some recLSN) ∧
    (∀ p, p ≠ page_id →
      mapFind (write E m txid page_id offset input oldtext).2.dirty_page_table p =
        mapFind m.dirty_page_table p) := by
  refine ⟨?_, ?_, ?_, ?_, ?_⟩
  · simp [write, mapFind_setStatus, mapFind_setLastLSN _ _ _ _ htx]
  · intro t ht
    simp [write, mapFind_setStatus, mapFind_setLastLSN _ _ _ _ htx, ht]
  · intro h
    simp [write, mapFind_dirtyIfAbsent, h]
  · intro recLSN h
    simp [write, mapFind_dirtyIfAbsent, h]
  · intro p hp
    simp [write, mapFind_dirtyIfAbsent, hp]

/-- Witness of C5 (amended): transaction 1 writes page 7 on a fresh manager. -/
theorem write_tables_witness :
    (1 : Int) ≠ NULL_TX ∧
    mapFind (write stubEngine (freshMgr stubInit) 1 7 0 "new" "old").2.tx_table 1 =
      some ⟨1, TxStatus.U⟩ ∧
    mapFind (write stubEngine (freshMgr stubInit) 1 7 0 "new" "old").2.dirty_page_table 7 =
      some 1 :=
  ⟨by decide,
    (write_tables stubEngine (freshMgr stubInit) 1 7 0 "new" "old" (by decide)).1,
    (write_tables stubEngine (freshMgr stubInit) 1 7 0 "new" "old" (by decide)).2.2.1 rfl⟩

/-! ### `pageFlushed` -/

theorem pageFlushed_logtail (E : StorageEngine σ) (m : LogMgr σ) (page_id : Int)
    (hs : m.logtail.Pairwise (fun a b => a.lsn < b.lsn)) :
    (pageFlushed E m page_id).logtail =
      m.logtail.filter (fun r => decide (E.getLSN page_id m.se < r.lsn)) := by
  simp [pageFlushed, drainTail_sorted (E.getLSN page_id m.se) m.logtail hs]

theorem pageFlushed_tail_above (E : StorageEngine σ) (m : LogMgr σ) (page_id : Int)
    (hs : m.logtail.Pairwise (fun a b => a.lsn < b.lsn)) :
    ∀ r ∈ (pageFlushed E m page_id).logtail, E.getLSN page_id m.se < r.lsn := by
  intro r hr
  rw [pageFlushed_logtail E m page_id hs, List.mem_filter] at hr
  simpa using hr.2

/-- C3: when the log tail is strictly increasing in LSN, `pageFlushed(P)` with engine page
LSN `L` leaves in the tail exactly the records with LSN above `L`, passes the records with
LSN at most `L` to `updateLog` in tail order, removes `P` from the dirty page table, and
changes no other dirty page table entry and nothing of the transaction table. -/
theorem pageFlushed_flushes (E : StorageEngine σ) (m : LogMgr σ) (page_id : Int)
    (hs : m.logtail.Pairwise (fun a b => a.lsn < b.lsn)) :
    (∀ r ∈ (pageFlushed E m page_id).logtail, E.getLSN page_id m.se < r.lsn) ∧
    (pageFlushed E m page_id).logtail =
      m.logtail.filter (fun r => decide (E.getLSN page_id m.se < r.lsn)) ∧
    (pageFlushed E m page_id).calls =
      m.calls ++ [Call.getLSN page_id (E.getLSN page_id m.se),
        Call.updateLog (m.logtail.filter (fun r => decide (r.lsn ≤ E.getLSN page_id m.se)))] ∧
    mapFind (pageFlushed E m page_id).dirty_page_table page_id = none ∧
    (∀ p, p ≠ page_id →
      mapFind (pageFlushed E m page_id).dirty_page_table p = mapFind m.dirty_page_table p) ∧
    (pageFlushed E m page_id).tx_table = m.tx_table := by
  have hd := drainTail_sorted (E.getLSN page_id m.se) m.logtail hs
  refine ⟨pageFlushed_tail_above E m page_id hs, pageFlushed_logtail E m page_id hs,
    ?_, ?_, ?_, ?_⟩
  · simp [pageFlushed, hd]
  · simp [pageFlushed, mapFind_mapErase]
  · intro p hp
    simp [pageFlushed, mapFind_mapErase, hp]
  · simp [pageFlushed]

/-- Witness of C3: two buffered updates with LSNs 1 and 2, page 7 stamped with LSN 1. -/
theorem pageFlushed_flushes_witness :
    (pageFlushed stubEngine
      (⟨[], [(7, 1)],
        [UpdateLogRecord 1 NULL_LSN 1 7 0 "old" "new", UpdateLogRecord 2 1 1 7 4 "A" "B"],
        { stubInit with next := 3, pageLSN := [(7, 1)] }, []⟩ : LogMgr Stub) 7).logtail =
      [UpdateLogRecord 2 1 1 7 4 "A" "B"] := by
  have h := (pageFlushed_flushes stubEngine
      (⟨[], [(7, 1)],
        [UpdateLogRecord 1 NULL_LSN 1 7 0 "old" "new", UpdateLogRecord 2 1 1 7 4 "A" "B"],
        { stubInit with next := 3, pageLSN := [(7, 1)] }, []⟩ : LogMgr Stub) 7
      (by simp [UpdateLogRecord])).2.1
  rw [h]
  decide

/-! ### `commit` -/

theorem commit_calls (E : StorageEngine σ) (m : LogMgr σ) (txid : Int) :
    (commit E m txid).calls =
      m.calls ++ [Call.nextLSN (E.nextLSN m.se).1,
        Call.updateLog (drainTail (E.nextLSN m.se).1
          (m.logtail ++ [⟨(E.nextLSN m.se).1, getLastLSN m txid, txid, .commit⟩])).1,
        Call.nextLSN (E.nextLSN (E.updateLog (drainTail (E.nextLSN m.se).1
          (m.logtail ++ [⟨(E.nextLSN m.se).1, getLastLSN m txid, txid, .commit⟩])).1
          (E.nextLSN m.se).2)).1] := by
  simp [commit]

theorem commit_logtail (E : StorageEngine σ) (m : LogMgr σ) (txid : Int) :
    (commit E m txid).logtail =
      (drainTail (E.nextLSN m.se).1
          (m.logtail ++ [⟨(E.nextLSN m.se).1, getLastLSN m txid, txid, .commit⟩])).2 ++
        [⟨(E.nextLSN (E.updateLog (drainTail (E.nextLSN m.se).1
          (m.logtail ++ [⟨(E.nextLSN m.se).1, getLastLSN m txid, txid, .commit⟩])).1
          (E.nextLSN m.se).2)).1, (E.nextLSN m.se).1, txid, .endTx⟩] := by
  simp [commit]

/-- C6: with an engine whose LSNs increase, `commit(T)` emits exactly two records, the
COMMIT of `T` with `prevLSN` the last LSN of `T` before the call and then the END of `T`
with `prevLSN` the COMMIT's LSN, their LSNs coming from two successive `nextLSN` calls and
increasing; afterwards `T` is absent from the transaction table, every other entry of it
is unchanged and the dirty page table is unchanged. -/
theorem commit_emits {E : StorageEngine σ} {mark : σ → Int} (hE : IncreasingLSN E mark)
    (m : LogMgr σ) (txid : Int) :
    ∃ commit_lsn end_lsn chunk,
      (commit E m txid).calls =
        m.calls ++ [Call.nextLSN commit_lsn, Call.updateLog chunk, Call.nextLSN end_lsn] ∧
      chunk ++ (commit E m txid).logtail =
        m.logtail ++ [⟨commit_lsn, getLastLSN m txid, txid, .commit⟩,
          ⟨end_lsn, commit_lsn, txid, .endTx⟩] ∧
      commit_lsn < end_lsn ∧
      mapFind (commit E m txid).tx_table txid = none ∧
      (∀ t, t ≠ txid → mapFind (commit E m txid).tx_table t = mapFind m.tx_table t) ∧
      (commit E m txid).dirty_page_table = m.dirty_page_table := by
  refine ⟨_, _, _, commit_calls E m txid, ?_, ?_, ?_, ?_, ?_⟩
  · rw [commit_logtail, ← List.append_assoc, drainTail_append]
    simp
  · have h1 := hE.nextLSN_mark m.se
    have h2 := hE.updateLog_mark (drainTail (E.nextLSN m.se).1
      (m.logtail ++ [⟨(E.nextLSN m.se).1, getLastLSN m txid, txid, .commit⟩])).1 (E.nextLSN m.se).2
    have h3 := hE.nextLSN_gt (E.updateLog (drainTail (E.nextLSN m.se).1
      (m.logtail ++ [⟨(E.nextLSN m.se).1, getLastLSN m txid, txid, .commit⟩])).1
      (E.nextLSN m.se).2)
    linarith
  · simp [commit, mapFind_mapErase]
  · intro t ht
    by_cases hn : txid = NULL_TX
    · subst hn
      simp [commit, mapFind_mapErase, mapFind_setStatus, setLastLSN, ht]
    · simp [commit, mapFind_mapErase, mapFind_setStatus, mapFind_setLastLSN _ _ _ _ hn, ht]
  · simp [commit]

/-- Witness of C6: `commit(1)` after transaction 1 wrote page 7, on the stub engine. -/
theorem commit_emits_witness :
    ∃ commit_lsn end_lsn chunk,
      (commit stubEngine (write stubEngine (freshMgr stubInit) 1 7 0 "new" "old").2 1).calls =
        (write stubEngine (freshMgr stubInit) 1 7 0 "new" "old").2.calls ++
          [Call.nextLSN commit_lsn, Call.updateLog chunk, Call.nextLSN end_lsn] ∧
      chunk ++ (commit stubEngine (write stubEngine (freshMgr stubInit) 1 7 0 "new" "old").2 1).logtail =
        (write stubEngine (freshMgr stubInit) 1 7 0 "new" "old").2.logtail ++
          [⟨commit_lsn, 1, 1, .commit⟩, ⟨end_lsn, commit_lsn, 1, .endTx⟩] ∧
      commit_lsn < end_lsn := by
  obtain ⟨c, e, chunk, h1, h2, h3, _⟩ :=
    commit_emits stub_increasing (write stubEngine (freshMgr stubInit) 1 7 0 "new" "old").2 1
  exact ⟨c, e, chunk, h1, h2, h3⟩

/-- C2: in every state reachable with an engine whose LSNs increase, `commit(T)` passes
to `updateLog`, in one chunk and in emission order, the whole log tail followed by the
COMMIT record of `T`, so that every record emitted up to and including the COMMIT has
been passed to `updateLog`; on return the tail holds exactly the END record of `T`. -/
theorem commit_durable {E : StorageEngine σ} {mark : σ → Int} (hE : IncreasingLSN E mark)
    {m : LogMgr σ} (hm : Reachable E m) (txid : Int) :
    ∃ commit_lsn end_lsn,
      (commit E m txid).calls =
        m.calls ++ [Call.nextLSN commit_lsn,
          Call.updateLog (m.logtail ++ [⟨commit_lsn, getLastLSN m txid, txid, .commit⟩]),
          Call.nextLSN end_lsn] ∧
      flushed (commit E m txid).calls =
        flushed m.calls ++ (m.logtail ++ [⟨commit_lsn, getLastLSN m txid, txid, .commit⟩]) ∧
      (commit E m txid).logtail = [⟨end_lsn, commit_lsn, txid, .endTx⟩] := by
  obtain ⟨_, hb⟩ := reachable_tailInv hE hm
  have hgt := hE.nextLSN_gt m.se
  have hall : ∀ r ∈ m.logtail ++
      [(⟨(E.nextLSN m.se).1, getLastLSN m txid, txid, .commit⟩ : LogRecord)],
      r.lsn ≤ (E.nextLSN m.se).1 := by
    intro r hr
    simp only [List.mem_append, List.mem_singleton] at hr
    rcases hr with hr | hr
    · have := hb r hr; linarith
    · subst hr; exact le_refl _
  have hd := drainTail_all _ _ hall
  have hc := commit_calls E m txid
  have ht := commit_logtail E m txid
  rw [hd] at hc ht
  refine ⟨_, _, hc, ?_, ?_⟩
  · rw [hc, flushed_append]
    simp [flushed]
  · simpa using ht

/-- Witness of C2: `commit(1)` after transaction 1 wrote page 7, on the stub engine. -/
theorem commit_durable_witness :
    ∃ commit_lsn end_lsn,
      (commit stubEngine (write stubEngine (freshMgr stubInit) 1 7 0 "new" "old").2 1).calls =
        (write stubEngine (freshMgr stubInit) 1 7 0 "new" "old").2.calls ++
          [Call.nextLSN commit_lsn,
            Call.updateLog ((write stubEngine (freshMgr stubInit) 1 7 0 "new" "old").2.logtail ++
              [⟨commit_lsn,
                getLastLSN (write stubEngine (freshMgr stubInit) 1 7 0 "new" "old").2 1, 1,
                .commit⟩]),
            Call.nextLSN end_lsn] ∧
      (commit stubEngine (write stubEngine (freshMgr stubInit) 1 7 0 "new" "old").2 1).logtail =
        [⟨end_lsn, commit_lsn, 1, .endTx⟩] := by
  obtain ⟨c, e, h1, _, h3⟩ :=
    commit_durable stub_increasing
      (Reachable.write 1 7 0 "new" "old" (Reachable.init stubInit)) 1
  exact ⟨c, e, h1, h3⟩

/-! ### `checkpoint` -/

/-- C7: in every state reachable with an engine whose LSNs increase, `checkpoint()` emits
a BEGIN_CKPT record (no previous LSN, system transaction) and then an END_CKPT record
chained to it that carries the transaction table and dirty page table of the moment of
the call; the whole tail followed by these two records is passed to `updateLog` before
`store_master` is called with the BEGIN_CKPT LSN, the tail is empty on return, and both
live tables are unchanged. -/
theorem checkpoint_durable {E : StorageEngine σ} {mark : σ → Int} (hE : IncreasingLSN E mark)
    {m : LogMgr σ} (hm : Reachable E m) :
    ∃ begin_lsn end_lsn,
      (checkpoint E m).calls =
        m.calls ++ [Call.nextLSN begin_lsn, Call.nextLSN end_lsn,
          Call.updateLog (m.logtail ++
            [⟨begin_lsn, NULL_LSN, NULL_TX, .beginCkpt⟩,
              ⟨end_lsn, begin_lsn, NULL_TX, .endCkpt m.tx_table m.dirty_page_table⟩]),
          Call.store_master begin_lsn] ∧
      (checkpoint E m).logtail = [] ∧
      (checkpoint E m).tx_table = m.tx_table ∧
      (checkpoint E m).dirty_page_table = m.dirty_page_table := by
  obtain ⟨_, hb⟩ := reachable_tailInv hE hm
  have hgt1 := hE.nextLSN_gt m.se
  have hle1 := hE.nextLSN_mark m.se
  have hgt2 := hE.nextLSN_gt (E.nextLSN m.se).2
  have hall : ∀ r ∈ m.logtail ++
      [(⟨(E.nextLSN m.se).1, NULL_LSN, NULL_TX, .beginCkpt⟩ : LogRecord),
        ChkptLogRecord (E.nextLSN (E.nextLSN m.se).2).1 (E.nextLSN m.se).1 NULL_TX m.tx_table
          m.dirty_page_table], r.lsn ≤ (E.nextLSN (E.nextLSN m.se).2).1 := by
    intro r hr
    simp only [List.mem_append, List.mem_cons, List.mem_singleton, List.not_mem_nil, or_false]
      at hr
    rcases hr with hr | hr | hr
    · have := hb r hr; linarith
    · subst hr; show (E.nextLSN m.se).1 ≤ _; linarith
    · subst hr; exact le_refl _
  have hd := drainTail_all _ _ hall
  simp only [ChkptLogRecord] at hd
  refine ⟨(E.nextLSN m.se).1, (E.nextLSN (E.nextLSN m.se).2).1, ?_, ?_, ?_, ?_⟩
  · simp [checkpoint, callStoreMaster, List.append_assoc, hd, ChkptLogRecord]
  · simp [checkpoint, callStoreMaster, List.append_assoc, hd, ChkptLogRecord]
  · simp [checkpoint, callStoreMaster]
  · simp [checkpoint, callStoreMaster]

/-- Witness of C7: a checkpoint taken while transaction 1 has an unflushed update. -/
theorem checkpoint_durable_witness :
    ∃ begin_lsn end_lsn,
      (checkpoint stubEngine (write stubEngine (freshMgr stubInit) 1 7 0 "new" "old").2).calls =
        (write stubEngine (freshMgr stubInit) 1 7 0 "new" "old").2.calls ++
          [Call.nextLSN begin_lsn, Call.nextLSN end_lsn,
            Call.updateLog ((write stubEngine (freshMgr stubInit) 1 7 0 "new" "old").2.logtail ++
              [⟨begin_lsn, NULL_LSN, NULL_TX, .beginCkpt⟩,
                ⟨end_lsn, begin_lsn, NULL_TX,
                  .endCkpt (write stubEngine (freshMgr stubInit) 1 7 0 "new" "old").2.tx_table
                    (write stubEngine (freshMgr stubInit) 1 7 0 "new" "old").2.dirty_page_table⟩]),
            Call.store_master begin_lsn] ∧
      (checkpoint stubEngine (write stubEngine (freshMgr stubInit) 1 7 0 "new" "old").2).logtail
        = [] := by
  obtain ⟨b, e, h1, h2, _⟩ :=
    checkpoint_durable stub_increasing
      (Reachable.write 1 7 0 "new" "old" (Reachable.init stubInit))
  exact ⟨b, e, h1, h2⟩

/-! ### Write-ahead logging -/

theorem mapFind_setStatusGuarded (m : LogMgr σ) (t : Int) (s : TxStatus) (k : Int)
    (ht : t ≠ NULL_TX) :
    mapFind (setStatusGuarded m t s).tx_table k =
      if k = t then some ⟨((mapFind m.tx_table t).getD txTableEntry.fresh).lastLSN, s⟩
      else mapFind m.tx_table k := by
  unfold setStatusGuarded
  rw [if_pos ht]
  exact mapFind_setStatus m t s k

theorem compensate_tx_table (E : StorageEngine σ) (m : LogMgr σ) (r : LogRecord) (p o : Int)
    (b : String) (ht : r.txID ≠ NULL_TX) (k : Int) :
    mapFind (compensate E m r p o b).2.tx_table k =
      if k = r.txID then some ⟨(E.nextLSN m.se).1, TxStatus.U⟩ else mapFind m.tx_table k := by
  by_cases hk : k = r.txID
  · simp [compensate, mapFind_setStatusGuarded _ _ _ _ ht, mapFind_setLastLSN _ _ _ _ ht, hk]
  · simp [compensate, mapFind_setStatusGuarded _ _ _ _ ht, mapFind_setLastLSN _ _ _ _ ht, hk]

theorem compensate_dpt (E : StorageEngine σ) (m : LogMgr σ) (r : LogRecord) (p o : Int)
    (b : String) (k : Int) :
    mapFind (compensate E m r p o b).2.dirty_page_table k =
      if k = p then some ((mapFind m.dirty_page_table p).getD (E.nextLSN m.se).1)
      else mapFind m.dirty_page_table k := by
  simp [compensate, mapFind_dirtyIfAbsent]

/-- C9 as stated fails in two places. For an UPDATE record of the system transaction
(`txID = NULL_TX`) Undo appends the CLR but sets no `lastLSN`: the transaction table stays
empty. And when `pageWrite` fails, Undo returns without pushing `prevLSN`: the iteration
ends the loop and leaves `ToUndo` as it was. -/
theorem undo_update_counterexample :
    ((undoRecord stubEngine (freshMgr stubInit)
        (UpdateLogRecord 5 4 NULL_TX 7 0 "old" "new") []).2.1.logtail =
        [CompensationLogRecord 1 NULL_LSN NULL_TX 7 0 "old" 4] ∧
      (undoRecord stubEngine (freshMgr stubInit)
        (UpdateLogRecord 5 4 NULL_TX 7 0 "old" "new") []).2.1.tx_table = []) ∧
    ((undoRecord brokenEngine (freshMgr stubInit)
        (UpdateLogRecord 5 4 1 7 0 "old" "new") []).1 = false ∧
      (undoRecord brokenEngine (freshMgr stubInit)
        (UpdateLogRecord 5 4 1 7 0 "old" "new") []).2.2 = []) := by
  decide

/-- C9, amended: when Undo pops the LSN of an UPDATE record `R` of a transaction other than
`NULL_TX`, it runs the iteration `undoRecord` on `R`, which allocates `newLSN`, appends the
CLR with `prevLSN` the last LSN of the transaction at that moment, the page, offset and
before-image of `R` and `undoNextLSN = R.prevLSN`, sets the transaction's entry to
`(newLSN, U)`, inserts the page in the dirty page table with `newLSN` only if absent, and
calls `pageWrite` with the before-image and `newLSN`. If that succeeds it appends
`END(prev = newLSN)` and removes the transaction when `R.prevLSN = NULL_LSN`, and pushes
`R.prevLSN` otherwise; if it fails, Undo returns at once and pushes nothing. -/
theorem undo_update_step (E : StorageEngine σ) (m : LogMgr σ) (log : List LogRecord)
    (R : LogRecord) (q : List Int) (fuel : Nat) (pageID offset : Int)
    (beforeImage afterImage : String)
    (hfind : log.find? (fun r => decide (r.lsn = R.lsn)) = some R)
    (hb : R.body = .update pageID offset beforeImage afterImage) (htx : R.txID ≠ NULL_TX) :
    undoLoop E log (fuel + 1) m (R.lsn :: q) =
      (if (undoRecord E m R q).1 then
        undoLoop E log fuel (undoRecord E m R q).2.1 (undoRecord E m R q).2.2
      else .ok (undoRecord E m R q).2.1) ∧
    (compensate E m R pageID offset beforeImage).2.logtail =
      m.logtail ++
        [CompensationLogRecord (E.nextLSN m.se).1 (getLastLSN m R.txID) R.txID pageID offset
          beforeImage R.prevLSN] ∧
    (compensate E m R pageID offset beforeImage).2.calls =
      m.calls ++ [Call.nextLSN (E.nextLSN m.se).1,
        Call.pageWrite pageID offset beforeImage (E.nextLSN m.se).1
          (compensate E m R pageID offset beforeImage).1] ∧
    mapFind (compensate E m R pageID offset beforeImage).2.tx_table R.txID =
      some ⟨(E.nextLSN m.se).1, TxStatus.U⟩ ∧
    (∀ t, t ≠ R.txID →
      mapFind (compensate E m R pageID offset beforeImage).2.tx_table t = mapFind m.tx_table t) ∧
    mapFind (compensate E m R pageID offset beforeImage).2.dirty_page_table pageID =
      some ((mapFind m.dirty_page_table pageID).getD (E.nextLSN m.se).1) ∧
    (∀ p, p ≠ pageID →
      mapFind (compensate E m R pageID offset beforeImage).2.dirty_page_table p =
        mapFind m.dirty_page_table p) ∧
    ((compensate E m R pageID offset beforeImage).1 = true → R.prevLSN = NULL_LSN →
      (undoRecord E m R q).1 = true ∧ (undoRecord E m R q).2.2 = q ∧
      (undoRecord E m R q).2.1.logtail =
        (compensate E m R pageID offset beforeImage).2.logtail ++
          [⟨(E.nextLSN (compensate E m R pageID offset beforeImage).2.se).1, (E.nextLSN m.se).1,
            R.txID, .endTx⟩] ∧
      mapFind (undoRecord E m R q).2.1.tx_table R.txID = none ∧
      (∀ t, t ≠ R.txID →
        mapFind (undoRecord E m R q).2.1.tx_table t = mapFind m.tx_table t)) ∧
    ((compensate E m R pageID offset beforeImage).1 = true → R.prevLSN ≠ NULL_LSN →
      undoRecord E m R q =
        (true, (compensate E m R pageID offset beforeImage).2, pqPush q R.prevLSN)) ∧
    ((compensate E m R pageID offset beforeImage).1 = false →
      undoRecord E m R q = (false, (compensate E m R pageID offset beforeImage).2, q)) := by
  have htt := compensate_tx_table E m R pageID offset beforeImage htx
  have hdp := compensate_dpt E m R pageID offset beforeImage
  refine ⟨?_, by simp, by simp, ?_, ?_, ?_, ?_, ?_, ?_, ?_⟩
  · simp only [undoLoop, hfind]
  · rw [htt]; simp
  · intro t ht; rw [htt]; simp [ht]
  · rw [hdp]; simp
  · intro p hp; rw [hdp]; simp [hp]
  · intro hok hprev
    have hu : undoRecord E m R q =
        (true, appendEnd E (compensate E m R pageID offset beforeImage).2 (E.nextLSN m.se).1
          R.txID, q) := by
      simp only [undoRecord, hb, hok, hprev]
      simp
    rw [hu]
    refine ⟨rfl, rfl, by simp, ?_, ?_⟩
    · simp [mapFind_mapErase]
    · intro t ht
      simp only [appendEnd_tx_table, mapFind_mapErase, ht, if_false]
      rw [htt]; simp [ht]
  · intro hok hprev
    simp only [undoRecord, hb]
    rw [if_neg (by rw [hok]; decide), if_pos hprev]
  · intro hfail
    simp only [undoRecord, hb, hfail]
    simp

/-- Witness of C9 (amended): Undo of the only UPDATE of transaction 1, on page 7. -/
theorem undo_update_step_witness :
    (undoRecord stubEngine (freshMgr stubInit) (UpdateLogRecord 1 NULL_LSN 1 7 0 "old" "new")
        []).2.1.logtail =
      (compensate stubEngine (freshMgr stubInit) (UpdateLogRecord 1 NULL_LSN 1 7 0 "old" "new")
          7 0 "old").2.logtail ++
        [⟨(stubEngine.nextLSN (compensate stubEngine (freshMgr stubInit)
            (UpdateLogRecord 1 NULL_LSN 1 7 0 "old" "new") 7 0 "old").2.se).1,
          (stubEngine.nextLSN (freshMgr stubInit).se).1, 1, .endTx⟩] :=
  ((undo_update_step stubEngine (freshMgr stubInit)
      [UpdateLogRecord 1 NULL_LSN 1 7 0 "old" "new"]
      (UpdateLogRecord 1 NULL_LSN 1 7 0 "old" "new") [] 0 7 0 "old" "new"
      (by decide) rfl (by decide)).2.2.2.2.2.2.2.1 (by decide) rfl).2.2.1

/-! ### Voluntary abort -/

theorem undoLoop_nil (E : StorageEngine σ) (log : List LogRecord) (fuel : Nat) (m : LogMgr σ) :
    undoLoop E log fuel m [] = .ok m := by
  cases fuel <;> rfl

theorem undoLoop_mono (E : StorageEngine σ) (log : List LogRecord) (fuel : Nat) :
    ∀ (m : LogMgr σ) (q : List Int) (m2 : LogMgr σ) (extra : Nat),
      undoLoop E log fuel m q = .ok m2 → undoLoop E log (fuel + extra) m q = .ok m2 := by
  induction fuel with
  | zero =>
    intro m q m2 extra h
    cases q with
    | nil => rw [undoLoop_nil] at h ⊢; exact h
    | cons a q => simp [undoLoop] at h
  | succ n ih =>
    intro m q m2 extra h
    cases q with
    | nil => rw [undoLoop_nil] at h ⊢; exact h
    | cons a q =>
      have e : n + 1 + extra = (n + extra) + 1 := by omega
      rw [e]
      simp only [undoLoop] at h ⊢
      split at h
      · next hf => exact ih _ _ _ _ h
      · next r hf =>
        split_ifs at h with hc
        · rw [if_pos hc]; exact ih _ _ _ _ h
        · rw [if_neg hc]; exact h

theorem undoLoop_found (E : StorageEngine σ) {log : List LogRecord} (fuel : Nat) (m : LogMgr σ)
    {lsn : Int} (q : List Int) {r : LogRecord}
    (h : log.find? (fun x => decide (x.lsn = lsn)) = some r) :
    undoLoop E log (fuel + 1) m (lsn :: q) =
      (if (undoRecord E m r q).1 then
        undoLoop E log fuel (undoRecord E m r q).2.1 (undoRecord E m r q).2.2
      else .ok (undoRecord E m r q).2.1) := by
  simp only [undoLoop, h]

theorem undoLoop_missing (E : StorageEngine σ) {log : List LogRecord} (fuel : Nat)
    (m : LogMgr σ) {lsn : Int} (q : List Int)
    (h : log.find? (fun x => decide (x.lsn = lsn)) = none) :
    undoLoop E log (fuel + 1) m (lsn :: q) = undoLoop E log fuel m q := by
  simp only [undoLoop, h]

theorem getType_update {u : LogRecord} (h : u.getType = TxType.UPDATE) :
    ∃ pageID offset beforeImage afterImage,
      u.body = .update pageID offset beforeImage afterImage := by
  obtain ⟨l, p, t, b⟩ := u
  cases b <;> simp [LogRecord.getType] at h ⊢

theorem isUpdateOf_append {T : Int} {log : List LogRecord} {u : LogRecord}
    (h : IsUpdateOf T log u) (extra : List LogRecord) : IsUpdateOf T (log ++ extra) u := by
  obtain ⟨h1, h2, h3, h4⟩ := h
  exact ⟨h1, h2, h3, by rw [List.find?_append, h4]; rfl⟩

theorem updateChain_append {T : Int} {log : List LogRecord} (extra : List LogRecord) :
    ∀ {chain : List LogRecord}, UpdateChain T log chain → UpdateChain T (log ++ extra) chain := by
  intro chain
  induction chain with
  | nil => intro h; exact h
  | cons u rest ih =>
    intro h
    cases rest with
    | nil => exact ⟨isUpdateOf_append h.1 extra, h.2⟩
    | cons v rest2 => exact ⟨isUpdateOf_append h.1 extra, h.2.1, ih h.2.2⟩

theorem undoLoop_chain {E : StorageEngine σ} (hw : ∀ p o t l s, (E.pageWrite p o t l s).1 = true)
    (T : Int) (log : List LogRecord) :
    ∀ (rest : List LogRecord) (u : LogRecord) (m : LogMgr σ), UpdateChain T log (u :: rest) →
      ∃ m2 clrs end_lsn end_prev,
        undoLoop E log (u :: rest).length m [u.lsn] = .ok m2 ∧
        m2.logtail = m.logtail ++ clrs ++ [⟨end_lsn, end_prev, T, .endTx⟩] ∧
        List.Forall₂ IsCLROf (u :: rest) clrs ∧
        List.Forall₂ IsWriteOfCLR clrs (pageWrites (m2.calls.drop m.calls.length)) ∧
        m.calls <+: m2.calls ∧
        mapFind m2.tx_table T = none := by
  intro rest
  induction rest with
  | nil =>
    intro u m hc
    obtain ⟨⟨hu1, hu2, hu3, hu4⟩, hprev⟩ := hc
    obtain ⟨p, o, b, a, hb⟩ := getType_update hu2
    have hok : (compensate E m u p o b).1 = true := by rw [compensate_fst]; exact hw _ _ _ _ _
    have hrec : undoRecord E m u [] =
        (true, appendEnd E (compensate E m u p o b).2 (E.nextLSN m.se).1 u.txID, []) := by
      simp only [undoRecord, hb]
      rw [if_neg (by rw [hok]; decide), if_neg (by rw [hprev]; simp)]
    refine ⟨appendEnd E (compensate E m u p o b).2 (E.nextLSN m.se).1 u.txID,
      [CompensationLogRecord (E.nextLSN m.se).1 (getLastLSN m u.txID) u.txID p o b u.prevLSN],
      (E.nextLSN (compensate E m u p o b).2.se).1, (E.nextLSN m.se).1, ?_, ?_, ?_, ?_, ?_, ?_⟩
    · show undoLoop E log (0 + 1) m (u.lsn :: []) = _
      rw [undoLoop_found E 0 m [] hu4, hrec]
      simp only [if_true, undoLoop_nil]
    · simp [hu1]
    · exact List.Forall₂.cons ⟨p, o, b, a, hb, rfl, rfl⟩ List.Forall₂.nil
    · simp only [appendEnd_calls, compensate_calls, List.append_assoc, List.drop_left,
        List.cons_append, List.nil_append, pageWrites]
      rw [hw]
      exact List.Forall₂.cons ⟨p, o, b, u.prevLSN, rfl, rfl⟩ List.Forall₂.nil
    · simp only [appendEnd_calls, compensate_calls, List.append_assoc]
      exact List.prefix_append _ _
    · simp [mapFind_mapErase, hu1]
  | cons v rest2 ih =>
    intro u m hc
    obtain ⟨⟨hu1, hu2, hu3, hu4⟩, hprev, hrest⟩ := hc
    obtain ⟨p, o, b, a, hb⟩ := getType_update hu2
    have hv3 : v.lsn ≠ NULL_LSN := by
      cases rest2 with
      | nil => exact hrest.1.2.2.1
      | cons w r3 => exact hrest.1.2.2.1
    have hok : (compensate E m u p o b).1 = true := by rw [compensate_fst]; exact hw _ _ _ _ _
    have hrec : undoRecord E m u [] = (true, (compensate E m u p o b).2, [v.lsn]) := by
      simp only [undoRecord, hb]
      rw [if_neg (by rw [hok]; decide), if_pos (by rw [hprev]; exact hv3), hprev]
      rfl
    obtain ⟨m2, clrs, e, ep, h1, h2, h3, h4, h5, h6⟩ := ih v (compensate E m u p o b).2 hrest
    refine ⟨m2,
      CompensationLogRecord (E.nextLSN m.se).1 (getLastLSN m u.txID) u.txID p o b u.prevLSN :: clrs,
      e, ep, ?_, ?_, ?_, ?_, ?_, h6⟩
    · have e1 : (u :: v :: rest2).length = (v :: rest2).length + 1 := rfl
      rw [e1, undoLoop_found E _ m [] hu4, hrec]
      simp only [if_true]
      exact h1
    · rw [h2]; simp
    · exact List.Forall₂.cons ⟨p, o, b, a, hb, rfl, rfl⟩ h3
    · obtain ⟨t, ht⟩ := h5
      rw [← ht] at h4 ⊢
      simp only [compensate_calls, List.append_assoc, List.drop_left, List.cons_append,
        List.nil_append, pageWrites] at h4 ⊢
      rw [hw]
      refine List.Forall₂.cons ⟨p, o, b, u.prevLSN, rfl, rfl⟩ ?_
      have e2 : (m.calls ++ [Call.nextLSN (E.nextLSN m.se).1,
          Call.pageWrite p o b (E.nextLSN m.se).1
            (E.pageWrite p o b (E.nextLSN m.se).1 (E.nextLSN m.se).2).1]).length =
          (m.calls ++ (Call.nextLSN (E.nextLSN m.se).1 ::
            Call.pageWrite p o b (E.nextLSN m.se).1
              (E.pageWrite p o b (E.nextLSN m.se).1 (E.nextLSN m.se).2).1 :: [])).length := rfl
      simpa using h4
    · exact List.IsPrefix.trans (by rw [compensate_calls]; exact List.prefix_append _ _) h5

/-- C8: let `T` be a transaction whose records are the UPDATEs `us` (oldest first, the last
one `uk`), chained by `prevLSN`, each found under its LSN in the durable log followed by
the tail, with `lastLSN(T)` the LSN of `uk`; let `pageWrite` always succeed and the LSN
allocated for the ABORT be new to the log. Then `abort(T)` returns (for every budget above
the number of updates) and has appended to the tail, in this order, `ABORT(prev = LSN of
uk)`, one CLR per update in reverse order, each with the page, offset and before-image of
its update and `undoNextLSN` the update's `prevLSN`, and an END; its `pageWrite` calls are
exactly, in the same order, those installing each CLR's image under the CLR's LSN; and `T`
is absent from the transaction table afterwards. -/
theorem abort_rolls_back {E : StorageEngine σ} (m : LogMgr σ) (T : Int) (us : List LogRecord)
    (uk : LogRecord) (hT : T ≠ NULL_TX)
    (hw : ∀ p o t l s, (E.pageWrite p o t l s).1 = true)
    (hchain : UpdateChain T (E.getLog (E.nextLSN m.se).2 ++ m.logtail) us.reverse)
    (hk : us.getLast? = some uk)
    (hlast : getLastLSN m T = uk.lsn)
    (hfresh : ∀ r ∈ E.getLog (E.nextLSN m.se).2 ++ m.logtail, r.lsn ≠ (E.nextLSN m.se).1) :
    ∃ m2 clrs end_lsn end_prev,
      (∀ fuel, us.length + 1 ≤ fuel → abort E fuel m T = .ok m2) ∧
      m2.logtail =
        m.logtail ++ [⟨(E.nextLSN m.se).1, uk.lsn, T, .abort⟩] ++ clrs ++
          [⟨end_lsn, end_prev, T, .endTx⟩] ∧
      List.Forall₂ IsCLROf us.reverse clrs ∧
      List.Forall₂ IsWriteOfCLR clrs (pageWrites (m2.calls.drop m.calls.length)) ∧
      mapFind m2.tx_table T = none := by
  -- the chain, latest first
  obtain ⟨rest, hrev⟩ : ∃ rest, us.reverse = uk :: rest := by
    have h := List.head?_reverse us
    rw [hk] at h
    cases hr : us.reverse with
    | nil => rw [hr] at h; simp at h
    | cons a rest =>
      rw [hr] at h
      simp only [List.head?_cons, Option.some.injEq] at h
      exact ⟨rest, by rw [h]⟩
  rw [hrev] at hchain ⊢
  have hlen : us.length = (uk :: rest).length := by
    rw [← hrev, List.length_reverse]
  have huk : uk.lsn ≠ NULL_LSN := by
    cases rest with
    | nil => exact hchain.1.2.2.1
    | cons w r3 => exact hchain.1.2.2.1
  -- the state in which `undo` starts
  let ab : LogRecord := ⟨(E.nextLSN m.se).1, getLastLSN m T, T, .abort⟩
  let m5 : LogMgr σ :=
    (callGetLog E (setStatusGuarded (setLastLSN (pushTail (callNextLSN E m).2 ab) T
      (E.nextLSN m.se).1) T TxStatus.U)).2
  have hm5tail : m5.logtail = m.logtail ++ [ab] := by simp [m5]
  have hm5calls : m5.calls = m.calls ++ [Call.nextLSN (E.nextLSN m.se).1, Call.getLog] := by
    simp [m5]
  have hm5tt : mapFind m5.tx_table T = some ⟨(E.nextLSN m.se).1, TxStatus.U⟩ := by
    simp [m5, mapFind_setStatusGuarded _ _ _ _ hT, mapFind_setLastLSN _ _ _ _ hT]
  have hm5se : m5.se = (E.nextLSN m.se).2 := by simp [m5]
  have hlogeq : E.getLog (E.nextLSN m.se).2 ++ m5.logtail =
      (E.getLog (E.nextLSN m.se).2 ++ m.logtail) ++ [ab] := by
    rw [hm5tail, List.append_assoc]
  have habort : ∀ fuel, abort E fuel m T =
      undoLoop E ((E.getLog (E.nextLSN m.se).2 ++ m.logtail) ++ [ab]) fuel m5
        [(E.nextLSN m.se).1] := by
    intro fuel
    have hseed : seedToUndo m5 T = [(E.nextLSN m.se).1] := by
      simp only [seedToUndo, if_neg hT, hm5tt]
    have h0 : abort E fuel m T =
        undo E fuel m5 ((callGetLog E (setStatusGuarded (setLastLSN
          (pushTail (callNextLSN E m).2 ab) T (E.nextLSN m.se).1) T TxStatus.U)).1 ++
          m5.logtail) T := rfl
    rw [h0, callGetLog_fst, setStatusGuarded_se, setLastLSN_se, pushTail_se, callNextLSN_se,
      undo, hseed, hlogeq]
  have hfindab : ((E.getLog (E.nextLSN m.se).2 ++ m.logtail) ++ [ab]).find?
      (fun x => decide (x.lsn = (E.nextLSN m.se).1)) = some ab := by
    have hnone : (E.getLog (E.nextLSN m.se).2 ++ m.logtail).find?
        (fun x => decide (x.lsn = (E.nextLSN m.se).1)) = none := by
      rw [List.find?_eq_none]
      intro x hx
      simpa using hfresh x hx
    rw [List.find?_append, hnone]
    simp [ab]
  have hrecab : undoRecord E m5 ab [] = (true, m5, [uk.lsn]) := by
    have hp : ab.prevLSN ≠ NULL_LSN := by
      show getLastLSN m T ≠ NULL_LSN
      rw [hlast]; exact huk
    have hb : ab.body = .abort := rfl
    simp only [undoRecord, hb]
    rw [if_pos hp]
    show (true, m5, pqPush [] (getLastLSN m T)) = _
    rw [hlast]; rfl
  obtain ⟨m2, clrs, e, ep, h1, h2, h3, h4, h5, h6⟩ :=
    undoLoop_chain hw T ((E.getLog (E.nextLSN m.se).2 ++ m.logtail) ++ [ab]) rest uk m5
      (updateChain_append [ab] hchain)
  refine ⟨m2, clrs, e, ep, ?_, ?_, h3, ?_, h6⟩
  · intro fuel hfuel
    obtain ⟨extra, rfl⟩ : ∃ extra, fuel = ((uk :: rest).length + extra) + 1 :=
      ⟨fuel - (us.length + 1), by omega⟩
    rw [habort, undoLoop_found E _ m5 [] hfindab, hrecab]
    simp only [if_true]
    exact undoLoop_mono E _ _ _ _ _ extra h1
  · rw [h2, hm5tail]
    simp only [ab, hlast]
  · obtain ⟨t, ht⟩ := h5
    rw [← ht, hm5calls] at h4 ⊢
    simp only [List.append_assoc, List.drop_left] at h4 ⊢
    simpa [pageWrites] using h4

/-- Witness of C8 (scenario S3): transaction 2 writes page 9 at offsets 4 and 5 and is
then aborted, on the stub engine. -/
theorem abort_rolls_back_witness :
    ∃ m2 clrs end_lsn end_prev,
      (∀ fuel, 3 ≤ fuel →
        abort stubEngine fuel
          (write stubEngine (write stubEngine (freshMgr stubInit) 2 9 4 "B" "A").2 2 9 5 "D" "C").2
          2 = .ok m2) ∧
      m2.logtail =
        (write stubEngine (write stubEngine (freshMgr stubInit) 2 9 4 "B" "A").2 2 9 5 "D"
            "C").2.logtail ++
          [⟨3, 2, 2, .abort⟩] ++ clrs ++ [⟨end_lsn, end_prev, 2, .endTx⟩] ∧
      List.Forall₂ IsCLROf
        [UpdateLogRecord 2 1 2 9 5 "C" "D", UpdateLogRecord 1 NULL_LSN 2 9 4 "A" "B"] clrs ∧
      List.Forall₂ IsWriteOfCLR clrs (pageWrites (m2.calls.drop 2)) ∧
      mapFind m2.tx_table 2 = none :=
  abort_rolls_back (E := stubEngine)
    (write stubEngine (write stubEngine (freshMgr stubInit) 2 9 4 "B" "A").2 2 9 5 "D" "C").2 2
    [UpdateLogRecord 1 NULL_LSN 2 9 4 "A" "B", UpdateLogRecord 2 1 2 9 5 "C" "D"]
    (UpdateLogRecord 2 1 2 9 5 "C" "D") (by decide)
    (by intro p o t l s; rfl)
    ⟨⟨rfl, rfl, by decide, by decide⟩, rfl, ⟨rfl, rfl, by decide, by decide⟩, rfl⟩
    rfl (by decide) (by decide)

/-! ### Crash recovery ends every loser -/

/-- C10 as stated fails: in this log the LSNs increase and every `prevLSN` is `NULL_LSN` or
the LSN of an earlier record of the same transaction, yet transaction 1 is still in the
transaction table after `recover`: Undo compensates the UPDATE with LSN 3, follows its
`prevLSN` to the COMMIT record with LSN 2, on which it does nothing, and stops. -/
theorem recover_chain_counterexample :
    ChainedLog [UpdateLogRecord 1 NULL_LSN 1 7 0 "old" "new", ⟨2, 1, 1, .commit⟩,
      UpdateLogRecord 3 2 1 7 0 "new" "newer"] ∧
    ∃ m2, recover stubEngine 3 (freshMgr { stubInit with next := 4 })
        [UpdateLogRecord 1 NULL_LSN 1 7 0 "old" "new", ⟨2, 1, 1, .commit⟩,
          UpdateLogRecord 3 2 1 7 0 "new" "newer"] = Except.ok m2 ∧
      m2.tx_table = [(1, ⟨4, TxStatus.U⟩)] ∧
      m2.logtail = [CompensationLogRecord 4 3 1 7 0 "new" 2] :=
  ⟨by decide, _, rfl, by decide, by decide⟩

theorem mem_mapSet_self {V : Type} (m : List (Int × V)) (k : Int) (v : V) :
    (k, v) ∈ mapSet m k v := by
  induction m with
  | nil => simp [mapSet]
  | cons e m ih =>
    obtain ⟨a, b⟩ := e
    simp only [mapSet]
    split_ifs
    · exact List.mem_cons_self _ _
    · exact List.mem_cons_self _ _
    · exact List.mem_cons_of_mem _ ih

theorem mem_mapSet {V : Type} (m : List (Int × V)) (k : Int) (v : V) (x : Int × V)
    (h : x ∈ mapSet m k v) : x = (k, v) ∨ x ∈ m := by
  induction m with
  | nil => simp only [mapSet, List.mem_singleton] at h; exact Or.inl h
  | cons e m ih =>
    obtain ⟨a, b⟩ := e
    simp only [mapSet] at h
    split_ifs at h
    · rcases List.mem_cons.mp h with h | h
      · exact Or.inl h
      · exact Or.inr h
    · rcases List.mem_cons.mp h with h | h
      · exact Or.inl h
      · exact Or.inr (List.mem_cons_of_mem _ h)
    · rcases List.mem_cons.mp h with h | h
      · exact Or.inr (by rw [h]; exact List.mem_cons_self _ _)
      · rcases ih h with h | h
        · exact Or.inl h
        · exact Or.inr (List.mem_cons_of_mem _ h)

theorem mem_mapSet_of_ne {V : Type} (m : List (Int × V)) (k : Int) (v : V) (x : Int × V)
    (h : x ∈ m) (hx : x.1 ≠ k) : x ∈ mapSet m k v := by
  induction m with
  | nil => simp at h
  | cons e m ih =>
    obtain ⟨a, b⟩ := e
    simp only [mapSet]
    split_ifs with h1 h2
    · exact List.mem_cons_of_mem _ h
    · rcases List.mem_cons.mp h with h | h
      · subst h; exact absurd h2.symm hx
      · exact List.mem_cons_of_mem _ h
    · rcases List.mem_cons.mp h with h | h
      · rw [h]; exact List.mem_cons_self _ _
      · exact List.mem_cons_of_mem _ (ih h)

theorem mem_mapErase {V : Type} (m : List (Int × V)) (k : Int) (x : Int × V) :
    x ∈ mapErase m k ↔ x ∈ m ∧ x.1 ≠ k := by
  induction m with
  | nil => simp [mapErase]
  | cons e m ih =>
    obtain ⟨a, b⟩ := e
    simp only [mapErase]
    split_ifs with h1
    · rw [ih, List.mem_cons]
      constructor
      · rintro ⟨h2, h3⟩; exact ⟨Or.inr h2, h3⟩
      · rintro ⟨h2 | h2, h3⟩
        · subst h2; exact absurd h1 h3
        · exact ⟨h2, h3⟩
    · rw [List.mem_cons, ih, List.mem_cons]
      constructor
      · rintro (h2 | ⟨h2, h3⟩)
        · subst h2; exact ⟨Or.inl rfl, h1⟩
        · exact ⟨Or.inr h2, h3⟩
      · rintro ⟨h2 | h2, h3⟩
        · exact Or.inl h2
        · exact Or.inr ⟨h2, h3⟩

theorem mapSet_mapSet {V : Type} (m : List (Int × V)) (k : Int) (v w : V) :
    mapSet (mapSet m k v) k w = mapSet m k w := by
  induction m with
  | nil => simp [mapSet]
  | cons e m ih =>
    obtain ⟨a, b⟩ := e
    by_cases h1 : k < a
    · simp [mapSet, h1]
    · by_cases h2 : k = a
      · subst h2; simp [mapSet]
      · simp [mapSet, h1, h2, ih]

theorem mem_of_mapFind {V : Type} (m : List (Int × V)) (k : Int) (v : V)
    (h : mapFind m k = some v) : (k, v) ∈ m := by
  induction m with
  | nil => simp [mapFind] at h
  | cons e m ih =>
    obtain ⟨a, b⟩ := e
    simp only [mapFind] at h
    split_ifs at h with h1
    · simp only [Option.some.injEq] at h
      rw [h1, h]; exact List.mem_cons_self _ _
    · exact List.mem_cons_of_mem _ (ih h)

theorem find?_of_mem_pairwise {log : List LogRecord}
    (hp : log.Pairwise (fun a b => a.lsn < b.lsn)) {r : LogRecord} (hr : r ∈ log) :
    log.find? (fun x => decide (x.lsn = r.lsn)) = some r := by
  induction log with
  | nil => simp at hr
  | cons a rest ih =>
    rw [List.pairwise_cons] at hp
    rcases List.mem_cons.mp hr with h | h
    · subst h; simp
    · have hlt := hp.1 r h
      have hne : ¬ a.lsn = r.lsn := ne_of_lt hlt
      simp only [List.find?_cons, hne, decide_False]
      exact ih hp.2 h

theorem setLastLSN_tx_table (m : LogMgr σ) (t l : Int) (ht : t ≠ NULL_TX) :
    (setLastLSN m t l).tx_table =
      mapSet m.tx_table t ⟨l, ((mapFind m.tx_table t).getD txTableEntry.fresh).status⟩ := by
  unfold setLastLSN
  rw [if_neg ht]

theorem setLast_setStatus_tx_table (m : LogMgr σ) (t l : Int) (s : TxStatus)
    (ht : t ≠ NULL_TX) :
    (setStatusGuarded (setLastLSN m t l) t s).tx_table = mapSet m.tx_table t ⟨l, s⟩ := by
  unfold setStatusGuarded
  rw [if_pos ht]
  show mapSet (setLastLSN m t l).tx_table t
    ⟨((mapFind (setLastLSN m t l).tx_table t).getD txTableEntry.fresh).lastLSN, s⟩ = _
  rw [mapFind_setLastLSN _ _ _ _ ht, if_pos rfl, setLastLSN_tx_table _ _ _ ht, mapSet_mapSet]
  rfl

theorem setStatusGuarded_null (m : LogMgr σ) (s : TxStatus) :
    setStatusGuarded m NULL_TX s = m := by
  unfold setStatusGuarded
  rw [if_neg (by simp)]

theorem setLastLSN_null (m : LogMgr σ) (l : Int) : setLastLSN m NULL_TX l = m := by
  unfold setLastLSN
  rw [if_pos rfl]

theorem analyzeRecord_tx_table (m : LogMgr σ) (r : LogRecord) (ht : r.txID ≠ NULL_TX) :
    (analyzeRecord m r).tx_table =
      match r.body with
      | .commit => mapSet m.tx_table r.txID ⟨r.lsn, TxStatus.C⟩
      | .endTx => mapErase (mapSet m.tx_table r.txID ⟨r.lsn, TxStatus.U⟩) r.txID
      | _ => mapSet m.tx_table r.txID ⟨r.lsn, TxStatus.U⟩ := by
  have h2 := setLast_setStatus_tx_table m r.txID r.lsn TxStatus.U ht
  obtain ⟨l, p, t, b⟩ := r
  cases b with
  | commit =>
    simp only [analyzeRecord]
    simp only [setStatusGuarded, if_pos ht] at h2 ⊢
    show mapSet (setStatus (setLastLSN m t l) t TxStatus.U).tx_table t
      ⟨((mapFind (setStatus (setLastLSN m t l) t TxStatus.U).tx_table t).getD
        txTableEntry.fresh).lastLSN, TxStatus.C⟩ = _
    rw [h2, mapFind_mapSet, if_pos rfl, mapSet_mapSet]
    rfl
  | endTx => simp only [analyzeRecord, eraseTx_tx_table, h2]
  | update a b c d => simp only [analyzeRecord, dirtyIfAbsent_tx_table, h2]
  | clr a b c d => simp only [analyzeRecord, dirtyIfAbsent_tx_table, h2]
  | abort => simp only [analyzeRecord, h2]
  | beginCkpt => simp only [analyzeRecord, h2]
  | endCkpt a b => simp only [analyzeRecord, h2]

theorem analyzeRecord_tx_table_null (m : LogMgr σ) (r : LogRecord) (ht : r.txID = NULL_TX) :
    ∀ x ∈ (analyzeRecord m r).tx_table, x ∈ m.tx_table := by
  obtain ⟨l, p, t, b⟩ := r
  simp only at ht
  subst ht
  intro x hx
  cases b <;>
    simp only [analyzeRecord, setLastLSN_null, setStatusGuarded_null, dirtyIfAbsent_tx_table,
      eraseTx_tx_table] at hx
  all_goals first
    | exact hx
    | exact ((mem_mapErase _ _ _).mp hx).1

theorem analyzeRecord_good {log : List LogRecord} (hlog : UndoableLog log) (m : LogMgr σ)
    (r : LogRecord) (hr : r ∈ log) (hg : GoodTable log m.tx_table) :
    GoodTable log (analyzeRecord m r).tx_table := by
  by_cases ht : r.txID = NULL_TX
  · intro x hx
    exact hg x (analyzeRecord_tx_table_null m r ht x hx)
  · have htt := analyzeRecord_tx_table m r ht
    have hty := hlog.2.2.1 r hr ht
    intro x hx
    rw [htt] at hx
    have hnew : ∀ (u : Undoable r), x = (r.txID, (⟨r.lsn, TxStatus.U⟩ : txTableEntry)) →
        x.1 ≠ NULL_TX ∧ (x.2.status = TxStatus.U →
          ∃ r2 ∈ log, r2.lsn = x.2.lastLSN ∧ r2.txID = x.1 ∧ Undoable r2) := by
      intro u hx2
      subst hx2
      exact ⟨ht, fun _ => ⟨r, hr, rfl, rfl, u⟩⟩
    obtain ⟨l, p, t, b⟩ := r
    cases b with
    | commit =>
      rcases mem_mapSet _ _ _ _ hx with h | h
      · subst h; exact ⟨ht, fun hs => by simp at hs⟩
      · exact hg x h
    | endTx =>
      have h1 := (mem_mapErase _ _ _).mp hx
      rcases mem_mapSet _ _ _ _ h1.1 with h | h
      · subst h; exact absurd rfl h1.2
      · exact hg x h
    | update a b c d =>
      rcases mem_mapSet _ _ _ _ hx with h | h
      · exact hnew (Or.inl rfl) h
      · exact hg x h
    | clr a b c d =>
      rcases mem_mapSet _ _ _ _ hx with h | h
      · exact hnew (Or.inr (Or.inl rfl)) h
      · exact hg x h
    | abort =>
      rcases mem_mapSet _ _ _ _ hx with h | h
      · exact hnew (Or.inr (Or.inr rfl)) h
      · exact hg x h
    | beginCkpt => exact absurd rfl hty.1
    | endCkpt a b => exact absurd rfl hty.2

theorem seekLSN_subset (lsn : Int) (log : List LogRecord) :
    ∀ r ∈ seekLSN lsn log, r ∈ log := by
  induction log with
  | nil => intro r hr; simp [seekLSN] at hr
  | cons a rest ih =>
    intro r hr
    simp only [seekLSN] at hr
    split_ifs at hr
    · exact hr
    · exact List.mem_cons_of_mem _ (ih r hr)

theorem foldl_analyzeRecord_good {log : List LogRecord} (hlog : UndoableLog log)
    (start : List LogRecord) :
    ∀ (m : LogMgr σ), (∀ r ∈ start, r ∈ log) → GoodTable log m.tx_table →
      GoodTable log (start.foldl analyzeRecord m).tx_table := by
  induction start with
  | nil => intro m _ hg; exact hg
  | cons a rest ih =>
    intro m hs hg
    simp only [List.foldl_cons]
    exact ih _ (fun r hr => hs r (List.mem_cons_of_mem _ hr))
      (analyzeRecord_good hlog m a (hs a (List.mem_cons_self _ _)) hg)

theorem analyze_good {log : List LogRecord} (hlog : UndoableLog log) (m : LogMgr σ)
    (hg : GoodTable log (adoptCheckpoint m log).tx_table) :
    ∃ m1, analyze m log = .ok m1 ∧ GoodTable log m1.tx_table ∧ m1.logtail = m.logtail ∧
      m1.se = m.se := by
  cases hl : log with
  | nil => exact absurd hl hlog.1
  | cons first rest =>
    rw [← hl]
    have ha : analyze m log = .ok
        ((if first.lsn < startLSN log ∨ startLSN log ≠ NULL_LSN then seekLSN (startLSN log) log
          else log).foldl analyzeRecord (adoptCheckpoint m log)) := by
      rw [hl]; rfl
    refine ⟨_, ha, ?_, (analyze_frame ha).1, (analyze_frame ha).2.1⟩
    apply foldl_analyzeRecord_good hlog _ _ _ hg
    intro r hr
    split_ifs at hr
    · exact seekLSN_subset _ _ r hr
    · exact hr

theorem mem_pqPush (q : List Int) (x y : Int) : y ∈ pqPush q x ↔ y = x ∨ y ∈ q := by
  induction q with
  | nil => simp [pqPush]
  | cons a q ih =>
    simp only [pqPush]
    split_ifs
    · simp
    · simp only [List.mem_cons, ih]
      constructor
      · rintro (h | h | h)
        · exact Or.inr (Or.inl h)
        · exact Or.inl h
        · exact Or.inr (Or.inr h)
      · rintro (h | h | h)
        · exact Or.inr (Or.inl h)
        · exact Or.inl h
        · exact Or.inr (Or.inr h)

theorem weight_pqPush (log : List LogRecord) (q : List Int) (x : Int) :
    weight log (pqPush q x) = rank log x + weight log q := by
  induction q with
  | nil => simp [pqPush, weight]
  | cons a q ih =>
    simp only [pqPush]
    split_ifs
    · simp [weight]
    · unfold weight at ih ⊢
      simp only [List.map_cons, List.sum_cons, ih]
      omega

theorem weight_cons (log : List LogRecord) (q : List Int) (x : Int) :
    weight log (x :: q) = rank log x + weight log q := by
  simp [weight]

theorem rank_pos {log : List LogRecord} {r : LogRecord} (hr : r ∈ log) : 0 < rank log r.lsn := by
  unfold rank
  apply List.length_pos_of_mem (a := r)
  rw [List.mem_filter]
  exact ⟨hr, by simp⟩

theorem rank_lt {log : List LogRecord} {r : LogRecord} (hr : r ∈ log) {n : Int}
    (hn : n < r.lsn) : rank log n < rank log r.lsn := by
  unfold rank
  induction log with
  | nil => simp at hr
  | cons a rest ih =>
    have hmono : (rest.filter (fun x => decide (x.lsn ≤ n))).length ≤
        (rest.filter (fun x => decide (x.lsn ≤ r.lsn))).length := by
      apply List.Sublist.length_le
      apply List.monotone_filter_right
      intro x hx
      simp only [decide_eq_true_eq] at hx ⊢
      omega
    rcases List.mem_cons.mp hr with h | h
    · subst h
      have h1 : ¬ r.lsn ≤ n := not_le.mpr hn
      simp only [List.filter_cons, h1, decide_False, le_refl, decide_True, if_true,
        List.length_cons]
      simp only [Bool.false_eq_true, if_false]
      omega
    · have := ih h
      simp only [List.filter_cons]
      by_cases h1 : a.lsn ≤ n
      · have h2 : a.lsn ≤ r.lsn := by omega
        simp only [h1, h2, decide_True, if_true, List.length_cons]
        omega
      · by_cases h2 : a.lsn ≤ r.lsn
        · simp only [h1, h2, decide_True, decide_False, if_true, List.length_cons]
          simp only [Bool.false_eq_true, if_false]
          omega
        · simp only [h1, h2, decide_False]
          simp only [Bool.false_eq_true, if_false]
          exact this

theorem endsLast_append_end (tail : List LogRecord) (r : LogRecord)
    (hr : r.getType = TxType.END) : EndsLast (tail ++ [r]) r.txID := by
  refine ⟨r, ?_, hr⟩
  simp [List.filter_append, List.filter_cons]

theorem endsLast_append_other (tail recs : List LogRecord) (T : Int)
    (hr : ∀ y ∈ recs, y.txID ≠ T) (h : EndsLast tail T) : EndsLast (tail ++ recs) T := by
  obtain ⟨r, h1, h2⟩ := h
  refine ⟨r, ?_, h2⟩
  have : recs.filter (fun x => decide (x.txID = T)) = [] := by
    rw [List.filter_eq_nil_iff]
    intro y hy
    simpa using hr y hy
  rw [List.filter_append, this, List.append_nil]
  exact h1

theorem endsLast_of_all_end (tail : List LogRecord) (T : Int)
    (hall : ∀ r ∈ tail, r.getType = TxType.END) (hex : ∃ r ∈ tail, r.txID = T) :
    EndsLast tail T := by
  obtain ⟨r, hr, hT⟩ := hex
  have hne : tail.filter (fun x => decide (x.txID = T)) ≠ [] := by
    intro h
    rw [List.filter_eq_nil_iff] at h
    exact h r hr (by simpa using hT)
  obtain ⟨l, hl⟩ := Option.isSome_iff_exists.mp
    (by rw [List.getLast?_isSome]; exact hne :
      ((tail.filter (fun x => decide (x.txID = T))).getLast?).isSome)
  refine ⟨l, hl, ?_⟩
  have hmem := List.mem_of_getLast?_eq_some hl
  exact hall l (List.mem_filter.mp hmem).1

theorem compensate_tx_table_eq (E : StorageEngine σ) (m : LogMgr σ) (r : LogRecord) (p o : Int)
    (b : String) (ht : r.txID ≠ NULL_TX) :
    (compensate E m r p o b).2.tx_table =
      mapSet m.tx_table r.txID ⟨(E.nextLSN m.se).1, TxStatus.U⟩ := by
  have h := setLast_setStatus_tx_table
    (pushTail (callNextLSN E m).2
      (CompensationLogRecord (E.nextLSN m.se).1 (getLastLSN (callNextLSN E m).2 r.txID) r.txID
        p o b r.prevLSN)) r.txID (E.nextLSN m.se).1 TxStatus.U ht
  simp only [compensate, callPageWrite_tx_table, dirtyIfAbsent_tx_table, callNextLSN_fst]
  rw [h]
  rfl

theorem undoInv_push {log : List LogRecord} {K : Int → Prop} {m m2 : LogMgr σ} {L : Int}
    {rest : List Int} {r r2 : LogRecord}
    (hinv : UndoInv log K m (L :: rest))
    (hf : log.find? (fun x => decide (x.lsn = L)) = some r)
    (hf2 : log.find? (fun x => decide (x.lsn = r2.lsn)) = some r2)
    (hu2 : Undoable r2) (ht2 : r2.txID = r.txID) (hnull : r.txID ≠ NULL_TX)
    (h1 : ∀ x ∈ m2.tx_table, x ∈ m.tx_table ∨ x.1 = r.txID)
    (h2 : ∀ x ∈ m.tx_table, x.1 ≠ r.txID → x ∈ m2.tx_table)
    (h3 : ∃ recs, m2.logtail = m.logtail ++ recs ∧ ∀ y ∈ recs, y.txID = r.txID)
    (h4 : ((∃ e, (r.txID, e) ∈ m.tx_table) ∨ EndsLast m.logtail r.txID) →
      ((∃ e, (r.txID, e) ∈ m2.tx_table) ∨ EndsLast m2.logtail r.txID)) :
    UndoInv log K m2 (pqPush rest r2.lsn) := by
  obtain ⟨i1, i2, i3⟩ := hinv
  refine ⟨?_, ?_, ?_⟩
  · intro L2 hL2
    rcases (mem_pqPush _ _ _).mp hL2 with h | h
    · subst h; exact ⟨r2, hf2, hu2, by rw [ht2]; exact hnull⟩
    · exact i1 L2 (List.mem_cons_of_mem _ h)
  · intro x hx
    have own : ∃ L2 ∈ pqPush rest r2.lsn, ∃ r3,
        log.find? (fun x => decide (x.lsn = L2)) = some r3 ∧ r3.txID = r.txID :=
      ⟨r2.lsn, (mem_pqPush _ _ _).mpr (Or.inl rfl), r2, hf2, ht2⟩
    by_cases hk : x.1 = r.txID
    · rw [hk]; exact own
    · rcases h1 x hx with h | h
      · obtain ⟨L2, hL2, r3, hr3, ht3⟩ := i2 x h
        rcases List.mem_cons.mp hL2 with h5 | h5
        · subst h5
          rw [hf] at hr3
          simp only [Option.some.injEq] at hr3
          subst hr3
          exact absurd ht3.symm hk
        · exact ⟨L2, (mem_pqPush _ _ _).mpr (Or.inr h5), r3, hr3, ht3⟩
      · exact absurd h hk
  · intro T hT
    by_cases hk : T = r.txID
    · subst hk; exact h4 (i3 _ hT)
    · rcases i3 T hT with ⟨e, he⟩ | he
      · exact Or.inl ⟨e, h2 _ he hk⟩
      · obtain ⟨recs, hr1, hr2⟩ := h3
        right
        rw [hr1]
        exact endsLast_append_other _ _ _ (fun y hy => by rw [hr2 y hy]; exact fun h => hk h.symm) he

theorem undoInv_end {log : List LogRecord} {K : Int → Prop} {m m2 : LogMgr σ} {L : Int}
    {rest : List Int} {r : LogRecord}
    (hinv : UndoInv log K m (L :: rest))
    (hf : log.find? (fun x => decide (x.lsn = L)) = some r)
    (h1 : ∀ x ∈ m2.tx_table, x ∈ m.tx_table ∧ x.1 ≠ r.txID)
    (h2 : ∀ x ∈ m.tx_table, x.1 ≠ r.txID → x ∈ m2.tx_table)
    (h3 : ∃ recs, m2.logtail = m.logtail ++ recs ∧ ∀ y ∈ recs, y.txID = r.txID)
    (h4 : EndsLast m2.logtail r.txID) :
    UndoInv log K m2 rest := by
  obtain ⟨i1, i2, i3⟩ := hinv
  refine ⟨fun L2 hL2 => i1 L2 (List.mem_cons_of_mem _ hL2), ?_, ?_⟩
  · intro x hx
    obtain ⟨hx1, hx2⟩ := h1 x hx
    obtain ⟨L2, hL2, r3, hr3, ht3⟩ := i2 x hx1
    rcases List.mem_cons.mp hL2 with h5 | h5
    · subst h5
      rw [hf] at hr3
      simp only [Option.some.injEq] at hr3
      subst hr3
      exact absurd ht3.symm hx2
    · exact ⟨L2, h5, r3, hr3, ht3⟩
  · intro T hT
    by_cases hk : T = r.txID
    · subst hk; exact Or.inr h4
    · rcases i3 T hT with ⟨e, he⟩ | he
      · exact Or.inl ⟨e, h2 _ he hk⟩
      · obtain ⟨recs, hr1, hr2⟩ := h3
        right
        rw [hr1]
        exact endsLast_append_other _ _ _ (fun y hy => by rw [hr2 y hy]; exact fun h => hk h.symm) he

theorem appendEnd_effect (E : StorageEngine σ) (m : LogMgr σ) (prev T : Int) :
    (∀ x ∈ (appendEnd E m prev T).tx_table, x ∈ m.tx_table ∧ x.1 ≠ T) ∧
    (∀ x ∈ m.tx_table, x.1 ≠ T → x ∈ (appendEnd E m prev T).tx_table) ∧
    EndsLast (appendEnd E m prev T).logtail T := by
  refine ⟨?_, ?_, ?_⟩
  · intro x hx
    rw [appendEnd_tx_table] at hx
    exact (mem_mapErase _ _ _).mp hx
  · intro x hx hne
    rw [appendEnd_tx_table]
    exact (mem_mapErase _ _ _).mpr ⟨hx, hne⟩
  · rw [appendEnd_logtail]
    exact endsLast_append_end m.logtail ⟨(E.nextLSN m.se).1, prev, T, .endTx⟩ rfl

theorem undoRecord_inv {E : StorageEngine σ}
    (hw : ∀ p o t l s, (E.pageWrite p o t l s).1 = true) {log : List LogRecord}
    (hlog : UndoableLog log) {K : Int → Prop} {m : LogMgr σ} {L : Int} {rest : List Int}
    {r : LogRecord} (hinv : UndoInv log K m (L :: rest))
    (hf : log.find? (fun x => decide (x.lsn = L)) = some r) :
    (undoRecord E m r rest).1 = true ∧
    UndoInv log K (undoRecord E m r rest).2.1 (undoRecord E m r rest).2.2 ∧
    weight log (undoRecord E m r rest).2.2 < weight log (L :: rest) := by
  have hr : r ∈ log := List.mem_of_find?_eq_some hf
  have hL : r.lsn = L := by simpa using List.find?_some hf
  obtain ⟨r0, hr0, hund, hnull⟩ := hinv.1 L (List.mem_cons_self _ _)
  rw [hf] at hr0
  simp only [Option.some.injEq] at hr0
  subst hr0
  have hpos := rank_pos hr
  rw [hL] at hpos
  have hwend : weight log rest < weight log (L :: rest) := by
    rw [weight_cons]; omega
  -- the record that the chain leads to, when it goes on
  have hnext : followLSN r ≠ NULL_LSN →
      ∃ r2, log.find? (fun x => decide (x.lsn = r2.lsn)) = some r2 ∧ r2.lsn = followLSN r ∧
        Undoable r2 ∧ r2.txID = r.txID ∧
        weight log (pqPush rest r2.lsn) < weight log (L :: rest) := by
    intro hne
    rcases hlog.2.2.2 r hr hund with h | ⟨r2, hr2, e1, e2, e3, e4⟩
    · exact absurd h hne
    · refine ⟨r2, find?_of_mem_pairwise hlog.2.1 hr2, e1, e4, e3, ?_⟩
      rw [weight_pqPush, weight_cons, ← hL]
      have := rank_lt hr e2
      omega
  -- the two ways an iteration without compensation ends
  have hstay : followLSN r ≠ NULL_LSN →
      UndoInv log K m (pqPush rest (followLSN r)) ∧
        weight log (pqPush rest (followLSN r)) < weight log (L :: rest) := by
    intro hne
    obtain ⟨r2, f2, e1, u2, t2, w2⟩ := hnext hne
    rw [← e1]
    exact ⟨undoInv_push hinv hf f2 u2 t2 hnull (fun x hx => Or.inl hx) (fun x hx _ => hx)
      ⟨[], by simp, by simp⟩ id, w2⟩
  have hend : ∀ prev, UndoInv log K (appendEnd E m prev r.txID) rest := by
    intro prev
    obtain ⟨a1, a2, a3⟩ := appendEnd_effect E m prev r.txID
    exact undoInv_end hinv hf a1 a2
      ⟨[⟨(E.nextLSN m.se).1, prev, r.txID, .endTx⟩], by simp, by simp⟩ a3
  cases hb : r.body with
  | update p o bi ai =>
    have hfol : followLSN r = r.prevLSN := by simp [followLSN, hb]
    have hok : (compensate E m r p o bi).1 = true := by rw [compensate_fst]; exact hw _ _ _ _ _
    have htt := compensate_tx_table_eq E m r p o bi hnull
    have c1 : ∀ x ∈ (compensate E m r p o bi).2.tx_table, x ∈ m.tx_table ∨ x.1 = r.txID := by
      intro x hx
      rw [htt] at hx
      rcases mem_mapSet _ _ _ _ hx with h | h
      · exact Or.inr (by rw [h])
      · exact Or.inl h
    have c2 : ∀ x ∈ m.tx_table, x.1 ≠ r.txID → x ∈ (compensate E m r p o bi).2.tx_table := by
      intro x hx hne
      rw [htt]
      exact mem_mapSet_of_ne _ _ _ _ hx hne
    by_cases hp : r.prevLSN = NULL_LSN
    · have hrec : undoRecord E m r rest =
          (true, appendEnd E (compensate E m r p o bi).2 (E.nextLSN m.se).1 r.txID, rest) := by
        simp only [undoRecord, hb]
        rw [if_neg (by rw [hok]; decide), if_neg (by rw [hp]; simp)]
      rw [hrec]
      obtain ⟨a1, a2, a3⟩ :=
        appendEnd_effect E (compensate E m r p o bi).2 (E.nextLSN m.se).1 r.txID
      refine ⟨rfl, ?_, hwend⟩
      refine undoInv_end hinv hf ?_ ?_
        ⟨[CompensationLogRecord (E.nextLSN m.se).1 (getLastLSN m r.txID) r.txID p o bi r.prevLSN,
          ⟨(E.nextLSN (compensate E m r p o bi).2.se).1, (E.nextLSN m.se).1, r.txID, .endTx⟩],
          by simp, by simp [CompensationLogRecord]⟩ a3
      · intro x hx
        obtain ⟨h1, h2⟩ := a1 x hx
        rcases c1 x h1 with h | h
        · exact ⟨h, h2⟩
        · exact absurd h h2
      · intro x hx hne
        exact a2 x (c2 x hx hne) hne
    · have hrec : undoRecord E m r rest =
          (true, (compensate E m r p o bi).2, pqPush rest r.prevLSN) := by
        simp only [undoRecord, hb]
        rw [if_neg (by rw [hok]; decide), if_pos hp]
      rw [hrec]
      obtain ⟨r2, f2, e1, u2, t2, w2⟩ := hnext (by rw [hfol]; exact hp)
      rw [hfol] at e1
      rw [← e1]
      refine ⟨rfl, ?_, w2⟩
      refine undoInv_push hinv hf f2 u2 t2 hnull c1 c2
        ⟨[CompensationLogRecord (E.nextLSN m.se).1 (getLastLSN m r.txID) r.txID p o bi r.prevLSN],
          by simp, by simp [CompensationLogRecord]⟩ ?_
      intro _
      exact Or.inl ⟨_, by rw [htt]; exact mem_mapSet_self _ _ _⟩
  | clr p o ai n =>
    have hfol : followLSN r = n := by simp [followLSN, hb]
    by_cases hp : n = NULL_LSN
    · have hrec : undoRecord E m r rest = (true, appendEnd E m r.lsn r.txID, rest) := by
        simp only [undoRecord, hb]
        rw [if_neg (by rw [hp]; simp)]
      rw [hrec]
      exact ⟨rfl, hend _, hwend⟩
    · have hrec : undoRecord E m r rest = (true, m, pqPush rest n) := by
        simp only [undoRecord, hb]
        rw [if_pos hp]
      rw [hrec, ← hfol]
      exact ⟨rfl, hstay (by rw [hfol]; exact hp)⟩
  | abort =>
    have hfol : followLSN r = r.prevLSN := by simp [followLSN, hb]
    by_cases hp : r.prevLSN = NULL_LSN
    · have hrec : undoRecord E m r rest =
          (true, appendEnd E m (getLastLSN m r.txID) r.txID, rest) := by
        simp only [undoRecord, hb]
        rw [if_neg (by rw [hp]; simp)]
      rw [hrec]
      exact ⟨rfl, hend _, hwend⟩
    · have hrec : undoRecord E m r rest = (true, m, pqPush rest r.prevLSN) := by
        simp only [undoRecord, hb]
        rw [if_pos hp]
      rw [hrec, ← hfol]
      exact ⟨rfl, hstay (by rw [hfol]; exact hp)⟩
  | commit => rcases hund with h | h | h <;> simp [LogRecord.getType, hb] at h
  | endTx => rcases hund with h | h | h <;> simp [LogRecord.getType, hb] at h
  | beginCkpt => rcases hund with h | h | h <;> simp [LogRecord.getType, hb] at h
  | endCkpt a b => rcases hund with h | h | h <;> simp [LogRecord.getType, hb] at h

theorem undoLoop_ends {E : StorageEngine σ}
    (hw : ∀ p o t l s, (E.pageWrite p o t l s).1 = true) {log : List LogRecord}
    (hlog : UndoableLog log) (K : Int → Prop) (fuel : Nat) :
    ∀ (m : LogMgr σ) (q : List Int), UndoInv log K m q → weight log q ≤ fuel →
      ∃ m2, undoLoop E log fuel m q = .ok m2 ∧ m2.tx_table = [] ∧
        ∀ T, K T → EndsLast m2.logtail T := by
  induction fuel with
  | zero =>
    intro m q hinv hwt
    cases q with
    | nil =>
      refine ⟨m, undoLoop_nil E log 0 m, ?_, ?_⟩
      · cases htt : m.tx_table with
        | nil => rfl
        | cons x xs =>
          obtain ⟨L, hL, _⟩ := hinv.2.1 x (by rw [htt]; exact List.mem_cons_self _ _)
          simp at hL
      · intro T hT
        rcases hinv.2.2 T hT with ⟨e, he⟩ | h
        · obtain ⟨L, hL, _⟩ := hinv.2.1 _ he
          simp at hL
        · exact h
    | cons L rest =>
      obtain ⟨r, hf, _, _⟩ := hinv.1 L (List.mem_cons_self _ _)
      have := rank_pos (List.mem_of_find?_eq_some hf)
      have hL : r.lsn = L := by simpa using List.find?_some hf
      rw [weight_cons, ← hL] at hwt
      omega
  | succ n ih =>
    intro m q hinv hwt
    cases q with
    | nil =>
      refine ⟨m, undoLoop_nil E log _ m, ?_, ?_⟩
      · cases htt : m.tx_table with
        | nil => rfl
        | cons x xs =>
          obtain ⟨L, hL, _⟩ := hinv.2.1 x (by rw [htt]; exact List.mem_cons_self _ _)
          simp at hL
      · intro T hT
        rcases hinv.2.2 T hT with ⟨e, he⟩ | h
        · obtain ⟨L, hL, _⟩ := hinv.2.1 _ he
          simp at hL
        · exact h
    | cons L rest =>
      obtain ⟨r, hf, _, _⟩ := hinv.1 L (List.mem_cons_self _ _)
      obtain ⟨s1, s2, s3⟩ := undoRecord_inv hw hlog hinv hf
      rw [undoLoop_found E n m rest hf, if_pos s1]
      exact ih _ _ s2 (by omega)

theorem redoScan_ok {E : StorageEngine σ} (hw : ∀ p o t l s, (E.pageWrite p o t l s).1 = true)
    (log : List LogRecord) :
    ∀ (m : LogMgr σ), (redoScan E m log).1 = true ∧
      (redoScan E m log).2.tx_table = m.tx_table ∧
      (redoScan E m log).2.logtail = m.logtail := by
  induction log with
  | nil => intro m; exact ⟨rfl, rfl, rfl⟩
  | cons r rest ih =>
    intro m
    unfold redoScan
    split
    · exact ih m
    · split
      · exact ih m
      · split_ifs with h1 h2 h3
        · exact ih m
        · exact ih _
        · rw [callPageWrite_fst, hw] at h3
          exact absurd h3 (by decide)
        · exact ih _

theorem foldl_eraseTx_mem (ks : List Int) :
    ∀ (m : LogMgr σ) (x : Int × txTableEntry),
      x ∈ (ks.foldl eraseTx m).tx_table ↔ x ∈ m.tx_table ∧ x.1 ∉ ks := by
  induction ks with
  | nil => intro m x; simp
  | cons k ks ih =>
    intro m x
    simp only [List.foldl_cons, ih, eraseTx_tx_table, mem_mapErase, List.mem_cons, not_or]
    constructor
    · rintro ⟨⟨h1, h2⟩, h3⟩; exact ⟨h1, h2, h3⟩
    · rintro ⟨h1, h2, h3⟩; exact ⟨⟨h1, h2⟩, h3⟩

theorem redoEnd_appended (E : StorageEngine σ) (tt : List (Int × txTableEntry)) :
    ∀ (acc : LogMgr σ), ∃ ends,
      (tt.foldl
        (fun acc e =>
          if e.2.status = TxStatus.C then
            pushTail (callNextLSN E acc).2 ⟨(callNextLSN E acc).1, e.2.lastLSN, e.1, .endTx⟩
          else acc) acc).logtail = acc.logtail ++ ends ∧
      (tt.foldl
        (fun acc e =>
          if e.2.status = TxStatus.C then
            pushTail (callNextLSN E acc).2 ⟨(callNextLSN E acc).1, e.2.lastLSN, e.1, .endTx⟩
          else acc) acc).tx_table = acc.tx_table ∧
      (∀ r ∈ ends, r.getType = TxType.END) ∧
      (∀ x ∈ tt, x.2.status = TxStatus.C → ∃ r ∈ ends, r.txID = x.1) := by
  induction tt with
  | nil => intro acc; exact ⟨[], by simp, rfl, by simp, by simp⟩
  | cons e tt ih =>
    intro acc
    simp only [List.foldl_cons]
    by_cases hc : e.2.status = TxStatus.C
    · simp only [if_pos hc]
      obtain ⟨ends, h1, h2, h3, h4⟩ := ih
        (pushTail (callNextLSN E acc).2 ⟨(callNextLSN E acc).1, e.2.lastLSN, e.1, .endTx⟩)
      refine ⟨⟨(callNextLSN E acc).1, e.2.lastLSN, e.1, .endTx⟩ :: ends, ?_, ?_, ?_, ?_⟩
      · rw [h1]; simp
      · rw [h2]; rfl
      · intro r hr
        rcases List.mem_cons.mp hr with h | h
        · rw [h]; rfl
        · exact h3 r h
      · intro x hx hxc
        rcases List.mem_cons.mp hx with h | h
        · exact ⟨_, List.mem_cons_self _ _, by rw [h]⟩
        · obtain ⟨r, hr, ht⟩ := h4 x h hxc
          exact ⟨r, List.mem_cons_of_mem _ hr, ht⟩
    · simp only [if_neg hc]
      obtain ⟨ends, h1, h2, h3, h4⟩ := ih acc
      refine ⟨ends, h1, h2, h3, ?_⟩
      intro x hx hxc
      rcases List.mem_cons.mp hx with h | h
      · rw [h] at hxc; exact absurd hxc hc
      · exact h4 x h hxc

theorem redoEnd_effect (E : StorageEngine σ) (m : LogMgr σ) :
    (∀ x, x ∈ (redoEnd E m).tx_table ↔
      x ∈ m.tx_table ∧ ∀ y ∈ m.tx_table, y.1 = x.1 → y.2.status ≠ TxStatus.C) ∧
    ∃ ends, (redoEnd E m).logtail = m.logtail ++ ends ∧
      (∀ r ∈ ends, r.getType = TxType.END) ∧
      (∀ x ∈ m.tx_table, x.2.status = TxStatus.C → ∃ r ∈ ends, r.txID = x.1) := by
  obtain ⟨ends, h1, h2, h3, h4⟩ := redoEnd_appended E m.tx_table m
  obtain ⟨f1, _, _, _⟩ := foldl_eraseTx_frame
    ((m.tx_table.filter (fun e => decide (e.2.status = TxStatus.C))).map Prod.fst)
    (m.tx_table.foldl
      (fun acc e =>
        if e.2.status = TxStatus.C then
          pushTail (callNextLSN E acc).2 ⟨(callNextLSN E acc).1, e.2.lastLSN, e.1, .endTx⟩
        else acc) m)
  refine ⟨?_, ends, ?_, h3, h4⟩
  · intro x
    unfold redoEnd
    simp only [foldl_eraseTx_mem, h2, List.mem_map, List.mem_filter, decide_eq_true_eq,
      not_exists, not_and]
    constructor
    · rintro ⟨hx, hn⟩
      exact ⟨hx, fun y hy hk hc => hn y ⟨hy, hc⟩ hk⟩
    · rintro ⟨hx, hn⟩
      exact ⟨hx, fun y hy hk => hn y hy.1 hk hy.2⟩
  · unfold redoEnd
    rw [f1, h1]

theorem redo_ok {E : StorageEngine σ} (hw : ∀ p o t l s, (E.pageWrite p o t l s).1 = true)
    (m : LogMgr σ) {log : List LogRecord} (hne : log ≠ []) :
    ∃ mS, redo E m log = .ok (true, redoEnd E mS) ∧ mS.tx_table = m.tx_table ∧
      mS.logtail = m.logtail := by
  cases hl : log with
  | nil => exact absurd hl hne
  | cons first rest =>
    cases hd : m.dirty_page_table with
    | nil =>
      refine ⟨m, ?_, rfl, rfl⟩
      simp only [redo, hd]
    | cons d ds =>
      obtain ⟨s1, s2, s3⟩ := redoScan_ok hw
        (if minRecLSN (d :: ds) ≠ NULL_LSN ∧ first.lsn < minRecLSN (d :: ds) then
          seekLSN (minRecLSN (d :: ds)) (first :: rest) else first :: rest) m
      refine ⟨_, ?_, s2, s3⟩
      simp only [redo, hd]
      rw [if_pos s1]

theorem mem_seedToUndo (m : LogMgr σ) (L : Int) :
    L ∈ seedToUndo m NULL_TX ↔ ∃ x ∈ m.tx_table, x.2.lastLSN = L := by
  unfold seedToUndo
  rw [if_pos rfl]
  have key : ∀ (tt : List (Int × txTableEntry)) (q : List Int),
      L ∈ tt.foldl (fun q e => pqPush q e.2.lastLSN) q ↔
        L ∈ q ∨ ∃ x ∈ tt, x.2.lastLSN = L := by
    intro tt
    induction tt with
    | nil => intro q; simp
    | cons e tt ih =>
      intro q
      simp only [List.foldl_cons, ih, mem_pqPush, List.mem_cons, exists_eq_or_imp]
      constructor
      · rintro ((h | h) | h)
        · exact Or.inr (Or.inl h.symm)
        · exact Or.inl h
        · exact Or.inr (Or.inr h)
      · rintro (h | h | h)
        · exact Or.inl (Or.inr h)
        · exact Or.inl (Or.inl h.symm)
        · exact Or.inr h
  rw [key]
  simp

/-- C10, amended: let `log` be a non-empty log with strictly increasing LSNs in which every
record of a transaction other than `NULL_TX` is an UPDATE, CLR, ABORT, COMMIT or END and
the LSN that Undo follows from an UPDATE, CLR or ABORT record (`prevLSN`, for a CLR
`undoNextLSN`) is `NULL_LSN` or the LSN of an earlier UPDATE, CLR or ABORT record of the
same transaction; let the table that Analysis starts from (the snapshot of the last
END_CKPT, empty without one) list only such transactions, those of status U with the LSN of
an UPDATE, CLR or ABORT record of theirs in the log. Then on a fresh manager and with an
engine whose `pageWrite` always succeeds, `recover(log)` returns for every large enough
budget, the transaction table is empty afterwards, and for every transaction that was in
the transaction table after Analysis the last record in the tail is an END. -/
theorem recover_ends_losers {E : StorageEngine σ}
    (hw : ∀ p o t l s, (E.pageWrite p o t l s).1 = true) (s : σ) {log : List LogRecord}
    (hlog : UndoableLog log)
    (hsnap : GoodTable log (adoptCheckpoint (freshMgr s) log).tx_table) :
    ∃ m1 m2 fuel0,
      analyze (freshMgr s) log = .ok m1 ∧
      (∀ fuel, fuel0 ≤ fuel → recover E fuel (freshMgr s) log = .ok m2) ∧
      m2.tx_table = [] ∧
      ∀ T, mapFind m1.tx_table T ≠ none → EndsLast m2.logtail T := by
  obtain ⟨m1, ha, hg, ht, _⟩ := analyze_good hlog (freshMgr s) hsnap
  obtain ⟨mS, hredo, hS1, hS2⟩ := redo_ok (E := E) hw m1 hlog.1
  obtain ⟨e1, ends, e2, e3, e4⟩ := redoEnd_effect E mS
  have htail : (redoEnd E mS).logtail = ends := by
    rw [e2, hS2, ht]; rfl
  have hinv : UndoInv log (fun T => ∃ e, (T, e) ∈ m1.tx_table) (redoEnd E mS)
      (seedToUndo (redoEnd E mS) NULL_TX) := by
    refine ⟨?_, ?_, ?_⟩
    · intro L hL
      obtain ⟨x, hx, hxl⟩ := (mem_seedToUndo _ _).mp hL
      obtain ⟨hx1, hx2⟩ := (e1 x).mp hx
      rw [hS1] at hx1 hx2
      obtain ⟨g1, g2⟩ := hg x hx1
      have hU : x.2.status = TxStatus.U := by
        have := hx2 x hx1 rfl
        cases hs : x.2.status with
        | U => rfl
        | C => exact absurd hs this
      obtain ⟨r, hr, r1, r2, r3⟩ := g2 hU
      refine ⟨r, ?_, r3, by rw [r2]; exact g1⟩
      rw [← hxl, ← r1]
      exact find?_of_mem_pairwise hlog.2.1 hr
    · intro x hx
      obtain ⟨hx1, hx2⟩ := (e1 x).mp hx
      rw [hS1] at hx1 hx2
      obtain ⟨g1, g2⟩ := hg x hx1
      have hU : x.2.status = TxStatus.U := by
        have := hx2 x hx1 rfl
        cases hs : x.2.status with
        | U => rfl
        | C => exact absurd hs this
      obtain ⟨r, hr, r1, r2, r3⟩ := g2 hU
      refine ⟨x.2.lastLSN, (mem_seedToUndo _ _).mpr ⟨x, hx, rfl⟩, r, ?_, r2⟩
      rw [← r1]
      exact find?_of_mem_pairwise hlog.2.1 hr
    · rintro T ⟨e, he⟩
      by_cases hc : ∃ y ∈ m1.tx_table, y.1 = T ∧ y.2.status = TxStatus.C
      · obtain ⟨y, hy, hy1, hy2⟩ := hc
        right
        rw [htail]
        obtain ⟨r, hr, hrT⟩ := e4 y (by rw [hS1]; exact hy) hy2
        exact endsLast_of_all_end ends T e3 ⟨r, hr, by rw [hrT, hy1]⟩
      · left
        refine ⟨e, (e1 (T, e)).mpr ⟨by rw [hS1]; exact he, ?_⟩⟩
        intro y hy hk hcs
        rw [hS1] at hy
        exact hc ⟨y, hy, hk, hcs⟩
  obtain ⟨m2, h1, h2, h3⟩ := undoLoop_ends hw hlog (fun T => ∃ e, (T, e) ∈ m1.tx_table)
    (weight log (seedToUndo (redoEnd E mS) NULL_TX)) _ _ hinv (le_refl _)
  refine ⟨m1, m2, weight log (seedToUndo (redoEnd E mS) NULL_TX), ha, ?_, h2, ?_⟩
  · intro fuel hfuel
    obtain ⟨extra, rfl⟩ : ∃ extra,
        fuel = weight log (seedToUndo (redoEnd E mS) NULL_TX) + extra :=
      ⟨fuel - weight log (seedToUndo (redoEnd E mS) NULL_TX), by omega⟩
    simp only [recover, ha, hredo, undo]
    exact undoLoop_mono E log _ _ _ _ extra h1
  · intro T hT
    obtain ⟨e, he⟩ := Option.ne_none_iff_exists'.mp hT
    exact h3 T ⟨e, mem_of_mapFind _ _ _ he⟩

/-- Witness of C10 (amended): transaction 1 updates page 7, a checkpoint is taken, then
transaction 2 updates page 9 and transaction 1 updates page 7 again; crash. -/
theorem recover_ends_losers_witness :
    ∃ m1 m2 fuel0,
      analyze (freshMgr { stubInit with next := 6 })
        [UpdateLogRecord 1 NULL_LSN 1 7 0 "old" "new", ⟨2, NULL_LSN, NULL_TX, .beginCkpt⟩,
          ChkptLogRecord 3 2 NULL_TX [(1, ⟨1, TxStatus.U⟩)] [(7, 1)],
          UpdateLogRecord 4 NULL_LSN 2 9 4 "A" "B",
          UpdateLogRecord 5 1 1 7 0 "new" "newer"] = .ok m1 ∧
      (∀ fuel, fuel0 ≤ fuel →
        recover stubEngine fuel (freshMgr { stubInit with next := 6 })
          [UpdateLogRecord 1 NULL_LSN 1 7 0 "old" "new", ⟨2, NULL_LSN, NULL_TX, .beginCkpt⟩,
            ChkptLogRecord 3 2 NULL_TX [(1, ⟨1, TxStatus.U⟩)] [(7, 1)],
            UpdateLogRecord 4 NULL_LSN 2 9 4 "A" "B",
            UpdateLogRecord 5 1 1 7 0 "new" "newer"] = .ok m2) ∧
      m2.tx_table = [] ∧
      ∀ T, mapFind m1.tx_table T ≠ none → EndsLast m2.logtail T :=
  recover_ends_losers (E := stubEngine) (fun _ _ _ _ _ => rfl) { stubInit with next := 6 }
    (by decide) (by decide)

/-! ### `commit` of a transaction that is not in the transaction table -/

theorem mapErase_mapSet {V : Type} (m : List (Int × V)) (k : Int) (v : V) :
    mapErase (mapSet m k v) k = mapErase m k := by
  induction m with
  | nil => simp [mapSet, mapErase]
  | cons e m ih =>
    obtain ⟨k2, v2⟩ := e
    unfold mapSet
    by_cases h1 : k < k2
    · have h2 : k2 ≠ k := by omega
      simp [h1, mapErase, h2]
    · by_cases h2 : k = k2
      · subst h2
        simp [mapErase]
      · have h3 : k2 ≠ k := fun h => h2 h.symm
        simp [h1, h2, mapErase, h3, ih]

theorem mapErase_absent {V : Type} (m : List (Int × V)) (k : Int)
    (h : mapFind m k = none) : mapErase m k = m := by
  induction m with
  | nil => rfl
  | cons e m ih =>
    obtain ⟨k2, v2⟩ := e
    unfold mapFind at h
    by_cases h1 : k = k2
    · simp [h1] at h
    · have h3 : k2 ≠ k := fun h => h1 h.symm
      simp only [if_neg h1] at h
      simp [mapErase, h3, ih h]

theorem commit_tx_table (E : StorageEngine σ) (m : LogMgr σ) (txid : Int) :
    (commit E m txid).tx_table = mapErase m.tx_table txid := by
  by_cases hn : txid = NULL_TX
  · simp [commit, setLastLSN, setStatus, hn, mapErase_mapSet]
  · simp [commit, setLastLSN, setStatus, hn, mapErase_mapSet]

/-- C19, counterexample: on a fresh manager, where transaction 1 is not in the transaction
table, `commit(1)` is not a no-op: it passes the COMMIT record of transaction 1 to
`updateLog` and leaves the END record of transaction 1 in the log tail, which was empty. -/
theorem commit_unknown_counterexample :
    mapFind (freshMgr stubInit).tx_table 1 = none ∧
    (freshMgr stubInit).logtail = [] ∧
    (commit stubEngine (freshMgr stubInit) 1).logtail = [⟨2, 1, 1, .endTx⟩] ∧
    (commit stubEngine (freshMgr stubInit) 1).calls =
      [Call.nextLSN 1, Call.updateLog [⟨1, NULL_LSN, 1, .commit⟩], Call.nextLSN 2] := by
  decide

/-- C19, amended: for every state and every `txID` absent from the transaction table,
`commit(txID)` leaves the transaction table and the dirty page table as they were, but it
is not a no-op: it emits COMMIT(prev = `NULL_LSN`) and then END(prev = the COMMIT's LSN) for
`txID`, with LSNs from two `nextLSN` calls, and between them calls `updateLog` once with
the records taken off the front of the tail. -/
theorem commit_unknown (E : StorageEngine σ) (m : LogMgr σ) (txid : Int)
    (habs : mapFind m.tx_table txid = none) :
    (commit E m txid).tx_table = m.tx_table ∧
    (commit E m txid).dirty_page_table = m.dirty_page_table ∧
    ∃ commit_lsn end_lsn chunk,
      (commit E m txid).calls =
        m.calls ++ [Call.nextLSN commit_lsn, Call.updateLog chunk, Call.nextLSN end_lsn] ∧
      chunk ++ (commit E m txid).logtail =
        m.logtail ++ [⟨commit_lsn, NULL_LSN, txid, .commit⟩,
          ⟨end_lsn, commit_lsn, txid, .endTx⟩] := by
  have hl : getLastLSN m txid = NULL_LSN := by
    unfold getLastLSN
    rw [habs]
  refine ⟨?_, ?_, _, _, _, commit_calls E m txid, ?_⟩
  · rw [commit_tx_table, mapErase_absent _ _ habs]
  · simp [commit]
  · rw [commit_logtail, ← List.append_assoc, drainTail_append, hl]
    simp

/-- Witness of C19 (amended): `commit(1)` on a fresh manager with the stub engine. -/
theorem commit_unknown_witness :
    (commit stubEngine (freshMgr stubInit) 1).tx_table = [] ∧
    (commit stubEngine (freshMgr stubInit) 1).dirty_page_table = [] ∧
    ∃ commit_lsn end_lsn chunk,
      (commit stubEngine (freshMgr stubInit) 1).calls =
        [] ++ [Call.nextLSN commit_lsn, Call.updateLog chunk, Call.nextLSN end_lsn] ∧
      chunk ++ (commit stubEngine (freshMgr stubInit) 1).logtail =
        [] ++ [⟨commit_lsn, NULL_LSN, 1, .commit⟩, ⟨end_lsn, commit_lsn, 1, .endTx⟩] :=
  commit_unknown stubEngine (freshMgr stubInit) 1 rfl

/-! ### The scan of `redo` -/

theorem redoTarget_isSome (r : LogRecord) :
    (redoTarget r).isSome = true ↔ r.getType = TxType.UPDATE ∨ r.getType = TxType.CLR := by
  obtain ⟨l, p, t, b⟩ := r
  cases b <;> simp [redoTarget, LogRecord.getType]

/-- C16: let the scan of Redo be at the record `R`, in the state `m`. If `R` is an UPDATE or
a CLR (`redoTarget` then yields its page, offset and after-image), its page is in the dirty
page table with a recLSN `<= R.lsn`, and `getLSN` of the page is `< R.lsn`, the scan calls
`getLSN` and then `pageWrite(R.pageID, R.offset, R.afterImage, R.lsn)`, stops with `false`
if that fails and goes on with the rest otherwise. In every other case the scan goes on
with the rest in a state that differs from `m` at most by a `getLSN` call: no `pageWrite`
is issued for `R`. -/
theorem redo_skip_rules (E : StorageEngine σ) (m : LogMgr σ) (r : LogRecord)
    (rest : List LogRecord) :
    ((redoTarget r).isSome = true ↔ r.getType = TxType.UPDATE ∨ r.getType = TxType.CLR) ∧
    (∀ p o a recLSN, redoTarget r = some (p, o, a) →
      mapFind m.dirty_page_table p = some recLSN → recLSN ≤ r.lsn → E.getLSN p m.se < r.lsn →
      ∃ m2, m2.calls = m.calls ++ [Call.getLSN p (E.getLSN p m.se),
          Call.pageWrite p o a r.lsn (E.pageWrite p o a r.lsn m.se).1] ∧
        m2.se = (E.pageWrite p o a r.lsn m.se).2 ∧
        m2.tx_table = m.tx_table ∧ m2.dirty_page_table = m.dirty_page_table ∧
        m2.logtail = m.logtail ∧
        redoScan E m (r :: rest) =
          if (E.pageWrite p o a r.lsn m.se).1 = false then (false, m2)
          else redoScan E m2 rest) ∧
    ((¬ ∃ p o a recLSN, redoTarget r = some (p, o, a) ∧
        mapFind m.dirty_page_table p = some recLSN ∧ recLSN ≤ r.lsn ∧
        E.getLSN p m.se < r.lsn) →
      ∃ m2, pageWrites m2.calls = pageWrites m.calls ∧ m2.se = m.se ∧
        m2.tx_table = m.tx_table ∧ m2.dirty_page_table = m.dirty_page_table ∧
        m2.logtail = m.logtail ∧
        redoScan E m (r :: rest) = redoScan E m2 rest) := by
  refine ⟨redoTarget_isSome r, ?_, ?_⟩
  · intro p o a recLSN ht hd h1 h2
    refine ⟨(callPageWrite E (callGetLSN E m p).2 p o a r.lsn).2, by simp, by simp, by simp,
      by simp, by simp, ?_⟩
    rw [redoScan]
    simp only [ht, hd]
    rw [if_neg (by omega), if_neg (by simp; omega)]
    simp
  · intro hno
    cases ht : redoTarget r with
    | none =>
      refine ⟨m, rfl, rfl, rfl, rfl, rfl, ?_⟩
      rw [redoScan]
      simp only [ht]
    | some t =>
      obtain ⟨p, o, a⟩ := t
      cases hd : mapFind m.dirty_page_table p with
      | none =>
        refine ⟨m, rfl, rfl, rfl, rfl, rfl, ?_⟩
        rw [redoScan]
        simp only [ht, hd]
      | some recLSN =>
        by_cases h1 : recLSN > r.lsn
        · refine ⟨m, rfl, rfl, rfl, rfl, rfl, ?_⟩
          rw [redoScan]
          simp only [ht, hd, if_pos h1]
        · have h2 : (callGetLSN E m p).1 ≥ r.lsn := by
            by_contra hc
            exact hno ⟨p, o, a, recLSN, ht, hd, by omega, by simpa using hc⟩
          refine ⟨(callGetLSN E m p).2, ?_, by simp, by simp, by simp, by simp, ?_⟩
          · simp [pageWrites_append, pageWrites]
          · rw [redoScan]
            simp only [ht, hd, if_neg h1, if_pos h2]

/-- Witness of C16 (S6): the page carries LSN 50, the log holds an UPDATE of the page with
LSN 40, and the page is in the dirty page table with recLSN 40: Redo issues no `pageWrite`
for the record. -/
theorem redo_skip_rules_witness :
    ∃ m2, pageWrites m2.calls = [] ∧
      redoScan stubEngine
        (⟨[], [(7, 40)], [], { stubInit with pageLSN := [(7, 50)] }, []⟩ : LogMgr Stub)
        [UpdateLogRecord 40 NULL_LSN 1 7 0 "old" "new"] = redoScan stubEngine m2 [] := by
  obtain ⟨m2, h1, _, _, _, _, h6⟩ :=
    (redo_skip_rules stubEngine
      (⟨[], [(7, 40)], [], { stubInit with pageLSN := [(7, 50)] }, []⟩ : LogMgr Stub)
      (UpdateLogRecord 40 NULL_LSN 1 7 0 "old" "new") []).2.2
      (by
        rintro ⟨p, o, a, recLSN, h1, h2, h3, h4⟩
        simp only [redoTarget, UpdateLogRecord, Option.some.injEq, Prod.mk.injEq] at h1
        obtain ⟨rfl, rfl, rfl⟩ := h1
        revert h4
        decide)
  exact ⟨m2, h1, h6⟩

theorem redoScan_trace (E : StorageEngine σ) (log : List LogRecord) :
    ∀ (m : LogMgr σ), ∃ step,
      (redoScan E m log).2.calls = m.calls ++ step ∧
      (redoScan E m log).2.tx_table = m.tx_table ∧
      (redoScan E m log).2.dirty_page_table = m.dirty_page_table ∧
      (redoScan E m log).2.logtail = m.logtail ∧
      ((redoScan E m log).1 = true → ∀ c ∈ step, IsPassedRedoCall c) ∧
      ((redoScan E m log).1 = false → ∃ init p o t l,
        step = init ++ [Call.pageWrite p o t l false] ∧ ∀ c ∈ init, IsPassedRedoCall c) := by
  induction log with
  | nil =>
    intro m
    exact ⟨[], by simp [redoScan], rfl, rfl, rfl, by simp, by simp [redoScan]⟩
  | cons r rest ih =>
    intro m
    have hget : ∀ p, IsPassedRedoCall (Call.getLSN p (E.getLSN p m.se)) :=
      fun p => Or.inl ⟨_, _, rfl⟩
    cases ht : redoTarget r with
    | none => rw [redoScan]; simp only [ht]; exact ih m
    | some tg =>
      obtain ⟨page_id, offset, after_image⟩ := tg
      cases hd : mapFind m.dirty_page_table page_id with
      | none => rw [redoScan]; simp only [ht, hd]; exact ih m
      | some recLSN =>
        rw [redoScan]
        simp only [ht, hd]
        split_ifs with h1 h2 h3
        · exact ih m
        · obtain ⟨step, s1, s2, s3, s4, s5, s6⟩ := ih (callGetLSN E m page_id).2
          refine ⟨Call.getLSN page_id (E.getLSN page_id m.se) :: step, ?_, ?_, ?_, ?_, ?_, ?_⟩
          · rw [s1]; simp
          · rw [s2]; simp
          · rw [s3]; simp
          · rw [s4]; simp
          · intro hb c hc
            rcases List.mem_cons.mp hc with h | h
            · rw [h]; exact hget _
            · exact s5 hb c h
          · intro hb
            obtain ⟨init, p, o, t, l, e1, e2⟩ := s6 hb
            refine ⟨Call.getLSN page_id (E.getLSN page_id m.se) :: init, p, o, t, l, ?_, ?_⟩
            · rw [e1]; rfl
            · intro c hc
              rcases List.mem_cons.mp hc with h | h
              · rw [h]; exact hget _
              · exact e2 c h
        · refine ⟨[Call.getLSN page_id (E.getLSN page_id m.se),
            Call.pageWrite page_id offset after_image r.lsn false], ?_, by simp, by simp,
            by simp, by simp, ?_⟩
          · simp only [callPageWrite_fst, callGetLSN_se] at h3
            simp [h3]
          · intro _
            refine ⟨[Call.getLSN page_id (E.getLSN page_id m.se)], _, _, _, _, rfl, ?_⟩
            intro c hc
            rw [List.mem_singleton.mp hc]
            exact hget _
        · have h3t : (E.pageWrite page_id offset after_image r.lsn m.se).1 = true := by
            simp only [callPageWrite_fst, callGetLSN_se] at h3
            simpa using h3
          have hpw : IsPassedRedoCall (Call.pageWrite page_id offset after_image r.lsn true) :=
            Or.inr ⟨_, _, _, _, rfl⟩
          obtain ⟨step, s1, s2, s3, s4, s5, s6⟩ :=
            ih (callPageWrite E (callGetLSN E m page_id).2 page_id offset after_image r.lsn).2
          refine ⟨Call.getLSN page_id (E.getLSN page_id m.se) ::
            Call.pageWrite page_id offset after_image r.lsn true :: step, ?_, ?_, ?_, ?_, ?_, ?_⟩
          · rw [s1]; simp [h3t]
          · rw [s2]; simp
          · rw [s3]; simp
          · rw [s4]; simp
          · intro hb c hc
            rcases List.mem_cons.mp hc with h | h
            · rw [h]; exact hget _
            · rcases List.mem_cons.mp h with h | h
              · rw [h]; exact hpw
              · exact s5 hb c h
          · intro hb
            obtain ⟨init, p, o, t, l, e1, e2⟩ := s6 hb
            refine ⟨Call.getLSN page_id (E.getLSN page_id m.se) ::
              Call.pageWrite page_id offset after_image r.lsn true :: init, p, o, t, l, ?_, ?_⟩
            · rw [e1]; rfl
            · intro c hc
              rcases List.mem_cons.mp hc with h | h
              · rw [h]; exact hget _
              · rcases List.mem_cons.mp h with h | h
                · rw [h]; exact hpw
                · exact e2 c h

theorem redoEnd_calls (E : StorageEngine σ) (m : LogMgr σ) :
    ∃ cs, (redoEnd E m).calls = m.calls ++ cs ∧ (∀ c ∈ cs, ∃ n, c = Call.nextLSN n) ∧
      (redoEnd E m).dirty_page_table = m.dirty_page_table := by
  have key : ∀ (tt : List (Int × txTableEntry)) (acc : LogMgr σ), ∃ cs,
      (tt.foldl
        (fun acc e =>
          if e.2.status = TxStatus.C then
            pushTail (callNextLSN E acc).2 ⟨(callNextLSN E acc).1, e.2.lastLSN, e.1, .endTx⟩
          else acc) acc).calls = acc.calls ++ cs ∧ (∀ c ∈ cs, ∃ n, c = Call.nextLSN n) ∧
      (tt.foldl
        (fun acc e =>
          if e.2.status = TxStatus.C then
            pushTail (callNextLSN E acc).2 ⟨(callNextLSN E acc).1, e.2.lastLSN, e.1, .endTx⟩
          else acc) acc).dirty_page_table = acc.dirty_page_table := by
    intro tt
    induction tt with
    | nil => intro acc; exact ⟨[], by simp, by simp, rfl⟩
    | cons e tt ih =>
      intro acc
      simp only [List.foldl_cons]
      by_cases hc : e.2.status = TxStatus.C
      · simp only [if_pos hc]
        obtain ⟨cs, h1, h2, h3⟩ := ih
          (pushTail (callNextLSN E acc).2 ⟨(callNextLSN E acc).1, e.2.lastLSN, e.1, .endTx⟩)
        refine ⟨Call.nextLSN (E.nextLSN acc.se).1 :: cs, ?_, ?_, ?_⟩
        · rw [h1]; simp
        · intro c hc
          rcases List.mem_cons.mp hc with h | h
          · exact ⟨_, h⟩
          · exact h2 c h
        · rw [h3]; simp
      · simp only [if_neg hc]
        exact ih acc
  obtain ⟨cs, h1, h2, h3⟩ := key m.tx_table m
  obtain ⟨_, _, f3, f4⟩ := foldl_eraseTx_frame
    ((m.tx_table.filter (fun e => decide (e.2.status = TxStatus.C))).map Prod.fst)
    (m.tx_table.foldl
      (fun acc e =>
        if e.2.status = TxStatus.C then
          pushTail (callNextLSN E acc).2 ⟨(callNextLSN E acc).1, e.2.lastLSN, e.1, .endTx⟩
        else acc) m)
  refine ⟨cs, ?_, h2, ?_⟩
  · unfold redoEnd
    rw [f3, h1]
  · unfold redoEnd
    rw [f4, h3]

theorem redo_scan_form (E : StorageEngine σ) (m : LogMgr σ) (log : List LogRecord)
    (hd : m.dirty_page_table ≠ []) (hl : log ≠ []) :
    ∃ start, redo E m log =
      if (redoScan E m start).1 = true then .ok (true, redoEnd E (redoScan E m start).2)
      else .ok (false, (redoScan E m start).2) := by
  cases hd2 : m.dirty_page_table with
  | nil => exact absurd hd2 hd
  | cons d ds =>
    cases hl2 : log with
    | nil => exact absurd hl2 hl
    | cons first rest =>
      refine ⟨if minRecLSN (d :: ds) ≠ NULL_LSN ∧ first.lsn < minRecLSN (d :: ds) then
          seekLSN (minRecLSN (d :: ds)) (first :: rest) else first :: rest, ?_⟩
      simp only [redo, hd2]

/-- C17: let Analysis of `log` yield the state `m1` and let `redo` return in the state `m2`,
`new` being the engine calls it made. If a `pageWrite` among them returned `false`, then
`redo` returned `false`; that failed `pageWrite` is the last call it made, every call before
it being a `getLSN` or a `pageWrite` that succeeded (nothing is scanned after the failure);
the log tail is the one Analysis left (no END and no CLR is appended), the two tables are
those Analysis produced, and `recover` returns in that same state `m2`, without running
Undo. -/
theorem redo_failure_stops (E : StorageEngine σ) (fuel : Nat) (m m1 m2 : LogMgr σ)
    (log : List LogRecord) (b : Bool) (new : List Call) (p o : Int) (t : String) (l : Int)
    (ha : analyze m log = .ok m1) (hr : redo E m1 log = .ok (b, m2))
    (hnew : m2.calls = m1.calls ++ new) (hfail : Call.pageWrite p o t l false ∈ new) :
    b = false ∧
    (∃ init p2 o2 t2 l2, new = init ++ [Call.pageWrite p2 o2 t2 l2 false] ∧
      ∀ c ∈ init, IsPassedRedoCall c) ∧
    m2.logtail = m1.logtail ∧ m2.tx_table = m1.tx_table ∧
    m2.dirty_page_table = m1.dirty_page_table ∧
    recover E fuel m log = .ok m2 := by
  have hnext : ∀ cs : List Call, (∀ c ∈ cs, ∃ n, c = Call.nextLSN n) →
      Call.pageWrite p o t l false ∉ cs := by
    intro cs h hmem
    obtain ⟨n, hn⟩ := h _ hmem
    cases hn
  have hpass : ∀ cs : List Call, (∀ c ∈ cs, IsPassedRedoCall c) →
      Call.pageWrite p o t l false ∉ cs := by
    intro cs h hmem
    rcases h _ hmem with ⟨_, _, hc⟩ | ⟨_, _, _, _, hc⟩ <;> cases hc
  cases hd : m1.dirty_page_table with
  | nil =>
    simp only [redo, hd, Except.ok.injEq, Prod.mk.injEq] at hr
    obtain ⟨cs, c1, c2, _⟩ := redoEnd_calls E m1
    rw [hr.2, hnew] at c1
    rw [List.append_cancel_left c1] at hfail
    exact absurd hfail (hnext cs c2)
  | cons d ds =>
    have hne : log ≠ [] := by
      intro h
      rw [h] at ha
      simp [analyze] at ha
    obtain ⟨start, hform⟩ := redo_scan_form E m1 log (by rw [hd]; simp) hne
    obtain ⟨step, s1, s2, s3, s4, s5, s6⟩ := redoScan_trace E start m1
    rw [hform] at hr
    by_cases hb : (redoScan E m1 start).1 = true
    · rw [if_pos hb] at hr
      simp only [Except.ok.injEq, Prod.mk.injEq] at hr
      obtain ⟨cs, c1, c2, _⟩ := redoEnd_calls E (redoScan E m1 start).2
      rw [hr.2, hnew, s1, List.append_assoc] at c1
      rw [List.append_cancel_left c1] at hfail
      rcases List.mem_append.mp hfail with h | h
      · exact absurd h (hpass step (s5 hb))
      · exact absurd h (hnext cs c2)
    · rw [if_neg hb] at hr
      simp only [Except.ok.injEq, Prod.mk.injEq] at hr
      obtain ⟨hb2, hm2⟩ := hr
      have hbf : (redoScan E m1 start).1 = false := by simpa using hb
      rw [hm2, hnew] at s1
      have hstep := List.append_cancel_left s1
      refine ⟨hb2.symm, ?_, by rw [← hm2, s4], by rw [← hm2, s2], by rw [← hm2, s3, hd], ?_⟩
      · rw [hstep]; exact s6 hbf
      · have hredo : redo E m1 log = .ok (false, m2) := by
          rw [hform, if_neg hb, hm2]
        simp only [recover, ha, hredo]

/-- Witness of C17: the log holds one UPDATE of page 7 and the engine refuses every
`pageWrite`. -/
theorem redo_failure_stops_witness :
    ∃ m2, recover brokenEngine 0 (freshMgr stubInit)
        [UpdateLogRecord 1 NULL_LSN 1 7 0 "old" "new"] = .ok m2 ∧
      m2.logtail = [] ∧ m2.tx_table = [(1, ⟨1, TxStatus.U⟩)] ∧
      m2.calls = [Call.getLSN 7 NULL_LSN, Call.pageWrite 7 0 "new" 1 false] := by
  obtain ⟨_, _, h3, h4, _, h6⟩ :=
    redo_failure_stops brokenEngine 0 (freshMgr stubInit)
      ⟨[(1, ⟨1, TxStatus.U⟩)], [(7, 1)], [], stubInit, []⟩
      ⟨[(1, ⟨1, TxStatus.U⟩)], [(7, 1)], [], stubInit,
        [Call.getLSN 7 NULL_LSN, Call.pageWrite 7 0 "new" 1 false]⟩
      [UpdateLogRecord 1 NULL_LSN 1 7 0 "old" "new"] false
      [Call.getLSN 7 NULL_LSN, Call.pageWrite 7 0 "new" 1 false] 7 0 "new" 1
      rfl rfl rfl (by decide)
  exact ⟨_, h6, h3, h4, rfl⟩

/-! ### Analysis and Redo of a log without checkpoint -/

theorem find_endCkpt_none (log : List LogRecord)
    (h : ∀ r ∈ log, r.getType ≠ TxType.END_CKPT) :
    log.reverse.find? (fun r => decide (r.getType = TxType.END_CKPT)) = none := by
  rw [List.find?_eq_none]
  intro r hr
  simpa using h r (List.mem_reverse.mp hr)

theorem analyze_plain (m : LogMgr σ) (first : LogRecord) (rest : List LogRecord)
    (h : ∀ r ∈ first :: rest, r.getType ≠ TxType.END_CKPT) (hf : NULL_LSN ≤ first.lsn) :
    analyze m (first :: rest) = .ok ((first :: rest).foldl analyzeRecord m) := by
  have hn := find_endCkpt_none _ h
  simp only [analyze, startLSN, adoptCheckpoint, hn]
  rw [if_neg (by simp only [ne_eq, not_true_eq_false, or_false]; omega)]

theorem dirtyIfAbsent_dpt (m : LogMgr σ) (p l : Int) :
    (dirtyIfAbsent m p l).dirty_page_table =
      match mapFind m.dirty_page_table p with
      | none => mapSet m.dirty_page_table p l
      | some _ => m.dirty_page_table := by
  unfold dirtyIfAbsent
  split <;> simp [*]

theorem analyzeRecord_dpt (m : LogMgr σ) (r : LogRecord) :
    (analyzeRecord m r).dirty_page_table =
      match redoTarget r with
      | some (p, _, _) =>
        match mapFind m.dirty_page_table p with
        | none => mapSet m.dirty_page_table p r.lsn
        | some _ => m.dirty_page_table
      | none => m.dirty_page_table := by
  obtain ⟨l, p, t, b⟩ := r
  cases b <;> simp [analyzeRecord, redoTarget, dirtyIfAbsent_dpt]

theorem mapFind_analyzeRecord_dpt (m : LogMgr σ) (r : LogRecord) (k : Int) :
    mapFind (analyzeRecord m r).dirty_page_table k =
      match redoTarget r with
      | some (p, _, _) =>
        if k = p then some ((mapFind m.dirty_page_table p).getD r.lsn)
        else mapFind m.dirty_page_table k
      | none => mapFind m.dirty_page_table k := by
  obtain ⟨l, p, t, b⟩ := r
  cases b <;> simp [analyzeRecord, redoTarget, mapFind_dirtyIfAbsent]

theorem foldl_analyzeRecord_dpt_kept (log : List LogRecord) :
    ∀ (m : LogMgr σ) (p v : Int), mapFind m.dirty_page_table p = some v →
      mapFind (log.foldl analyzeRecord m).dirty_page_table p = some v := by
  induction log with
  | nil => intro m p v h; exact h
  | cons r log ih =>
    intro m p v h
    simp only [List.foldl_cons]
    apply ih
    rw [mapFind_analyzeRecord_dpt]
    cases ht : redoTarget r with
    | none => exact h
    | some tg =>
      obtain ⟨p2, o, a⟩ := tg
      by_cases hp : p = p2
      · subst hp
        simp [h]
      · simp [hp, h]

theorem foldl_analyzeRecord_dpt_le (log : List LogRecord) :
    ∀ (m : LogMgr σ), log.Pairwise (fun a b => a.lsn < b.lsn) →
      ∀ r ∈ log, ∀ p o a, redoTarget r = some (p, o, a) →
        ∃ v, mapFind (log.foldl analyzeRecord m).dirty_page_table p = some v ∧
          (mapFind m.dirty_page_table p = some v ∨
            (mapFind m.dirty_page_table p = none ∧ v ≤ r.lsn)) := by
  induction log with
  | nil => intro m _ r hr; simp at hr
  | cons r0 log ih =>
    intro m hp r hr p o a ht
    simp only [List.foldl_cons]
    rw [List.pairwise_cons] at hp
    rcases List.mem_cons.mp hr with h | h
    · subst h
      have h1 : mapFind (analyzeRecord m r).dirty_page_table p =
          some ((mapFind m.dirty_page_table p).getD r.lsn) := by
        rw [mapFind_analyzeRecord_dpt, ht]
        simp
      refine ⟨_, foldl_analyzeRecord_dpt_kept log _ p _ h1, ?_⟩
      cases hm : mapFind m.dirty_page_table p with
      | none => right; simp
      | some v => left; simp
    · obtain ⟨v, hv, hcase⟩ := ih (analyzeRecord m r0) hp.2 r h p o a ht
      refine ⟨v, hv, ?_⟩
      rw [mapFind_analyzeRecord_dpt] at hcase
      cases ht0 : redoTarget r0 with
      | none =>
        rw [ht0] at hcase
        exact hcase
      | some tg =>
        obtain ⟨p2, o2, a2⟩ := tg
        rw [ht0] at hcase
        simp only at hcase
        by_cases hpp : p = p2
        · subst hpp
          simp only [if_true] at hcase
          rcases hcase with hc | ⟨hc, _⟩
          · cases hm : mapFind m.dirty_page_table p with
            | none =>
              right
              rw [hm] at hc
              simp only [Option.getD_none, Option.some.injEq] at hc
              have := hp.1 r h
              exact ⟨rfl, by omega⟩
            | some v0 =>
              left
              rw [hm] at hc
              simpa using hc
          · simp at hc
        · simp only [if_neg hpp] at hcase
          exact hcase

theorem foldl_analyzeRecord_dpt_mem (log : List LogRecord) :
    ∀ (m : LogMgr σ) (x : Int × Int), x ∈ (log.foldl analyzeRecord m).dirty_page_table →
      x ∈ m.dirty_page_table ∨ ∃ r ∈ log, (redoTarget r).isSome = true ∧ x.2 = r.lsn := by
  induction log with
  | nil => intro m x h; exact Or.inl h
  | cons r log ih =>
    intro m x h
    simp only [List.foldl_cons] at h
    rcases ih _ x h with h1 | ⟨r2, hr2, h2⟩
    · rw [analyzeRecord_dpt] at h1
      cases ht : redoTarget r with
      | none =>
        rw [ht] at h1
        exact Or.inl h1
      | some tg =>
        obtain ⟨p, o, a⟩ := tg
        rw [ht] at h1
        simp only at h1
        cases hm : mapFind m.dirty_page_table p with
        | none =>
          rw [hm] at h1
          rcases mem_mapSet _ _ _ _ h1 with h3 | h3
          · right
            exact ⟨r, List.mem_cons_self _ _, by rw [ht]; rfl, by rw [h3]⟩
          · exact Or.inl h3
        | some v =>
          rw [hm] at h1
          exact Or.inl h1
    · exact Or.inr ⟨r2, List.mem_cons_of_mem _ hr2, h2⟩

theorem minRecLSN_le (dpt : List (Int × Int)) (h : ∀ x ∈ dpt, x.2 ≠ NULL_LSN) :
    ∀ x ∈ dpt, minRecLSN dpt ≤ x.2 := by
  have key : ∀ (dpt : List (Int × Int)) (acc : Int), (∀ x ∈ dpt, x.2 ≠ NULL_LSN) →
      (acc ≠ NULL_LSN →
        dpt.foldl (fun min_lsn e => if e.2 < min_lsn ∨ min_lsn = NULL_LSN then e.2 else min_lsn)
          acc ≤ acc) ∧
      ∀ x ∈ dpt,
        dpt.foldl (fun min_lsn e => if e.2 < min_lsn ∨ min_lsn = NULL_LSN then e.2 else min_lsn)
          acc ≤ x.2 := by
    intro dpt
    induction dpt with
    | nil => intro acc _; exact ⟨fun _ => le_refl _, by simp⟩
    | cons e dpt ih =>
      intro acc hne
      simp only [List.foldl_cons]
      have he : e.2 ≠ NULL_LSN := hne e (List.mem_cons_self _ _)
      obtain ⟨i1, i2⟩ := ih (if e.2 < acc ∨ acc = NULL_LSN then e.2 else acc)
        (fun x hx => hne x (List.mem_cons_of_mem _ hx))
      by_cases hc : e.2 < acc ∨ acc = NULL_LSN
      · simp only [if_pos hc] at i1 i2 ⊢
        have i1 := i1 he
        refine ⟨fun hacc => ?_, ?_⟩
        · rcases hc with hc | hc
          · omega
          · exact absurd hc hacc
        · intro x hx
          rcases List.mem_cons.mp hx with h | h
          · rw [h]; exact i1
          · exact i2 x h
      · simp only [if_neg hc] at i1 i2 ⊢
        have hacc : acc ≠ NULL_LSN := fun h => hc (Or.inr h)
        have hle : acc ≤ e.2 := by
          by_contra hh
          exact hc (Or.inl (by omega))
        have i1 := i1 hacc
        refine ⟨fun _ => i1, ?_⟩
        intro x hx
        rcases List.mem_cons.mp hx with h | h
        · rw [h]; omega
        · exact i2 x h
  exact (key dpt NULL_LSN h).2

theorem redoScan_all {E : StorageEngine σ}
    (hw : ∀ p o t l s, (E.pageWrite p o t l s).1 = true)
    (hstamp : ∀ p o t l s q,
      E.getLSN q (E.pageWrite p o t l s).2 = if q = p then l else E.getLSN q s)
    (log : List LogRecord) :
    ∀ (m : LogMgr σ), log.Pairwise (fun a b => a.lsn < b.lsn) →
      (∀ r ∈ log, ∀ p o a, redoTarget r = some (p, o, a) →
        (∃ v, mapFind m.dirty_page_table p = some v ∧ v ≤ r.lsn) ∧ E.getLSN p m.se < r.lsn) →
      (redoScan E m log).1 = true ∧
        pageWrites (redoScan E m log).2.calls =
          pageWrites m.calls ++ log.filterMap redoWrite := by
  induction log with
  | nil => intro m _ _; simp [redoScan]
  | cons r log ih =>
    intro m hp h
    rw [List.pairwise_cons] at hp
    cases ht : redoTarget r with
    | none =>
      rw [redoScan]
      simp only [ht]
      have hrw : redoWrite r = none := by simp [redoWrite, ht]
      rw [List.filterMap_cons_none hrw]
      exact ih m hp.2 (fun r2 hr2 => h r2 (List.mem_cons_of_mem _ hr2))
    | some tg =>
      obtain ⟨p, o, a⟩ := tg
      obtain ⟨⟨v, hv, hle⟩, hlt⟩ := h r (List.mem_cons_self _ _) p o a ht
      have hrw : redoWrite r = some (Call.pageWrite p o a r.lsn true) := by
        simp [redoWrite, ht]
      rw [redoScan]
      simp only [ht, hv]
      rw [if_neg (by omega), if_neg (by simp only [callGetLSN_fst]; omega),
        if_neg (by simp [hw])]
      obtain ⟨i1, i2⟩ := ih (callPageWrite E (callGetLSN E m p).2 p o a r.lsn).2 hp.2
        (by
          intro r2 hr2 p2 o2 a2 ht2
          obtain ⟨hd2, hl2⟩ := h r2 (List.mem_cons_of_mem _ hr2) p2 o2 a2 ht2
          refine ⟨by simpa using hd2, ?_⟩
          simp only [callPageWrite_se, callGetLSN_se, hstamp]
          split_ifs
          · exact hp.1 r2 hr2
          · exact hl2)
      refine ⟨i1, ?_⟩
      rw [i2, List.filterMap_cons_some hrw]
      simp [pageWrites_append, pageWrites, hw]

theorem redoEnd_single (E : StorageEngine σ) (m : LogMgr σ) (T l : Int)
    (h : m.tx_table = [(T, ⟨l, TxStatus.C⟩)]) :
    (redoEnd E m).tx_table = [] ∧
    (redoEnd E m).logtail = m.logtail ++ [⟨(E.nextLSN m.se).1, l, T, .endTx⟩] ∧
    (redoEnd E m).calls = m.calls ++ [Call.nextLSN (E.nextLSN m.se).1] ∧
    (redoEnd E m).dirty_page_table = m.dirty_page_table ∧
    (redoEnd E m).se = (E.nextLSN m.se).2 := by
  unfold redoEnd
  rw [h]
  simp [mapErase, h]

theorem foldl_analyzeRecord_updates (T : Int) (hT : T ≠ NULL_TX) (us : List LogRecord)
    (hus : ∀ u ∈ us, u.txID = T ∧ u.getType = TxType.UPDATE) :
    ∀ (m : LogMgr σ), (m.tx_table = [] ∨ ∃ e, m.tx_table = [(T, e)]) →
      ((us.foldl analyzeRecord m).tx_table = [] ∨
        ∃ e, (us.foldl analyzeRecord m).tx_table = [(T, e)]) := by
  induction us with
  | nil => intro m h; exact h
  | cons u us ih =>
    intro m h
    simp only [List.foldl_cons]
    apply ih (fun u2 hu2 => hus u2 (List.mem_cons_of_mem _ hu2))
    obtain ⟨hu1, hu2⟩ := hus u (List.mem_cons_self _ _)
    obtain ⟨pg, off, bi, ai, hb⟩ := getType_update hu2
    right
    rw [analyzeRecord_tx_table m u (by rw [hu1]; exact hT), hb, hu1]
    rcases h with h | ⟨e, h⟩
    · rw [h]; exact ⟨_, rfl⟩
    · rw [h]; exact ⟨⟨u.lsn, TxStatus.U⟩, by simp [mapSet]⟩

theorem stub_stamps (p o : Int) (t : String) (l : Int) (s : Stub) (q : Int) :
    stubEngine.getLSN q (stubEngine.pageWrite p o t l s).2 =
      if q = p then l else stubEngine.getLSN q s := by
  show (mapFind (mapSet s.pageLSN p l) q).getD NULL_LSN = _
  rw [mapFind_mapSet]
  split_ifs <;> rfl

theorem redo_whole (E : StorageEngine σ) (m : LogMgr σ) (first : LogRecord)
    (rest : List LogRecord) (hne : m.dirty_page_table ≠ [])
    (hmin : ¬ (minRecLSN m.dirty_page_table ≠ NULL_LSN ∧
      first.lsn < minRecLSN m.dirty_page_table)) :
    redo E m (first :: rest) =
      if (redoScan E m (first :: rest)).1 = true then
        .ok (true, redoEnd E (redoScan E m (first :: rest)).2)
      else .ok (false, (redoScan E m (first :: rest)).2) := by
  cases hd : m.dirty_page_table with
  | nil => exact absurd hd hne
  | cons d ds =>
    rw [hd] at hmin
    simp only [redo, hd]
    rw [if_neg hmin]

theorem writeTargets_pageWrites (cs : List Call) :
    writeTargets (pageWrites cs) = writeTargets cs := by
  induction cs with
  | nil => rfl
  | cons c cs ih =>
    cases c with
    | pageWrite p o t l ok => cases ok <;> simp [pageWrites, writeTargets, ih]
    | _ => simp [pageWrites, writeTargets, ih]

theorem writeTargets_redoWrite (us : List LogRecord) :
    writeTargets (us.filterMap redoWrite) = us.filterMap redoTarget := by
  induction us with
  | nil => rfl
  | cons u us ih =>
    cases ht : redoTarget u with
    | none =>
      have h1 : redoWrite u = none := by simp [redoWrite, ht]
      rw [List.filterMap_cons_none h1, List.filterMap_cons_none ht, ih]
    | some tg =>
      obtain ⟨p, o, a⟩ := tg
      have h1 : redoWrite u = some (Call.pageWrite p o a u.lsn true) := by
        simp [redoWrite, ht]
      rw [List.filterMap_cons_some h1, List.filterMap_cons_some ht]
      simp [writeTargets, ih]

theorem redo_ok_tables {E : StorageEngine σ}
    (hw : ∀ p o t l s, (E.pageWrite p o t l s).1 = true)
    (m : LogMgr σ) {log : List LogRecord} (hne : log ≠ []) :
    ∃ mS, redo E m log = .ok (true, redoEnd E mS) ∧ mS.tx_table = m.tx_table ∧
      mS.logtail = m.logtail ∧ mS.dirty_page_table = m.dirty_page_table := by
  by_cases hd : m.dirty_page_table = []
  · exact ⟨m, by simp only [redo, hd], rfl, rfl, rfl⟩
  · obtain ⟨start, hform⟩ := redo_scan_form E m log hd hne
    obtain ⟨_, _, s2, s3, s4, _, _⟩ := redoScan_trace E start m
    refine ⟨(redoScan E m start).2, ?_, s2, s4, s3⟩
    rw [hform, if_pos (redoScan_ok hw start m).1]

/-- C12, counterexample: the S1 run on the stub engine, `write(1, 7, 0, "new", "old")` then
`commit(1)`, leaves the UPDATE and the COMMIT in the durable log; `recover` of that log on
a fresh manager returns with an empty transaction table, but the dirty page table still
holds page 7. -/
theorem recover_s1_dpt_counterexample :
    stubEngine.getLog
        (commit stubEngine (write stubEngine (freshMgr stubInit) 1 7 0 "new" "old").2 1).se =
      [UpdateLogRecord 1 NULL_LSN 1 7 0 "old" "new", ⟨2, 1, 1, .commit⟩] ∧
    ∃ m2,
      recover stubEngine 0
        (freshMgr
          (commit stubEngine (write stubEngine (freshMgr stubInit) 1 7 0 "new" "old").2 1).se)
        [UpdateLogRecord 1 NULL_LSN 1 7 0 "old" "new", ⟨2, 1, 1, .commit⟩] = .ok m2 ∧
      m2.tx_table = [] ∧ m2.dirty_page_table = [(7, 1)] ∧ m2.dirty_page_table ≠ [] :=
  ⟨by decide, _, rfl, rfl, rfl, by decide⟩

/-- C12, amended: for the S1 log, one UPDATE of transaction 1 on page 7 (with an LSN that
is not below `NULL_LSN`) followed by its COMMIT, a fresh manager and an engine whose
`pageWrite` succeeds, `recover(log)` returns with an empty transaction table and with a
dirty page table that holds exactly page 7, its recLSN being the LSN of the UPDATE. -/
theorem recover_s1_tables {E : StorageEngine σ}
    (hw : ∀ p o t l s, (E.pageWrite p o t l s).1 = true) (s : σ)
    (l1 l2 prev off : Int) (before after : String) (hl : NULL_LSN ≤ l1) (fuel : Nat) :
    ∃ m2,
      recover E fuel (freshMgr s)
        [UpdateLogRecord l1 prev 1 7 off before after, ⟨l2, l1, 1, .commit⟩] = .ok m2 ∧
      m2.tx_table = [] ∧ m2.dirty_page_table = [(7, l1)] := by
  have ha : analyze (freshMgr s)
      [UpdateLogRecord l1 prev 1 7 off before after, ⟨l2, l1, 1, .commit⟩] =
      .ok ⟨[(1, ⟨l2, TxStatus.C⟩)], [(7, l1)], [], s, []⟩ := by
    rw [analyze_plain _ _ _ (by simp [UpdateLogRecord, LogRecord.getType]) hl]
    simp [analyzeRecord, UpdateLogRecord, setLastLSN, setStatusGuarded, setStatus,
      dirtyIfAbsent, mapFind, mapSet, freshMgr, NULL_TX]
  have hne : [UpdateLogRecord l1 prev 1 7 off before after, ⟨l2, l1, 1, .commit⟩] ≠ [] := by
    simp
  obtain ⟨mS, hredo, hS1, _, hS3⟩ := redo_ok_tables (E := E) hw
    (⟨[(1, ⟨l2, TxStatus.C⟩)], [(7, l1)], [], s, []⟩ : LogMgr σ) hne
  obtain ⟨e1, _, _, e4, _⟩ := redoEnd_single E mS 1 l2 hS1
  refine ⟨redoEnd E mS, ?_, e1, by rw [e4, hS3]⟩
  simp only [recover, ha, hredo, undo, seedToUndo, e1]
  simp [undoLoop_nil]

/-- Witness of C12 (amended): the S1 log on the stub engine. -/
theorem recover_s1_tables_witness :
    ∃ m2,
      recover stubEngine 0 (freshMgr { stubInit with next := 4 })
        [UpdateLogRecord 1 NULL_LSN 1 7 0 "old" "new", ⟨2, 1, 1, .commit⟩] = .ok m2 ∧
      m2.tx_table = [] ∧ m2.dirty_page_table = [(7, 1)] :=
  recover_s1_tables (E := stubEngine) (fun _ _ _ _ _ => rfl) { stubInit with next := 4 }
    1 2 NULL_LSN 0 "old" "new" (by decide) 0

/-! ### `abort` of a transaction that is not in the transaction table -/

/-- C20, counterexample: after `write(1, 7, 0, "new", "old")` on the stub engine `NULL_TX`
is absent from the transaction table, yet `abort(NULL_TX)` rolls transaction 1 back: it
emits a CLR, issues a `pageWrite`, removes the entry of transaction 1 and appends no END
for `NULL_TX`. -/
theorem abort_unknown_null_tx_counterexample :
    mapFind (write stubEngine (freshMgr stubInit) 1 7 0 "new" "old").2.tx_table NULL_TX = none ∧
    mapFind (write stubEngine (freshMgr stubInit) 1 7 0 "new" "old").2.tx_table 1 =
      some ⟨1, TxStatus.U⟩ ∧
    ∃ m2,
      abort stubEngine 1 (write stubEngine (freshMgr stubInit) 1 7 0 "new" "old").2 NULL_TX =
        .ok m2 ∧
      pageWrites m2.calls = [Call.pageWrite 7 0 "old" 3 true] ∧
      m2.logtail =
        [UpdateLogRecord 1 NULL_LSN 1 7 0 "old" "new", ⟨2, NULL_LSN, NULL_TX, .abort⟩,
          CompensationLogRecord 3 1 1 7 0 "old" NULL_LSN, ⟨4, 3, 1, .endTx⟩] ∧
      mapFind m2.tx_table 1 = none :=
  ⟨by decide, by decide, _, rfl, by decide, by decide, by decide⟩

/-- C20, amended: for every state and every `txID` other than `NULL_TX` that is absent
from the transaction table, the LSN allocated for the ABORT being new to the durable log
and the tail (spec I5), `abort(txID)` returns for every budget of at least one iteration;
its engine calls are `nextLSN`, `getLog`, `nextLSN` (no `pageWrite`); it appends to the tail
exactly ABORT(prev = `NULL_LSN`) followed by END(prev = the ABORT's LSN) for `txID` (no
CLR); and the transaction table and the dirty page table are afterwards what they were
before, so `txID` is absent and every other entry is unchanged. -/
theorem abort_unknown {E : StorageEngine σ} (m : LogMgr σ) (T : Int) (hT : T ≠ NULL_TX)
    (habs : mapFind m.tx_table T = none)
    (hfresh : ∀ r ∈ E.getLog (E.nextLSN m.se).2 ++ m.logtail, r.lsn ≠ (E.nextLSN m.se).1) :
    ∃ m2 abort_lsn end_lsn,
      (∀ fuel, 1 ≤ fuel → abort E fuel m T = .ok m2) ∧
      m2.calls = m.calls ++ [Call.nextLSN abort_lsn, Call.getLog, Call.nextLSN end_lsn] ∧
      m2.logtail =
        m.logtail ++ [⟨abort_lsn, NULL_LSN, T, .abort⟩, ⟨end_lsn, abort_lsn, T, .endTx⟩] ∧
      mapFind m2.tx_table T = none ∧
      m2.tx_table = m.tx_table ∧
      m2.dirty_page_table = m.dirty_page_table := by
  have hlast : getLastLSN m T = NULL_LSN := by
    unfold getLastLSN
    rw [habs]
  let ab : LogRecord := ⟨(E.nextLSN m.se).1, getLastLSN m T, T, .abort⟩
  let m5 : LogMgr σ :=
    (callGetLog E (setStatusGuarded (setLastLSN (pushTail (callNextLSN E m).2 ab) T
      (E.nextLSN m.se).1) T TxStatus.U)).2
  have hm5tail : m5.logtail = m.logtail ++ [ab] := by simp [m5]
  have hm5calls : m5.calls = m.calls ++ [Call.nextLSN (E.nextLSN m.se).1, Call.getLog] := by
    simp [m5]
  have hm5tt : mapFind m5.tx_table T = some ⟨(E.nextLSN m.se).1, TxStatus.U⟩ := by
    simp [m5, mapFind_setStatusGuarded _ _ _ _ hT, mapFind_setLastLSN _ _ _ _ hT]
  have hm5se : m5.se = (E.nextLSN m.se).2 := by simp [m5]
  have hm5dpt : m5.dirty_page_table = m.dirty_page_table := by simp [m5]
  have hm5erase : mapErase m5.tx_table T = m.tx_table := by
    simp only [m5, callGetLog_tx_table, setStatusGuarded, if_pos hT, setStatus, setLastLSN,
      if_neg hT, pushTail_tx_table, callNextLSN_tx_table, mapErase_mapSet]
    exact mapErase_absent _ _ habs
  have hlogeq : E.getLog (E.nextLSN m.se).2 ++ m5.logtail =
      (E.getLog (E.nextLSN m.se).2 ++ m.logtail) ++ [ab] := by
    rw [hm5tail, List.append_assoc]
  have habort : ∀ fuel, abort E fuel m T =
      undoLoop E ((E.getLog (E.nextLSN m.se).2 ++ m.logtail) ++ [ab]) fuel m5
        [(E.nextLSN m.se).1] := by
    intro fuel
    have hseed : seedToUndo m5 T = [(E.nextLSN m.se).1] := by
      simp only [seedToUndo, if_neg hT, hm5tt]
    have h0 : abort E fuel m T =
        undo E fuel m5 ((callGetLog E (setStatusGuarded (setLastLSN
          (pushTail (callNextLSN E m).2 ab) T (E.nextLSN m.se).1) T TxStatus.U)).1 ++
          m5.logtail) T := rfl
    rw [h0, callGetLog_fst, setStatusGuarded_se, setLastLSN_se, pushTail_se, callNextLSN_se,
      undo, hseed, hlogeq]
  have hfindab : ((E.getLog (E.nextLSN m.se).2 ++ m.logtail) ++ [ab]).find?
      (fun x => decide (x.lsn = (E.nextLSN m.se).1)) = some ab := by
    have hnone : (E.getLog (E.nextLSN m.se).2 ++ m.logtail).find?
        (fun x => decide (x.lsn = (E.nextLSN m.se).1)) = none := by
      rw [List.find?_eq_none]
      intro x hx
      simpa using hfresh x hx
    rw [List.find?_append, hnone]
    simp [ab]
  have hm5last : getLastLSN m5 T = (E.nextLSN m.se).1 := by
    unfold getLastLSN
    rw [hm5tt]
  have hrecab : undoRecord E m5 ab [] =
      (true, appendEnd E m5 (E.nextLSN m.se).1 T, []) := by
    have hb : ab.body = .abort := rfl
    simp only [undoRecord, hb]
    rw [if_neg (by simp [ab, hlast])]
    show (true, appendEnd E m5 (getLastLSN m5 T) T, []) = _
    rw [hm5last]
  refine ⟨appendEnd E m5 (E.nextLSN m.se).1 T, (E.nextLSN m.se).1,
    (E.nextLSN (E.nextLSN m.se).2).1, ?_, ?_, ?_, ?_, ?_, ?_⟩
  · intro fuel hfuel
    obtain ⟨n, rfl⟩ : ∃ n, fuel = n + 1 := ⟨fuel - 1, by omega⟩
    rw [habort, undoLoop_found E _ m5 [] hfindab, hrecab]
    simp only [if_true]
    exact undoLoop_nil E _ _ _
  · rw [appendEnd_calls, hm5calls, hm5se]
    simp
  · rw [appendEnd_logtail, hm5tail, hm5se]
    simp [ab, hlast]
  · rw [appendEnd_tx_table, mapFind_mapErase]
    simp
  · rw [appendEnd_tx_table, hm5erase]
  · rw [appendEnd_dpt, hm5dpt]

/-- Witness of C20 (amended): `abort(2)` after transaction 1 wrote page 7, on the stub
engine. -/
theorem abort_unknown_witness :
    ∃ m2 abort_lsn end_lsn,
      (∀ fuel, 1 ≤ fuel →
        abort stubEngine fuel (write stubEngine (freshMgr stubInit) 1 7 0 "new" "old").2 2 =
          .ok m2) ∧
      m2.calls = (write stubEngine (freshMgr stubInit) 1 7 0 "new" "old").2.calls ++
        [Call.nextLSN abort_lsn, Call.getLog, Call.nextLSN end_lsn] ∧
      m2.logtail = (write stubEngine (freshMgr stubInit) 1 7 0 "new" "old").2.logtail ++
        [⟨abort_lsn, NULL_LSN, 2, .abort⟩, ⟨end_lsn, abort_lsn, 2, .endTx⟩] ∧
      mapFind m2.tx_table 2 = none ∧
      m2.tx_table = (write stubEngine (freshMgr stubInit) 1 7 0 "new" "old").2.tx_table ∧
      m2.dirty_page_table =
        (write stubEngine (freshMgr stubInit) 1 7 0 "new" "old").2.dirty_page_table :=
  abort_unknown (E := stubEngine) (write stubEngine (freshMgr stubInit) 1 7 0 "new" "old").2 2
    (by decide) (by decide) (by decide)

/-! ### Analysis of a log with a checkpoint -/

theorem seekLSN_append (l : Int) (pre : List LogRecord) (ck : LogRecord)
    (suf : List LogRecord) (hpre : ∀ r ∈ pre, r.lsn ≠ l) (hck : ck.lsn = l) :
    seekLSN l (pre ++ ck :: suf) = ck :: suf := by
  induction pre with
  | nil => simp [seekLSN, hck]
  | cons r pre ih =>
    have h1 : r.lsn ≠ l := hpre r (List.mem_cons_self _ _)
    simp only [List.cons_append, seekLSN, if_neg h1]
    exact ih (fun x hx => hpre x (List.mem_cons_of_mem _ hx))

theorem find_endCkpt_last (pre : List LogRecord) (ck : LogRecord) (suf : List LogRecord)
    (hck : ck.getType = TxType.END_CKPT) (hsuf : ∀ r ∈ suf, r.getType ≠ TxType.END_CKPT) :
    (pre ++ ck :: suf).reverse.find? (fun r => decide (r.getType = TxType.END_CKPT)) =
      some ck := by
  have hn := find_endCkpt_none suf hsuf
  simp only [List.reverse_append, List.reverse_cons, List.append_assoc, List.find?_append, hn,
    Option.none_or]
  simp [hck]

theorem analyze_checkpoint (m : LogMgr σ) (pre : List LogRecord) (ck : LogRecord)
    (suf : List LogRecord) (tt : List (Int × txTableEntry)) (dpt : List (Int × Int))
    (hck : ck.body = .endCkpt tt dpt) (hsuf : ∀ r ∈ suf, r.getType ≠ TxType.END_CKPT)
    (hpre : ∀ r ∈ pre, r.lsn ≠ ck.lsn) (hnn : ck.lsn ≠ NULL_LSN) :
    analyze m (pre ++ ck :: suf) =
      .ok ((ck :: suf).foldl analyzeRecord
        { m with tx_table := tt, dirty_page_table := dpt }) := by
  have hty : ck.getType = TxType.END_CKPT := by simp [LogRecord.getType, hck]
  have hfind := find_endCkpt_last pre ck suf hty hsuf
  have hstart : startLSN (pre ++ ck :: suf) = ck.lsn := by
    simp only [startLSN, hfind]
  have hadopt : adoptCheckpoint m (pre ++ ck :: suf) =
      { m with tx_table := tt, dirty_page_table := dpt } := by
    obtain ⟨l, p, t, b⟩ := ck
    simp only at hck
    subst hck
    simp only [adoptCheckpoint, hfind]
  have hseek := seekLSN_append ck.lsn pre ck suf hpre rfl
  cases hl : pre ++ ck :: suf with
  | nil => simp at hl
  | cons first rest =>
    rw [hl] at hstart hadopt hseek
    simp only [analyze, hstart, hadopt]
    rw [if_pos (Or.inr hnn), hseek]

theorem analyzeRecord_tables_congr (m m2 : LogMgr σ) (r : LogRecord)
    (h1 : m.tx_table = m2.tx_table) (h2 : m.dirty_page_table = m2.dirty_page_table) :
    (analyzeRecord m r).tx_table = (analyzeRecord m2 r).tx_table ∧
      (analyzeRecord m r).dirty_page_table = (analyzeRecord m2 r).dirty_page_table := by
  obtain ⟨tt, dpt, tl, se, cs⟩ := m
  obtain ⟨tt2, dpt2, tl2, se2, cs2⟩ := m2
  simp only at h1 h2
  subst h1 h2
  obtain ⟨l, p, t, b⟩ := r
  constructor
  · by_cases hn : t = NULL_TX
    · cases b <;> simp [analyzeRecord, setLastLSN, setStatusGuarded, setStatus, hn]
    · cases b <;> simp [analyzeRecord, setLastLSN, setStatusGuarded, setStatus, hn]
  · rw [analyzeRecord_dpt, analyzeRecord_dpt]

theorem foldl_analyzeRecord_tables_congr (log : List LogRecord) :
    ∀ (m m2 : LogMgr σ), m.tx_table = m2.tx_table →
      m.dirty_page_table = m2.dirty_page_table →
      (log.foldl analyzeRecord m).tx_table = (log.foldl analyzeRecord m2).tx_table ∧
        (log.foldl analyzeRecord m).dirty_page_table =
          (log.foldl analyzeRecord m2).dirty_page_table := by
  induction log with
  | nil => intro m m2 h1 h2; exact ⟨h1, h2⟩
  | cons r log ih =>
    intro m m2 h1 h2
    simp only [List.foldl_cons]
    obtain ⟨g1, g2⟩ := analyzeRecord_tables_congr m m2 r h1 h2
    exact ih _ _ g1 g2

/-- C18, counterexample: two logs with pairwise distinct LSNs that agree from their last
END_CKPT onward, the END_CKPT carrying the value of `NULL_LSN` as its LSN and an empty
snapshot. Analysis of the log that holds an UPDATE before the checkpoint scans that UPDATE
and ends with transaction 1 and page 7 in the tables; Analysis of the other ends with
empty tables. -/
theorem analyze_checkpoint_null_lsn_counterexample :
    ∃ m1 m2 : LogMgr Stub,
      analyze (freshMgr stubInit)
        [UpdateLogRecord 5 NULL_LSN 1 7 0 "old" "new",
          ChkptLogRecord NULL_LSN NULL_LSN NULL_TX [] []] = .ok m1 ∧
      analyze (freshMgr stubInit) [ChkptLogRecord NULL_LSN NULL_LSN NULL_TX [] []] = .ok m2 ∧
      m1.tx_table = [(1, ⟨5, TxStatus.U⟩)] ∧ m1.dirty_page_table = [(7, 5)] ∧
      m2.tx_table = [] ∧ m2.dirty_page_table = [] :=
  ⟨_, _, rfl, rfl, by decide, by decide, by decide, by decide⟩

/-- C18, amended: let two logs with pairwise distinct LSNs have the same last END_CKPT
record `ck`, whose LSN is not `NULL_LSN`, and the same records `suf` after it. Then
Analysis returns on both, whatever the records `pre`, `pre2` before the checkpoint and
whatever tables the two managers held, and yields the same transaction table and the same
dirty page table: those obtained by scanning `ck` and `suf` from the snapshot of `ck`. -/
theorem analyze_checkpoint_bound (m m2 : LogMgr σ) (pre pre2 : List LogRecord)
    (ck : LogRecord) (suf : List LogRecord) (tt : List (Int × txTableEntry))
    (dpt : List (Int × Int)) (hck : ck.body = .endCkpt tt dpt)
    (hsuf : ∀ r ∈ suf, r.getType ≠ TxType.END_CKPT)
    (hd : (pre ++ ck :: suf).Pairwise (fun a b => a.lsn ≠ b.lsn))
    (hd2 : (pre2 ++ ck :: suf).Pairwise (fun a b => a.lsn ≠ b.lsn))
    (hnn : ck.lsn ≠ NULL_LSN) :
    ∃ r1 r2, analyze m (pre ++ ck :: suf) = .ok r1 ∧ analyze m2 (pre2 ++ ck :: suf) = .ok r2 ∧
      r1.tx_table = r2.tx_table ∧ r1.dirty_page_table = r2.dirty_page_table ∧
      r1.tx_table =
        ((ck :: suf).foldl analyzeRecord (⟨tt, dpt, [], m.se, []⟩ : LogMgr σ)).tx_table ∧
      r1.dirty_page_table =
        ((ck :: suf).foldl analyzeRecord (⟨tt, dpt, [], m.se, []⟩ : LogMgr σ)).dirty_page_table := by
  have hp : ∀ (pre : List LogRecord),
      (pre ++ ck :: suf).Pairwise (fun a b => a.lsn ≠ b.lsn) → ∀ r ∈ pre, r.lsn ≠ ck.lsn := by
    intro pre h r hr
    exact (List.pairwise_append.mp h).2.2 r hr ck (List.mem_cons_self _ _)
  refine ⟨_, _, analyze_checkpoint m pre ck suf tt dpt hck hsuf (hp pre hd) hnn,
    analyze_checkpoint m2 pre2 ck suf tt dpt hck hsuf (hp pre2 hd2) hnn, ?_, ?_, ?_, ?_⟩
  · exact (foldl_analyzeRecord_tables_congr (ck :: suf)
      { m with tx_table := tt, dirty_page_table := dpt }
      { m2 with tx_table := tt, dirty_page_table := dpt } rfl rfl).1
  · exact (foldl_analyzeRecord_tables_congr (ck :: suf)
      { m with tx_table := tt, dirty_page_table := dpt }
      { m2 with tx_table := tt, dirty_page_table := dpt } rfl rfl).2
  · exact (foldl_analyzeRecord_tables_congr (ck :: suf)
      { m with tx_table := tt, dirty_page_table := dpt } ⟨tt, dpt, [], m.se, []⟩ rfl rfl).1
  · exact (foldl_analyzeRecord_tables_congr (ck :: suf)
      { m with tx_table := tt, dirty_page_table := dpt } ⟨tt, dpt, [], m.se, []⟩ rfl rfl).2

/-- Witness of C18 (amended, scenario S4): a checkpoint taken while transaction 1 is
active, followed by UPDATEs of transactions 2 and 1; the one log starts with the UPDATE of
transaction 1, the other with the checkpoint. -/
theorem analyze_checkpoint_bound_witness :
    ∃ r1 r2 : LogMgr Stub,
      analyze (freshMgr stubInit)
        ([UpdateLogRecord 1 NULL_LSN 1 7 0 "old" "new", ⟨2, NULL_LSN, NULL_TX, .beginCkpt⟩] ++
          ChkptLogRecord 3 2 NULL_TX [(1, ⟨1, TxStatus.U⟩)] [(7, 1)] ::
            [UpdateLogRecord 4 NULL_LSN 2 9 4 "A" "B", UpdateLogRecord 5 1 1 7 0 "new" "newer"]) =
        .ok r1 ∧
      analyze (⟨[(8, ⟨0, TxStatus.C⟩)], [(3, 0)], [], stubInit, []⟩ : LogMgr Stub)
        ([] ++ ChkptLogRecord 3 2 NULL_TX [(1, ⟨1, TxStatus.U⟩)] [(7, 1)] ::
            [UpdateLogRecord 4 NULL_LSN 2 9 4 "A" "B", UpdateLogRecord 5 1 1 7 0 "new" "newer"]) =
        .ok r2 ∧
      r1.tx_table = r2.tx_table ∧ r1.dirty_page_table = r2.dirty_page_table ∧
      r1.tx_table = [(1, ⟨5, TxStatus.U⟩), (2, ⟨4, TxStatus.U⟩)] ∧
      r1.dirty_page_table = [(7, 1), (9, 4)] := by
  obtain ⟨r1, r2, h1, h2, h3, h4, h5, h6⟩ :=
    analyze_checkpoint_bound (freshMgr stubInit)
      (⟨[(8, ⟨0, TxStatus.C⟩)], [(3, 0)], [], stubInit, []⟩ : LogMgr Stub)
      [UpdateLogRecord 1 NULL_LSN 1 7 0 "old" "new", ⟨2, NULL_LSN, NULL_TX, .beginCkpt⟩] []
      (ChkptLogRecord 3 2 NULL_TX [(1, ⟨1, TxStatus.U⟩)] [(7, 1)])
      [UpdateLogRecord 4 NULL_LSN 2 9 4 "A" "B", UpdateLogRecord 5 1 1 7 0 "new" "newer"]
      [(1, ⟨1, TxStatus.U⟩)] [(7, 1)] rfl (by decide) (by decide) (by decide) (by decide)
  refine ⟨r1, r2, h1, h2, h3, h4, ?_, ?_⟩
  · rw [h5]; decide
  · rw [h6]; decide

/-! ### The emitted records of reachable states -/

theorem emitInv_extend {mark : σ → Int} {m m2 : LogMgr σ} (h : EmitInv mark m)
    (new : List LogRecord) (he : emitted m2 = emitted m ++ new)
    (hp : new.Pairwise (fun a b => a.lsn < b.lsn))
    (hn : ∀ r ∈ new, mark m.se < r.lsn ∧ r.lsn ≤ mark m2.se)
    (hmark : mark m.se ≤ mark m2.se) : EmitInv mark m2 := by
  obtain ⟨h1, h2⟩ := h
  unfold EmitInv
  rw [he]
  constructor
  · rw [List.pairwise_append]
    refine ⟨h1, hp, ?_⟩
    intro a ha b hb
    exact lt_of_le_of_lt (h2 a ha) (hn b hb).1
  · intro r hr
    rcases List.mem_append.mp hr with h | h
    · exact le_trans (h2 r h) hmark
    · exact (hn r h).2

theorem emitInv_tables (mark : σ → Int) {m m2 : LogMgr σ} (h1 : m2.logtail = m.logtail)
    (h2 : m2.se = m.se) (h3 : flushed m2.calls = flushed m.calls) (h : EmitInv mark m) :
    EmitInv mark m2 :=
  emitInv_extend h [] (by simp [emitted, h1, h3]) List.Pairwise.nil (by simp)
    (by rw [h2])

theorem emitInv_pushNext {E : StorageEngine σ} {mark : σ → Int} (hE : IncreasingLSN E mark)
    {m : LogMgr σ} (h : EmitInv mark m) (r : LogRecord) (hr : r.lsn = (E.nextLSN m.se).1) :
    EmitInv mark (pushTail (callNextLSN E m).2 r) := by
  have hgt := hE.nextLSN_gt m.se
  have hle := hE.nextLSN_mark m.se
  refine emitInv_extend h [r] (by simp [emitted, flushed_append, flushed])
    (List.pairwise_singleton _ _) ?_ ?_
  · intro x hx
    rw [List.mem_singleton.mp hx, hr]
    exact ⟨hgt, hle⟩
  · show mark m.se ≤ mark (E.nextLSN m.se).2
    linarith

theorem emitInv_pageWrite {E : StorageEngine σ} {mark : σ → Int} (hE : IncreasingLSN E mark)
    {m : LogMgr σ} (h : EmitInv mark m) (p o : Int) (t : String) (l : Int) :
    EmitInv mark (callPageWrite E m p o t l).2 :=
  emitInv_extend h [] (by simp [emitted, flushed_append, flushed]) List.Pairwise.nil (by simp)
    (hE.pageWrite_mark p o t l m.se)

theorem emitInv_flush {E : StorageEngine σ} {mark : σ → Int} (hE : IncreasingLSN E mark)
    {m : LogMgr σ} (h : EmitInv mark m) (l : Int) : EmitInv mark (flushLogTail E m l) :=
  emitInv_extend h []
    (by simp [emitted, flushed_append, flushed, List.append_assoc, drainTail_append])
    List.Pairwise.nil (by simp) (hE.updateLog_mark _ m.se)

theorem emitInv_write {E : StorageEngine σ} {mark : σ → Int} (hE : IncreasingLSN E mark)
    {m : LogMgr σ} (h : EmitInv mark m) (txid page_id offset : Int) (input oldtext : String) :
    EmitInv mark (write E m txid page_id offset input oldtext).2 := by
  refine emitInv_tables mark ?_ ?_ ?_
    (emitInv_pushNext hE h
      (UpdateLogRecord (E.nextLSN m.se).1 (getLastLSN (callNextLSN E m).2 txid) txid page_id
        offset oldtext input) rfl)
  · simp [write]
  · simp [write]
  · simp [write]

theorem emitInv_commit {E : StorageEngine σ} {mark : σ → Int} (hE : IncreasingLSN E mark)
    {m : LogMgr σ} (h : EmitInv mark m) (txid : Int) : EmitInv mark (commit E m txid) := by
  have h1 := emitInv_pushNext hE h ⟨(E.nextLSN m.se).1, getLastLSN m txid, txid, .commit⟩ rfl
  have h2 : EmitInv mark
      (setStatus (setLastLSN (pushTail (callNextLSN E m).2
        ⟨(E.nextLSN m.se).1, getLastLSN m txid, txid, .commit⟩) txid (E.nextLSN m.se).1) txid
        TxStatus.C) := emitInv_tables mark (by simp) (by simp) (by simp) h1
  have h3 := emitInv_flush hE h2 (E.nextLSN m.se).1
  have h4 : EmitInv mark (eraseTx (flushLogTail E
      (setStatus (setLastLSN (pushTail (callNextLSN E m).2
        ⟨(E.nextLSN m.se).1, getLastLSN m txid, txid, .commit⟩) txid (E.nextLSN m.se).1) txid
        TxStatus.C) (E.nextLSN m.se).1) txid) :=
    emitInv_tables mark (by simp) (by simp) (by simp) h3
  exact emitInv_pushNext hE h4 _ rfl

theorem emitInv_checkpoint {E : StorageEngine σ} {mark : σ → Int} (hE : IncreasingLSN E mark)
    {m : LogMgr σ} (h : EmitInv mark m) : EmitInv mark (checkpoint E m) := by
  have hgt1 := hE.nextLSN_gt m.se
  have hle1 := hE.nextLSN_mark m.se
  have hgt2 := hE.nextLSN_gt (E.nextLSN m.se).2
  have hle2 := hE.nextLSN_mark (E.nextLSN m.se).2
  have hu := hE.updateLog_mark
    (drainTail (E.nextLSN (E.nextLSN m.se).2).1
      (m.logtail ++ [(⟨(E.nextLSN m.se).1, NULL_LSN, NULL_TX, .beginCkpt⟩ : LogRecord),
        ChkptLogRecord (E.nextLSN (E.nextLSN m.se).2).1 (E.nextLSN m.se).1 NULL_TX m.tx_table
          m.dirty_page_table])).1 (E.nextLSN (E.nextLSN m.se).2).2
  have hs := hE.store_master_mark (E.nextLSN m.se).1 (E.updateLog
    (drainTail (E.nextLSN (E.nextLSN m.se).2).1
      (m.logtail ++ [(⟨(E.nextLSN m.se).1, NULL_LSN, NULL_TX, .beginCkpt⟩ : LogRecord),
        ChkptLogRecord (E.nextLSN (E.nextLSN m.se).2).1 (E.nextLSN m.se).1 NULL_TX m.tx_table
          m.dirty_page_table])).1 (E.nextLSN (E.nextLSN m.se).2).2)
  have hse : (checkpoint E m).se = E.store_master (E.nextLSN m.se).1 (E.updateLog
    (drainTail (E.nextLSN (E.nextLSN m.se).2).1
      (m.logtail ++ [(⟨(E.nextLSN m.se).1, NULL_LSN, NULL_TX, .beginCkpt⟩ : LogRecord),
        ChkptLogRecord (E.nextLSN (E.nextLSN m.se).2).1 (E.nextLSN m.se).1 NULL_TX m.tx_table
          m.dirty_page_table])).1 (E.nextLSN (E.nextLSN m.se).2).2) := by
    simp [checkpoint, callStoreMaster, List.append_assoc]
  refine emitInv_extend h
    [(⟨(E.nextLSN m.se).1, NULL_LSN, NULL_TX, .beginCkpt⟩ : LogRecord),
      ChkptLogRecord (E.nextLSN (E.nextLSN m.se).2).1 (E.nextLSN m.se).1 NULL_TX m.tx_table
        m.dirty_page_table] ?_ ?_ ?_ ?_
  · have hd := drainTail_append (E.nextLSN (E.nextLSN m.se).2).1
      (m.logtail ++ [(⟨(E.nextLSN m.se).1, NULL_LSN, NULL_TX, .beginCkpt⟩ : LogRecord),
        ChkptLogRecord (E.nextLSN (E.nextLSN m.se).2).1 (E.nextLSN m.se).1 NULL_TX m.tx_table
          m.dirty_page_table])
    simp only [emitted, checkpoint, callStoreMaster, flushLogTail_calls, flushLogTail_logtail,
      pushTail_logtail, pushTail_calls, callNextLSN_logtail, callNextLSN_calls,
      callNextLSN_fst, callNextLSN_se, pushTail_tx_table, pushTail_dpt, callNextLSN_tx_table,
      callNextLSN_dpt, flushed_append, flushed, List.append_nil, List.append_assoc,
      List.singleton_append] at hd ⊢
    rw [hd]
  · simp only [List.pairwise_cons, List.mem_singleton, forall_eq, List.not_mem_nil,
      IsEmpty.forall_iff, implies_true, List.Pairwise.nil, and_true]
    show (E.nextLSN m.se).1 < (E.nextLSN (E.nextLSN m.se).2).1
    linarith
  · intro r hr
    rw [hse]
    simp only [List.mem_cons, List.mem_singleton, List.not_mem_nil, or_false] at hr
    rcases hr with hr | hr
    · subst hr
      constructor
      · exact hgt1
      · show (E.nextLSN m.se).1 ≤ _
        linarith
    · subst hr
      constructor
      · show mark m.se < (E.nextLSN (E.nextLSN m.se).2).1
        linarith
      · show (E.nextLSN (E.nextLSN m.se).2).1 ≤ _
        linarith
  · rw [hse]
    linarith

theorem emitInv_pageFlushed {E : StorageEngine σ} {mark : σ → Int} (hE : IncreasingLSN E mark)
    {m : LogMgr σ} (h : EmitInv mark m) (page_id : Int) :
    EmitInv mark (pageFlushed E m page_id) := by
  have h1 : EmitInv mark (callGetLSN E m page_id).2 :=
    emitInv_tables mark (m := m) rfl rfl (by simp [flushed_append, flushed]) h
  have h2 := emitInv_flush hE h1 (E.getLSN page_id m.se)
  exact emitInv_tables mark rfl rfl rfl h2

theorem emitInv_appendEnd {E : StorageEngine σ} {mark : σ → Int} (hE : IncreasingLSN E mark)
    {m : LogMgr σ} (h : EmitInv mark m) (prev tx : Int) :
    EmitInv mark (appendEnd E m prev tx) :=
  emitInv_tables mark rfl rfl rfl
    (emitInv_pushNext hE h ⟨(E.nextLSN m.se).1, prev, tx, .endTx⟩ rfl)

theorem emitInv_compensate {E : StorageEngine σ} {mark : σ → Int} (hE : IncreasingLSN E mark)
    {m : LogMgr σ} (h : EmitInv mark m) (r : LogRecord) (p o : Int) (b : String) :
    EmitInv mark (compensate E m r p o b).2 := by
  have h1 := emitInv_pushNext hE h
    (CompensationLogRecord (E.nextLSN m.se).1 (getLastLSN (callNextLSN E m).2 r.txID) r.txID
      p o b r.prevLSN) rfl
  have h2 : EmitInv mark (dirtyIfAbsent (setStatusGuarded (setLastLSN
      (pushTail (callNextLSN E m).2
        (CompensationLogRecord (E.nextLSN m.se).1 (getLastLSN (callNextLSN E m).2 r.txID) r.txID
          p o b r.prevLSN)) r.txID (E.nextLSN m.se).1) r.txID TxStatus.U) p (E.nextLSN m.se).1) :=
    emitInv_tables mark (by simp) (by simp) (by simp) h1
  exact emitInv_pageWrite hE h2 p o b (E.nextLSN m.se).1

theorem undoRecord_emitInv {E : StorageEngine σ} {mark : σ → Int} (hE : IncreasingLSN E mark)
    {m : LogMgr σ} (h : EmitInv mark m) (r : LogRecord) (q : List Int) :
    EmitInv mark (undoRecord E m r q).2.1 := by
  unfold undoRecord
  split
  · split_ifs
    · exact emitInv_compensate hE h r _ _ _
    · exact emitInv_compensate hE h r _ _ _
    · exact emitInv_appendEnd hE (emitInv_compensate hE h r _ _ _) _ _
  · split_ifs
    · exact h
    · exact emitInv_appendEnd hE h _ _
  · split_ifs
    · exact h
    · exact emitInv_appendEnd hE h _ _
  · exact h

theorem undoLoop_emitInv {E : StorageEngine σ} {mark : σ → Int} (hE : IncreasingLSN E mark)
    (log : List LogRecord) (fuel : Nat) :
    ∀ (m : LogMgr σ) (q : List Int) (m2 : LogMgr σ), EmitInv mark m →
      undoLoop E log fuel m q = .ok m2 → EmitInv mark m2 := by
  induction fuel with
  | zero =>
    intro m q m2 h hr
    cases q with
    | nil => simp only [undoLoop, Except.ok.injEq] at hr; rw [← hr]; exact h
    | cons a q => simp [undoLoop] at hr
  | succ n ih =>
    intro m q m2 h hr
    cases q with
    | nil => simp only [undoLoop, Except.ok.injEq] at hr; rw [← hr]; exact h
    | cons a q =>
      simp only [undoLoop] at hr
      split at hr
      · exact ih m q m2 h hr
      · next r hf =>
        split_ifs at hr
        · exact ih _ _ m2 (undoRecord_emitInv hE h r q) hr
        · simp only [Except.ok.injEq] at hr
          rw [← hr]; exact undoRecord_emitInv hE h r q

theorem redoScan_emitInv {E : StorageEngine σ} {mark : σ → Int} (hE : IncreasingLSN E mark)
    (log : List LogRecord) :
    ∀ (m : LogMgr σ), EmitInv mark m → EmitInv mark (redoScan E m log).2 := by
  induction log with
  | nil => intro m h; exact h
  | cons r rest ih =>
    intro m h
    have hg : ∀ p, EmitInv mark (callGetLSN E m p).2 := fun p =>
      emitInv_tables mark (m := m) rfl rfl (by simp [flushed_append, flushed]) h
    unfold redoScan
    split
    · exact ih m h
    · split
      · exact ih m h
      · split_ifs
        · exact ih m h
        · exact ih _ (hg _)
        · exact emitInv_pageWrite hE (hg _) _ _ _ _
        · exact ih _ (emitInv_pageWrite hE (hg _) _ _ _ _)

theorem redoEnd_emitInv {E : StorageEngine σ} {mark : σ → Int} (hE : IncreasingLSN E mark)
    {m : LogMgr σ} (h : EmitInv mark m) : EmitInv mark (redoEnd E m) := by
  unfold redoEnd
  have key : ∀ (tt : List (Int × txTableEntry)) (acc : LogMgr σ), EmitInv mark acc →
      EmitInv mark (tt.foldl
        (fun acc e =>
          if e.2.status = TxStatus.C then
            pushTail (callNextLSN E acc).2 ⟨(callNextLSN E acc).1, e.2.lastLSN, e.1, .endTx⟩
          else acc) acc) := by
    intro tt
    induction tt with
    | nil => intro acc ha; exact ha
    | cons e tt ih =>
      intro acc ha
      simp only [List.foldl_cons]
      apply ih
      split_ifs
      · exact emitInv_pushNext hE ha _ rfl
      · exact ha
  have h1 := key m.tx_table m h
  obtain ⟨e1, e2, e3, _⟩ := foldl_eraseTx_frame
    ((m.tx_table.filter (fun e => decide (e.2.status = TxStatus.C))).map Prod.fst)
    (m.tx_table.foldl
        (fun acc e =>
          if e.2.status = TxStatus.C then
            pushTail (callNextLSN E acc).2 ⟨(callNextLSN E acc).1, e.2.lastLSN, e.1, .endTx⟩
          else acc) m)
  exact emitInv_tables mark e1 e2 (by rw [e3]) h1

theorem emitInv_abort {E : StorageEngine σ} {mark : σ → Int} (hE : IncreasingLSN E mark)
    {m m2 : LogMgr σ} (h : EmitInv mark m) (fuel : Nat) (txid : Int)
    (hr : abort E fuel m txid = .ok m2) : EmitInv mark m2 := by
  unfold abort undo at hr
  refine undoLoop_emitInv hE _ fuel _ _ m2 ?_ hr
  have h1 := emitInv_pushNext hE h ⟨(E.nextLSN m.se).1, getLastLSN m txid, txid, .abort⟩ rfl
  exact emitInv_tables mark (by simp) (by simp) (by simp [flushed_append, flushed]) h1

theorem emitInv_recover {E : StorageEngine σ} {mark : σ → Int} (hE : IncreasingLSN E mark)
    {m m2 : LogMgr σ} (h : EmitInv mark m) (fuel : Nat) (log : List LogRecord)
    (hr : recover E fuel m log = .ok m2) : EmitInv mark m2 := by
  unfold recover at hr
  split at hr
  · simp at hr
  · next m1 ha =>
    obtain ⟨a1, a2, a3⟩ := analyze_frame ha
    have h1 : EmitInv mark m1 := emitInv_tables mark a1 a2 (by rw [a3]) h
    have hredo : ∀ b m3, redo E m1 log = .ok (b, m3) → EmitInv mark m3 := by
      intro b m3 hredo
      unfold redo at hredo
      split at hredo
      · simp only [Except.ok.injEq, Prod.mk.injEq] at hredo
        rw [← hredo.2]; exact redoEnd_emitInv hE h1
      · split at hredo
        · simp at hredo
        · dsimp only at hredo
          split_ifs at hredo
          all_goals
            simp only [Except.ok.injEq, Prod.mk.injEq] at hredo
            rw [← hredo.2]
            first
              | exact redoEnd_emitInv hE (redoScan_emitInv hE _ _ h1)
              | exact redoScan_emitInv hE _ _ h1
    split at hr
    · simp at hr
    · next m3 hd =>
      unfold undo at hr
      exact undoLoop_emitInv hE _ fuel _ _ m2 (hredo true m3 hd) hr
    · next m3 hd =>
      simp only [Except.ok.injEq] at hr
      rw [← hr]; exact hredo false m3 hd

theorem reachable_emitInv {E : StorageEngine σ} {mark : σ → Int} (hE : IncreasingLSN E mark)
    {m : LogMgr σ} (h : Reachable E m) : EmitInv mark m := by
  induction h with
  | init s => exact ⟨by simp [emitted, freshMgr, flushed], fun r hr => by
      simp [emitted, freshMgr, flushed] at hr⟩
  | write txid page_id offset input oldtext _ ih =>
    exact emitInv_write hE ih txid page_id offset input oldtext
  | commit txid _ ih => exact emitInv_commit hE ih txid
  | abort fuel txid _ hr ih => exact emitInv_abort hE ih fuel txid hr
  | checkpoint _ ih => exact emitInv_checkpoint hE ih
  | pageFlushed page_id _ ih => exact emitInv_pageFlushed hE ih page_id
  | recover fuel log _ hr ih => exact emitInv_recover hE ih fuel log hr

/-- C14: with an engine whose `nextLSN` returns strictly increasing values, in every state
reached from a fresh manager (empty tail) by `write`, `commit`, `abort`, `checkpoint`,
`pageFlushed` and `recover` calls, the records in the log tail are in strictly increasing
LSN order, and so are all the records appended so far, in the order in which they were
appended (those already passed to `updateLog`, then the tail): every record appended has an
LSN strictly greater than every record appended before it. -/
theorem tail_lsn_monotone {E : StorageEngine σ} {mark : σ → Int} (hE : IncreasingLSN E mark)
    {m : LogMgr σ} (hm : Reachable E m) :
    m.logtail.Pairwise (fun a b => a.lsn < b.lsn) ∧
      (emitted m).Pairwise (fun a b => a.lsn < b.lsn) :=
  ⟨(reachable_tailInv hE hm).1, (reachable_emitInv hE hm).1⟩

/-- Witness of C14: transaction 1 writes page 7, a checkpoint is taken, transaction 1
commits, on the stub engine. -/
theorem tail_lsn_monotone_witness :
    (commit stubEngine
        (checkpoint stubEngine (write stubEngine (freshMgr stubInit) 1 7 0 "new" "old").2)
        1).logtail.Pairwise (fun a b => a.lsn < b.lsn) ∧
      (emitted (commit stubEngine
        (checkpoint stubEngine (write stubEngine (freshMgr stubInit) 1 7 0 "new" "old").2)
        1)).Pairwise (fun a b => a.lsn < b.lsn) :=
  tail_lsn_monotone stub_increasing
    (Reachable.commit 1 (Reachable.checkpoint
      (Reachable.write 1 7 0 "new" "old" (Reachable.init stubInit))))

/-! ### Chain integrity over runs of `write`, `commit` and `abort` -/

theorem getLastLSN_setStatus (m : LogMgr σ) (t : Int) (s : TxStatus) (k : Int) :
    getLastLSN (setStatus m t s) k = getLastLSN m k := by
  unfold getLastLSN
  rw [mapFind_setStatus]
  by_cases hk : k = t
  · subst hk
    simp only [if_true]
    cases mapFind m.tx_table k <;> rfl
  · simp only [if_neg hk]

theorem getLastLSN_setStatusGuarded (m : LogMgr σ) (t : Int) (s : TxStatus) (k : Int) :
    getLastLSN (setStatusGuarded m t s) k = getLastLSN m k := by
  unfold setStatusGuarded
  split
  · exact getLastLSN_setStatus m t s k
  · rfl

theorem getLastLSN_setLastLSN (m : LogMgr σ) (t l k : Int) (hk : k ≠ NULL_TX) :
    getLastLSN (setLastLSN m t l) k = if t = k then l else getLastLSN m k := by
  by_cases ht : t = NULL_TX
  · subst ht
    rw [setLastLSN_null, if_neg (fun h => hk h.symm)]
  · unfold getLastLSN
    rw [mapFind_setLastLSN _ _ _ _ ht]
    by_cases h : k = t
    · subst h; simp
    · rw [if_neg h, if_neg (fun h2 => h h2.symm)]

theorem getLastLSN_eraseTx (m : LogMgr σ) (t k : Int) :
    getLastLSN (eraseTx m t) k = if t = k then NULL_LSN else getLastLSN m k := by
  unfold getLastLSN
  rw [eraseTx_tx_table, mapFind_mapErase]
  by_cases h : k = t
  · subst h; simp
  · rw [if_neg h, if_neg (fun h2 => h h2.symm)]

theorem lastOf_snoc (recs : List LogRecord) (r : LogRecord) (T : Int) :
    lastOf (recs ++ [r]) T = if r.txID = T then some r else lastOf recs T := by
  unfold lastOf
  rw [List.filter_append]
  by_cases h : r.txID = T
  · simp [h]
  · simp [h]

theorem expectedPrev_snoc (recs : List LogRecord) (r : LogRecord) (T : Int) :
    expectedPrev (recs ++ [r]) T =
      if r.txID = T then (if r.getType = TxType.END then NULL_LSN else r.lsn)
      else expectedPrev recs T := by
  unfold expectedPrev
  rw [lastOf_snoc]
  by_cases h : r.txID = T
  · simp only [if_pos h]
  · simp only [if_neg h]

theorem chainOK_snoc {recs : List LogRecord} (h : ChainOK recs) (r : LogRecord)
    (hr : Undoable r → r.txID ≠ NULL_TX → r.prevLSN = expectedPrev recs r.txID) :
    ChainOK (recs ++ [r]) := by
  intro pre R post he hU hT
  rcases List.eq_nil_or_concat post with hp | ⟨L, b, hp⟩
  · subst hp
    obtain ⟨h1, h2⟩ := List.append_inj' he rfl
    simp only [List.cons.injEq, and_true] at h2
    subst h1 h2
    exact hr hU hT
  · rw [hp, List.concat_eq_append, ← List.cons_append, ← List.append_assoc] at he
    obtain ⟨h1, _⟩ := List.append_inj' he rfl
    exact h pre R L h1 hU hT

theorem chainInv_emit {m m2 : LogMgr σ} (h : ChainInv m) (r : LogRecord)
    (he : emitted m2 = emitted m ++ [r])
    (hprev : Undoable r → r.txID ≠ NULL_TX → r.prevLSN = getLastLSN m r.txID)
    (hlast : ∀ T, T ≠ NULL_TX →
      getLastLSN m2 T =
        if r.txID = T then (if r.getType = TxType.END then NULL_LSN else r.lsn)
        else getLastLSN m T) : ChainInv m2 := by
  obtain ⟨h1, h2⟩ := h
  unfold ChainInv
  rw [he]
  constructor
  · exact chainOK_snoc h1 r (fun hU hT => by rw [hprev hU hT, h2 _ hT])
  · intro T hT
    rw [hlast T hT, expectedPrev_snoc, h2 T hT]

theorem chainInv_frame {m m2 : LogMgr σ} (h : ChainInv m) (he : emitted m2 = emitted m)
    (hl : ∀ T, getLastLSN m2 T = getLastLSN m T) : ChainInv m2 := by
  obtain ⟨h1, h2⟩ := h
  unfold ChainInv
  rw [he]
  exact ⟨h1, fun T hT => by rw [hl, h2 T hT]⟩

theorem chainInv_write (E : StorageEngine σ) {m : LogMgr σ} (h : ChainInv m)
    (txid page_id offset : Int) (input oldtext : String) :
    ChainInv (write E m txid page_id offset input oldtext).2 := by
  refine chainInv_emit h
    (UpdateLogRecord (E.nextLSN m.se).1 (getLastLSN m txid) txid page_id offset oldtext input)
    ?_ (fun _ _ => rfl) ?_
  · simp [write, emitted, flushed_append, flushed, getLastLSN]
  · intro T hT
    have e1 : getLastLSN (write E m txid page_id offset input oldtext).2 T =
        getLastLSN (setStatus (setLastLSN (pushTail (callNextLSN E m).2
          (UpdateLogRecord (E.nextLSN m.se).1 (getLastLSN (callNextLSN E m).2 txid) txid page_id
            offset oldtext input)) txid (E.nextLSN m.se).1) txid TxStatus.U) T :=
      getLastLSN_congr _ _ (by simp [write]) T
    rw [e1, getLastLSN_setStatus, getLastLSN_setLastLSN _ _ _ _ hT]
    simp only [UpdateLogRecord, LogRecord.getType]
    rfl

theorem chainInv_appendEnd (E : StorageEngine σ) {m : LogMgr σ} (h : ChainInv m)
    (prev tx : Int) : ChainInv (appendEnd E m prev tx) := by
  refine chainInv_emit h ⟨(E.nextLSN m.se).1, prev, tx, .endTx⟩ ?_ ?_ ?_
  · simp [emitted, flushed_append, flushed]
  · intro hU
    rcases hU with hU | hU | hU <;> simp [LogRecord.getType] at hU
  · intro T _
    have e1 : getLastLSN (appendEnd E m prev tx) T = getLastLSN (eraseTx m tx) T :=
      getLastLSN_congr _ _ rfl T
    rw [e1, getLastLSN_eraseTx]
    simp only [LogRecord.getType, if_true]

theorem chainInv_commit (E : StorageEngine σ) {m : LogMgr σ} (h : ChainInv m) (txid : Int) :
    ChainInv (commit E m txid) := by
  have h3 : ChainInv (setStatus (setLastLSN (pushTail (callNextLSN E m).2
      ⟨(E.nextLSN m.se).1, getLastLSN m txid, txid, .commit⟩) txid (E.nextLSN m.se).1) txid
      TxStatus.C) := by
    refine chainInv_emit h ⟨(E.nextLSN m.se).1, getLastLSN m txid, txid, .commit⟩ ?_ ?_ ?_
    · simp [emitted, flushed_append, flushed]
    · intro hU
      rcases hU with hU | hU | hU <;> simp [LogRecord.getType] at hU
    · intro T hT
      rw [getLastLSN_setStatus, getLastLSN_setLastLSN _ _ _ _ hT]
      simp only [LogRecord.getType]
      rfl
  have h5 : ChainInv (flushLogTail E (setStatus (setLastLSN (pushTail (callNextLSN E m).2
      ⟨(E.nextLSN m.se).1, getLastLSN m txid, txid, .commit⟩) txid (E.nextLSN m.se).1) txid
      TxStatus.C) (E.nextLSN m.se).1) :=
    chainInv_frame h3
      (by simp [emitted, flushed_append, flushed, List.append_assoc, drainTail_append])
      (fun T => getLastLSN_congr _ _ rfl T)
  exact chainInv_appendEnd E h5 (E.nextLSN m.se).1 txid

theorem chainInv_compensate (E : StorageEngine σ) {m : LogMgr σ} (h : ChainInv m)
    (r : LogRecord) (p o : Int) (b : String) : ChainInv (compensate E m r p o b).2 := by
  refine chainInv_emit h
    (CompensationLogRecord (E.nextLSN m.se).1 (getLastLSN m r.txID) r.txID p o b r.prevLSN)
    ?_ (fun _ _ => rfl) ?_
  · simp [emitted, flushed_append, flushed]
  · intro T hT
    have e1 : getLastLSN (compensate E m r p o b).2 T =
        getLastLSN (setStatusGuarded (setLastLSN (pushTail (callNextLSN E m).2
          (CompensationLogRecord (E.nextLSN m.se).1 (getLastLSN (callNextLSN E m).2 r.txID)
            r.txID p o b r.prevLSN)) r.txID (E.nextLSN m.se).1) r.txID TxStatus.U) T :=
      getLastLSN_congr _ _ (by simp [compensate]) T
    rw [e1, getLastLSN_setStatusGuarded, getLastLSN_setLastLSN _ _ _ _ hT]
    simp only [CompensationLogRecord, LogRecord.getType]
    rfl

theorem undoRecord_chainInv (E : StorageEngine σ) {m : LogMgr σ} (h : ChainInv m)
    (r : LogRecord) (q : List Int) : ChainInv (undoRecord E m r q).2.1 := by
  unfold undoRecord
  split
  · split_ifs
    · exact chainInv_compensate E h r _ _ _
    · exact chainInv_compensate E h r _ _ _
    · exact chainInv_appendEnd E (chainInv_compensate E h r _ _ _) _ _
  · split_ifs
    · exact h
    · exact chainInv_appendEnd E h _ _
  · split_ifs
    · exact h
    · exact chainInv_appendEnd E h _ _
  · exact h

theorem undoLoop_chainInv (E : StorageEngine σ) (log : List LogRecord) (fuel : Nat) :
    ∀ (m : LogMgr σ) (q : List Int) (m2 : LogMgr σ), ChainInv m →
      undoLoop E log fuel m q = .ok m2 → ChainInv m2 := by
  induction fuel with
  | zero =>
    intro m q m2 h hr
    cases q with
    | nil => simp only [undoLoop, Except.ok.injEq] at hr; rw [← hr]; exact h
    | cons a q => simp [undoLoop] at hr
  | succ n ih =>
    intro m q m2 h hr
    cases q with
    | nil => simp only [undoLoop, Except.ok.injEq] at hr; rw [← hr]; exact h
    | cons a q =>
      simp only [undoLoop] at hr
      split at hr
      · exact ih m q m2 h hr
      · next r hf =>
        split_ifs at hr
        · exact ih _ _ m2 (undoRecord_chainInv E h r q) hr
        · simp only [Except.ok.injEq] at hr
          rw [← hr]; exact undoRecord_chainInv E h r q

theorem chainInv_abort (E : StorageEngine σ) {m m2 : LogMgr σ} (h : ChainInv m) (fuel : Nat)
    (txid : Int) (hr : abort E fuel m txid = .ok m2) : ChainInv m2 := by
  unfold abort undo at hr
  refine undoLoop_chainInv E _ fuel _ _ m2 ?_ hr
  refine chainInv_emit h ⟨(E.nextLSN m.se).1, getLastLSN m txid, txid, .abort⟩ ?_
    (fun _ _ => rfl) ?_
  · simp [emitted, flushed_append, flushed]
  · intro T hT
    have e1 : getLastLSN (callGetLog E (setStatusGuarded (setLastLSN
        (pushTail (callNextLSN E m).2 ⟨(E.nextLSN m.se).1, getLastLSN m txid, txid, .abort⟩)
        txid (E.nextLSN m.se).1) txid TxStatus.U)).2 T =
        getLastLSN (setStatusGuarded (setLastLSN
          (pushTail (callNextLSN E m).2 ⟨(E.nextLSN m.se).1, getLastLSN m txid, txid, .abort⟩)
          txid (E.nextLSN m.se).1) txid TxStatus.U) T :=
      getLastLSN_congr _ _ rfl T
    refine e1.trans ?_
    rw [getLastLSN_setStatusGuarded, getLastLSN_setLastLSN _ _ _ _ hT]
    simp only [LogRecord.getType]
    rfl

theorem run_chainInv (E : StorageEngine σ) {m : LogMgr σ} (h : Run E m) : ChainInv m := by
  induction h with
  | init s =>
    constructor
    · intro pre R post he
      simp [emitted, freshMgr, flushed] at he
    · intro T _
      rfl
  | write txid page_id offset input oldtext _ ih =>
    exact chainInv_write E ih txid page_id offset input oldtext
  | commit txid _ ih => exact chainInv_commit E ih txid
  | abort fuel txid _ hr ih => exact chainInv_abort E ih fuel txid hr

/-- C15, counterexample: transaction id 1 is used again after its commit. The run
`write(1, ..)`, `commit(1)`, `write(1, ..)` on the stub engine emits UPDATE(1), COMMIT(2),
END(3) and then an UPDATE with LSN 4 whose `prevLSN` is `NULL_LSN`, although the record
emitted for transaction 1 immediately before it is the END with LSN 3. -/
theorem chain_reuse_counterexample :
    emitted (write stubEngine
        (commit stubEngine (write stubEngine (freshMgr stubInit) 1 7 0 "new" "old").2 1)
        1 7 0 "newer" "new").2 =
      [UpdateLogRecord 1 NULL_LSN 1 7 0 "old" "new", ⟨2, 1, 1, .commit⟩, ⟨3, 2, 1, .endTx⟩] ++
        UpdateLogRecord 4 NULL_LSN 1 7 0 "new" "newer" :: [] ∧
    lastOf [UpdateLogRecord 1 NULL_LSN 1 7 0 "old" "new", ⟨2, 1, 1, .commit⟩,
        ⟨3, 2, 1, .endTx⟩] 1 = some ⟨3, 2, 1, .endTx⟩ ∧
    (UpdateLogRecord 4 NULL_LSN 1 7 0 "new" "newer").prevLSN = NULL_LSN ∧
    (UpdateLogRecord 4 NULL_LSN 1 7 0 "new" "newer").prevLSN ≠ 3 := by
  decide

/-- C15, amended: over every run of `write`, `commit` and `abort` calls from a fresh
manager, for every UPDATE, CLR or ABORT record `R` emitted for a transaction `T` other than
`NULL_TX`, `R.prevLSN` equals the LSN of the record emitted for `T` immediately before `R`,
or `NULL_LSN` if no record was emitted for `T` before `R` or if that record is an END (the
id of an ended transaction being used again). -/
theorem chain_integrity (E : StorageEngine σ) {m : LogMgr σ} (hm : Run E m)
    (pre post : List LogRecord) (R : LogRecord) (he : emitted m = pre ++ R :: post)
    (hU : Undoable R) (hT : R.txID ≠ NULL_TX) :
    R.prevLSN = expectedPrev pre R.txID :=
  (run_chainInv E hm).1 pre R post he hU hT

/-- Witness of C15 (amended): the CLR that `abort(2)` emits for the second of two UPDATEs
of transaction 2 carries the LSN of the ABORT as `prevLSN`. -/
theorem chain_integrity_witness :
    ∃ m2, abort stubEngine 3
        (write stubEngine (write stubEngine (freshMgr stubInit) 2 9 4 "B" "A").2 2 9 5 "D" "C").2
        2 = .ok m2 ∧
      emitted m2 =
        [UpdateLogRecord 1 NULL_LSN 2 9 4 "A" "B", UpdateLogRecord 2 1 2 9 5 "C" "D",
          ⟨3, 2, 2, .abort⟩] ++ CompensationLogRecord 4 3 2 9 5 "C" 1 ::
          [CompensationLogRecord 5 4 2 9 4 "A" NULL_LSN, ⟨6, 5, 2, .endTx⟩] ∧
      (CompensationLogRecord 4 3 2 9 5 "C" 1).prevLSN =
        expectedPrev [UpdateLogRecord 1 NULL_LSN 2 9 4 "A" "B",
          UpdateLogRecord 2 1 2 9 5 "C" "D", ⟨3, 2, 2, .abort⟩] 2 :=
  ⟨_, rfl, by decide,
    chain_integrity stubEngine
      (Run.abort 3 2
        (Run.write 2 9 5 "D" "C" (Run.write 2 9 4 "B" "A" (Run.init stubInit))) rfl)
      [UpdateLogRecord 1 NULL_LSN 2 9 4 "A" "B", UpdateLogRecord 2 1 2 9 5 "C" "D",
        ⟨3, 2, 2, .abort⟩]
      [CompensationLogRecord 5 4 2 9 4 "A" NULL_LSN, ⟨6, 5, 2, .endTx⟩]
      (CompensationLogRecord 4 3 2 9 5 "C" 1) (by decide) (by decide) (by decide)⟩

/-! ### Running `recover` twice -/

theorem writeTargets_append (a b : List Call) :
    writeTargets (a ++ b) = writeTargets a ++ writeTargets b := by
  induction a with
  | nil => rfl
  | cons c cs ih =>
    cases c with
    | pageWrite p o t l ok => cases ok <;> simp [writeTargets, ih]
    | _ => simp [writeTargets, ih]

theorem imageAt_repeat (A B : List (Int × Int × String)) (p o : Int) :
    imageAt (A ++ B ++ B) p o = imageAt (A ++ B) p o := by
  unfold imageAt
  simp only [List.filter_append, List.getLast?_append]
  cases (B.filter (fun w => decide (w.1 = p ∧ w.2.1 = o))).getLast? <;> simp

theorem undoEffect_refl (E : StorageEngine σ) (mark : σ → Int) (m : LogMgr σ) :
    UndoEffect E mark m m [] :=
  ⟨by simp, le_refl _, fun _ _ _ h => h, fun _ _ h => h, fun p => by simp, fun _ => rfl⟩

theorem undoEffect_trans {E : StorageEngine σ} {mark : σ → Int} {m a b : LogMgr σ}
    {X Y : List (Int × Int × String)} (h1 : UndoEffect E mark m a X)
    (h2 : UndoEffect E mark a b Y) : UndoEffect E mark m b (X ++ Y) := by
  obtain ⟨a1, a2, a3, a4, a5, a6⟩ := h1
  obtain ⟨b1, b2, b3, b4, b5, b6⟩ := h2
  refine ⟨by rw [b1, a1, List.append_assoc], le_trans a2 b2, ?_, ?_, ?_, ?_⟩
  · intro p L hL hp
    exact b3 p L (le_trans hL a2) (a3 p L hL hp)
  · intro p v hv
    exact b4 p v (a4 p v hv)
  · intro p
    rw [b5, a5]
    constructor
    · rintro ((h | ⟨o, t, h⟩) | ⟨o, t, h⟩)
      · exact Or.inl h
      · exact Or.inr ⟨o, t, List.mem_append_left _ h⟩
      · exact Or.inr ⟨o, t, List.mem_append_right _ h⟩
    · rintro (h | ⟨o, t, h⟩)
      · exact Or.inl (Or.inl h)
      · rcases List.mem_append.mp h with h | h
        · exact Or.inl (Or.inr ⟨o, t, h⟩)
        · exact Or.inr ⟨o, t, h⟩
  · intro hall
    have e1 := a6 (fun w hw => hall w (List.mem_append_left _ hw))
    have e2 := b6 (fun w hw => by rw [e1]; exact hall w (List.mem_append_right _ hw))
    rw [e2, e1]

theorem undoEffect_appendEnd {E : StorageEngine σ} {mark : σ → Int}
    (hE : IncreasingLSN E mark) (hnext : ∀ s q, E.getLSN q (E.nextLSN s).2 = E.getLSN q s)
    (m : LogMgr σ) (prev tx : Int) : UndoEffect E mark m (appendEnd E m prev tx) [] := by
  have hgt := hE.nextLSN_gt m.se
  have hle := hE.nextLSN_mark m.se
  refine ⟨by simp [writeTargets_append, writeTargets], by simp only [appendEnd_se]; linarith,
    ?_, fun _ _ h => h, fun p => by simp, fun _ => rfl⟩
  intro p L _ hp
  simp only [appendEnd_se, hnext]
  exact hp

theorem undoEffect_compensate {E : StorageEngine σ} {mark : σ → Int}
    (hE : IncreasingLSN E mark) (hw : ∀ p o t l s, (E.pageWrite p o t l s).1 = true)
    (hstamp : ∀ p o t l s q,
      E.getLSN q (E.pageWrite p o t l s).2 = if q = p then l else E.getLSN q s)
    (hnext : ∀ s q, E.getLSN q (E.nextLSN s).2 = E.getLSN q s)
    (m : LogMgr σ) (r : LogRecord) (p o : Int) (b : String) :
    UndoEffect E mark m (compensate E m r p o b).2 [(p, o, b)] := by
  have hgt := hE.nextLSN_gt m.se
  have hle := hE.nextLSN_mark m.se
  have hpw := hE.pageWrite_mark p o b (E.nextLSN m.se).1 (E.nextLSN m.se).2
  refine ⟨?_, ?_, ?_, ?_, ?_, ?_⟩
  · simp [writeTargets_append, writeTargets, hw]
  · simp only [compensate_se]; linarith
  · intro q L hL hq
    simp only [compensate_se, hstamp, hnext]
    split_ifs
    · linarith
    · exact hq
  · intro q v hv
    rw [compensate_dpt]
    by_cases hq : q = p
    · subst hq; simp [hv]
    · simp [hq, hv]
  · intro q
    rw [compensate_dpt]
    by_cases hq : q = p
    · subst hq
      simp only [if_true, Option.isSome_some, true_iff]
      exact Or.inr ⟨o, b, List.mem_singleton.mpr rfl⟩
    · simp only [if_neg hq, List.mem_singleton, Prod.mk.injEq]
      constructor
      · exact fun h => Or.inl h
      · rintro (h | ⟨_, _, h, _⟩)
        · exact h
        · exact absurd h hq
  · intro hall
    have hp := hall (p, o, b) (List.mem_singleton.mpr rfl)
    simp only [compensate, callPageWrite_dpt]
    rw [dirtyIfAbsent_dpt]
    simp only [setStatusGuarded_dpt, setLastLSN_dpt, pushTail_dpt, callNextLSN_dpt]
    cases hm : mapFind m.dirty_page_table p with
    | none => rw [hm] at hp; simp at hp
    | some v => rfl

theorem undoRecord_effect {E : StorageEngine σ} {mark : σ → Int}
    (hE : IncreasingLSN E mark) (hw : ∀ p o t l s, (E.pageWrite p o t l s).1 = true)
    (hstamp : ∀ p o t l s q,
      E.getLSN q (E.pageWrite p o t l s).2 = if q = p then l else E.getLSN q s)
    (hnext : ∀ s q, E.getLSN q (E.nextLSN s).2 = E.getLSN q s)
    (m : LogMgr σ) (r : LogRecord) (q : List Int) :
    (undoRecord E m r q).1 = true ∧
      UndoEffect E mark m (undoRecord E m r q).2.1 (undoWrite r) := by
  obtain ⟨l, pv, t, body⟩ := r
  cases body with
  | update pg off bi ai =>
    have hc := undoEffect_compensate hE hw hstamp hnext m ⟨l, pv, t, .update pg off bi ai⟩
      pg off bi
    have hok : (compensate E m ⟨l, pv, t, .update pg off bi ai⟩ pg off bi).1 = true := by
      rw [compensate_fst]; exact hw _ _ _ _ _
    simp only [undoRecord, undoWrite]
    rw [if_neg (by rw [hok]; decide)]
    split_ifs
    · exact ⟨rfl, hc⟩
    · refine ⟨rfl, ?_⟩
      have := undoEffect_trans hc (undoEffect_appendEnd hE hnext
        (compensate E m ⟨l, pv, t, .update pg off bi ai⟩ pg off bi).2 (E.nextLSN m.se).1 t)
      simpa using this
  | clr pg off ai un =>
    simp only [undoRecord, undoWrite]
    split_ifs
    · exact ⟨rfl, undoEffect_refl E mark m⟩
    · exact ⟨rfl, undoEffect_appendEnd hE hnext m _ _⟩
  | abort =>
    simp only [undoRecord, undoWrite]
    split_ifs
    · exact ⟨rfl, undoEffect_refl E mark m⟩
    · exact ⟨rfl, undoEffect_appendEnd hE hnext m _ _⟩
  | commit => exact ⟨rfl, undoEffect_refl E mark m⟩
  | endTx => exact ⟨rfl, undoEffect_refl E mark m⟩
  | beginCkpt => exact ⟨rfl, undoEffect_refl E mark m⟩
  | endCkpt tt dpt => exact ⟨rfl, undoEffect_refl E mark m⟩

theorem undoRecord_queue {E : StorageEngine σ}
    (hw : ∀ p o t l s, (E.pageWrite p o t l s).1 = true)
    (m : LogMgr σ) (r : LogRecord) (q : List Int) :
    (undoRecord E m r q).2.2 =
      if Undoable r ∧ followLSN r ≠ NULL_LSN then pqPush q (followLSN r) else q := by
  obtain ⟨l, pv, t, body⟩ := r
  cases body with
  | update pg off bi ai =>
    have hok : ¬ ((compensate E m ⟨l, pv, t, .update pg off bi ai⟩ pg off bi).1 = false) := by
      rw [compensate_fst, hw]; decide
    simp only [undoRecord]
    rw [if_neg hok]
    by_cases hp : pv ≠ NULL_LSN
    · rw [if_pos hp, if_pos ⟨Or.inl rfl, hp⟩]
      rfl
    · rw [if_neg hp, if_neg (fun h => hp h.2)]
  | clr pg off ai un =>
    simp only [undoRecord]
    by_cases hp : un ≠ NULL_LSN
    · rw [if_pos hp, if_pos ⟨Or.inr (Or.inl rfl), hp⟩]
      rfl
    · rw [if_neg hp, if_neg (fun h => hp h.2)]
  | abort =>
    simp only [undoRecord]
    by_cases hp : pv ≠ NULL_LSN
    · rw [if_pos hp, if_pos ⟨Or.inr (Or.inr rfl), hp⟩]
      rfl
    · rw [if_neg hp, if_neg (fun h => hp h.2)]
  | commit =>
    rw [if_neg (by rintro ⟨h | h | h, _⟩ <;> simp [LogRecord.getType] at h)]
    rfl
  | endTx =>
    rw [if_neg (by rintro ⟨h | h | h, _⟩ <;> simp [LogRecord.getType] at h)]
    rfl
  | beginCkpt =>
    rw [if_neg (by rintro ⟨h | h | h, _⟩ <;> simp [LogRecord.getType] at h)]
    rfl
  | endCkpt tt dpt =>
    rw [if_neg (by rintro ⟨h | h | h, _⟩ <;> simp [LogRecord.getType] at h)]
    rfl

theorem undoLoop_twice {E : StorageEngine σ} {mark : σ → Int}
    (hE : IncreasingLSN E mark) (hw : ∀ p o t l s, (E.pageWrite p o t l s).1 = true)
    (hstamp : ∀ p o t l s q,
      E.getLSN q (E.pageWrite p o t l s).2 = if q = p then l else E.getLSN q s)
    (hnext : ∀ s q, E.getLSN q (E.nextLSN s).2 = E.getLSN q s)
    (log : List LogRecord) (fuel : Nat) :
    ∀ (m m2 : LogMgr σ) (q : List Int) (r : LogMgr σ), undoLoop E log fuel m q = .ok r →
      ∃ r2 X, undoLoop E log fuel m2 q = .ok r2 ∧ UndoEffect E mark m r X ∧
        UndoEffect E mark m2 r2 X ∧ ∀ w ∈ X, ∃ u ∈ log, w ∈ undoWrite u := by
  induction fuel with
  | zero =>
    intro m m2 q r hr
    cases q with
    | nil =>
      simp only [undoLoop, Except.ok.injEq] at hr
      subst hr
      exact ⟨m2, [], rfl, undoEffect_refl E mark m, undoEffect_refl E mark m2, by simp⟩
    | cons a q => simp [undoLoop] at hr
  | succ n ih =>
    intro m m2 q r hr
    cases q with
    | nil =>
      simp only [undoLoop, Except.ok.injEq] at hr
      subst hr
      exact ⟨m2, [], rfl, undoEffect_refl E mark m, undoEffect_refl E mark m2, by simp⟩
    | cons a q =>
      cases hf : log.find? (fun x => decide (x.lsn = a)) with
      | none =>
        rw [undoLoop_missing E n m q hf] at hr
        rw [undoLoop_missing E n m2 q hf]
        exact ih m m2 q r hr
      | some rec =>
        obtain ⟨s1, s2⟩ := undoRecord_effect hE hw hstamp hnext m rec q
        obtain ⟨t1, t2⟩ := undoRecord_effect hE hw hstamp hnext m2 rec q
        rw [undoLoop_found E n m q hf, if_pos s1] at hr
        rw [undoLoop_found E n m2 q hf, if_pos t1]
        have hq : (undoRecord E m2 rec q).2.2 = (undoRecord E m rec q).2.2 := by
          rw [undoRecord_queue hw, undoRecord_queue hw]
        rw [hq]
        obtain ⟨r2, X, i1, i2, i3, i4⟩ := ih (undoRecord E m rec q).2.1
          (undoRecord E m2 rec q).2.1 (undoRecord E m rec q).2.2 r hr
        refine ⟨r2, undoWrite rec ++ X, i1, undoEffect_trans s2 i2, undoEffect_trans t2 i3, ?_⟩
        intro w hw2
        rcases List.mem_append.mp hw2 with h | h
        · exact ⟨rec, List.mem_of_find?_eq_some hf, h⟩
        · exact i4 w h

theorem redoScan_done {E : StorageEngine σ}
    (hw : ∀ p o t l s, (E.pageWrite p o t l s).1 = true)
    (hstamp : ∀ p o t l s q,
      E.getLSN q (E.pageWrite p o t l s).2 = if q = p then l else E.getLSN q s)
    (log : List LogRecord) :
    ∀ (m : LogMgr σ),
      (∀ q, E.getLSN q m.se ≤ E.getLSN q (redoScan E m log).2.se) ∧
      ∀ r ∈ log, ∀ p o a v, redoTarget r = some (p, o, a) →
        mapFind m.dirty_page_table p = some v → v ≤ r.lsn →
        r.lsn ≤ E.getLSN p (redoScan E m log).2.se := by
  induction log with
  | nil => intro m; exact ⟨fun q => le_refl _, by simp⟩
  | cons r log ih =>
    intro m
    have hrest : ∀ (m2 : LogMgr σ), m2.dirty_page_table = m.dirty_page_table →
        (∀ q, E.getLSN q m.se ≤ E.getLSN q m2.se) →
        (∀ p o a v, redoTarget r = some (p, o, a) → mapFind m.dirty_page_table p = some v →
          v ≤ r.lsn → r.lsn ≤ E.getLSN p m2.se) →
        (∀ q, E.getLSN q m.se ≤ E.getLSN q (redoScan E m2 log).2.se) ∧
        ∀ r2 ∈ r :: log, ∀ p o a v, redoTarget r2 = some (p, o, a) →
          mapFind m.dirty_page_table p = some v → v ≤ r2.lsn →
          r2.lsn ≤ E.getLSN p (redoScan E m2 log).2.se := by
      intro m2 hd hmono hdone
      obtain ⟨i1, i2⟩ := ih m2
      refine ⟨fun q => le_trans (hmono q) (i1 q), ?_⟩
      intro r2 hr2 p o a v ht hv hle
      rcases List.mem_cons.mp hr2 with h | h
      · subst h
        exact le_trans (hdone p o a v ht hv hle) (i1 p)
      · exact i2 r2 h p o a v ht (by rw [hd]; exact hv) hle
    cases ht : redoTarget r with
    | none =>
      rw [redoScan]
      simp only [ht]
      exact hrest m rfl (fun q => le_refl _) (fun p o a v h => by rw [ht] at h; cases h)
    | some tg =>
      obtain ⟨pg, off, ai⟩ := tg
      cases hd : mapFind m.dirty_page_table pg with
      | none =>
        rw [redoScan]
        simp only [ht, hd]
        refine hrest m rfl (fun q => le_refl _) ?_
        intro p o a v h hv _
        rw [ht] at h
        simp only [Option.some.injEq, Prod.mk.injEq] at h
        rw [← h.1, hd] at hv
        cases hv
      | some recLSN =>
        rw [redoScan]
        simp only [ht, hd]
        by_cases h1 : recLSN > r.lsn
        · rw [if_pos h1]
          refine hrest m rfl (fun q => le_refl _) ?_
          intro p o a v h hv hle
          rw [ht] at h
          simp only [Option.some.injEq, Prod.mk.injEq] at h
          rw [← h.1, hd] at hv
          simp only [Option.some.injEq] at hv
          omega
        · rw [if_neg h1]
          by_cases h2 : (callGetLSN E m pg).1 ≥ r.lsn
          · rw [if_pos h2]
            refine hrest (callGetLSN E m pg).2 rfl (fun q => le_refl _) ?_
            intro p o a v h _ _
            rw [ht] at h
            simp only [Option.some.injEq, Prod.mk.injEq] at h
            rw [← h.1]
            exact h2
          · rw [if_neg h2, if_neg (by simp [hw])]
            simp only [callGetLSN_fst, ge_iff_le, not_le] at h2
            refine hrest (callPageWrite E (callGetLSN E m pg).2 pg off ai r.lsn).2 rfl ?_ ?_
            · intro q
              simp only [callPageWrite_se, callGetLSN_se, hstamp]
              split_ifs with hq
              · subst hq; omega
              · exact le_refl _
            · intro p o a v h _ _
              rw [ht] at h
              simp only [Option.some.injEq, Prod.mk.injEq] at h
              simp only [callPageWrite_se, callGetLSN_se, hstamp]
              rw [← h.1, if_pos rfl]

theorem redoScan_skip_all (E : StorageEngine σ) (log : List LogRecord) :
    ∀ (m : LogMgr σ),
      (∀ r ∈ log, ∀ p o a v, redoTarget r = some (p, o, a) →
        mapFind m.dirty_page_table p = some v → v ≤ r.lsn → r.lsn ≤ E.getLSN p m.se) →
      (redoScan E m log).1 = true ∧ (redoScan E m log).2.se = m.se ∧
        writeTargets (redoScan E m log).2.calls = writeTargets m.calls := by
  induction log with
  | nil => intro m _; exact ⟨rfl, rfl, rfl⟩
  | cons r log ih =>
    intro m h
    have hrest := ih m (fun r2 hr2 => h r2 (List.mem_cons_of_mem _ hr2))
    cases ht : redoTarget r with
    | none =>
      rw [redoScan]
      simp only [ht]
      exact hrest
    | some tg =>
      obtain ⟨pg, off, ai⟩ := tg
      cases hd : mapFind m.dirty_page_table pg with
      | none =>
        rw [redoScan]
        simp only [ht, hd]
        exact hrest
      | some recLSN =>
        rw [redoScan]
        simp only [ht, hd]
        by_cases h1 : recLSN > r.lsn
        · rw [if_pos h1]
          exact hrest
        · have h2 : (callGetLSN E m pg).1 ≥ r.lsn :=
            h r (List.mem_cons_self _ _) pg off ai recLSN ht hd (by omega)
          rw [if_neg h1, if_pos h2]
          obtain ⟨i1, i2, i3⟩ := ih (callGetLSN E m pg).2
            (fun r2 hr2 => h r2 (List.mem_cons_of_mem _ hr2))
          refine ⟨i1, i2, ?_⟩
          rw [i3]
          simp [writeTargets_append, writeTargets]

theorem foldl_eraseTx_tx_table (ks : List Int) :
    ∀ (m : LogMgr σ), (ks.foldl eraseTx m).tx_table = ks.foldl mapErase m.tx_table := by
  induction ks with
  | nil => intro m; rfl
  | cons k ks ih =>
    intro m
    simp only [List.foldl_cons]
    rw [ih]
    rfl

theorem redoEnd_keep {E : StorageEngine σ} {mark : σ → Int} (hE : IncreasingLSN E mark)
    (hnext : ∀ s q, E.getLSN q (E.nextLSN s).2 = E.getLSN q s) (m : LogMgr σ) :
    (∀ q, E.getLSN q (redoEnd E m).se = E.getLSN q m.se) ∧
    mark m.se ≤ mark (redoEnd E m).se ∧
    writeTargets (redoEnd E m).calls = writeTargets m.calls ∧
    (redoEnd E m).dirty_page_table = m.dirty_page_table ∧
    (redoEnd E m).tx_table =
      ((m.tx_table.filter (fun e => decide (e.2.status = TxStatus.C))).map Prod.fst).foldl
        mapErase m.tx_table := by
  have key : ∀ (tt : List (Int × txTableEntry)) (acc : LogMgr σ),
      (∀ q, E.getLSN q (tt.foldl
        (fun acc e =>
          if e.2.status = TxStatus.C then
            pushTail (callNextLSN E acc).2 ⟨(callNextLSN E acc).1, e.2.lastLSN, e.1, .endTx⟩
          else acc) acc).se = E.getLSN q acc.se) ∧
      mark acc.se ≤ mark (tt.foldl
        (fun acc e =>
          if e.2.status = TxStatus.C then
            pushTail (callNextLSN E acc).2 ⟨(callNextLSN E acc).1, e.2.lastLSN, e.1, .endTx⟩
          else acc) acc).se ∧
      writeTargets (tt.foldl
        (fun acc e =>
          if e.2.status = TxStatus.C then
            pushTail (callNextLSN E acc).2 ⟨(callNextLSN E acc).1, e.2.lastLSN, e.1, .endTx⟩
          else acc) acc).calls = writeTargets acc.calls := by
    intro tt
    induction tt with
    | nil => intro acc; exact ⟨fun q => rfl, le_refl _, rfl⟩
    | cons e tt ih =>
      intro acc
      simp only [List.foldl_cons]
      by_cases hc : e.2.status = TxStatus.C
      · simp only [if_pos hc]
        obtain ⟨h1, h2, h3⟩ := ih
          (pushTail (callNextLSN E acc).2 ⟨(callNextLSN E acc).1, e.2.lastLSN, e.1, .endTx⟩)
        have hgt := hE.nextLSN_gt acc.se
        have hle := hE.nextLSN_mark acc.se
        refine ⟨?_, ?_, ?_⟩
        · intro q; rw [h1]; simp [hnext]
        · simp only [pushTail_se, callNextLSN_se] at h2; linarith
        · rw [h3]; simp [writeTargets_append, writeTargets]
      · simp only [if_neg hc]
        exact ih acc
  obtain ⟨k1, k2, k3⟩ := key m.tx_table m
  obtain ⟨_, f2, f3, f4⟩ := foldl_eraseTx_frame
    ((m.tx_table.filter (fun e => decide (e.2.status = TxStatus.C))).map Prod.fst)
    (m.tx_table.foldl
      (fun acc e =>
        if e.2.status = TxStatus.C then
          pushTail (callNextLSN E acc).2 ⟨(callNextLSN E acc).1, e.2.lastLSN, e.1, .endTx⟩
        else acc) m)
  obtain ⟨_, _, g2, _, _⟩ := redoEnd_appended E m.tx_table m
  obtain ⟨_, _, _, g3⟩ := redoEnd_calls E m
  refine ⟨?_, ?_, ?_, g3, ?_⟩
  · intro q; unfold redoEnd; rw [f2]; exact k1 q
  · unfold redoEnd; rw [f2]; exact k2
  · unfold redoEnd; rw [f3]; exact k3
  · unfold redoEnd
    rw [foldl_eraseTx_tx_table, g2]

theorem redo_start_exists (E : StorageEngine σ) (dpt : List (Int × Int))
    (log : List LogRecord) (hd : dpt ≠ []) (hl : log ≠ []) :
    ∃ start, (∀ r ∈ start, r ∈ log) ∧ ∀ (m : LogMgr σ), m.dirty_page_table = dpt →
      redo E m log =
        if (redoScan E m start).1 = true then .ok (true, redoEnd E (redoScan E m start).2)
        else .ok (false, (redoScan E m start).2) := by
  cases hd2 : dpt with
  | nil => exact absurd hd2 hd
  | cons d ds =>
    cases hl2 : log with
    | nil => exact absurd hl2 hl
    | cons first rest =>
      refine ⟨if minRecLSN (d :: ds) ≠ NULL_LSN ∧ first.lsn < minRecLSN (d :: ds) then
          seekLSN (minRecLSN (d :: ds)) (first :: rest) else first :: rest, ?_, ?_⟩
      · intro r hr
        split_ifs at hr
        · exact seekLSN_subset _ _ r hr
        · exact hr
      · intro m hm
        simp only [redo, hm]

theorem adoptCheckpoint_cases (log : List LogRecord) :
    (∃ tt dpt, ∀ (m : LogMgr σ),
      adoptCheckpoint m log = { m with tx_table := tt, dirty_page_table := dpt }) ∨
    ((∀ r ∈ log, r.getType ≠ TxType.END_CKPT) ∧ ∀ (m : LogMgr σ), adoptCheckpoint m log = m) := by
  cases hf : log.reverse.find? (fun r => decide (r.getType = TxType.END_CKPT)) with
  | none =>
    right
    refine ⟨?_, fun m => by simp only [adoptCheckpoint, hf]⟩
    intro r hr
    have := List.find?_eq_none.mp hf r (List.mem_reverse.mpr hr)
    simpa using this
  | some ck =>
    left
    have hty : ck.getType = TxType.END_CKPT := by
      have := List.find?_some hf
      simpa using this
    obtain ⟨l, p, t, b⟩ := ck
    cases b <;> simp [LogRecord.getType] at hty
    rename_i tt dpt
    exact ⟨tt, dpt, fun m => by simp only [adoptCheckpoint, hf]⟩

theorem analyze_form (log : List LogRecord) (hl : log ≠ []) :
    ∃ start : List LogRecord, (∀ r ∈ start, r ∈ log) ∧ ∀ (m : LogMgr σ),
      analyze m log = .ok (start.foldl analyzeRecord (adoptCheckpoint m log)) := by
  cases hl2 : log with
  | nil => exact absurd hl2 hl
  | cons first rest =>
    refine ⟨if first.lsn < startLSN (first :: rest) ∨ startLSN (first :: rest) ≠ NULL_LSN then
        seekLSN (startLSN (first :: rest)) (first :: rest) else first :: rest, ?_, ?_⟩
    · intro r hr
      split_ifs at hr
      · exact seekLSN_subset _ _ r hr
      · exact hr
    · intro m
      simp only [analyze]

theorem analyzeRecord_tt_congr (m m2 : LogMgr σ) (r : LogRecord)
    (h1 : m.tx_table = m2.tx_table) :
    (analyzeRecord m r).tx_table = (analyzeRecord m2 r).tx_table := by
  obtain ⟨tt, dpt, tl, se, cs⟩ := m
  obtain ⟨tt2, dpt2, tl2, se2, cs2⟩ := m2
  simp only at h1
  subst h1
  obtain ⟨l, p, t, b⟩ := r
  by_cases hn : t = NULL_TX
  · cases b <;> simp [analyzeRecord, setLastLSN, setStatusGuarded, setStatus, hn]
  · cases b <;> simp [analyzeRecord, setLastLSN, setStatusGuarded, setStatus, hn]

theorem foldl_analyzeRecord_tt_congr (log : List LogRecord) :
    ∀ (m m2 : LogMgr σ), m.tx_table = m2.tx_table →
      (log.foldl analyzeRecord m).tx_table = (log.foldl analyzeRecord m2).tx_table := by
  induction log with
  | nil => intro m m2 h1; exact h1
  | cons r log ih =>
    intro m m2 h1
    simp only [List.foldl_cons]
    exact ih _ _ (analyzeRecord_tt_congr m m2 r h1)

theorem foldl_analyzeRecord_dpt_closed (log : List LogRecord) :
    ∀ (m : LogMgr σ),
      (∀ r ∈ log, ∀ p o a, redoTarget r = some (p, o, a) →
        (mapFind m.dirty_page_table p).isSome = true) →
      (log.foldl analyzeRecord m).dirty_page_table = m.dirty_page_table := by
  induction log with
  | nil => intro m _; rfl
  | cons r log ih =>
    intro m h
    simp only [List.foldl_cons]
    have h1 : (analyzeRecord m r).dirty_page_table = m.dirty_page_table := by
      rw [analyzeRecord_dpt]
      cases ht : redoTarget r with
      | none => rfl
      | some tg =>
        obtain ⟨p, o, a⟩ := tg
        have := h r (List.mem_cons_self _ _) p o a ht
        cases hm : mapFind m.dirty_page_table p with
        | none => rw [hm] at this; simp at this
        | some v => simp only [hm]
    rw [ih (analyzeRecord m r) (fun r2 hr2 p o a ht => by
      rw [h1]; exact h r2 (List.mem_cons_of_mem _ hr2) p o a ht), h1]

theorem analyze_again {log : List LogRecord} (hl : log ≠ [])
    (hpair : log.Pairwise (fun a b => a.lsn < b.lsn)) (hpos : ∀ r ∈ log, NULL_LSN < r.lsn)
    (s : σ) (ma m1 : LogMgr σ) (ha : analyze (freshMgr s) log = .ok ma)
    (htt : m1.tx_table = [])
    (hdpt : (∀ r ∈ log, r.getType ≠ TxType.END_CKPT) →
      m1.dirty_page_table = ma.dirty_page_table) :
    ∃ ma2, analyze m1 log = .ok ma2 ∧ ma2.tx_table = ma.tx_table ∧
      ma2.dirty_page_table = ma.dirty_page_table := by
  rcases adoptCheckpoint_cases (σ := σ) log with ⟨tt, dpt, hck⟩ | ⟨hno, _⟩
  · obtain ⟨start, _, hform⟩ := analyze_form (σ := σ) log hl
    rw [hform, hck] at ha
    simp only [Except.ok.injEq] at ha
    refine ⟨_, by rw [hform, hck], ?_, ?_⟩
    · rw [← ha]
      exact (foldl_analyzeRecord_tables_congr start
        { m1 with tx_table := tt, dirty_page_table := dpt }
        { freshMgr s with tx_table := tt, dirty_page_table := dpt } rfl rfl).1
    · rw [← ha]
      exact (foldl_analyzeRecord_tables_congr start
        { m1 with tx_table := tt, dirty_page_table := dpt }
        { freshMgr s with tx_table := tt, dirty_page_table := dpt } rfl rfl).2
  · cases hl2 : log with
    | nil => exact absurd hl2 hl
    | cons first rest =>
      rw [hl2] at hno hpos hpair ha
      have hf : NULL_LSN ≤ first.lsn := le_of_lt (hpos first (List.mem_cons_self _ _))
      rw [analyze_plain _ first rest hno hf] at ha
      simp only [Except.ok.injEq] at ha
      have hd1 : m1.dirty_page_table = ma.dirty_page_table :=
        hdpt (by rw [hl2]; exact hno)
      refine ⟨_, analyze_plain m1 first rest hno hf, ?_, ?_⟩
      · rw [← ha]
        exact foldl_analyzeRecord_tt_congr _ _ _ htt
      · rw [foldl_analyzeRecord_dpt_closed, hd1]
        intro r hr p o a ht
        obtain ⟨v, hv, _⟩ := foldl_analyzeRecord_dpt_le (first :: rest) (freshMgr s) hpair
          r hr p o a ht
        rw [hd1, ← ha, hv]
        rfl

theorem redoScan_mark {E : StorageEngine σ} {mark : σ → Int} (hE : IncreasingLSN E mark)
    (log : List LogRecord) :
    ∀ (m : LogMgr σ), mark m.se ≤ mark (redoScan E m log).2.se := by
  induction log with
  | nil => intro m; exact le_refl _
  | cons r rest ih =>
    intro m
    have hp := fun p o t l => hE.pageWrite_mark p o t l m.se
    unfold redoScan
    split
    · exact ih m
    · split
      · exact ih m
      · split_ifs
        · exact ih m
        · exact ih _
        · exact hp _ _ _ _
        · exact le_trans (hp _ _ _ _) (ih _)

theorem redo_twice {E : StorageEngine σ} {mark : σ → Int} (hE : IncreasingLSN E mark)
    (hw : ∀ p o t l s, (E.pageWrite p o t l s).1 = true)
    (hstamp : ∀ p o t l s q,
      E.getLSN q (E.pageWrite p o t l s).2 = if q = p then l else E.getLSN q s)
    (m : LogMgr σ) {log : List LogRecord} (hl : log ≠ []) :
    ∃ mS, redo E m log = .ok (true, redoEnd E mS) ∧ mS.tx_table = m.tx_table ∧
      mS.dirty_page_table = m.dirty_page_table ∧ mS.logtail = m.logtail ∧
      mark m.se ≤ mark mS.se ∧
      ∀ (m2 : LogMgr σ), m2.dirty_page_table = m.dirty_page_table →
        (∀ r ∈ log, ∀ q, r.lsn ≤ E.getLSN q mS.se → r.lsn ≤ E.getLSN q m2.se) →
        ∃ mS2, redo E m2 log = .ok (true, redoEnd E mS2) ∧ mS2.tx_table = m2.tx_table ∧
          mS2.dirty_page_table = m2.dirty_page_table ∧ mS2.logtail = m2.logtail ∧
          mS2.se = m2.se ∧ writeTargets mS2.calls = writeTargets m2.calls := by
  by_cases hd : m.dirty_page_table = []
  · refine ⟨m, by simp only [redo, hd], rfl, rfl, rfl, le_refl _, ?_⟩
    intro m2 h2 _
    rw [hd] at h2
    exact ⟨m2, by simp only [redo, h2], rfl, rfl, rfl, rfl, rfl⟩
  · obtain ⟨start, hsub, hform⟩ := redo_start_exists E m.dirty_page_table log hd hl
    obtain ⟨_, _, s2, s3, s4, _, _⟩ := redoScan_trace E start m
    obtain ⟨_, d2⟩ := redoScan_done hw hstamp start m
    refine ⟨(redoScan E m start).2, ?_, s2, s3, s4, redoScan_mark hE start m, ?_⟩
    · rw [hform m rfl, if_pos (redoScan_ok hw start m).1]
    · intro m2 h2 hbridge
      obtain ⟨_, _, t2, t3, t4, _, _⟩ := redoScan_trace E start m2
      obtain ⟨k1, k2, k3⟩ := redoScan_skip_all E start m2
        (by
          intro r hr p o a v ht hv hle
          rw [h2] at hv
          exact hbridge r (hsub r hr) p (d2 r hr p o a v ht hv hle))
      refine ⟨(redoScan E m2 start).2, ?_, t2, t3, t4, k2, k3⟩
      rw [hform m2 h2, if_pos k1]

theorem undoInv_seed {E : StorageEngine σ} {log : List LogRecord} (hlog : UndoableLog log)
    (mS : LogMgr σ) (hg : GoodTable log mS.tx_table) :
    UndoInv log (fun _ => False) (redoEnd E mS) (seedToUndo (redoEnd E mS) NULL_TX) := by
  obtain ⟨e1, _⟩ := redoEnd_effect E mS
  have hcase : ∀ x ∈ (redoEnd E mS).tx_table,
      ∃ r ∈ log, r.lsn = x.2.lastLSN ∧ r.txID = x.1 ∧ Undoable r ∧ x.1 ≠ NULL_TX := by
    intro x hx
    obtain ⟨hx1, hx2⟩ := (e1 x).mp hx
    obtain ⟨g1, g2⟩ := hg x hx1
    have hU : x.2.status = TxStatus.U := by
      have := hx2 x hx1 rfl
      cases hs : x.2.status with
      | U => rfl
      | C => exact absurd hs this
    obtain ⟨r, hr, r1, r2, r3⟩ := g2 hU
    exact ⟨r, hr, r1, r2, r3, g1⟩
  refine ⟨?_, ?_, fun _ h => h.elim⟩
  · intro L hL
    obtain ⟨x, hx, hxl⟩ := (mem_seedToUndo _ _).mp hL
    obtain ⟨r, hr, r1, r2, r3, g1⟩ := hcase x hx
    refine ⟨r, ?_, r3, by rw [r2]; exact g1⟩
    rw [← hxl, ← r1]
    exact find?_of_mem_pairwise hlog.2.1 hr
  · intro x hx
    obtain ⟨r, hr, r1, r2, _, _⟩ := hcase x hx
    refine ⟨x.2.lastLSN, (mem_seedToUndo _ _).mpr ⟨x, hx, rfl⟩, r, ?_, r2⟩
    rw [← r1]
    exact find?_of_mem_pairwise hlog.2.1 hr

theorem undoWrite_in_dpt {log : List LogRecord}
    (hpair : log.Pairwise (fun a b => a.lsn < b.lsn)) (hpos : ∀ r ∈ log, NULL_LSN < r.lsn)
    (hno : ∀ r ∈ log, r.getType ≠ TxType.END_CKPT) (s : σ) (ma : LogMgr σ)
    (ha : analyze (freshMgr s) log = .ok ma) (X : List (Int × Int × String))
    (hX : ∀ w ∈ X, ∃ u ∈ log, w ∈ undoWrite u) :
    ∀ w ∈ X, (mapFind ma.dirty_page_table w.1).isSome = true := by
  intro w hw
  obtain ⟨u, hu, hwu⟩ := hX w hw
  cases hl2 : log with
  | nil => rw [hl2] at hu; simp at hu
  | cons first rest =>
    rw [hl2] at hno hpos hpair ha hu
    rw [analyze_plain _ first rest hno
      (le_of_lt (hpos first (List.mem_cons_self _ _)))] at ha
    simp only [Except.ok.injEq] at ha
    obtain ⟨l, pv, t, body⟩ := u
    cases body with
    | update pg off bi ai =>
      simp only [undoWrite, List.mem_singleton] at hwu
      obtain ⟨v, hv, _⟩ := foldl_analyzeRecord_dpt_le (first :: rest) (freshMgr s) hpair
        ⟨l, pv, t, .update pg off bi ai⟩ hu pg off ai rfl
      rw [hwu, ← ha, hv]
      rfl
    | _ => simp [undoWrite] at hwu

/-- C13, counterexample: transaction 1 writes page 7, the page is flushed, a checkpoint is
taken (its snapshot lists transaction 1 and no dirty page), and the system crashes. On the
stub engine, which accepts every `pageWrite` and stamps the page with the given LSN,
`recover` of the durable log leaves page 7 in the dirty page table with recLSN 4, the LSN of
the CLR it wrote; a second `recover` of the same log leaves it there with recLSN 6. -/
theorem recover_twice_dpt_counterexample :
    stubEngine.getLog (checkpoint stubEngine (pageFlushed stubEngine
        (write stubEngine (freshMgr stubInit) 1 7 0 "new" "old").2 7)).se =
      [UpdateLogRecord 1 NULL_LSN 1 7 0 "old" "new", ⟨2, NULL_LSN, NULL_TX, .beginCkpt⟩,
        ChkptLogRecord 3 2 NULL_TX [(1, ⟨1, TxStatus.U⟩)] []] ∧
    ∃ m1 m2,
      recover stubEngine 2
        (freshMgr (checkpoint stubEngine (pageFlushed stubEngine
          (write stubEngine (freshMgr stubInit) 1 7 0 "new" "old").2 7)).se)
        [UpdateLogRecord 1 NULL_LSN 1 7 0 "old" "new", ⟨2, NULL_LSN, NULL_TX, .beginCkpt⟩,
          ChkptLogRecord 3 2 NULL_TX [(1, ⟨1, TxStatus.U⟩)] []] = .ok m1 ∧
      recover stubEngine 2 m1
        [UpdateLogRecord 1 NULL_LSN 1 7 0 "old" "new", ⟨2, NULL_LSN, NULL_TX, .beginCkpt⟩,
          ChkptLogRecord 3 2 NULL_TX [(1, ⟨1, TxStatus.U⟩)] []] = .ok m2 ∧
      m1.dirty_page_table = [(7, 4)] ∧ m2.dirty_page_table = [(7, 6)] ∧
      m1.tx_table = [] ∧ m2.tx_table = [] :=
  ⟨by decide, _, _, rfl, rfl, by decide, by decide, by decide, by decide⟩

/-- C13, amended: let `log` be a well-formed log: not empty, with strictly increasing LSNs
above `NULL_LSN` and not above those the engine has handed out, whose records of
transactions are UPDATE, CLR, ABORT, COMMIT or END records chained back to earlier records
of the same transaction, and whose last END_CKPT (if any) lists only such transactions.
Let the engine hand out increasing LSNs, accept every `pageWrite` and stamp the page with
the given LSN, `nextLSN` leaving the page LSNs alone. Then `recover(log)` called twice in a
row on a fresh manager returns both times (for every large enough budget); the transaction
table is empty after both calls; the page writes of the second call repeat, with the same
pages, offsets and texts and in the same order, the final stretch `U` of the page writes of
the first call (those of its Undo, the second Redo issuing none), so that every page
offset holds after the second call the text it held after the first; the dirty page table
lists the same pages after both calls and keeps every entry it had after Analysis; and it
is the same table after both calls when the log holds no END_CKPT. -/
theorem recover_twice {E : StorageEngine σ} {mark : σ → Int} (hE : IncreasingLSN E mark)
    (hw : ∀ p o t l s, (E.pageWrite p o t l s).1 = true)
    (hstamp : ∀ p o t l s q,
      E.getLSN q (E.pageWrite p o t l s).2 = if q = p then l else E.getLSN q s)
    (hnext : ∀ s q, E.getLSN q (E.nextLSN s).2 = E.getLSN q s)
    (s : σ) {log : List LogRecord} (hlog : UndoableLog log)
    (hpos : ∀ r ∈ log, NULL_LSN < r.lsn) (hmark : ∀ r ∈ log, r.lsn ≤ mark s)
    (hsnap : GoodTable log (adoptCheckpoint (freshMgr s) log).tx_table) :
    ∃ ma m1 m2 fuel0 R U,
      analyze (freshMgr s) log = .ok ma ∧
      (∀ fuel, fuel0 ≤ fuel →
        recover E fuel (freshMgr s) log = .ok m1 ∧ recover E fuel m1 log = .ok m2) ∧
      m1.tx_table = [] ∧ m2.tx_table = [] ∧
      writeTargets m1.calls = R ++ U ∧ writeTargets m2.calls = R ++ U ++ U ∧
      (∀ p o, imageAt (writeTargets m2.calls) p o = imageAt (writeTargets m1.calls) p o) ∧
      (∀ p, (mapFind m2.dirty_page_table p).isSome = (mapFind m1.dirty_page_table p).isSome) ∧
      (∀ p v, mapFind ma.dirty_page_table p = some v →
        mapFind m1.dirty_page_table p = some v ∧ mapFind m2.dirty_page_table p = some v) ∧
      ((∀ r ∈ log, r.getType ≠ TxType.END_CKPT) →
        m2.dirty_page_table = m1.dirty_page_table) := by
  obtain ⟨ma, ha, hg, _, hase⟩ := analyze_good hlog (freshMgr s) hsnap
  replace hase : ma.se = s := hase
  -- the first Redo
  obtain ⟨mS, hredo, hS1, hS2, _, hS4, hsecond⟩ := redo_twice hE hw hstamp ma hlog.1
  obtain ⟨k1, k2, k3, k4, k5⟩ := redoEnd_keep hE hnext mS
  -- the first Undo
  have hinv := undoInv_seed (E := E) hlog mS (by rw [hS1]; exact hg)
  obtain ⟨m1, hu1, htt1, _⟩ := undoLoop_ends hw hlog (fun _ => False)
    (weight log (seedToUndo (redoEnd E mS) NULL_TX)) _ _ hinv (le_refl _)
  obtain ⟨_, X0, _, hX0, _, hX0log⟩ := undoLoop_twice hE hw hstamp hnext log _
    (redoEnd E mS) (redoEnd E mS) _ m1 hu1
  obtain ⟨_, _, x3, _, _, x6⟩ := hX0
  have hm1dpt : (∀ r ∈ log, r.getType ≠ TxType.END_CKPT) →
      m1.dirty_page_table = ma.dirty_page_table := by
    intro hno
    rw [x6 (by
      intro w hw2
      rw [k4, hS2]
      exact undoWrite_in_dpt hlog.2.1 hpos hno s ma ha X0 hX0log w hw2), k4, hS2]
  -- the second Analysis
  obtain ⟨ma2, ha2, ht2, hd2⟩ := analyze_again hlog.1 hlog.2.1 hpos s ma m1 ha htt1 hm1dpt
  obtain ⟨_, hase2, hacalls2⟩ := analyze_frame ha2
  -- the second Redo
  obtain ⟨mS2, hredo2, hT1, hT2, _, hT4, hT5⟩ := hsecond ma2 hd2 (by
    intro r hr q hle
    rw [hase2]
    refine x3 q r.lsn ?_ (by rw [k1]; exact hle)
    have := hmark r hr
    rw [← hase] at this
    linarith)
  obtain ⟨_, _, j3, j4, j5⟩ := redoEnd_keep hE hnext mS2
  have htteq : (redoEnd E mS2).tx_table = (redoEnd E mS).tx_table := by
    rw [j5, k5, hT1, ht2, hS1]
  have hseed : seedToUndo (redoEnd E mS2) NULL_TX = seedToUndo (redoEnd E mS) NULL_TX := by
    simp only [seedToUndo, htteq]
  -- the second Undo
  obtain ⟨m2, X, hu2, hX1, hX2, hXlog⟩ := undoLoop_twice hE hw hstamp hnext log _
    (redoEnd E mS) (redoEnd E mS2) _ m1 hu1
  have hinv2 := undoInv_seed (E := E) hlog mS2 (by rw [hT1, ht2]; exact hg)
  obtain ⟨m2b, hu2b, htt2, _⟩ := undoLoop_ends hw hlog (fun _ => False)
    (weight log (seedToUndo (redoEnd E mS) NULL_TX)) _ _ hinv2 (by rw [hseed])
  rw [hseed, hu2] at hu2b
  simp only [Except.ok.injEq] at hu2b
  subst hu2b
  obtain ⟨y1, _, _, y4, y5, y6⟩ := hX1
  obtain ⟨z1, _, _, z4, z5, z6⟩ := hX2
  have hw1 : writeTargets m1.calls = writeTargets mS.calls ++ X := by rw [y1, k3]
  have hw2 : writeTargets m2.calls = writeTargets mS.calls ++ X ++ X := by
    rw [z1, j3, hT5, hacalls2, hw1]
  have hdE1 : (redoEnd E mS).dirty_page_table = ma.dirty_page_table := by rw [k4, hS2]
  have hdE2 : (redoEnd E mS2).dirty_page_table = ma.dirty_page_table := by rw [j4, hT2, hd2]
  refine ⟨ma, m1, m2, weight log (seedToUndo (redoEnd E mS) NULL_TX), writeTargets mS.calls, X,
    ha, ?_, htt1, htt2, hw1, hw2, ?_, ?_, ?_, ?_⟩
  · intro fuel hfuel
    obtain ⟨extra, rfl⟩ : ∃ extra,
        fuel = weight log (seedToUndo (redoEnd E mS) NULL_TX) + extra :=
      ⟨fuel - weight log (seedToUndo (redoEnd E mS) NULL_TX), by omega⟩
    constructor
    · simp only [recover, ha, hredo, undo]
      exact undoLoop_mono E log _ _ _ _ extra hu1
    · simp only [recover, ha2, hredo2, undo]
      rw [hseed]
      exact undoLoop_mono E log _ _ _ _ extra hu2
  · intro p o
    rw [hw1, hw2, imageAt_repeat]
  · intro p
    rw [Bool.eq_iff_iff, y5, z5, hdE1, hdE2]
  · intro p v hv
    exact ⟨y4 p v (by rw [hdE1]; exact hv), z4 p v (by rw [hdE2]; exact hv)⟩
  · intro hno
    have hin := undoWrite_in_dpt hlog.2.1 hpos hno s ma ha X hXlog
    rw [y6 (by intro w hw2; rw [hdE1]; exact hin w hw2),
      z6 (by intro w hw2; rw [hdE2]; exact hin w hw2), hdE1, hdE2]

/-- Witness of C13 (amended): the log holds an UPDATE of page 7 by transaction 1, which
never ended, and an UPDATE of page 9 by transaction 2 with its COMMIT; the stub engine has
handed out three LSNs. -/
theorem recover_twice_witness :
    ∃ ma m1 m2 fuel0 R U,
      analyze (freshMgr { stubInit with next := 4 })
        [UpdateLogRecord 1 NULL_LSN 1 7 0 "old" "new", UpdateLogRecord 2 NULL_LSN 2 9 4 "A" "B",
          ⟨3, 2, 2, .commit⟩] = .ok ma ∧
      (∀ fuel, fuel0 ≤ fuel →
        recover stubEngine fuel (freshMgr { stubInit with next := 4 })
          [UpdateLogRecord 1 NULL_LSN 1 7 0 "old" "new",
            UpdateLogRecord 2 NULL_LSN 2 9 4 "A" "B", ⟨3, 2, 2, .commit⟩] = .ok m1 ∧
        recover stubEngine fuel m1
          [UpdateLogRecord 1 NULL_LSN 1 7 0 "old" "new",
            UpdateLogRecord 2 NULL_LSN 2 9 4 "A" "B", ⟨3, 2, 2, .commit⟩] = .ok m2) ∧
      m1.tx_table = [] ∧ m2.tx_table = [] ∧
      writeTargets m1.calls = R ++ U ∧ writeTargets m2.calls = R ++ U ++ U ∧
      (∀ p o, imageAt (writeTargets m2.calls) p o = imageAt (writeTargets m1.calls) p o) ∧
      (∀ p, (mapFind m2.dirty_page_table p).isSome = (mapFind m1.dirty_page_table p).isSome) ∧
      (∀ p v, mapFind ma.dirty_page_table p = some v →
        mapFind m1.dirty_page_table p = some v ∧ mapFind m2.dirty_page_table p = some v) ∧
      ((∀ r ∈ [UpdateLogRecord 1 NULL_LSN 1 7 0 "old" "new",
          UpdateLogRecord 2 NULL_LSN 2 9 4 "A" "B", (⟨3, 2, 2, .commit⟩ : LogRecord)],
          r.getType ≠ TxType.END_CKPT) →
        m2.dirty_page_table = m1.dirty_page_table) :=
  recover_twice stub_increasing (fun _ _ _ _ _ => rfl) stub_stamps (fun _ _ => rfl)
    { stubInit with next := 4 } (by decide) (by decide) (by decide) (by decide)

/-! ### `flushLogTail` -/

theorem drainTail_fst_le (l : Int) (tail : List LogRecord) :
    ∀ r ∈ (drainTail l tail).1, r.lsn ≤ l := by
  induction tail with
  | nil => intro r hr; simp [drainTail] at hr
  | cons x rest ih =>
    intro r hr
    unfold drainTail at hr
    split_ifs at hr with hx
    · rcases List.mem_cons.mp hr with h | h
      · rw [h]; exact hx
      · exact ih r h
    · simp at hr

theorem drainTail_snd_head (l : Int) (tail : List LogRecord) :
    ∀ r, (drainTail l tail).2.head? = some r → l < r.lsn := by
  induction tail with
  | nil => intro r hr; simp [drainTail] at hr
  | cons x rest ih =>
    intro r hr
    unfold drainTail at hr
    split_ifs at hr with hx
    · exact ih r hr
    · simp only [List.head?_cons, Option.some.injEq] at hr
      rw [← hr]; omega

theorem drainTail_longest (l : Int) (tail : List LogRecord) :
    ∀ p, p <+: tail → (∀ r ∈ p, r.lsn ≤ l) → p <+: (drainTail l tail).1 := by
  induction tail with
  | nil =>
    intro p hp _
    rw [List.prefix_nil] at hp
    rw [hp]
    exact List.nil_prefix
  | cons x rest ih =>
    intro p hp hall
    cases p with
    | nil => exact List.nil_prefix
    | cons y p2 =>
      rw [List.cons_prefix_cons] at hp
      obtain ⟨hy, hp2⟩ := hp
      subst hy
      have hx : y.lsn ≤ l := hall y (List.mem_cons_self _ _)
      unfold drainTail
      rw [if_pos hx]
      rw [List.cons_prefix_cons]
      exact ⟨rfl, ih p2 hp2 (fun r hr => hall r (List.mem_cons_of_mem _ hr))⟩

theorem drainTail_none (l : Int) (tail : List LogRecord)
    (h : tail = [] ∨ ∃ first, tail.head? = some first ∧ l < first.lsn) :
    drainTail l tail = ([], tail) := by
  rcases h with h | ⟨first, h1, h2⟩
  · rw [h]; rfl
  · cases tail with
    | nil => rfl
    | cons x rest =>
      simp only [List.head?_cons, Option.some.injEq] at h1
      subst h1
      unfold drainTail
      rw [if_neg (by omega)]

/-- C23: for every tail and every `maxLSN`, `flushLogTail(maxLSN)` splits the tail into
`pre ++ rest`, `pre` being its longest prefix all of whose records have LSN `<= maxLSN`
(every prefix with that property is a prefix of `pre`, and `rest` is empty or starts with a
record of LSN `> maxLSN`); it passes the records of `pre`, in tail order, to `updateLog` in
one call, leaves `rest` as the tail and does not touch the tables. When the tail is empty or
its first record has LSN `> maxLSN`, `pre` is empty: the tail is unchanged, nothing is added
to the records passed to `updateLog`, and the durable log of an engine whose `updateLog`
appends the chunk is unchanged. -/
theorem flushLogTail_prefix (E : StorageEngine σ) (m : LogMgr σ) (maxLSN : Int) :
    ∃ pre rest, m.logtail = pre ++ rest ∧ (∀ r ∈ pre, r.lsn ≤ maxLSN) ∧
      (∀ r, rest.head? = some r → maxLSN < r.lsn) ∧
      (∀ p, p <+: m.logtail → (∀ r ∈ p, r.lsn ≤ maxLSN) → p <+: pre) ∧
      (flushLogTail E m maxLSN).logtail = rest ∧
      (flushLogTail E m maxLSN).calls = m.calls ++ [Call.updateLog pre] ∧
      (flushLogTail E m maxLSN).se = E.updateLog pre m.se ∧
      (flushLogTail E m maxLSN).tx_table = m.tx_table ∧
      (flushLogTail E m maxLSN).dirty_page_table = m.dirty_page_table ∧
      ((m.logtail = [] ∨ ∃ first, m.logtail.head? = some first ∧ maxLSN < first.lsn) →
        pre = [] ∧ (flushLogTail E m maxLSN).logtail = m.logtail ∧
        flushed (flushLogTail E m maxLSN).calls = flushed m.calls ∧
        ((∀ c s, E.getLog (E.updateLog c s) = E.getLog s ++ c) →
          E.getLog (flushLogTail E m maxLSN).se = E.getLog m.se)) := by
  refine ⟨(drainTail maxLSN m.logtail).1, (drainTail maxLSN m.logtail).2,
    (drainTail_append maxLSN m.logtail).symm, drainTail_fst_le maxLSN m.logtail,
    drainTail_snd_head maxLSN m.logtail, drainTail_longest maxLSN m.logtail, rfl, rfl, rfl,
    rfl, rfl, ?_⟩
  intro h
  have hd := drainTail_none maxLSN m.logtail h
  refine ⟨by rw [hd], by rw [flushLogTail_logtail, hd], ?_, ?_⟩
  · rw [flushLogTail_calls, hd, flushed_append]
    simp [flushed]
  · intro happ
    rw [flushLogTail_se, hd, happ]
    simp

/-- Witness of C23: the tail holds records with LSNs 1, 2 and 5; `flushLogTail(3)` passes
the first two to `updateLog` and leaves the third; `flushLogTail(0)` changes nothing. -/
theorem flushLogTail_prefix_witness :
    (flushLogTail stubEngine
        (⟨[], [], [UpdateLogRecord 1 NULL_LSN 1 7 0 "old" "new", ⟨2, 1, 1, .abort⟩,
          UpdateLogRecord 5 NULL_LSN 2 9 0 "A" "B"], stubInit, []⟩ : LogMgr Stub) 3).calls =
      [Call.updateLog [UpdateLogRecord 1 NULL_LSN 1 7 0 "old" "new", ⟨2, 1, 1, .abort⟩]] ∧
    stubEngine.getLog (flushLogTail stubEngine
        (⟨[], [], [UpdateLogRecord 1 NULL_LSN 1 7 0 "old" "new", ⟨2, 1, 1, .abort⟩,
          UpdateLogRecord 5 NULL_LSN 2 9 0 "A" "B"], stubInit, []⟩ : LogMgr Stub) 0).se =
      stubEngine.getLog stubInit := by
  refine ⟨by decide, ?_⟩
  obtain ⟨pre, rest, _, _, _, _, _, _, _, _, _, h⟩ := flushLogTail_prefix stubEngine
    (⟨[], [], [UpdateLogRecord 1 NULL_LSN 1 7 0 "old" "new", ⟨2, 1, 1, .abort⟩,
      UpdateLogRecord 5 NULL_LSN 2 9 0 "A" "B"], stubInit, []⟩ : LogMgr Stub) 0
  exact (h (Or.inr ⟨_, rfl, by decide⟩)).2.2.2 (fun c s => rfl)

/-! ### Analysis of ABORT and checkpoint records -/

/-- C27 as stated fails: the scan assigns status `U` to the transaction of every record
before it looks at the type. Transaction 1 is in the table with status `C`; after the ABORT
record of transaction 1 its status is `U`. -/
theorem analyze_abort_status_counterexample :
    (⟨3, 2, 1, .abort⟩ : LogRecord).getType = TxType.ABORT ∧
    mapFind (⟨[(1, ⟨2, TxStatus.C⟩)], [], [], stubInit, []⟩ : LogMgr Stub).tx_table 1 =
      some ⟨2, TxStatus.C⟩ ∧
    mapFind (analyzeRecord (⟨[(1, ⟨2, TxStatus.C⟩)], [], [], stubInit, []⟩ : LogMgr Stub)
      ⟨3, 2, 1, .abort⟩).tx_table 1 = some ⟨3, TxStatus.U⟩ := by
  refine ⟨rfl, ?_, ?_⟩ <;> decide

/-- C27, amended: when the forward scan processes an ABORT, BEGIN_CKPT or END_CKPT record
`R`, nothing at all changes if `R.txID = NULL_TX`; otherwise the entry of `R.txID` becomes
`(lastLSN = R.lsn, status = U)`, being created if absent, so that an entry of `R.txID` that
already had status `U` changes in its `lastLSN` only; every other transaction table entry,
the whole dirty page table, the log tail and the engine are unchanged. -/
theorem analyze_abort_ckpt (m : LogMgr σ) (R : LogRecord)
    (hR : R.getType = TxType.ABORT ∨ R.getType = TxType.BEGIN_CKPT ∨
      R.getType = TxType.END_CKPT) :
    (R.txID = NULL_TX → analyzeRecord m R = m) ∧
    (R.txID ≠ NULL_TX →
      (analyzeRecord m R).tx_table = mapSet m.tx_table R.txID ⟨R.lsn, TxStatus.U⟩ ∧
      mapFind (analyzeRecord m R).tx_table R.txID = some ⟨R.lsn, TxStatus.U⟩ ∧
      (∀ e, mapFind m.tx_table R.txID = some e → e.status = TxStatus.U →
        mapFind (analyzeRecord m R).tx_table R.txID = some { e with lastLSN := R.lsn }) ∧
      ∀ T, T ≠ R.txID → mapFind (analyzeRecord m R).tx_table T = mapFind m.tx_table T) ∧
    (analyzeRecord m R).dirty_page_table = m.dirty_page_table ∧
    (analyzeRecord m R).logtail = m.logtail ∧ (analyzeRecord m R).se = m.se ∧
    (analyzeRecord m R).calls = m.calls := by
  obtain ⟨g1, g2, g3⟩ := analyzeRecord_frame m R
  have hdpt : (analyzeRecord m R).dirty_page_table = m.dirty_page_table := by
    rw [analyzeRecord_dpt]
    obtain ⟨l, p, t, b⟩ := R
    cases b <;> simp [LogRecord.getType] at hR <;> rfl
  refine ⟨?_, ?_, hdpt, g1, g2, g3⟩
  · intro ht
    obtain ⟨l, p, t, b⟩ := R
    simp only at ht
    subst ht
    cases b <;> simp [LogRecord.getType] at hR <;>
      simp only [analyzeRecord, setLastLSN_null, setStatusGuarded_null]
  · intro ht
    have htt : (analyzeRecord m R).tx_table = mapSet m.tx_table R.txID ⟨R.lsn, TxStatus.U⟩ := by
      rw [analyzeRecord_tx_table m R ht]
      obtain ⟨l, p, t, b⟩ := R
      cases b <;> simp [LogRecord.getType] at hR <;> rfl
    refine ⟨htt, ?_, ?_, ?_⟩
    · rw [htt, mapFind_mapSet, if_pos rfl]
    · intro e _ hs
      rw [htt, mapFind_mapSet, if_pos rfl, ← hs]
    · intro T hT
      rw [htt, mapFind_mapSet, if_neg hT]

/-- Witness of C27: transaction 1 is in the table with status `U`; the ABORT record of
transaction 1 moves its `lastLSN` and nothing else. -/
theorem analyze_abort_ckpt_witness :
    (⟨3, 2, 1, .abort⟩ : LogRecord).getType = TxType.ABORT ∧
    (analyzeRecord (⟨[(1, ⟨2, TxStatus.U⟩), (2, ⟨1, TxStatus.C⟩)], [(7, 1)], [], stubInit,
      []⟩ : LogMgr Stub) ⟨3, 2, 1, .abort⟩).tx_table =
      [(1, ⟨3, TxStatus.U⟩), (2, ⟨1, TxStatus.C⟩)] :=
  ⟨rfl, ((analyze_abort_ckpt (⟨[(1, ⟨2, TxStatus.U⟩), (2, ⟨1, TxStatus.C⟩)], [(7, 1)], [],
    stubInit, []⟩ : LogMgr Stub) ⟨3, 2, 1, .abort⟩ (Or.inl rfl)).2.1 (by decide)).1.trans
    (by decide)⟩

/-! ### The END records of `redo` -/

theorem mapErase_eq_filter {V : Type} (m : List (Int × V)) (k : Int) :
    mapErase m k = m.filter (fun e => decide (e.1 ≠ k)) := by
  induction m with
  | nil => rfl
  | cons e m ih =>
    obtain ⟨a, b⟩ := e
    by_cases h : a = k
    · simp [mapErase, h, ih]
    · simp [mapErase, h, ih]

theorem foldl_mapErase_eq_filter {V : Type} (ks : List Int) :
    ∀ (m : List (Int × V)), ks.foldl mapErase m = m.filter (fun e => decide (e.1 ∉ ks)) := by
  induction ks with
  | nil => intro m; simp
  | cons k ks ih =>
    intro m
    simp only [List.foldl_cons, ih, mapErase_eq_filter, List.filter_filter]
    apply List.filter_congr
    intro x _
    simp only [List.mem_cons, not_or, ne_eq, Bool.decide_and, Bool.and_comm]

theorem mapFind_none_of_lt {V : Type} (m : List (Int × V)) (k : Int)
    (h : ∀ x ∈ m, k < x.1) : mapFind m k = none := by
  induction m with
  | nil => rfl
  | cons e m ih =>
    obtain ⟨a, b⟩ := e
    have ha : k < a := h (a, b) (List.mem_cons_self _ _)
    simp only [mapFind]
    rw [if_neg (by omega)]
    exact ih (fun x hx => h x (List.mem_cons_of_mem _ hx))

theorem mapFind_filter_sorted {V : Type} (p : V → Bool) (m : List (Int × V))
    (hs : mapSorted m) (k : Int) :
    mapFind (m.filter (fun e => p e.2)) k = (mapFind m k).filter p := by
  unfold mapSorted at hs
  induction m with
  | nil => rfl
  | cons e m ih =>
    obtain ⟨a, b⟩ := e
    rw [List.pairwise_cons] at hs
    by_cases hk : k = a
    · subst hk
      have hn : mapFind (m.filter (fun e => p e.2)) k = none :=
        mapFind_none_of_lt _ _ (fun x hx => hs.1 x (List.mem_filter.mp hx).1)
      by_cases hp : p b = true
      · simp [List.filter_cons, hp, mapFind, Option.filter]
      · simp only [Bool.not_eq_true] at hp
        simp [List.filter_cons, hp, mapFind, Option.filter, hn]
    · by_cases hp : p b = true
      · simp [List.filter_cons, hp, mapFind, hk, ih hs.2]
      · simp only [Bool.not_eq_true] at hp
        simp [List.filter_cons, hp, mapFind, hk, ih hs.2]

theorem filter_key_sorted {V : Type} (m : List (Int × V)) (hs : mapSorted m) (k : Int) (v : V)
    (h : mapFind m k = some v) : m.filter (fun e => decide (e.1 = k)) = [(k, v)] := by
  unfold mapSorted at hs
  induction m with
  | nil => simp [mapFind] at h
  | cons e m ih =>
    obtain ⟨a, b⟩ := e
    rw [List.pairwise_cons] at hs
    by_cases hk : k = a
    · subst hk
      simp only [mapFind, if_true, Option.some.injEq] at h
      subst h
      have hrest : m.filter (fun e => decide (e.1 = k)) = [] := by
        rw [List.filter_eq_nil_iff]
        intro x hx
        have := hs.1 x hx
        simp only [decide_eq_true_eq]
        omega
      simp [List.filter_cons, hrest]
    · simp only [mapFind, if_neg hk] at h
      have hk2 : ¬ a = k := fun h2 => hk h2.symm
      simp [List.filter_cons, hk2, ih hs.2 h]

theorem redoEnd_ends (E : StorageEngine σ) (tt : List (Int × txTableEntry)) :
    ∀ (acc : LogMgr σ), ∃ ends,
      (tt.foldl
        (fun acc e =>
          if e.2.status = TxStatus.C then
            pushTail (callNextLSN E acc).2 ⟨(callNextLSN E acc).1, e.2.lastLSN, e.1, .endTx⟩
          else acc) acc).logtail = acc.logtail ++ ends ∧
      (tt.foldl
        (fun acc e =>
          if e.2.status = TxStatus.C then
            pushTail (callNextLSN E acc).2 ⟨(callNextLSN E acc).1, e.2.lastLSN, e.1, .endTx⟩
          else acc) acc).tx_table = acc.tx_table ∧
      ends.map (fun r => (r.txID, r.prevLSN, r.body)) =
        (tt.filter (fun e => decide (e.2.status = TxStatus.C))).map
          (fun e => (e.1, e.2.lastLSN, RecordBody.endTx)) := by
  induction tt with
  | nil => intro acc; exact ⟨[], by simp, rfl, by simp⟩
  | cons e tt ih =>
    intro acc
    simp only [List.foldl_cons]
    by_cases hc : e.2.status = TxStatus.C
    · simp only [if_pos hc]
      obtain ⟨ends, h1, h2, h3⟩ := ih
        (pushTail (callNextLSN E acc).2 ⟨(callNextLSN E acc).1, e.2.lastLSN, e.1, .endTx⟩)
      refine ⟨⟨(callNextLSN E acc).1, e.2.lastLSN, e.1, .endTx⟩ :: ends, ?_, ?_, ?_⟩
      · rw [h1]; simp
      · rw [h2]; rfl
      · simp [List.filter_cons, hc, h3]
    · simp only [if_neg hc]
      obtain ⟨ends, h1, h2, h3⟩ := ih acc
      refine ⟨ends, h1, h2, ?_⟩
      simp [List.filter_cons, hc, h3]

theorem redo_true_form (E : StorageEngine σ) (m m2 : LogMgr σ) (log : List LogRecord)
    (hr : redo E m log = .ok (true, m2)) :
    ∃ mS, m2 = redoEnd E mS ∧ mS.tx_table = m.tx_table ∧ mS.logtail = m.logtail ∧
      mS.dirty_page_table = m.dirty_page_table := by
  by_cases hd : m.dirty_page_table = []
  · simp only [redo, hd, Except.ok.injEq, Prod.mk.injEq, true_and] at hr
    exact ⟨m, hr.symm, rfl, rfl, rfl⟩
  · by_cases hl : log = []
    · subst hl
      cases hd2 : m.dirty_page_table with
      | nil => exact absurd hd2 hd
      | cons d ds => simp [redo, hd2] at hr
    · obtain ⟨start, hform⟩ := redo_scan_form E m log hd hl
      obtain ⟨_, _, s2, s3, s4, _, _⟩ := redoScan_trace E start m
      rw [hform] at hr
      split_ifs at hr with hb
      · simp only [Except.ok.injEq, Prod.mk.injEq, true_and] at hr
        exact ⟨_, hr.symm, s2, s4, s3⟩
      · simp at hr

theorem sorted_key_unique {V : Type} (m : List (Int × V)) (hs : mapSorted m)
    (x y : Int × V) (hx : x ∈ m) (hy : y ∈ m) (hk : x.1 = y.1) : x = y := by
  unfold mapSorted at hs
  induction m with
  | nil => simp at hx
  | cons a m ih =>
    rw [List.pairwise_cons] at hs
    rcases List.mem_cons.mp hx with h1 | h1 <;> rcases List.mem_cons.mp hy with h2 | h2
    · rw [h1, h2]
    · have := hs.1 y h2
      rw [h1] at hk
      omega
    · have := hs.1 x h1
      rw [h2] at hk
      omega
    · exact ih hs.2 h1 h2

theorem mapFind_of_mem_sorted {V : Type} (m : List (Int × V)) (hs : mapSorted m)
    (x : Int × V) (hx : x ∈ m) : mapFind m x.1 = some x.2 := by
  unfold mapSorted at hs
  induction m with
  | nil => simp at hx
  | cons a m ih =>
    obtain ⟨k, v⟩ := a
    rw [List.pairwise_cons] at hs
    rcases List.mem_cons.mp hx with h1 | h1
    · rw [h1]; simp [mapFind]
    · have := hs.1 x h1
      simp only [mapFind]
      rw [if_neg (by simp only at this; omega)]
      exact ih hs.2 h1

theorem filter_key_ends (T : Int) :
    ∀ (ends : List LogRecord) (tt : List (Int × txTableEntry)),
      ends.map (fun r => (r.txID, r.prevLSN, r.body)) =
        tt.map (fun e => (e.1, e.2.lastLSN, RecordBody.endTx)) →
      (ends.filter (fun r => decide (r.txID = T))).map (fun r => (r.prevLSN, r.body)) =
        (tt.filter (fun e => decide (e.1 = T))).map (fun e => (e.2.lastLSN, RecordBody.endTx))
  | [], tt, h => by
    cases tt with
    | nil => rfl
    | cons e tt => simp at h
  | r :: ends, tt, h => by
    cases tt with
    | nil => simp at h
    | cons e tt =>
      simp only [List.map_cons, List.cons.injEq, Prod.mk.injEq] at h
      obtain ⟨⟨h1, h2, h3⟩, h4⟩ := h
      have ih := filter_key_ends T ends tt h4
      by_cases hT : e.1 = T
      · have hT2 : r.txID = T := by rw [h1]; exact hT
        simp [List.filter_cons, hT, hT2, h2, h3, ih]
      · have hT2 : ¬ r.txID = T := by rw [h1]; exact hT
        simp [List.filter_cons, hT, hT2, ih]

theorem redoEnd_exact (E : StorageEngine σ) (m : LogMgr σ) :
    ∃ ends, (redoEnd E m).logtail = m.logtail ++ ends ∧
      ends.map (fun r => (r.txID, r.prevLSN, r.body)) =
        (m.tx_table.filter (fun e => decide (e.2.status = TxStatus.C))).map
          (fun e => (e.1, e.2.lastLSN, RecordBody.endTx)) ∧
      (redoEnd E m).tx_table =
        m.tx_table.filter (fun e => decide (e.1 ∉
          (m.tx_table.filter (fun e => decide (e.2.status = TxStatus.C))).map Prod.fst)) := by
  obtain ⟨ends, h1, h2, h3⟩ := redoEnd_ends E m.tx_table m
  refine ⟨ends, ?_, h3, ?_⟩
  · unfold redoEnd
    rw [(foldl_eraseTx_frame _ _).1, h1]
  · unfold redoEnd
    rw [foldl_eraseTx_tx_table, h2, foldl_mapErase_eq_filter]

/-- C29: when `redo` returns true on a transaction table (a `std::map`: ascending keys, one
entry per transaction), the records appended to the tail are exactly one
`END(prev = lastLSN(T), T)` for every entry `T` that had status `C` at entry, in table
order, and none for any other transaction; the table that results is the table at entry
without its status `C` entries: every `T` with status `C` has been removed, no entry with
status `C` remains, and every entry with status `U` is unchanged. -/
theorem redo_ends_committed (E : StorageEngine σ) (m m2 : LogMgr σ) (log : List LogRecord)
    (hs : mapSorted m.tx_table) (hr : redo E m log = .ok (true, m2)) :
    ∃ ends, m2.logtail = m.logtail ++ ends ∧
      ends.map (fun r => (r.txID, r.prevLSN, r.body)) =
        (m.tx_table.filter (fun e => decide (e.2.status = TxStatus.C))).map
          (fun e => (e.1, e.2.lastLSN, RecordBody.endTx)) ∧
      (∀ T e, mapFind m.tx_table T = some e → e.status = TxStatus.C →
        (ends.filter (fun r => decide (r.txID = T))).map (fun r => (r.prevLSN, r.body)) =
          [(e.lastLSN, RecordBody.endTx)] ∧ mapFind m2.tx_table T = none) ∧
      (∀ r ∈ ends, ∃ e, mapFind m.tx_table r.txID = some e ∧ e.status = TxStatus.C) ∧
      m2.tx_table = m.tx_table.filter (fun e => decide (e.2.status ≠ TxStatus.C)) ∧
      (∀ x ∈ m2.tx_table, x.2.status ≠ TxStatus.C) ∧
      (∀ T e, mapFind m.tx_table T = some e → e.status = TxStatus.U →
        mapFind m2.tx_table T = some e) := by
  obtain ⟨mS, hm2, ht, hl, _⟩ := redo_true_form E m m2 log hr
  obtain ⟨ends, h1, h3, h2⟩ := redoEnd_exact E mS
  rw [← hm2, hl] at h1
  rw [ht] at h3
  rw [← hm2, ht] at h2
  have htab : m2.tx_table = m.tx_table.filter (fun e => decide (e.2.status ≠ TxStatus.C)) := by
    rw [h2]
    apply List.filter_congr
    intro x hx
    simp only [List.mem_map, List.mem_filter, decide_eq_true_eq, not_exists, not_and, ne_eq,
      decide_eq_decide]
    constructor
    · intro hn hc
      exact hn x ⟨hx, hc⟩ rfl
    · rintro hn y ⟨hy, hc⟩ hk
      rw [sorted_key_unique m.tx_table hs y x hy hx hk] at hc
      exact hn hc
  have hfind : ∀ T, mapFind m2.tx_table T =
      (mapFind m.tx_table T).filter (fun e => decide (e.status ≠ TxStatus.C)) := by
    intro T
    rw [htab]
    exact mapFind_filter_sorted (fun e => decide (e.status ≠ TxStatus.C)) m.tx_table hs T
  refine ⟨ends, h1, h3, ?_, ?_, htab, ?_, ?_⟩
  · intro T e hT hc
    constructor
    · rw [filter_key_ends T ends _ h3, List.filter_filter]
      have hkey := filter_key_sorted m.tx_table hs T e hT
      have e2 : m.tx_table.filter
          (fun a => decide (a.1 = T) && decide (a.2.status = TxStatus.C)) = [(T, e)] := by
        rw [← hkey]
        apply List.filter_congr
        intro x hx
        by_cases hxT : x.1 = T
        · have hxe : x = (T, e) :=
            sorted_key_unique m.tx_table hs x (T, e) hx (mem_of_mapFind _ _ _ hT) hxT
          simp [hxe, hc]
        · simp [hxT]
      rw [e2]
      rfl
    · rw [hfind, hT]
      simp [Option.filter, hc]
  · intro r hr2
    have hmem : (r.txID, r.prevLSN, r.body) ∈
        ends.map (fun r => (r.txID, r.prevLSN, r.body)) := List.mem_map_of_mem _ hr2
    rw [h3] at hmem
    obtain ⟨x, hx, hxe⟩ := List.mem_map.mp hmem
    obtain ⟨hx1, hx2⟩ := List.mem_filter.mp hx
    simp only [decide_eq_true_eq] at hx2
    simp only [Prod.mk.injEq] at hxe
    refine ⟨x.2, ?_, hx2⟩
    rw [← hxe.1]
    exact mapFind_of_mem_sorted m.tx_table hs x hx1
  · intro x hx
    rw [htab] at hx
    have := (List.mem_filter.mp hx).2
    simpa using this
  · intro T e hT hu
    rw [hfind, hT]
    simp [Option.filter, hu]

/-- Witness of C29: transaction 1 is committed with `lastLSN = 2`, transaction 2 is active;
`redo` on an empty dirty page table returns true, appends `END(prev = 2, tx 1)` only and
keeps the entry of transaction 2. -/
theorem redo_ends_committed_witness :
    ∃ ends, (redoEnd stubEngine (⟨[(1, ⟨2, TxStatus.C⟩), (2, ⟨3, TxStatus.U⟩)], [], [],
        stubInit, []⟩ : LogMgr Stub)).logtail = [] ++ ends ∧
      ends.map (fun r => (r.txID, r.prevLSN, r.body)) = [(1, 2, RecordBody.endTx)] ∧
      (redoEnd stubEngine (⟨[(1, ⟨2, TxStatus.C⟩), (2, ⟨3, TxStatus.U⟩)], [], [],
        stubInit, []⟩ : LogMgr Stub)).tx_table = [(2, ⟨3, TxStatus.U⟩)] := by
  obtain ⟨ends, h1, h2, _, _, h5, _, _⟩ := redo_ends_committed stubEngine
    (⟨[(1, ⟨2, TxStatus.C⟩), (2, ⟨3, TxStatus.U⟩)], [], [], stubInit, []⟩ : LogMgr Stub)
    (redoEnd stubEngine (⟨[(1, ⟨2, TxStatus.C⟩), (2, ⟨3, TxStatus.U⟩)], [], [],
      stubInit, []⟩ : LogMgr Stub)) [] (by simp [mapSorted]) rfl
  exact ⟨ends, h1, h2.trans (by decide), h5.trans (by decide)⟩

/-! ### No CLR for a CLR -/

theorem undoRecord_appends (E : StorageEngine σ) (m : LogMgr σ) (r : LogRecord)
    (q : List Int) :
    ∃ new, (undoRecord E m r q).2.1.logtail = m.logtail ++ new ∧
      (new.filter (fun c => decide (c.getType = TxType.CLR))).length =
        if r.getType = TxType.UPDATE then 1 else 0 := by
  obtain ⟨l, pv, t, body⟩ := r
  cases body with
  | update pg off bi ai =>
    have h1 : (if (⟨l, pv, t, .update pg off bi ai⟩ : LogRecord).getType = TxType.UPDATE
        then 1 else 0) = 1 := rfl
    rw [h1]
    unfold undoRecord
    simp only
    split_ifs
    · exact ⟨[_], compensate_logtail E m _ pg off bi, by
        simp [LogRecord.getType, CompensationLogRecord]⟩
    · exact ⟨[_], compensate_logtail E m _ pg off bi, by
        simp [LogRecord.getType, CompensationLogRecord]⟩
    · refine ⟨[CompensationLogRecord (E.nextLSN m.se).1 (getLastLSN m t) t pg off bi pv,
        ⟨(E.nextLSN (compensate E m ⟨l, pv, t, .update pg off bi ai⟩ pg off bi).2.se).1,
          (E.nextLSN m.se).1, t, .endTx⟩], ?_, ?_⟩
      · rw [appendEnd_logtail, compensate_logtail, List.append_assoc]
        rfl
      · simp [LogRecord.getType, CompensationLogRecord]
  | clr pg off ai un =>
    have h1 : (if (⟨l, pv, t, .clr pg off ai un⟩ : LogRecord).getType = TxType.UPDATE
        then 1 else 0) = 0 := rfl
    rw [h1]
    unfold undoRecord
    simp only
    split_ifs
    · exact ⟨[], by simp, by simp⟩
    · exact ⟨[_], appendEnd_logtail E m _ _, by simp [LogRecord.getType]⟩
  | abort =>
    have h1 : (if (⟨l, pv, t, .abort⟩ : LogRecord).getType = TxType.UPDATE
        then 1 else 0) = 0 := rfl
    rw [h1]
    unfold undoRecord
    simp only
    split_ifs
    · exact ⟨[], by simp, by simp⟩
    · exact ⟨[_], appendEnd_logtail E m _ _, by simp [LogRecord.getType]⟩
  | commit => exact ⟨[], by simp [undoRecord], by simp [LogRecord.getType]⟩
  | endTx => exact ⟨[], by simp [undoRecord], by simp [LogRecord.getType]⟩
  | beginCkpt => exact ⟨[], by simp [undoRecord], by simp [LogRecord.getType]⟩
  | endCkpt a b => exact ⟨[], by simp [undoRecord], by simp [LogRecord.getType]⟩

theorem undoLoop_clr_count (E : StorageEngine σ) (log : List LogRecord) (fuel : Nat) :
    ∀ (m : LogMgr σ) (q : List Int) (m2 : LogMgr σ), undoLoop E log fuel m q = .ok m2 →
      ∃ new, m2.logtail = m.logtail ++ new ∧
        (new.filter (fun c => decide (c.getType = TxType.CLR))).length =
          ((undoPopped E log fuel m q).filter
            (fun u => decide (u.getType = TxType.UPDATE))).length := by
  induction fuel with
  | zero =>
    intro m q m2 hr
    cases q with
    | nil =>
      simp only [undoLoop, Except.ok.injEq] at hr
      exact ⟨[], by rw [← hr]; simp, by simp [undoPopped]⟩
    | cons a q => simp [undoLoop] at hr
  | succ n ih =>
    intro m q m2 hr
    cases q with
    | nil =>
      simp only [undoLoop, Except.ok.injEq] at hr
      exact ⟨[], by rw [← hr]; simp, by simp [undoPopped]⟩
    | cons a q =>
      cases hf : log.find? (fun r => decide (r.lsn = a)) with
      | none =>
        simp only [undoLoop, hf] at hr
        obtain ⟨new, h1, h2⟩ := ih m q m2 hr
        exact ⟨new, h1, by simp only [undoPopped, hf]; exact h2⟩
      | some r =>
        obtain ⟨new1, g1, g2⟩ := undoRecord_appends E m r q
        simp only [undoLoop, hf] at hr
        by_cases hb : (undoRecord E m r q).1 = true
        · rw [if_pos hb] at hr
          obtain ⟨new, h1, h2⟩ := ih _ _ m2 hr
          refine ⟨new1 ++ new, by rw [h1, g1, List.append_assoc], ?_⟩
          simp only [undoPopped, hf, if_pos hb, List.filter_append, List.length_append, g2,
            h2, List.filter_cons]
          by_cases hu : r.getType = TxType.UPDATE
          · simp [hu]; omega
          · simp [hu]
        · rw [if_neg hb] at hr
          simp only [Except.ok.injEq] at hr
          refine ⟨new1, by rw [← hr, g1], ?_⟩
          simp only [undoPopped, hf, if_neg hb, g2, List.filter_cons]
          by_cases hu : r.getType = TxType.UPDATE
          · simp [hu]
          · simp [hu]

/-- C30: when Undo pops the LSN of a CLR record `R`, it appends no CLR and issues no
`pageWrite`: if `R.undoNextLSN != NULL_LSN` it only pushes `R.undoNextLSN` onto `ToUndo` and
leaves the manager as it is; otherwise it appends `END(prev = R.lsn, R.txID)`, removes
`R.txID` from the transaction table and does nothing else (one `nextLSN` call). Consequently,
in every run of the Undo loop that returns, the number of CLR records appended to the tail
equals the number of UPDATE records found for the popped LSNs. -/
theorem undo_no_clr_for_clr (E : StorageEngine σ) :
    (∀ (m : LogMgr σ) (R : LogRecord) (q : List Int) (pageID offset : Int)
        (afterImage : String) (undoNextLSN : Int),
      R.body = .clr pageID offset afterImage undoNextLSN →
      (undoNextLSN ≠ NULL_LSN → undoRecord E m R q = (true, m, pqPush q undoNextLSN)) ∧
      (undoNextLSN = NULL_LSN →
        undoRecord E m R q = (true, appendEnd E m R.lsn R.txID, q) ∧
        (appendEnd E m R.lsn R.txID).logtail =
          m.logtail ++ [⟨(E.nextLSN m.se).1, R.lsn, R.txID, .endTx⟩] ∧
        (appendEnd E m R.lsn R.txID).tx_table = mapErase m.tx_table R.txID ∧
        (appendEnd E m R.lsn R.txID).dirty_page_table = m.dirty_page_table ∧
        (appendEnd E m R.lsn R.txID).calls = m.calls ++ [Call.nextLSN (E.nextLSN m.se).1]) ∧
      pageWrites (undoRecord E m R q).2.1.calls = pageWrites m.calls ∧
      ∀ c ∈ (undoRecord E m R q).2.1.logtail, c.getType = TxType.CLR → c ∈ m.logtail) ∧
    ∀ (log : List LogRecord) (fuel : Nat) (m : LogMgr σ) (q : List Int) (m2 : LogMgr σ),
      undoLoop E log fuel m q = .ok m2 →
      ∃ new, m2.logtail = m.logtail ++ new ∧
        (new.filter (fun c => decide (c.getType = TxType.CLR))).length =
          ((undoPopped E log fuel m q).filter
            (fun u => decide (u.getType = TxType.UPDATE))).length := by
  refine ⟨?_, fun log fuel m q m2 hr => undoLoop_clr_count E log fuel m q m2 hr⟩
  intro m R q pageID offset afterImage undoNextLSN hb
  obtain ⟨l, pv, t, body⟩ := R
  simp only at hb
  subst hb
  by_cases hu : undoNextLSN = NULL_LSN
  · have hrec : undoRecord E m ⟨l, pv, t, .clr pageID offset afterImage undoNextLSN⟩ q =
        (true, appendEnd E m l t, q) := by
      simp [undoRecord, hu]
    refine ⟨fun h => absurd hu h, fun _ => ⟨hrec, rfl, rfl, rfl, rfl⟩, ?_, ?_⟩
    · rw [hrec]
      simp [pageWrites_append, pageWrites]
    · rw [hrec]
      intro c hc hclr
      simp only [appendEnd_logtail, List.mem_append, List.mem_singleton] at hc
      rcases hc with hc | hc
      · exact hc
      · rw [hc] at hclr
        simp [LogRecord.getType] at hclr
  · have hrec : undoRecord E m ⟨l, pv, t, .clr pageID offset afterImage undoNextLSN⟩ q =
        (true, m, pqPush q undoNextLSN) := by
      simp [undoRecord, hu]
    refine ⟨fun _ => hrec, fun h => absurd h hu, ?_, ?_⟩
    · rw [hrec]
    · rw [hrec]
      intro c hc _
      exact hc

/-- Witness of C30: the log holds an UPDATE of transaction 1 and the CLR that compensated
it; Undo seeded with the LSN of the CLR finds the CLR, appends `END(prev = 2, tx 1)` and no
CLR, and has popped no UPDATE record. -/
theorem undo_no_clr_for_clr_witness :
    (CompensationLogRecord 2 1 1 7 0 "old" NULL_LSN).body = .clr 7 0 "old" NULL_LSN ∧
    undoRecord stubEngine
        (⟨[(1, ⟨2, TxStatus.U⟩)], [(7, 1)], [], stubInit, []⟩ : LogMgr Stub)
        (CompensationLogRecord 2 1 1 7 0 "old" NULL_LSN) [] =
      (true, appendEnd stubEngine
        (⟨[(1, ⟨2, TxStatus.U⟩)], [(7, 1)], [], stubInit, []⟩ : LogMgr Stub) 2 1, []) ∧
    undoLoop stubEngine
        [UpdateLogRecord 1 NULL_LSN 1 7 0 "old" "new",
          CompensationLogRecord 2 1 1 7 0 "old" NULL_LSN] 5
        (⟨[(1, ⟨2, TxStatus.U⟩)], [(7, 1)], [], stubInit, []⟩ : LogMgr Stub) [2] =
      .ok (appendEnd stubEngine
        (⟨[(1, ⟨2, TxStatus.U⟩)], [(7, 1)], [], stubInit, []⟩ : LogMgr Stub) 2 1) ∧
    ∃ new, (appendEnd stubEngine
        (⟨[(1, ⟨2, TxStatus.U⟩)], [(7, 1)], [], stubInit, []⟩ : LogMgr Stub) 2 1).logtail =
        [] ++ new ∧
      (new.filter (fun c => decide (c.getType = TxType.CLR))).length = 0 :=
  ⟨rfl,
    (((undo_no_clr_for_clr stubEngine).1
      (⟨[(1, ⟨2, TxStatus.U⟩)], [(7, 1)], [], stubInit, []⟩ : LogMgr Stub)
      (CompensationLogRecord 2 1 1 7 0 "old" NULL_LSN) [] 7 0 "old" NULL_LSN rfl).2.1 rfl).1,
    rfl, (undo_no_clr_for_clr stubEngine).2
    [UpdateLogRecord 1 NULL_LSN 1 7 0 "old" "new",
      CompensationLogRecord 2 1 1 7 0 "old" NULL_LSN] 5
    (⟨[(1, ⟨2, TxStatus.U⟩)], [(7, 1)], [], stubInit, []⟩ : LogMgr Stub) [2] _ rfl⟩

/-! ### The tables that Analysis builds from a log without checkpoint -/

theorem mapFind_analyzeRecord_tt (m : LogMgr σ) (r : LogRecord) (T : Int)
    (hT : T ≠ NULL_TX) :
    mapFind (analyzeRecord m r).tx_table T =
      if r.txID = T then
        (if r.getType = TxType.END then none
          else some ⟨r.lsn, if r.getType = TxType.COMMIT then TxStatus.C else TxStatus.U⟩)
      else mapFind m.tx_table T := by
  by_cases hr : r.txID = T
  · have ht : r.txID ≠ NULL_TX := by rw [hr]; exact hT
    rw [if_pos hr, analyzeRecord_tx_table m r ht, ← hr]
    obtain ⟨l, p, t, b⟩ := r
    cases b <;> simp [LogRecord.getType, mapFind_mapSet, mapFind_mapErase]
  · rw [if_neg hr]
    have hTr : T ≠ r.txID := fun h => hr h.symm
    by_cases ht : r.txID = NULL_TX
    · obtain ⟨l, p, t, b⟩ := r
      simp only at ht
      subst ht
      cases b <;>
        simp only [analyzeRecord, setLastLSN_null, setStatusGuarded_null,
          dirtyIfAbsent_tx_table, eraseTx_tx_table, mapFind_mapErase]
      exact if_neg hT
    · rw [analyzeRecord_tx_table m r ht]
      obtain ⟨l, p, t, b⟩ := r
      simp only at hTr
      cases b <;> simp [mapFind_mapSet, mapFind_mapErase, hTr]

theorem mapFind_foldl_analyzeRecord_tt (T : Int) (hT : T ≠ NULL_TX) (log : List LogRecord)
    (m : LogMgr σ) :
    mapFind (log.foldl analyzeRecord m).tx_table T =
      match lastOf log T with
      | none => mapFind m.tx_table T
      | some R =>
        if R.getType = TxType.END then none
        else some ⟨R.lsn, if R.getType = TxType.COMMIT then TxStatus.C else TxStatus.U⟩ := by
  induction log using List.reverseRecOn with
  | nil => simp [lastOf]
  | append_singleton l r ih =>
    rw [List.foldl_append, List.foldl_cons, List.foldl_nil, mapFind_analyzeRecord_tt _ _ _ hT,
      lastOf_snoc]
    by_cases hr : r.txID = T
    · simp only [if_pos hr]
    · simp only [if_neg hr]
      exact ih

theorem mapFind_analyzeRecord_null (m : LogMgr σ) (r : LogRecord)
    (h : mapFind m.tx_table NULL_TX = none) :
    mapFind (analyzeRecord m r).tx_table NULL_TX = none := by
  by_cases ht : r.txID = NULL_TX
  · obtain ⟨l, p, t, b⟩ := r
    simp only at ht
    subst ht
    cases b <;>
      simp only [analyzeRecord, setLastLSN_null, setStatusGuarded_null,
        dirtyIfAbsent_tx_table, eraseTx_tx_table, mapFind_mapErase, h, ite_self]
  · rw [analyzeRecord_tx_table m r ht]
    have hne : NULL_TX ≠ r.txID := fun h2 => ht h2.symm
    obtain ⟨l, p, t, b⟩ := r
    simp only at hne
    cases b <;> simp [mapFind_mapSet, mapFind_mapErase, hne, h]

theorem mapFind_foldl_analyzeRecord_null (log : List LogRecord) :
    ∀ (m : LogMgr σ), mapFind m.tx_table NULL_TX = none →
      mapFind (log.foldl analyzeRecord m).tx_table NULL_TX = none := by
  induction log with
  | nil => intro m h; exact h
  | cons r log ih =>
    intro m h
    simp only [List.foldl_cons]
    exact ih _ (mapFind_analyzeRecord_null m r h)

/-- C24 as stated fails when the first record of the log has an LSN below `NULL_LSN`:
Analysis then looks for a record whose LSN is `NULL_LSN`, finds none and scans nothing.
The log is one UPDATE of transaction 1, so the last record of transaction 1 is not an END,
and the transaction table is empty afterwards. -/
theorem analyze_tt_low_lsn_counterexample :
    ∃ m1 : LogMgr Stub,
      analyze (freshMgr stubInit) [UpdateLogRecord (-5) NULL_LSN 1 7 0 "old" "new"] = .ok m1 ∧
      lastOf [UpdateLogRecord (-5) NULL_LSN 1 7 0 "old" "new"] 1 =
        some (UpdateLogRecord (-5) NULL_LSN 1 7 0 "old" "new") ∧
      (UpdateLogRecord (-5) NULL_LSN 1 7 0 "old" "new").getType ≠ TxType.END ∧
      mapFind m1.tx_table 1 = none :=
  ⟨_, rfl, by decide, by decide, by decide⟩

/-- C24, amended: when Analysis runs from an empty transaction table on a non-empty log
that contains no END_CKPT record and whose first record has an LSN not below `NULL_LSN`, it
returns, and a transaction `T` is in the transaction table afterwards iff `T != NULL_TX`, the
log has a record with `txID = T` and the last such record `R` is not an END; then
`lastLSN(T) = R.lsn`, and `status(T)` is `C` when `R` is a COMMIT and `U` otherwise. -/
theorem analyze_tx_table (m : LogMgr σ) (first : LogRecord) (rest : List LogRecord)
    (hm : m.tx_table = [])
    (hck : ∀ r ∈ first :: rest, r.getType ≠ TxType.END_CKPT) (hf : NULL_LSN ≤ first.lsn) :
    ∃ m1, analyze m (first :: rest) = .ok m1 ∧ mapFind m1.tx_table NULL_TX = none ∧
      ∀ T, T ≠ NULL_TX →
        mapFind m1.tx_table T =
          match lastOf (first :: rest) T with
          | none => none
          | some R =>
            if R.getType = TxType.END then none
            else some ⟨R.lsn, if R.getType = TxType.COMMIT then TxStatus.C else TxStatus.U⟩ := by
  refine ⟨_, analyze_plain m first rest hck hf,
    mapFind_foldl_analyzeRecord_null _ m (by rw [hm]; rfl), ?_⟩
  intro T hT
  rw [mapFind_foldl_analyzeRecord_tt T hT, hm]
  cases lastOf (first :: rest) T with
  | none => rfl
  | some R => rfl

/-- Witness of C24: transaction 1 updates and commits, transaction 2 updates, transaction 3
updates and ends; afterwards transaction 1 has `(2, C)`, transaction 2 has `(3, U)` and
transaction 3 is absent. -/
theorem analyze_tx_table_witness :
    ∃ m1 : LogMgr Stub,
      analyze (freshMgr stubInit)
        [UpdateLogRecord 1 NULL_LSN 1 7 0 "old" "new", ⟨2, 1, 1, .commit⟩,
          UpdateLogRecord 3 NULL_LSN 2 9 0 "A" "B", UpdateLogRecord 4 NULL_LSN 3 9 0 "B" "C",
          ⟨5, 4, 3, .endTx⟩] = .ok m1 ∧
      mapFind m1.tx_table 1 = some ⟨2, TxStatus.C⟩ ∧
      mapFind m1.tx_table 2 = some ⟨3, TxStatus.U⟩ ∧ mapFind m1.tx_table 3 = none := by
  obtain ⟨m1, h1, _, h2⟩ := analyze_tx_table (freshMgr stubInit)
    (UpdateLogRecord 1 NULL_LSN 1 7 0 "old" "new")
    [⟨2, 1, 1, .commit⟩, UpdateLogRecord 3 NULL_LSN 2 9 0 "A" "B",
      UpdateLogRecord 4 NULL_LSN 3 9 0 "B" "C", ⟨5, 4, 3, .endTx⟩] rfl (by decide) (by decide)
  exact ⟨m1, h1, (h2 1 (by decide)).trans (by decide), (h2 2 (by decide)).trans (by decide),
    (h2 3 (by decide)).trans (by decide)⟩

theorem mapFind_foldl_analyzeRecord_dpt (P : Int) (log : List LogRecord) :
    ∀ (m : LogMgr σ),
      mapFind (log.foldl analyzeRecord m).dirty_page_table P =
        match mapFind m.dirty_page_table P with
        | some v => some v
        | none => (log.find? (fun r => dirties r P)).map (fun r => r.lsn) := by
  induction log with
  | nil =>
    intro m
    simp only [List.foldl_nil, List.find?_nil, Option.map_none']
    cases mapFind m.dirty_page_table P <;> rfl
  | cons r log ih =>
    intro m
    simp only [List.foldl_cons]
    rw [ih, mapFind_analyzeRecord_dpt]
    cases ht : redoTarget r with
    | none =>
      have hd : dirties r P = false := by simp [dirties, ht]
      simp only [List.find?_cons, hd]
    | some tg =>
      obtain ⟨p, o, a⟩ := tg
      by_cases hp : P = p
      · subst hp
        have hd : dirties r P = true := by simp [dirties, ht]
        simp only [if_true, List.find?_cons, hd]
        cases mapFind m.dirty_page_table P <;> rfl
      · have hp2 : ¬ p = P := fun h => hp h.symm
        have hd : dirties r P = false := by simp [dirties, ht, hp2]
        simp only [if_neg hp, List.find?_cons, hd]

theorem find_first_le (p : LogRecord → Bool) :
    ∀ (log : List LogRecord), log.Pairwise (fun a b => a.lsn ≤ b.lsn) →
      ∀ f, log.find? p = some f → ∀ r ∈ log, p r = true → f.lsn ≤ r.lsn := by
  intro log
  induction log with
  | nil => intro _ f hf; simp at hf
  | cons x log ih =>
    intro hp f hf r hr hpr
    rw [List.pairwise_cons] at hp
    by_cases hx : p x = true
    · simp only [List.find?_cons, hx, Option.some.injEq] at hf
      subst hf
      rcases List.mem_cons.mp hr with h | h
      · rw [h]
      · exact hp.1 r h
    · simp only [Bool.not_eq_true] at hx
      simp only [List.find?_cons, hx] at hf
      rcases List.mem_cons.mp hr with h | h
      · rw [h, hx] at hpr
        exact absurd hpr (by simp)
      · exact ih hp.2 f hf r h hpr

/-- C25 as stated fails in two places. An UPDATE of the system transaction (`NULL_TX`)
enters its page in the dirty page table, the insertion not being guarded by the
transaction id: page 7 is in the table although no UPDATE or CLR of a non-system
transaction names it. And when the first record of the log has an LSN below `NULL_LSN`,
Analysis scans nothing: page 7 is not in the table although an UPDATE of transaction 1
names it. -/
theorem analyze_dpt_counterexample :
    (∃ m1 : LogMgr Stub,
      analyze (freshMgr stubInit) [UpdateLogRecord 1 NULL_LSN NULL_TX 7 0 "old" "new"] =
        .ok m1 ∧
      mapFind m1.dirty_page_table 7 = some 1 ∧
      ∀ r ∈ [UpdateLogRecord 1 NULL_LSN NULL_TX 7 0 "old" "new"], ¬ r.txID ≠ NULL_TX) ∧
    ∃ m2 : LogMgr Stub,
      analyze (freshMgr stubInit) [UpdateLogRecord (-5) NULL_LSN 1 7 0 "old" "new"] = .ok m2 ∧
      mapFind m2.dirty_page_table 7 = none ∧
      dirties (UpdateLogRecord (-5) NULL_LSN 1 7 0 "old" "new") 7 = true :=
  ⟨⟨_, rfl, by decide, by decide⟩, _, rfl, by decide, by decide⟩

/-- C25, amended: when Analysis runs from an empty dirty page table on a non-empty log that
contains no END_CKPT record and whose first record has an LSN not below `NULL_LSN`, it
returns, and a page `P` is in the dirty page table afterwards iff some UPDATE or CLR record
of the log, of any transaction (the system transaction `NULL_TX` included), has
`pageID = P`; `recLSN(P)` is then the LSN of the first such record in log order; hence on an
LSN-ordered log every UPDATE or CLR record for `P` has an LSN `>= recLSN(P)`. -/
theorem analyze_dpt (m : LogMgr σ) (first : LogRecord) (rest : List LogRecord)
    (hm : m.dirty_page_table = [])
    (hck : ∀ r ∈ first :: rest, r.getType ≠ TxType.END_CKPT) (hf : NULL_LSN ≤ first.lsn) :
    ∃ m1, analyze m (first :: rest) = .ok m1 ∧
      (∀ P, mapFind m1.dirty_page_table P =
        ((first :: rest).find? (fun r => dirties r P)).map (fun r => r.lsn)) ∧
      (∀ P, (mapFind m1.dirty_page_table P).isSome = true ↔
        ∃ r ∈ first :: rest, ∃ o a, redoTarget r = some (P, o, a)) ∧
      ((first :: rest).Pairwise (fun a b => a.lsn ≤ b.lsn) →
        ∀ P v, mapFind m1.dirty_page_table P = some v →
          ∀ r ∈ first :: rest, ∀ o a, redoTarget r = some (P, o, a) → v ≤ r.lsn) := by
  have hfind : ∀ P, mapFind ((first :: rest).foldl analyzeRecord m).dirty_page_table P =
      ((first :: rest).find? (fun r => dirties r P)).map (fun r => r.lsn) := by
    intro P
    rw [mapFind_foldl_analyzeRecord_dpt, hm]
    rfl
  have hdir : ∀ (r : LogRecord) (P : Int),
      dirties r P = true ↔ ∃ o a, redoTarget r = some (P, o, a) := by
    intro r P
    unfold dirties
    cases ht : redoTarget r with
    | none => simp
    | some tg =>
      obtain ⟨p, o, a⟩ := tg
      simp only [decide_eq_true_eq, Option.some.injEq, Prod.mk.injEq]
      constructor
      · intro h; exact ⟨o, a, h, rfl, rfl⟩
      · rintro ⟨_, _, h, _, _⟩; exact h
  refine ⟨_, analyze_plain m first rest hck hf, hfind, ?_, ?_⟩
  · intro P
    rw [hfind]
    cases hfd : (first :: rest).find? (fun r => dirties r P) with
    | none =>
      simp only [Option.map_none', Option.isSome_none, Bool.false_eq_true, false_iff,
        not_exists, not_and]
      intro r hr o a ht
      have := List.find?_eq_none.mp hfd r hr
      exact this ((hdir r P).mpr ⟨o, a, ht⟩)
    | some f =>
      simp only [Option.map_some', Option.isSome_some, true_iff]
      have hpf : dirties f P = true := by
        have := List.find?_some hfd
        simpa using this
      exact ⟨f, List.mem_of_find?_eq_some hfd, (hdir f P).mp hpf⟩
  · intro hord P v hv r hr o a ht
    rw [hfind] at hv
    cases hfd : (first :: rest).find? (fun r => dirties r P) with
    | none => rw [hfd] at hv; simp at hv
    | some f =>
      rw [hfd] at hv
      simp only [Option.map_some', Option.some.injEq] at hv
      rw [← hv]
      exact find_first_le (fun r => dirties r P) _ hord f hfd r hr
        ((hdir r P).mpr ⟨o, a, ht⟩)

/-- Witness of C25: pages 7 and 9 are updated, page 7 twice; afterwards `recLSN(7) = 1`,
`recLSN(9) = 2` and page 8 is absent. -/
theorem analyze_dpt_witness :
    ∃ m1 : LogMgr Stub,
      analyze (freshMgr stubInit)
        [UpdateLogRecord 1 NULL_LSN 1 7 0 "old" "new", UpdateLogRecord 2 NULL_LSN 2 9 0 "A" "B",
          UpdateLogRecord 3 1 1 7 0 "new" "newer"] = .ok m1 ∧
      mapFind m1.dirty_page_table 7 = some 1 ∧ mapFind m1.dirty_page_table 9 = some 2 ∧
      mapFind m1.dirty_page_table 8 = none := by
  obtain ⟨m1, h1, h2, _, _⟩ := analyze_dpt (freshMgr stubInit)
    (UpdateLogRecord 1 NULL_LSN 1 7 0 "old" "new")
    [UpdateLogRecord 2 NULL_LSN 2 9 0 "A" "B", UpdateLogRecord 3 1 1 7 0 "new" "newer"]
    rfl (by decide) (by decide)
  exact ⟨m1, h1, (h2 7).trans (by decide), (h2 9).trans (by decide),
    (h2 8).trans (by decide)⟩

/-! ### Analysis on a manager that holds tables; the starting point of `redo` -/

/-- C26: `analyze` does not empty the tables when the log holds no END_CKPT record. The
manager has made `write(1, 7, 0, "new", "old")`, so that its tables hold transaction 1 and
page 7; Analysis of the log made of one UPDATE of transaction 2 on page 9 returns with
transaction 1 and page 7 still in the tables, whereas the scan of the same log from empty
tables yields transaction 2 and page 9 only. -/
theorem analyze_keeps_prior_tables :
    (∀ r ∈ [UpdateLogRecord 5 NULL_LSN 2 9 0 "A" "B"], r.getType ≠ TxType.END_CKPT) ∧
    (∃ m1 : LogMgr Stub,
      analyze (write stubEngine (freshMgr stubInit) 1 7 0 "new" "old").2
        [UpdateLogRecord 5 NULL_LSN 2 9 0 "A" "B"] = .ok m1 ∧
      m1.tx_table = [(1, ⟨1, TxStatus.U⟩), (2, ⟨5, TxStatus.U⟩)] ∧
      m1.dirty_page_table = [(7, 1), (9, 5)]) ∧
    ∃ m0 : LogMgr Stub,
      analyze (freshMgr stubInit) [UpdateLogRecord 5 NULL_LSN 2 9 0 "A" "B"] = .ok m0 ∧
      m0.tx_table = [(2, ⟨5, TxStatus.U⟩)] ∧ m0.dirty_page_table = [(9, 5)] :=
  ⟨by decide, ⟨_, rfl, by decide, by decide⟩, _, rfl, by decide, by decide⟩

/-- C28 as stated fails when no record of the log carries the smallest `recLSN` as its LSN:
`redo` looks for a record whose LSN equals the smallest `recLSN` and scans nothing when
there is none. The dirty page table is `{7 -> 5}`, the LSN-ordered log holds two UPDATE
records of page 7 with LSNs 3 and 6, and page 7 has no LSN on storage. The record with LSN
6 is the first with an LSN `>= 5` and passes the three skip tests (page 7 is in the table,
`recLSN = 5 <= 6`, `pageLSN < 6`), yet `redo` returns true without any engine call: no
`getLSN`, no `pageWrite`. Two more inputs of the claim fail. With the table
`{7 -> NULL_LSN, 9 -> 3}` the smallest `recLSN` that `redo` computes is 3, because it takes
`NULL_LSN` for "no value yet": the UPDATE of page 7 with LSN 0 gets no `pageWrite`. On the
empty log `redo` reads the first element of an empty vector. -/
theorem redo_start_no_exact_lsn :
    minRecLSN [(7, 5)] = 5 ∧
    [UpdateLogRecord 3 NULL_LSN 1 7 0 "a" "b", UpdateLogRecord 6 3 1 7 0 "b" "c"].Pairwise
      (fun a b => a.lsn < b.lsn) ∧
    redoTarget (UpdateLogRecord 6 3 1 7 0 "b" "c") = some (7, 0, "c") ∧
    mapFind [((7 : Int), (5 : Int))] 7 = some 5 ∧
    stubEngine.getLSN 7 stubInit < 6 ∧
    (∃ m2 : LogMgr Stub,
      redo stubEngine ⟨[(1, ⟨6, TxStatus.U⟩)], [(7, 5)], [], stubInit, []⟩
        [UpdateLogRecord 3 NULL_LSN 1 7 0 "a" "b", UpdateLogRecord 6 3 1 7 0 "b" "c"] =
        .ok (true, m2) ∧
      m2.calls = [] ∧ pageWrites m2.calls = []) ∧
    (∃ m3 : LogMgr Stub,
      redo stubEngine ⟨[], [(7, NULL_LSN), (9, 3)], [], stubInit, []⟩
        [UpdateLogRecord 0 NULL_LSN 1 7 0 "a" "b", UpdateLogRecord 3 NULL_LSN 2 9 0 "x" "y"] =
        .ok (true, m3) ∧
      pageWrites m3.calls = [Call.pageWrite 9 0 "y" 3 true]) ∧
    redo stubEngine (⟨[], [(7, 5)], [], stubInit, []⟩ : LogMgr Stub) [] =
      .error Fault.emptyLogRead :=
  ⟨by decide, by decide, rfl, by decide, by decide, ⟨_, rfl, by decide, by decide⟩,
    ⟨_, rfl, by decide⟩, rfl⟩

theorem minRecLSN_eq (dpt : List (Int × Int)) (s : Int) (hs : s ≠ NULL_LSN)
    (hle : ∀ e ∈ dpt, s ≤ e.2) (hmem : ∃ e ∈ dpt, e.2 = s) : minRecLSN dpt = s := by
  have key : ∀ (dpt : List (Int × Int)) (acc : Int), (∀ e ∈ dpt, s ≤ e.2) →
      (acc = NULL_LSN ∨ s ≤ acc) →
      ((∃ e ∈ dpt, e.2 = s) ∨ acc = s) →
      dpt.foldl (fun min_lsn e => if e.2 < min_lsn ∨ min_lsn = NULL_LSN then e.2 else min_lsn)
        acc = s := by
    intro dpt
    induction dpt with
    | nil =>
      intro acc _ _ h
      rcases h with ⟨e, he, _⟩ | h
      · simp at he
      · simpa using h
    | cons d ds ih =>
      intro acc hle hacc h
      simp only [List.foldl_cons]
      have hd : s ≤ d.2 := hle d (List.mem_cons_self _ _)
      apply ih _ (fun e he => hle e (List.mem_cons_of_mem _ he))
      · by_cases hc : d.2 < acc ∨ acc = NULL_LSN
        · rw [if_pos hc]; exact Or.inr hd
        · rw [if_neg hc]
          push_neg at hc
          rcases hacc with h1 | h1
          · exact absurd h1 hc.2
          · exact Or.inr h1
      · rcases h with ⟨e, he, hes⟩ | h
        · rcases List.mem_cons.mp he with h1 | h1
          · right
            rw [h1] at hes
            by_cases hc : d.2 < acc ∨ acc = NULL_LSN
            · rw [if_pos hc]; exact hes
            · rw [if_neg hc]
              push_neg at hc
              rcases hacc with h2 | h2
              · exact absurd h2 hc.2
              · omega
          · exact Or.inl ⟨e, h1, hes⟩
        · right
          have hc : ¬ (d.2 < acc ∨ acc = NULL_LSN) := by
            rw [h]
            push_neg
            exact ⟨hd, hs⟩
          rw [if_neg hc]
          exact h
  exact key dpt NULL_LSN hle (Or.inl rfl) (Or.inl hmem)

theorem seekLSN_eq_dropWhile (s : Int) :
    ∀ (log : List LogRecord), log.Pairwise (fun a b => a.lsn ≤ b.lsn) →
      (∃ r ∈ log, r.lsn = s) →
      seekLSN s log = log.dropWhile (fun r => decide (r.lsn < s)) := by
  intro log
  induction log with
  | nil => intro _ h; obtain ⟨r, hr, _⟩ := h; simp at hr
  | cons a rest ih =>
    intro hord hex
    rw [List.pairwise_cons] at hord
    by_cases ha : a.lsn = s
    · rw [seekLSN, if_pos ha, List.dropWhile_cons_of_neg (by simp; omega)]
    · obtain ⟨r, hr, hrs⟩ := hex
      have hr2 : r ∈ rest := by
        rcases List.mem_cons.mp hr with h | h
        · rw [h] at hrs; exact absurd hrs ha
        · exact h
      have hlt : a.lsn < s := by
        have := hord.1 r hr2
        omega
      rw [seekLSN, if_neg ha, List.dropWhile_cons_of_pos (by simpa using hlt)]
      exact ih hord.2 ⟨r, hr2, hrs⟩

theorem seekLSN_nil (s : Int) :
    ∀ (log : List LogRecord), (∀ r ∈ log, r.lsn ≠ s) → seekLSN s log = [] := by
  intro log
  induction log with
  | nil => intro _; rfl
  | cons a rest ih =>
    intro h
    rw [seekLSN, if_neg (h a (List.mem_cons_self _ _))]
    exact ih (fun r hr => h r (List.mem_cons_of_mem _ hr))

theorem redoScan_cons_cases (E : StorageEngine σ) (m : LogMgr σ) (r : LogRecord) :
    (∃ m2, ∀ l, redoScan E m (r :: l) = redoScan E m2 l) ∨
      ∃ m2, ∀ l, redoScan E m (r :: l) = (false, m2) := by
  cases ht : redoTarget r with
  | none =>
    refine Or.inl ⟨m, fun l => ?_⟩
    rw [redoScan]
    simp only [ht]
  | some t =>
    obtain ⟨p, o, x⟩ := t
    cases hd : mapFind m.dirty_page_table p with
    | none =>
      refine Or.inl ⟨m, fun l => ?_⟩
      rw [redoScan]
      simp only [ht, hd]
    | some v =>
      by_cases h1 : v > r.lsn
      · refine Or.inl ⟨m, fun l => ?_⟩
        rw [redoScan]
        simp only [ht, hd]
        rw [if_pos h1]
      · by_cases h2 : (callGetLSN E m p).1 ≥ r.lsn
        · refine Or.inl ⟨(callGetLSN E m p).2, fun l => ?_⟩
          rw [redoScan]
          simp only [ht, hd]
          rw [if_neg h1, if_pos h2]
        · by_cases h3 : (callPageWrite E (callGetLSN E m p).2 p o x r.lsn).1 = false
          · refine Or.inr ⟨(callPageWrite E (callGetLSN E m p).2 p o x r.lsn).2, fun l => ?_⟩
            rw [redoScan]
            simp only [ht, hd]
            rw [if_neg h1, if_neg h2, if_pos h3]
          · refine Or.inl ⟨(callPageWrite E (callGetLSN E m p).2 p o x r.lsn).2, fun l => ?_⟩
            rw [redoScan]
            simp only [ht, hd]
            rw [if_neg h1, if_neg h2, if_neg h3]

theorem redoScan_append (E : StorageEngine σ) (b : List LogRecord) :
    ∀ (a : List LogRecord) (m : LogMgr σ),
      redoScan E m (a ++ b) =
        if (redoScan E m a).1 = true then redoScan E (redoScan E m a).2 b
        else redoScan E m a := by
  intro a
  induction a with
  | nil => intro m; simp [redoScan]
  | cons r a ih =>
    intro m
    rw [List.cons_append]
    rcases redoScan_cons_cases E m r with ⟨m2, h⟩ | ⟨m2, h⟩
    · rw [h (a ++ b), h a]
      exact ih m2
    · rw [h (a ++ b), h a]
      simp

/-- C28, amended: let the log be non-empty and LSN-ordered, and let `startLSN`, the smallest
`recLSN` of the dirty page table, be other than `NULL_LSN`. If the first record of the log
has an LSN `>= startLSN`, or some record of the log has the LSN `startLSN`, then `redo`
scans from the first record with an LSN `>= startLSN` to the end of the log, or to the
first `pageWrite` that fails: every record of the log with an LSN `>= startLSN` is in the
part scanned, and every UPDATE or CLR record that the scan reaches and that passes the three
skip tests (its page is in the table, with a `recLSN <=` its LSN, and `getLSN` of the page
is below its LSN) receives its `pageWrite(pageID, offset, afterImage, lsn)`. If the first
record has an LSN below `startLSN` and no record has the LSN `startLSN`, `redo` scans
nothing and makes no `getLSN` and no `pageWrite` call. -/
theorem redo_starting_point (E : StorageEngine σ) (m : LogMgr σ) (first : LogRecord)
    (rest : List LogRecord) (startLSN : Int)
    (hord : (first :: rest).Pairwise (fun a b => a.lsn ≤ b.lsn))
    (hle : ∀ e ∈ m.dirty_page_table, startLSN ≤ e.2)
    (hmem : ∃ e ∈ m.dirty_page_table, e.2 = startLSN) (hs : startLSN ≠ NULL_LSN) :
    ((startLSN ≤ first.lsn ∨ ∃ r ∈ first :: rest, r.lsn = startLSN) →
      (∀ r ∈ first :: rest, startLSN ≤ r.lsn →
        r ∈ (first :: rest).dropWhile (fun r => decide (r.lsn < startLSN))) ∧
      ∃ b m2, redo E m (first :: rest) = .ok (b, m2) ∧
        (b, m2) =
          (if (redoScan E m
              ((first :: rest).dropWhile (fun r => decide (r.lsn < startLSN)))).1 = true then
            (true, redoEnd E (redoScan E m
              ((first :: rest).dropWhile (fun r => decide (r.lsn < startLSN)))).2)
          else
            (false, (redoScan E m
              ((first :: rest).dropWhile (fun r => decide (r.lsn < startLSN)))).2)) ∧
        ∀ pre r post p o a recLSN,
          (first :: rest).dropWhile (fun r => decide (r.lsn < startLSN)) = pre ++ r :: post →
          (redoScan E m pre).1 = true →
          redoTarget r = some (p, o, a) → mapFind m.dirty_page_table p = some recLSN →
          recLSN ≤ r.lsn → E.getLSN p (redoScan E m pre).2.se < r.lsn →
          Call.pageWrite p o a r.lsn (E.pageWrite p o a r.lsn (redoScan E m pre).2.se).1 ∈
            m2.calls) ∧
    ((first.lsn < startLSN ∧ ∀ r ∈ first :: rest, r.lsn ≠ startLSN) →
      redo E m (first :: rest) = .ok (true, redoEnd E m) ∧
      pageWrites (redoEnd E m).calls = pageWrites m.calls ∧
      ∀ p n, Call.getLSN p n ∈ (redoEnd E m).calls → Call.getLSN p n ∈ m.calls) := by
  have hmin : minRecLSN m.dirty_page_table = startLSN :=
    minRecLSN_eq m.dirty_page_table startLSN hs hle hmem
  have hne : m.dirty_page_table ≠ [] := by
    obtain ⟨e, he, _⟩ := hmem
    intro h
    rw [h] at he
    simp at he
  have hform : ∀ start,
      (if minRecLSN m.dirty_page_table ≠ NULL_LSN ∧ first.lsn < minRecLSN m.dirty_page_table
        then seekLSN (minRecLSN m.dirty_page_table) (first :: rest) else first :: rest) = start →
      redo E m (first :: rest) =
        if (redoScan E m start).1 = true then .ok (true, redoEnd E (redoScan E m start).2)
        else .ok (false, (redoScan E m start).2) := by
    intro start hst
    cases hd : m.dirty_page_table with
    | nil => exact absurd hd hne
    | cons d ds =>
      rw [hd] at hst
      simp only [redo, hd]
      rw [hst]
  refine ⟨?_, ?_⟩
  · intro hcase
    have hstart : (if minRecLSN m.dirty_page_table ≠ NULL_LSN ∧
          first.lsn < minRecLSN m.dirty_page_table
        then seekLSN (minRecLSN m.dirty_page_table) (first :: rest) else first :: rest) =
        (first :: rest).dropWhile (fun r => decide (r.lsn < startLSN)) := by
      rw [hmin]
      by_cases hf : first.lsn < startLSN
      · rw [if_pos ⟨hs, hf⟩]
        rcases hcase with h | h
        · omega
        · exact seekLSN_eq_dropWhile startLSN _ hord h
      · rw [if_neg (fun h => hf h.2), List.dropWhile_cons_of_neg (by simpa using hf)]
    have hredo := hform _ hstart
    refine ⟨?_, ?_⟩
    · intro r hr hsr
      have hsplit := List.takeWhile_append_dropWhile (fun r => decide (r.lsn < startLSN))
        (first :: rest)
      rw [← hsplit] at hr
      rcases List.mem_append.mp hr with h | h
      · have := List.mem_takeWhile_imp h
        simp only [decide_eq_true_eq] at this
        omega
      · exact h
    · by_cases hb : (redoScan E m
          ((first :: rest).dropWhile (fun r => decide (r.lsn < startLSN)))).1 = true
      · rw [if_pos hb] at hredo
        refine ⟨true, _, hredo, by rw [if_pos hb], ?_⟩
        intro pre r post p o a recLSN hsp hpre ht hd h1 h2
        obtain ⟨cs, hcs, _, _⟩ := redoEnd_calls E (redoScan E m
          ((first :: rest).dropWhile (fun r => decide (r.lsn < startLSN)))).2
        rw [hcs]
        apply List.mem_append_left
        rw [hsp, redoScan_append, if_pos hpre]
        obtain ⟨_, _, _, hdp, _, _, _⟩ := redoScan_trace E pre m
        obtain ⟨m3, hc3, _, _, _, _, hsc⟩ := (redo_skip_rules E (redoScan E m pre).2 r post).2.1
          p o a recLSN ht (by rw [hdp]; exact hd) h1 h2
        rw [hsc]
        split_ifs
        · simp only [hc3]
          simp
        · obtain ⟨step, hstep, _⟩ := redoScan_trace E post m3
          rw [hstep, hc3]
          simp
      · rw [if_neg hb] at hredo
        refine ⟨false, _, hredo, by rw [if_neg hb], ?_⟩
        intro pre r post p o a recLSN hsp hpre ht hd h1 h2
        rw [hsp, redoScan_append, if_pos hpre]
        obtain ⟨_, _, _, hdp, _, _, _⟩ := redoScan_trace E pre m
        obtain ⟨m3, hc3, _, _, _, _, hsc⟩ := (redo_skip_rules E (redoScan E m pre).2 r post).2.1
          p o a recLSN ht (by rw [hdp]; exact hd) h1 h2
        rw [hsc]
        split_ifs
        · simp only [hc3]
          simp
        · obtain ⟨step, hstep, _⟩ := redoScan_trace E post m3
          rw [hstep, hc3]
          simp
  · intro hcase
    have hstart : (if minRecLSN m.dirty_page_table ≠ NULL_LSN ∧
          first.lsn < minRecLSN m.dirty_page_table
        then seekLSN (minRecLSN m.dirty_page_table) (first :: rest) else first :: rest) = [] := by
      rw [hmin, if_pos ⟨hs, hcase.1⟩]
      exact seekLSN_nil startLSN _ hcase.2
    have hredo := hform _ hstart
    obtain ⟨cs, hcs, hall, _⟩ := redoEnd_calls E m
    refine ⟨?_, ?_, ?_⟩
    · rw [hredo]
      simp [redoScan]
    · rw [hcs, pageWrites_append]
      have : pageWrites cs = [] := by
        clear hcs
        induction cs with
        | nil => rfl
        | cons c cs ih =>
          obtain ⟨n, hn⟩ := hall c (List.mem_cons_self _ _)
          rw [hn]
          simp only [pageWrites]
          exact ih (fun c2 hc2 => hall c2 (List.mem_cons_of_mem _ hc2))
      rw [this, List.append_nil]
    · intro p n hp
      rw [hcs] at hp
      rcases List.mem_append.mp hp with h | h
      · exact h
      · obtain ⟨k, hk⟩ := hall _ h
        exact Call.noConfusion hk

/-- Witness of C28: the dirty page table is `{7 -> 3}`, the log holds an UPDATE of page 9
with LSN 1 and UPDATEs of page 7 with LSNs 3 and 6; `redo` on the stub engine starts at the
record with LSN 3 and writes the after-images of the records with LSNs 3 and 6. -/
theorem redo_starting_point_witness :
    ∃ (b : Bool) (m2 : LogMgr Stub),
      redo stubEngine ⟨[(1, ⟨6, TxStatus.U⟩)], [(7, 3)], [], stubInit, []⟩
        [UpdateLogRecord 1 NULL_LSN 2 9 0 "x" "y", UpdateLogRecord 3 NULL_LSN 1 7 0 "a" "b",
          UpdateLogRecord 6 3 1 7 0 "b" "c"] = .ok (b, m2) ∧
      b = true ∧
      pageWrites m2.calls =
        [Call.pageWrite 7 0 "b" 3 true, Call.pageWrite 7 0 "c" 6 true] := by
  obtain ⟨b, m2, h1, h2, _⟩ := ((redo_starting_point stubEngine
    (⟨[(1, ⟨6, TxStatus.U⟩)], [(7, 3)], [], stubInit, []⟩ : LogMgr Stub)
    (UpdateLogRecord 1 NULL_LSN 2 9 0 "x" "y")
    [UpdateLogRecord 3 NULL_LSN 1 7 0 "a" "b", UpdateLogRecord 6 3 1 7 0 "b" "c"] 3
    (by decide) (by decide) (by decide) (by decide)).1 (Or.inr (by decide))).2
  refine ⟨b, m2, h1, ?_, ?_⟩
  · exact (congrArg Prod.fst h2).trans (by decide)
  · show pageWrites ((b, m2) : Bool × LogMgr Stub).2.calls = _
    rw [h2]
    decide

/-! ### Dirty tracking -/

theorem dirtyInv_of {m m2 : LogMgr σ} (h : DirtyInv m)
    (he : ∀ R ∈ emitted m, R ∈ emitted m2)
    (hd : m2.dirty_page_table = m.dirty_page_table) : DirtyInv m2 := by
  intro P r hP
  rw [hd] at hP
  obtain ⟨R, hR, h1, h2⟩ := h P r hP
  exact ⟨R, he R hR, h1, h2⟩

theorem dirtyInv_same {m m2 : LogMgr σ} (h : DirtyInv m) (he : emitted m2 = emitted m)
    (hd : m2.dirty_page_table = m.dirty_page_table) : DirtyInv m2 :=
  dirtyInv_of h (by rw [he]; exact fun R hR => hR) hd

theorem dirtyInv_pushNext (E : StorageEngine σ) {m : LogMgr σ} (h : DirtyInv m)
    (r : LogRecord) : DirtyInv (pushTail (callNextLSN E m).2 r) := by
  have he : emitted (pushTail (callNextLSN E m).2 r) = emitted m ++ [r] := by
    simp [emitted, flushed_append, flushed]
  exact dirtyInv_of h (by rw [he]; exact fun R hR => List.mem_append_left _ hR) rfl

theorem dirtyInv_flush (E : StorageEngine σ) {m : LogMgr σ} (h : DirtyInv m) (l : Int) :
    DirtyInv (flushLogTail E m l) :=
  dirtyInv_same h
    (by simp [emitted, flushed_append, flushed, List.append_assoc, drainTail_append]) rfl

theorem dirtyInv_dirty {m : LogMgr σ} (h : DirtyInv m) (R : LogRecord) (p : Int)
    (hR : R ∈ emitted m) (hp : dirties R p = true) : DirtyInv (dirtyIfAbsent m p R.lsn) := by
  intro P r hP
  rw [mapFind_dirtyIfAbsent] at hP
  have he : emitted (dirtyIfAbsent m p R.lsn) = emitted m := by simp [emitted]
  rw [he]
  by_cases hk : P = p
  · subst hk
    rw [if_pos rfl] at hP
    cases hf : mapFind m.dirty_page_table P with
    | none =>
      rw [hf] at hP
      simp only [Option.getD_none, Option.some.injEq] at hP
      exact ⟨R, hR, hP, hp⟩
    | some v =>
      rw [hf] at hP
      simp only [Option.getD_some, Option.some.injEq] at hP
      subst hP
      exact h P v hf
  · rw [if_neg hk] at hP
    exact h P r hP

theorem dirtyInv_write (E : StorageEngine σ) {m : LogMgr σ} (h : DirtyInv m)
    (txid page_id offset : Int) (input oldtext : String) :
    DirtyInv (write E m txid page_id offset input oldtext).2 := by
  have h1 := dirtyInv_pushNext E h
    (UpdateLogRecord (E.nextLSN m.se).1 (getLastLSN (callNextLSN E m).2 txid) txid page_id
      offset oldtext input)
  have h2 : DirtyInv (setStatus (setLastLSN (pushTail (callNextLSN E m).2
      (UpdateLogRecord (E.nextLSN m.se).1 (getLastLSN (callNextLSN E m).2 txid) txid page_id
        offset oldtext input)) txid (E.nextLSN m.se).1) txid TxStatus.U) :=
    dirtyInv_same h1 (by simp [emitted]) (by simp)
  exact dirtyInv_dirty h2
    (UpdateLogRecord (E.nextLSN m.se).1 (getLastLSN (callNextLSN E m).2 txid) txid page_id
      offset oldtext input) page_id (by simp [emitted])
    (by simp [dirties, redoTarget, UpdateLogRecord])

theorem dirtyInv_commit (E : StorageEngine σ) {m : LogMgr σ} (h : DirtyInv m) (txid : Int) :
    DirtyInv (commit E m txid) := by
  have h1 := dirtyInv_pushNext E h ⟨(E.nextLSN m.se).1, getLastLSN m txid, txid, .commit⟩
  have h2 : DirtyInv
      (setStatus (setLastLSN (pushTail (callNextLSN E m).2
        ⟨(E.nextLSN m.se).1, getLastLSN m txid, txid, .commit⟩) txid (E.nextLSN m.se).1) txid
        TxStatus.C) := dirtyInv_same h1 (by simp [emitted]) (by simp)
  have h3 := dirtyInv_flush E h2 (E.nextLSN m.se).1
  have h4 : DirtyInv (eraseTx (flushLogTail E
      (setStatus (setLastLSN (pushTail (callNextLSN E m).2
        ⟨(E.nextLSN m.se).1, getLastLSN m txid, txid, .commit⟩) txid (E.nextLSN m.se).1) txid
        TxStatus.C) (E.nextLSN m.se).1) txid) :=
    dirtyInv_same h3 (by simp [emitted]) (by simp)
  exact dirtyInv_pushNext E h4 _

theorem dirtyInv_checkpoint (E : StorageEngine σ) {m : LogMgr σ} (h : DirtyInv m) :
    DirtyInv (checkpoint E m) := by
  have h1 : DirtyInv (callNextLSN E m).2 :=
    dirtyInv_same h (by simp [emitted, flushed_append, flushed]) rfl
  have h2 := dirtyInv_pushNext E h1 ⟨(E.nextLSN m.se).1, NULL_LSN, NULL_TX, .beginCkpt⟩
  have h3 : DirtyInv (pushTail (pushTail (callNextLSN E (callNextLSN E m).2).2
      ⟨(E.nextLSN m.se).1, NULL_LSN, NULL_TX, .beginCkpt⟩)
      (ChkptLogRecord (E.nextLSN (E.nextLSN m.se).2).1 (E.nextLSN m.se).1 NULL_TX m.tx_table
        m.dirty_page_table)) :=
    dirtyInv_of h2 (by
      intro R hR
      simp only [emitted, pushTail_logtail, pushTail_calls] at hR ⊢
      rw [← List.append_assoc]
      exact List.mem_append_left _ hR) rfl
  have h4 := dirtyInv_flush E h3 (E.nextLSN (E.nextLSN m.se).2).1
  exact dirtyInv_same h4 (by simp [emitted, checkpoint, callStoreMaster, flushed_append, flushed])
    rfl

theorem dirtyInv_pageFlushed (E : StorageEngine σ) {m : LogMgr σ} (h : DirtyInv m)
    (page_id : Int) : DirtyInv (pageFlushed E m page_id) := by
  have h1 : DirtyInv (callGetLSN E m page_id).2 :=
    dirtyInv_same h (by simp [emitted, flushed_append, flushed]) rfl
  have h2 := dirtyInv_flush E h1 (E.getLSN page_id m.se)
  intro P r hP
  have hP2 : mapFind (mapErase (flushLogTail E (callGetLSN E m page_id).2
      (E.getLSN page_id m.se)).dirty_page_table page_id) P = some r := hP
  rw [mapFind_mapErase] at hP2
  split_ifs at hP2
  exact h2 P r hP2

theorem dirtyInv_appendEnd (E : StorageEngine σ) {m : LogMgr σ} (h : DirtyInv m)
    (prev tx : Int) : DirtyInv (appendEnd E m prev tx) :=
  dirtyInv_same (dirtyInv_pushNext E h ⟨(E.nextLSN m.se).1, prev, tx, .endTx⟩) rfl rfl

theorem dirtyInv_compensate (E : StorageEngine σ) {m : LogMgr σ} (h : DirtyInv m)
    (r : LogRecord) (p o : Int) (b : String) : DirtyInv (compensate E m r p o b).2 := by
  have h1 := dirtyInv_pushNext E h
    (CompensationLogRecord (E.nextLSN m.se).1 (getLastLSN (callNextLSN E m).2 r.txID) r.txID
      p o b r.prevLSN)
  have h2 : DirtyInv (setStatusGuarded (setLastLSN
      (pushTail (callNextLSN E m).2
        (CompensationLogRecord (E.nextLSN m.se).1 (getLastLSN (callNextLSN E m).2 r.txID) r.txID
          p o b r.prevLSN)) r.txID (E.nextLSN m.se).1) r.txID TxStatus.U) :=
    dirtyInv_same h1 (by simp [emitted]) (by simp)
  have h3 := dirtyInv_dirty h2
    (CompensationLogRecord (E.nextLSN m.se).1 (getLastLSN (callNextLSN E m).2 r.txID) r.txID
      p o b r.prevLSN) p (by simp [emitted])
    (by simp [dirties, redoTarget, CompensationLogRecord])
  exact dirtyInv_same h3 (by simp [emitted, compensate, flushed_append, flushed]) rfl

theorem undoRecord_dirtyInv (E : StorageEngine σ) {m : LogMgr σ} (h : DirtyInv m)
    (r : LogRecord) (q : List Int) : DirtyInv (undoRecord E m r q).2.1 := by
  unfold undoRecord
  split
  · split_ifs
    · exact dirtyInv_compensate E h r _ _ _
    · exact dirtyInv_compensate E h r _ _ _
    · exact dirtyInv_appendEnd E (dirtyInv_compensate E h r _ _ _) _ _
  · split_ifs
    · exact h
    · exact dirtyInv_appendEnd E h _ _
  · split_ifs
    · exact h
    · exact dirtyInv_appendEnd E h _ _
  · exact h

theorem undoLoop_dirtyInv (E : StorageEngine σ) (log : List LogRecord) (fuel : Nat) :
    ∀ (m : LogMgr σ) (q : List Int) (m2 : LogMgr σ), DirtyInv m →
      undoLoop E log fuel m q = .ok m2 → DirtyInv m2 := by
  induction fuel with
  | zero =>
    intro m q m2 h hr
    cases q with
    | nil => simp only [undoLoop, Except.ok.injEq] at hr; rw [← hr]; exact h
    | cons a q => simp [undoLoop] at hr
  | succ n ih =>
    intro m q m2 h hr
    cases q with
    | nil => simp only [undoLoop, Except.ok.injEq] at hr; rw [← hr]; exact h
    | cons a q =>
      simp only [undoLoop] at hr
      split at hr
      · exact ih m q m2 h hr
      · next r hf =>
        split_ifs at hr
        · exact ih _ _ m2 (undoRecord_dirtyInv E h r q) hr
        · simp only [Except.ok.injEq] at hr
          rw [← hr]; exact undoRecord_dirtyInv E h r q

theorem dirtyInv_abort (E : StorageEngine σ) {m m2 : LogMgr σ} (h : DirtyInv m) (fuel : Nat)
    (txid : Int) (hr : abort E fuel m txid = .ok m2) : DirtyInv m2 := by
  unfold abort undo at hr
  refine undoLoop_dirtyInv E _ fuel _ _ m2 ?_ hr
  have h1 := dirtyInv_pushNext E h ⟨(E.nextLSN m.se).1, getLastLSN m txid, txid, .abort⟩
  exact dirtyInv_same h1 (by simp [emitted, flushed_append, flushed]) (by simp)

theorem operated_dirtyInv (E : StorageEngine σ) {m : LogMgr σ} (h : Operated E m) :
    DirtyInv m := by
  induction h with
  | init s =>
    intro P r hP
    simp [freshMgr, mapFind] at hP
  | write txid page_id offset input oldtext _ ih =>
    exact dirtyInv_write E ih txid page_id offset input oldtext
  | commit txid _ ih => exact dirtyInv_commit E ih txid
  | abort fuel txid _ hr ih => exact dirtyInv_abort E ih fuel txid hr
  | checkpoint _ ih => exact dirtyInv_checkpoint E ih
  | pageFlushed page_id _ ih => exact dirtyInv_pageFlushed E ih page_id

theorem operated_reachable (E : StorageEngine σ) {m : LogMgr σ} (h : Operated E m) :
    Reachable E m := by
  induction h with
  | init s => exact Reachable.init s
  | write txid page_id offset input oldtext _ ih =>
    exact Reachable.write txid page_id offset input oldtext ih
  | commit txid _ ih => exact Reachable.commit txid ih
  | abort fuel txid _ hr ih => exact Reachable.abort fuel txid ih hr
  | checkpoint _ ih => exact Reachable.checkpoint ih
  | pageFlushed page_id _ ih => exact Reachable.pageFlushed page_id ih

/-- C22 as stated fails once a page has left the dirty page table: after
`write(1, 7, 0, "new", "old")`, `pageFlushed(7)` and `write(1, 7, 0, "newer", "new")` on the
stub engine, page 7 is in the table with `recLSN = 2`, the LSN of the second UPDATE, while
the first UPDATE of page 7, which the manager has emitted, has LSN 1. -/
theorem dirty_tracking_counterexample :
    Operated stubEngine
      (write stubEngine (pageFlushed stubEngine
        (write stubEngine (freshMgr stubInit) 1 7 0 "new" "old").2 7) 1 7 0 "newer" "new").2 ∧
    mapFind (write stubEngine (pageFlushed stubEngine
      (write stubEngine (freshMgr stubInit) 1 7 0 "new" "old").2 7) 1 7 0 "newer"
        "new").2.dirty_page_table 7 = some 2 ∧
    UpdateLogRecord 1 NULL_LSN 1 7 0 "old" "new" ∈
      emitted (write stubEngine (pageFlushed stubEngine
        (write stubEngine (freshMgr stubInit) 1 7 0 "new" "old").2 7) 1 7 0 "newer" "new").2 ∧
    dirties (UpdateLogRecord 1 NULL_LSN 1 7 0 "old" "new") 7 = true ∧
    ¬ (2 : Int) ≤ (UpdateLogRecord 1 NULL_LSN 1 7 0 "old" "new").lsn :=
  ⟨Operated.write _ _ _ _ _ (Operated.pageFlushed _ (Operated.write _ _ _ _ _
    (Operated.init _))), by decide, by decide, by decide, by decide⟩

/-- C22, amended: in every state reachable by `write`, `commit`, `abort`, `checkpoint` and
`pageFlushed` calls from the empty state, over an engine with increasing LSNs, for every
page `P` in the dirty page table with `recLSN` `r`, `r` is the LSN of an UPDATE or CLR
record `R` for `P` that the manager has emitted, and every record emitted after `R`, so
every UPDATE or CLR record for `P` emitted since `P` entered the table, has an LSN above
`r`. -/
theorem dirty_tracking {E : StorageEngine σ} {mark : σ → Int} (hE : IncreasingLSN E mark)
    {m : LogMgr σ} (hm : Operated E m) (P r : Int)
    (h : mapFind m.dirty_page_table P = some r) :
    ∃ pre R post, emitted m = pre ++ R :: post ∧ R.lsn = r ∧
      (∃ o a, redoTarget R = some (P, o, a)) ∧ ∀ R2 ∈ post, r < R2.lsn := by
  obtain ⟨R, hR, h1, h2⟩ := operated_dirtyInv E hm P r h
  obtain ⟨hp, _⟩ := reachable_emitInv hE (operated_reachable E hm)
  obtain ⟨pre, post, he⟩ := List.append_of_mem hR
  refine ⟨pre, R, post, he, h1, ?_, ?_⟩
  · unfold dirties at h2
    cases ht : redoTarget R with
    | none => rw [ht] at h2; simp at h2
    | some tg =>
      obtain ⟨p, o, a⟩ := tg
      rw [ht] at h2
      simp only [decide_eq_true_eq] at h2
      exact ⟨o, a, by rw [h2]⟩
  · intro R2 hR2
    rw [he, List.pairwise_append] at hp
    have := (List.pairwise_cons.mp hp.2.1).1 R2 hR2
    rw [← h1]
    exact this

/-- Witness of C22: after `write(1, 7, 0, "new", "old")`, `pageFlushed(7)` and
`write(1, 7, 0, "newer", "new")` on the stub engine, page 7 has `recLSN = 2`, the LSN of an
emitted UPDATE of page 7 after which nothing with an LSN `<= 2` was emitted. -/
theorem dirty_tracking_witness :
    mapFind (write stubEngine (pageFlushed stubEngine
      (write stubEngine (freshMgr stubInit) 1 7 0 "new" "old").2 7) 1 7 0 "newer"
        "new").2.dirty_page_table 7 = some 2 ∧
    ∃ pre R post,
      emitted (write stubEngine (pageFlushed stubEngine
        (write stubEngine (freshMgr stubInit) 1 7 0 "new" "old").2 7) 1 7 0 "newer" "new").2 =
        pre ++ R :: post ∧ R.lsn = 2 ∧
      (∃ o a, redoTarget R = some (7, o, a)) ∧ ∀ R2 ∈ post, 2 < R2.lsn :=
  ⟨by decide, dirty_tracking stub_increasing
    (Operated.write 1 7 0 "newer" "new" (Operated.pageFlushed 7
      (Operated.write 1 7 0 "new" "old" (Operated.init stubInit)))) 7 2 (by decide)⟩

/-! ### A log text that the codec cannot parse -/

theorem stringToLRVector_none (C : Codec) (text : List String)
    (h : ∃ line ∈ text, C.parse line = none) : stringToLRVector C text = none := by
  induction text with
  | nil => obtain ⟨line, hl, _⟩ := h; simp at hl
  | cons x rest ih =>
    obtain ⟨line, hl, hp⟩ := h
    unfold stringToLRVector
    cases hx : C.parse x with
    | none => rfl
    | some lr =>
      rcases List.mem_cons.mp hl with h1 | h1
      · rw [h1, hx] at hp
        simp at hp
      · simp only [ih ⟨line, h1, hp⟩]

theorem abortText_parsed (C : Codec) (E : StorageEngine σ) (text : σ → List String)
    (fuel : Nat) (m : LogMgr σ) (txid : Int)
    (h : stringToLRVector C (text (E.nextLSN m.se).2) = some (E.getLog (E.nextLSN m.se).2)) :
    abortText C E text fuel m txid =
      match abort E fuel m txid with
      | .error f => .error f
      | .ok m2 => .ok (Ending.returned m2) := by
  unfold abortText abort
  simp only [setStatusGuarded_se, setLastLSN_se, pushTail_se, callNextLSN_se, h,
    callGetLog_fst]

/-- C21 as stated fails for `abort`: the ABORT record is appended and the transaction table
updated before the log text is read. Transaction 1 is active with `lastLSN = 1`, the second
line of the durable log text is malformed; `abort(1)` ends in `CorruptLogRecord` with the
record `ABORT(LSN 1, prev = 1, tx 1)` in the log tail and `lastLSN(1)` moved to the LSN of
that record. -/
theorem abort_corrupt_counterexample :
    stubCodec.parse "garbage" = none ∧
    ∃ m2 : LogMgr Stub,
      abortText stubCodec stubEngine (fun _ => ["commit 1", "garbage"]) 5
        ⟨[(1, ⟨0, TxStatus.U⟩)], [], [], stubInit, []⟩ 1 = .ok (Ending.corruptLogRecord m2) ∧
      m2.logtail = [⟨1, 0, 1, .abort⟩] ∧ m2.logtail ≠ [] ∧
      m2.tx_table = [(1, ⟨1, TxStatus.U⟩)] ∧ m2.tx_table ≠ [(1, ⟨0, TxStatus.U⟩)] :=
  ⟨by decide, _, rfl, by decide, by decide, by decide, by decide⟩

/-- C21, amended: if some line of the log text cannot be parsed by the record codec,
`recover(log)` fails with `CorruptLogRecord` and adopts no partial state: the manager is as
before the call, so the transaction table, the dirty page table and the log tail are the
same and no engine call, hence no `pageWrite`, is made. `abort(T)` on a durable log text
with such a line fails with `CorruptLogRecord` too and issues no `pageWrite`, after it has
appended `ABORT(prev = lastLSN(T), T)` to the log tail and, for `T != NULL_TX`, set
`lastLSN(T)` to the LSN of that record and `status(T)` to `U`; it leaves the dirty page
table as it was, and its engine calls are one `nextLSN` and one `getLog`. -/
theorem corrupt_log (C : Codec) (E : StorageEngine σ) (fuel : Nat) (m : LogMgr σ) :
    (∀ log : List String, (∃ line ∈ log, C.parse line = none) →
      recoverText C E fuel m log = .ok (Ending.corruptLogRecord m)) ∧
    ∀ (text : σ → List String) (T : Int),
      (∃ line ∈ text (E.nextLSN m.se).2, C.parse line = none) →
      ∃ m2, abortText C E text fuel m T = .ok (Ending.corruptLogRecord m2) ∧
        m2.logtail = m.logtail ++ [⟨(E.nextLSN m.se).1, getLastLSN m T, T, .abort⟩] ∧
        (T ≠ NULL_TX → m2.tx_table = mapSet m.tx_table T ⟨(E.nextLSN m.se).1, TxStatus.U⟩) ∧
        (T = NULL_TX → m2.tx_table = m.tx_table) ∧
        m2.dirty_page_table = m.dirty_page_table ∧
        m2.calls = m.calls ++ [Call.nextLSN (E.nextLSN m.se).1, Call.getLog] ∧
        pageWrites m2.calls = pageWrites m.calls := by
  constructor
  · intro log h
    unfold recoverText
    rw [stringToLRVector_none C log h]
  · intro text T h
    have hn : stringToLRVector C (text (setStatusGuarded (setLastLSN
        (pushTail (callNextLSN E m).2 ⟨(E.nextLSN m.se).1, getLastLSN m T, T, .abort⟩) T
          (E.nextLSN m.se).1) T TxStatus.U).se) = none := by
      simp only [setStatusGuarded_se, setLastLSN_se, pushTail_se, callNextLSN_se]
      exact stringToLRVector_none C _ h
    refine ⟨(callGetLog E (setStatusGuarded (setLastLSN
        (pushTail (callNextLSN E m).2 ⟨(E.nextLSN m.se).1, getLastLSN m T, T, .abort⟩) T
          (E.nextLSN m.se).1) T TxStatus.U)).2, ?_, ?_, ?_, ?_, ?_, ?_, ?_⟩
    · unfold abortText
      simp only [callNextLSN_fst]
      rw [hn]
    · simp
    · intro hT
      exact setLast_setStatus_tx_table
        (pushTail (callNextLSN E m).2 ⟨(E.nextLSN m.se).1, getLastLSN m T, T, .abort⟩) T
        (E.nextLSN m.se).1 TxStatus.U hT
    · intro hT
      subst hT
      simp only [callGetLog_tx_table, setLastLSN_null, setStatusGuarded_null]
      rfl
    · simp
    · simp
    · simp [pageWrites_append, pageWrites]

/-- Witness of C21: the second line of the text is malformed for the toy codec; `recover`
of that text ends in `CorruptLogRecord` with the manager as it was, and `abort(1)` over a
durable log with that text ends in `CorruptLogRecord` with the ABORT record as the only
addition to the log tail. -/
theorem corrupt_log_witness :
    (∃ line ∈ ["commit 1", "garbage"], stubCodec.parse line = none) ∧
    recoverText stubCodec stubEngine 5
      (⟨[(1, ⟨0, TxStatus.U⟩)], [(7, 0)], [], stubInit, []⟩ : LogMgr Stub)
      ["commit 1", "garbage"] =
      .ok (Ending.corruptLogRecord ⟨[(1, ⟨0, TxStatus.U⟩)], [(7, 0)], [], stubInit, []⟩) ∧
    ∃ m2 : LogMgr Stub,
      abortText stubCodec stubEngine (fun _ => ["commit 1", "garbage"]) 5
        ⟨[(1, ⟨0, TxStatus.U⟩)], [(7, 0)], [], stubInit, []⟩ 1 =
        .ok (Ending.corruptLogRecord m2) ∧
      m2.logtail = [⟨1, 0, 1, .abort⟩] ∧ m2.dirty_page_table = [(7, 0)] ∧
      pageWrites m2.calls = [] := by
  refine ⟨⟨"garbage", by decide, by decide⟩,
    (corrupt_log stubCodec stubEngine 5
      (⟨[(1, ⟨0, TxStatus.U⟩)], [(7, 0)], [], stubInit, []⟩ : LogMgr Stub)).1
      ["commit 1", "garbage"] ⟨"garbage", by decide, by decide⟩, ?_⟩
  obtain ⟨m2, h1, h2, _, _, h5, _, h7⟩ := (corrupt_log stubCodec stubEngine 5
    (⟨[(1, ⟨0, TxStatus.U⟩)], [(7, 0)], [], stubInit, []⟩ : LogMgr Stub)).2
    (fun _ => ["commit 1", "garbage"]) 1 ⟨"garbage", by decide, by decide⟩
  exact ⟨m2, h1, h2.trans (by decide), h5, h7⟩

/-! ### `recover` on an empty log -/

/-- C38: on the empty log text `stringToLRVector` yields the empty vector, and `analyze`
reads the LSN of `*log.begin()` in the condition that precedes its forward scan, whatever
the tables are: `recover` of the empty log is a read of the first element of an empty
vector. -/
theorem recover_empty_log_faults (C : Codec) (E : StorageEngine σ) (fuel : Nat)
    (m : LogMgr σ) :
    stringToLRVector C [] = some [] ∧
    analyze m [] = .error Fault.emptyLogRead ∧
    recover E fuel m [] = .error Fault.emptyLogRead ∧
    recoverText C E fuel m [] = .error Fault.emptyLogRead :=
  ⟨rfl, rfl, rfl, rfl⟩

/-! ### A failed `pageWrite` during Undo -/

/-- C33 as stated fails for an UPDATE record of the system transaction: `setLastLSN` and
the status assignment skip `NULL_TX`, so after the failed `pageWrite` the transaction table
has no entry for `R.txID`. -/
theorem undo_pageWrite_failure_counterexample :
    ∃ m2 : LogMgr Stub,
      undoLoop brokenEngine [UpdateLogRecord 5 4 NULL_TX 7 0 "old" "new"] 3
        (freshMgr stubInit) [5] = .ok m2 ∧
      m2.calls = [Call.nextLSN 1, Call.pageWrite 7 0 "old" 1 false] ∧
      m2.logtail = [CompensationLogRecord 1 NULL_LSN NULL_TX 7 0 "old" 4] ∧
      mapFind m2.tx_table NULL_TX = none :=
  ⟨_, rfl, by decide, by decide, by decide⟩

/-- C33, amended: if the `pageWrite` issued for an UPDATE record `R` of a transaction other
than `NULL_TX` returns false, Undo returns immediately: the CLR for `R` is the only record
appended to the tail in that iteration and the last one of the run (no END follows it), the
failed `pageWrite` is the last engine call, and `R.txID` is in the transaction table with
`lastLSN` the LSN of that CLR and status `U`. -/
theorem undo_pageWrite_failure (E : StorageEngine σ) (m : LogMgr σ) (log : List LogRecord)
    (R : LogRecord) (q : List Int) (fuel : Nat) (pageID offset : Int)
    (beforeImage afterImage : String)
    (hfind : log.find? (fun r => decide (r.lsn = R.lsn)) = some R)
    (hb : R.body = .update pageID offset beforeImage afterImage) (htx : R.txID ≠ NULL_TX)
    (hfail : (E.pageWrite pageID offset beforeImage (E.nextLSN m.se).1
      (E.nextLSN m.se).2).1 = false) :
    ∃ m2, undoLoop E log (fuel + 1) m (R.lsn :: q) = .ok m2 ∧
      m2.logtail = m.logtail ++
        [CompensationLogRecord (E.nextLSN m.se).1 (getLastLSN m R.txID) R.txID pageID offset
          beforeImage R.prevLSN] ∧
      m2.calls = m.calls ++ [Call.nextLSN (E.nextLSN m.se).1,
        Call.pageWrite pageID offset beforeImage (E.nextLSN m.se).1 false] ∧
      mapFind m2.tx_table R.txID = some ⟨(E.nextLSN m.se).1, TxStatus.U⟩ := by
  have hc : (compensate E m R pageID offset beforeImage).1 = false := by
    rw [compensate_fst]
    exact hfail
  have hrec : undoRecord E m R q = (false, (compensate E m R pageID offset beforeImage).2, q) := by
    obtain ⟨l, p, t, b⟩ := R
    simp only at hb
    subst hb
    simp only [undoRecord]
    rw [if_pos hc]
  refine ⟨(compensate E m R pageID offset beforeImage).2, ?_, compensate_logtail E m R _ _ _,
    ?_, ?_⟩
  · rw [undoLoop_found E fuel m q hfind, hrec]
    simp
  · rw [compensate_calls, hfail]
  · rw [compensate_tx_table E m R _ _ _ htx, if_pos rfl]

/-- Witness of C33: on the engine whose `pageWrite` fails, Undo of the UPDATE with LSN 5 of
transaction 1 returns with the CLR as last record and transaction 1 at `(1, U)`. -/
theorem undo_pageWrite_failure_witness :
    ∃ m2 : LogMgr Stub,
      undoLoop brokenEngine [UpdateLogRecord 5 4 1 7 0 "old" "new"] 1 (freshMgr stubInit) [5] =
        .ok m2 ∧
      m2.logtail = [] ++ [CompensationLogRecord 1 NULL_LSN 1 7 0 "old" 4] ∧
      m2.calls = [] ++ [Call.nextLSN 1, Call.pageWrite 7 0 "old" 1 false] ∧
      mapFind m2.tx_table 1 = some ⟨1, TxStatus.U⟩ :=
  undo_pageWrite_failure brokenEngine (freshMgr stubInit)
    [UpdateLogRecord 5 4 1 7 0 "old" "new"] (UpdateLogRecord 5 4 1 7 0 "old" "new") [] 0
    7 0 "old" "new" rfl rfl (by decide) rfl

/-! ### Termination of the Undo loop -/

theorem budget_pqPush (log : List LogRecord) (q : List Int) (x : Int) :
    budget log (pqPush q x) = rank log x + 1 + budget log q := by
  induction q with
  | nil => simp [pqPush, budget]
  | cons a q ih =>
    simp only [pqPush]
    split_ifs
    · simp [budget]
    · unfold budget at ih ⊢
      simp only [List.map_cons, List.sum_cons, ih]
      omega

theorem budget_cons (log : List LogRecord) (q : List Int) (x : Int) :
    budget log (x :: q) = rank log x + 1 + budget log q := by
  simp [budget]

theorem undoRecord_pushes (E : StorageEngine σ) (m : LogMgr σ) (r : LogRecord) (q : List Int)
    (hp : r.prevLSN = NULL_LSN ∨ r.prevLSN < r.lsn)
    (hu : getUndoNextLSN r = NULL_LSN ∨ getUndoNextLSN r < r.lsn) :
    (undoRecord E m r q).2.2 = q ∨
      ∃ x, x < r.lsn ∧ (undoRecord E m r q).2.2 = pqPush q x := by
  obtain ⟨l, pv, t, body⟩ := r
  simp only at hp
  cases body with
  | update pg off bi ai =>
    simp only [undoRecord]
    split_ifs with h1 h2
    · exact Or.inl rfl
    · exact Or.inr ⟨pv, by rcases hp with h | h; exact absurd h h2; exact h, rfl⟩
    · exact Or.inl rfl
  | clr pg off ai un =>
    simp only [getUndoNextLSN] at hu
    simp only [undoRecord]
    split_ifs with h1
    · exact Or.inr ⟨un, by rcases hu with h | h; exact absurd h h1; exact h, rfl⟩
    · exact Or.inl rfl
  | abort =>
    simp only [undoRecord]
    split_ifs with h1
    · exact Or.inr ⟨pv, by rcases hp with h | h; exact absurd h h1; exact h, rfl⟩
    · exact Or.inl rfl
  | commit => exact Or.inl rfl
  | endTx => exact Or.inl rfl
  | beginCkpt => exact Or.inl rfl
  | endCkpt a b => exact Or.inl rfl

theorem undoLoop_returns (E : StorageEngine σ) (log : List LogRecord)
    (hdec : ∀ r ∈ log, (r.prevLSN = NULL_LSN ∨ r.prevLSN < r.lsn) ∧
      (getUndoNextLSN r = NULL_LSN ∨ getUndoNextLSN r < r.lsn)) (fuel : Nat) :
    ∀ (m : LogMgr σ) (q : List Int), budget log q ≤ fuel →
      ∃ m2, undoLoop E log fuel m q = .ok m2 := by
  induction fuel with
  | zero =>
    intro m q hb
    cases q with
    | nil => exact ⟨m, undoLoop_nil E log 0 m⟩
    | cons L rest =>
      rw [budget_cons] at hb
      omega
  | succ n ih =>
    intro m q hb
    cases q with
    | nil => exact ⟨m, undoLoop_nil E log _ m⟩
    | cons L rest =>
      rw [budget_cons] at hb
      cases hf : log.find? (fun x => decide (x.lsn = L)) with
      | none =>
        rw [undoLoop_missing E n m rest hf]
        exact ih m rest (by omega)
      | some r =>
        rw [undoLoop_found E n m rest hf]
        have hmem : r ∈ log := List.mem_of_find?_eq_some hf
        have hL : r.lsn = L := by simpa using List.find?_some hf
        by_cases hb1 : (undoRecord E m r rest).1 = true
        · rw [if_pos hb1]
          apply ih
          rcases undoRecord_pushes E m r rest (hdec r hmem).1 (hdec r hmem).2 with h | ⟨x, hx, h⟩
          · rw [h]; omega
          · rw [h, budget_pqPush]
            have := rank_lt hmem hx
            rw [hL] at this
            omega
        · rw [if_neg hb1]
          exact ⟨_, rfl⟩

/-- C32: on a log in which every record's `prevLSN`, and every CLR's `undoNextLSN`, is
`NULL_LSN` or strictly smaller than the record's own LSN, `undo` returns for every
transaction table, with or without a `txnum`: there is a number of iterations, computed
from the log and the seeded queue, such that the loop has emptied `ToUndo` or returned
within it, and every larger budget gives the same final state. Every LSN that an iteration
pushes onto `ToUndo` is strictly smaller than the LSN it popped. -/
theorem undo_terminates (E : StorageEngine σ) (log : List LogRecord)
    (hdec : ∀ r ∈ log, (r.prevLSN = NULL_LSN ∨ r.prevLSN < r.lsn) ∧
      (getUndoNextLSN r = NULL_LSN ∨ getUndoNextLSN r < r.lsn))
    (m : LogMgr σ) (txnum : Int) :
    (∃ m2, ∀ fuel, budget log (seedToUndo m txnum) ≤ fuel →
      undo E fuel m log txnum = .ok m2) ∧
    (∀ (m1 : LogMgr σ) (q : List Int) (fuel : Nat), budget log q ≤ fuel →
      ∃ m2, undoLoop E log fuel m1 q = .ok m2) ∧
    ∀ (m1 : LogMgr σ) (q : List Int) (lsn : Int) (r : LogRecord),
      log.find? (fun x => decide (x.lsn = lsn)) = some r →
      (undoRecord E m1 r q).2.2 = q ∨
        ∃ x, x < lsn ∧ (undoRecord E m1 r q).2.2 = pqPush q x := by
  refine ⟨?_, fun m1 q fuel hb => undoLoop_returns E log hdec fuel m1 q hb, ?_⟩
  · obtain ⟨m2, h2⟩ := undoLoop_returns E log hdec (budget log (seedToUndo m txnum)) m
      (seedToUndo m txnum) (le_refl _)
    refine ⟨m2, ?_⟩
    intro fuel hf
    obtain ⟨extra, he⟩ := Nat.exists_eq_add_of_le hf
    rw [he]
    exact undoLoop_mono E log _ m _ m2 extra h2
  · intro m1 q lsn r hf
    have hmem : r ∈ log := List.mem_of_find?_eq_some hf
    have hL : r.lsn = lsn := by simpa using List.find?_some hf
    rw [← hL]
    exact undoRecord_pushes E m1 r q (hdec r hmem).1 (hdec r hmem).2

/-- Witness of C32: two UPDATEs of transaction 1 chained by `prevLSN`; crash-recovery Undo
from the table `{1 -> (2, U)}` returns within the budget of the seeded queue. -/
theorem undo_terminates_witness :
    (∀ r ∈ [UpdateLogRecord 1 NULL_LSN 1 7 0 "old" "new", UpdateLogRecord 2 1 1 7 0 "new" "x"],
      (r.prevLSN = NULL_LSN ∨ r.prevLSN < r.lsn) ∧
        (getUndoNextLSN r = NULL_LSN ∨ getUndoNextLSN r < r.lsn)) ∧
    ∃ m2 : LogMgr Stub, ∀ fuel,
      budget [UpdateLogRecord 1 NULL_LSN 1 7 0 "old" "new", UpdateLogRecord 2 1 1 7 0 "new" "x"]
        (seedToUndo (⟨[(1, ⟨2, TxStatus.U⟩)], [], [], stubInit, []⟩ : LogMgr Stub) NULL_TX) ≤
          fuel →
      undo stubEngine fuel ⟨[(1, ⟨2, TxStatus.U⟩)], [], [], stubInit, []⟩
        [UpdateLogRecord 1 NULL_LSN 1 7 0 "old" "new", UpdateLogRecord 2 1 1 7 0 "new" "x"]
        NULL_TX = .ok m2 :=
  ⟨by decide, (undo_terminates stubEngine
    [UpdateLogRecord 1 NULL_LSN 1 7 0 "old" "new", UpdateLogRecord 2 1 1 7 0 "new" "x"]
    (by decide) ⟨[(1, ⟨2, TxStatus.U⟩)], [], [], stubInit, []⟩ NULL_TX).1⟩

/-! ### `abort` is confined to its transaction -/

theorem compensate_tx_frame (E : StorageEngine σ) (m : LogMgr σ) (r : LogRecord) (p o : Int)
    (b : String) (T2 : Int) (h : T2 ≠ r.txID) :
    mapFind (compensate E m r p o b).2.tx_table T2 = mapFind m.tx_table T2 := by
  by_cases ht : r.txID = NULL_TX
  · simp [compensate, ht, setLastLSN_null, setStatusGuarded_null]
  · rw [compensate_tx_table E m r p o b ht, if_neg h]

theorem undoRecord_confined (E : StorageEngine σ) (m : LogMgr σ) (r : LogRecord)
    (q : List Int) :
    ∃ new cs, (undoRecord E m r q).2.1.logtail = m.logtail ++ new ∧
      (∀ x ∈ new, x.txID = r.txID) ∧
      (undoRecord E m r q).2.1.calls = m.calls ++ cs ∧
      (∀ p o t l ok, Call.pageWrite p o t l ok ∈ cs → ∃ a, r.body = .update p o t a) ∧
      (∀ T2, T2 ≠ r.txID →
        mapFind (undoRecord E m r q).2.1.tx_table T2 = mapFind m.tx_table T2) ∧
      ∀ x ∈ (undoRecord E m r q).2.2, x ∈ q ∨ x = followLSN r := by
  obtain ⟨l, pv, t, body⟩ := r
  cases body with
  | update pg off bi ai =>
    have hcalls : ∀ p o t2 l2 ok, Call.pageWrite p o t2 l2 ok ∈
        [Call.nextLSN (E.nextLSN m.se).1,
          Call.pageWrite pg off bi (E.nextLSN m.se).1
            (E.pageWrite pg off bi (E.nextLSN m.se).1 (E.nextLSN m.se).2).1] →
        ∃ a, RecordBody.update pg off bi ai = .update p o t2 a := by
      intro p o t2 l2 ok hmem
      rcases List.mem_cons.mp hmem with h | h
      · exact Call.noConfusion h
      · have h3 := List.mem_singleton.mp h
        injection h3 with e1 e2 e3
        exact ⟨ai, by rw [e1, e2, e3]⟩
    simp only [undoRecord]
    split_ifs with h1 h2
    · exact ⟨[_], _, compensate_logtail E m _ pg off bi, by simp [CompensationLogRecord],
        compensate_calls E m _ pg off bi, hcalls,
        fun T2 hT2 => compensate_tx_frame E m _ pg off bi T2 hT2, fun x hx => Or.inl hx⟩
    · refine ⟨[_], _, compensate_logtail E m _ pg off bi, by simp [CompensationLogRecord],
        compensate_calls E m _ pg off bi, hcalls,
        fun T2 hT2 => compensate_tx_frame E m _ pg off bi T2 hT2, ?_⟩
      intro x hx
      rcases (mem_pqPush _ _ _).mp hx with h | h
      · exact Or.inr h
      · exact Or.inl h
    · refine ⟨[CompensationLogRecord (E.nextLSN m.se).1 (getLastLSN m t) t pg off bi pv,
          ⟨(E.nextLSN (compensate E m ⟨l, pv, t, .update pg off bi ai⟩ pg off bi).2.se).1,
            (E.nextLSN m.se).1, t, .endTx⟩],
        [Call.nextLSN (E.nextLSN m.se).1,
          Call.pageWrite pg off bi (E.nextLSN m.se).1
            (E.pageWrite pg off bi (E.nextLSN m.se).1 (E.nextLSN m.se).2).1,
          Call.nextLSN
            (E.nextLSN (compensate E m ⟨l, pv, t, .update pg off bi ai⟩ pg off bi).2.se).1],
        ?_, by simp [CompensationLogRecord], ?_, ?_, ?_, fun x hx => Or.inl hx⟩
      · rw [appendEnd_logtail, compensate_logtail, List.append_assoc]
        rfl
      · rw [appendEnd_calls, compensate_calls, List.append_assoc]
        rfl
      · intro p o t2 l2 ok hmem
        apply hcalls p o t2 l2 ok
        rcases List.mem_cons.mp hmem with h | h
        · exact Call.noConfusion h
        · rcases List.mem_cons.mp h with h | h
          · rw [h]
            exact List.mem_cons_of_mem _ (List.mem_singleton.mpr rfl)
          · exact Call.noConfusion (List.mem_singleton.mp h)
      · intro T2 hT2
        rw [appendEnd_tx_table, mapFind_mapErase, if_neg hT2]
        exact compensate_tx_frame E m _ pg off bi T2 hT2
  | clr pg off ai un =>
    simp only [undoRecord]
    split_ifs with h1
    · refine ⟨[], [], by simp, by simp, by simp, by simp, fun _ _ => rfl, ?_⟩
      intro x hx
      rcases (mem_pqPush _ _ _).mp hx with h | h
      · exact Or.inr h
      · exact Or.inl h
    · refine ⟨[_], [_], appendEnd_logtail E m _ _, by simp, appendEnd_calls E m _ _, by simp,
        ?_, fun x hx => Or.inl hx⟩
      intro T2 hT2
      rw [appendEnd_tx_table, mapFind_mapErase, if_neg hT2]
  | abort =>
    simp only [undoRecord]
    split_ifs with h1
    · refine ⟨[], [], by simp, by simp, by simp, by simp, fun _ _ => rfl, ?_⟩
      intro x hx
      rcases (mem_pqPush _ _ _).mp hx with h | h
      · exact Or.inr h
      · exact Or.inl h
    · refine ⟨[_], [_], appendEnd_logtail E m _ _, by simp, appendEnd_calls E m _ _, by simp,
        ?_, fun x hx => Or.inl hx⟩
      intro T2 hT2
      rw [appendEnd_tx_table, mapFind_mapErase, if_neg hT2]
  | commit =>
    exact ⟨[], [], by simp [undoRecord], by simp, by simp [undoRecord], by simp,
      fun _ _ => rfl, fun x hx => Or.inl hx⟩
  | endTx =>
    exact ⟨[], [], by simp [undoRecord], by simp, by simp [undoRecord], by simp,
      fun _ _ => rfl, fun x hx => Or.inl hx⟩
  | beginCkpt =>
    exact ⟨[], [], by simp [undoRecord], by simp, by simp [undoRecord], by simp,
      fun _ _ => rfl, fun x hx => Or.inl hx⟩
  | endCkpt a b =>
    exact ⟨[], [], by simp [undoRecord], by simp, by simp [undoRecord], by simp,
      fun _ _ => rfl, fun x hx => Or.inl hx⟩

theorem undoLoop_confined (E : StorageEngine σ) (T : Int) (log : List LogRecord)
    (hconf : ∀ r ∈ log, r.txID = T → ∀ r2 ∈ log, r2.lsn = followLSN r → r2.txID = T)
    (fuel : Nat) :
    ∀ (m : LogMgr σ) (q : List Int) (m2 : LogMgr σ),
      (∀ L ∈ q, ∀ r ∈ log, r.lsn = L → r.txID = T) →
      undoLoop E log fuel m q = .ok m2 →
      ∃ new cs, m2.logtail = m.logtail ++ new ∧ (∀ x ∈ new, x.txID = T) ∧
        m2.calls = m.calls ++ cs ∧
        (∀ p o t l ok, Call.pageWrite p o t l ok ∈ cs →
          ∃ u ∈ log, u.txID = T ∧ ∃ a, u.body = .update p o t a) ∧
        ∀ T2, T2 ≠ T → mapFind m2.tx_table T2 = mapFind m.tx_table T2 := by
  induction fuel with
  | zero =>
    intro m q m2 _ hr
    cases q with
    | nil =>
      simp only [undoLoop, Except.ok.injEq] at hr
      subst hr
      exact ⟨[], [], by simp, by simp, by simp, by simp, fun _ _ => rfl⟩
    | cons a q => simp [undoLoop] at hr
  | succ n ih =>
    intro m q m2 hq hr
    cases q with
    | nil =>
      simp only [undoLoop, Except.ok.injEq] at hr
      subst hr
      exact ⟨[], [], by simp, by simp, by simp, by simp, fun _ _ => rfl⟩
    | cons L rest =>
      have hrest : ∀ L2 ∈ rest, ∀ r ∈ log, r.lsn = L2 → r.txID = T :=
        fun L2 hL2 => hq L2 (List.mem_cons_of_mem _ hL2)
      cases hf : log.find? (fun x => decide (x.lsn = L)) with
      | none =>
        rw [undoLoop_missing E n m rest hf] at hr
        exact ih m rest m2 hrest hr
      | some r =>
        rw [undoLoop_found E n m rest hf] at hr
        have hmem : r ∈ log := List.mem_of_find?_eq_some hf
        have hL : r.lsn = L := by simpa using List.find?_some hf
        have hrT : r.txID = T := hq L (List.mem_cons_self _ _) r hmem hL
        obtain ⟨new1, cs1, g1, g2, g3, g4, g5, g6⟩ := undoRecord_confined E m r rest
        rw [hrT] at g2 g5
        have hw1 : ∀ p o t l ok, Call.pageWrite p o t l ok ∈ cs1 →
            ∃ u ∈ log, u.txID = T ∧ ∃ a, u.body = .update p o t a := by
          intro p o t l ok hc
          exact ⟨r, hmem, hrT, g4 p o t l ok hc⟩
        by_cases hb : (undoRecord E m r rest).1 = true
        · rw [if_pos hb] at hr
          have hq2 : ∀ L2 ∈ (undoRecord E m r rest).2.2, ∀ r2 ∈ log, r2.lsn = L2 →
              r2.txID = T := by
            intro L2 hL2 r2 hr2 hl
            rcases g6 L2 hL2 with h | h
            · exact hrest L2 h r2 hr2 hl
            · exact hconf r hmem hrT r2 hr2 (by rw [hl, h])
          obtain ⟨new, cs, h1, h2, h3, h4, h5⟩ := ih _ _ m2 hq2 hr
          refine ⟨new1 ++ new, cs1 ++ cs, by rw [h1, g1, List.append_assoc], ?_,
            by rw [h3, g3, List.append_assoc], ?_, ?_⟩
          · intro x hx
            rcases List.mem_append.mp hx with h | h
            · exact g2 x h
            · exact h2 x h
          · intro p o t l ok hc
            rcases List.mem_append.mp hc with h | h
            · exact hw1 p o t l ok h
            · exact h4 p o t l ok h
          · intro T2 hT2
            rw [h5 T2 hT2, g5 T2 hT2]
        · rw [if_neg hb] at hr
          simp only [Except.ok.injEq] at hr
          subst hr
          exact ⟨new1, cs1, g1, g2, g3, hw1, g5⟩

/-- C39 as stated fails for `T = NULL_TX`: `abort(NULL_TX)` seeds `ToUndo` from the whole
transaction table. Transaction 1 has written page 7; `abort(NULL_TX)` on the stub engine
appends a CLR and an END of transaction 1, writes the before-image of its UPDATE to page 7
and removes transaction 1 from the transaction table. -/
theorem abort_confined_null_tx_counterexample :
    mapFind (write stubEngine (freshMgr stubInit) 1 7 0 "new" "old").2.tx_table 1 =
      some ⟨1, TxStatus.U⟩ ∧
    ∃ m2 : LogMgr Stub,
      abort stubEngine 5 (write stubEngine (freshMgr stubInit) 1 7 0 "new" "old").2 NULL_TX =
        .ok m2 ∧
      m2.logtail = [UpdateLogRecord 1 NULL_LSN 1 7 0 "old" "new", ⟨2, NULL_LSN, NULL_TX, .abort⟩,
        CompensationLogRecord 3 1 1 7 0 "old" NULL_LSN, ⟨4, 3, 1, .endTx⟩] ∧
      pageWrites m2.calls = [Call.pageWrite 7 0 "old" 3 true] ∧
      mapFind m2.tx_table 1 = none :=
  ⟨by decide, _, rfl, by decide, by decide, by decide⟩

/-- C39, amended: let `T != NULL_TX`, let the log that `abort(T)` reads (the durable log
followed by the tail) be such that the LSN which Undo follows from a record of `T` (the
`undoNextLSN` of a CLR, the `prevLSN` of another record) is the LSN of records of `T` only,
and so is `lastLSN(T)`, and let the LSN allocated for the ABORT record be new to that log.
Then every `abort(T)` that returns has appended only records with `txID = T`, has issued
`pageWrite` only with page, offset and before-image of an UPDATE record of `T` in that log,
and has left the transaction table entry (`lastLSN` and status) of every transaction other
than `T` unchanged; and it does return when moreover every `prevLSN` and `undoNextLSN` of
the log, and `lastLSN(T)`, is `NULL_LSN` or smaller than the LSN of the record that carries
it. -/
theorem abort_confined {E : StorageEngine σ} (m : LogMgr σ) (T : Int) (hT : T ≠ NULL_TX)
    (hconf : ∀ r ∈ E.getLog (E.nextLSN m.se).2 ++ m.logtail, r.txID = T →
      ∀ r2 ∈ E.getLog (E.nextLSN m.se).2 ++ m.logtail, r2.lsn = followLSN r → r2.txID = T)
    (hhead : ∀ r2 ∈ E.getLog (E.nextLSN m.se).2 ++ m.logtail,
      r2.lsn = getLastLSN m T → r2.txID = T)
    (hfresh : ∀ r ∈ E.getLog (E.nextLSN m.se).2 ++ m.logtail, r.lsn ≠ (E.nextLSN m.se).1) :
    (∀ fuel m2, abort E fuel m T = .ok m2 →
      ∃ new cs, m2.logtail = m.logtail ++ new ∧ (∀ x ∈ new, x.txID = T) ∧
        m2.calls = m.calls ++ cs ∧
        (∀ p o t l ok, Call.pageWrite p o t l ok ∈ cs →
          ∃ u ∈ E.getLog (E.nextLSN m.se).2 ++ m.logtail,
            u.txID = T ∧ ∃ a, u.body = .update p o t a) ∧
        ∀ T2, T2 ≠ T → mapFind m2.tx_table T2 = mapFind m.tx_table T2) ∧
    ((∀ r ∈ E.getLog (E.nextLSN m.se).2 ++ m.logtail,
        (r.prevLSN = NULL_LSN ∨ r.prevLSN < r.lsn) ∧
          (getUndoNextLSN r = NULL_LSN ∨ getUndoNextLSN r < r.lsn)) →
      (getLastLSN m T = NULL_LSN ∨ getLastLSN m T < (E.nextLSN m.se).1) →
      ∃ fuel m2, abort E fuel m T = .ok m2) := by
  have hse : (setStatusGuarded (setLastLSN (pushTail (callNextLSN E m).2
      ⟨(E.nextLSN m.se).1, getLastLSN m T, T, .abort⟩) T (E.nextLSN m.se).1) T
        TxStatus.U).se = (E.nextLSN m.se).2 := by simp
  have hab : ∀ fuel, abort E fuel m T =
      undoLoop E (E.getLog (E.nextLSN m.se).2 ++
          (m.logtail ++ [⟨(E.nextLSN m.se).1, getLastLSN m T, T, .abort⟩])) fuel
        (callGetLog E (setStatusGuarded (setLastLSN (pushTail (callNextLSN E m).2
          ⟨(E.nextLSN m.se).1, getLastLSN m T, T, .abort⟩) T (E.nextLSN m.se).1) T
            TxStatus.U)).2
        (seedToUndo (callGetLog E (setStatusGuarded (setLastLSN (pushTail (callNextLSN E m).2
          ⟨(E.nextLSN m.se).1, getLastLSN m T, T, .abort⟩) T (E.nextLSN m.se).1) T
            TxStatus.U)).2 T) := by
    intro fuel
    unfold abort undo
    simp only [callGetLog_fst, callNextLSN_fst, hse, callGetLog_logtail,
      setStatusGuarded_logtail, setLastLSN_logtail, pushTail_logtail, callNextLSN_logtail]
  have htt : (callGetLog E (setStatusGuarded (setLastLSN (pushTail (callNextLSN E m).2
      ⟨(E.nextLSN m.se).1, getLastLSN m T, T, .abort⟩) T (E.nextLSN m.se).1) T
        TxStatus.U)).2.tx_table = mapSet m.tx_table T ⟨(E.nextLSN m.se).1, TxStatus.U⟩ :=
    setLast_setStatus_tx_table (pushTail (callNextLSN E m).2
      ⟨(E.nextLSN m.se).1, getLastLSN m T, T, .abort⟩) T (E.nextLSN m.se).1 TxStatus.U hT
  have hseed : seedToUndo (callGetLog E (setStatusGuarded (setLastLSN
      (pushTail (callNextLSN E m).2 ⟨(E.nextLSN m.se).1, getLastLSN m T, T, .abort⟩) T
        (E.nextLSN m.se).1) T TxStatus.U)).2 T = [(E.nextLSN m.se).1] := by
    unfold seedToUndo
    rw [if_neg hT, htt, mapFind_mapSet, if_pos rfl]
  have hmemlog : ∀ r, r ∈ E.getLog (E.nextLSN m.se).2 ++
      (m.logtail ++ [⟨(E.nextLSN m.se).1, getLastLSN m T, T, .abort⟩]) ↔
      r ∈ E.getLog (E.nextLSN m.se).2 ++ m.logtail ∨
        r = ⟨(E.nextLSN m.se).1, getLastLSN m T, T, .abort⟩ := by
    intro r
    simp only [List.mem_append, List.mem_singleton]
    tauto
  have hconf2 : ∀ r ∈ E.getLog (E.nextLSN m.se).2 ++
      (m.logtail ++ [⟨(E.nextLSN m.se).1, getLastLSN m T, T, .abort⟩]), r.txID = T →
      ∀ r2 ∈ E.getLog (E.nextLSN m.se).2 ++
        (m.logtail ++ [⟨(E.nextLSN m.se).1, getLastLSN m T, T, .abort⟩]),
        r2.lsn = followLSN r → r2.txID = T := by
    intro r hr hrT r2 hr2 hl
    rcases (hmemlog r2).mp hr2 with h2 | h2
    · rcases (hmemlog r).mp hr with h1 | h1
      · exact hconf r h1 hrT r2 h2 hl
      · rw [h1] at hl
        exact hhead r2 h2 hl
    · rw [h2]
  constructor
  · intro fuel m2 hr
    rw [hab, hseed] at hr
    have hq : ∀ L ∈ [(E.nextLSN m.se).1], ∀ r ∈ E.getLog (E.nextLSN m.se).2 ++
        (m.logtail ++ [⟨(E.nextLSN m.se).1, getLastLSN m T, T, .abort⟩]),
        r.lsn = L → r.txID = T := by
      intro L hL r hr2 hl
      rw [List.mem_singleton.mp hL] at hl
      rcases (hmemlog r).mp hr2 with h | h
      · exact absurd hl (hfresh r h)
      · rw [h]
    obtain ⟨new, cs, h1, h2, h3, h4, h5⟩ := undoLoop_confined E T _ hconf2 fuel _ _ m2 hq hr
    refine ⟨⟨(E.nextLSN m.se).1, getLastLSN m T, T, .abort⟩ :: new,
      [Call.nextLSN (E.nextLSN m.se).1, Call.getLog] ++ cs, ?_, ?_, ?_, ?_, ?_⟩
    · rw [h1]
      simp
    · intro x hx
      rcases List.mem_cons.mp hx with h | h
      · rw [h]
      · exact h2 x h
    · rw [h3]
      simp
    · intro p o t l ok hc
      have hc2 : Call.pageWrite p o t l ok ∈ cs := by
        rcases List.mem_append.mp hc with h | h
        · simp at h
        · exact h
      obtain ⟨u, hu, huT, a, hub⟩ := h4 p o t l ok hc2
      rcases (hmemlog u).mp hu with h | h
      · exact ⟨u, h, huT, a, hub⟩
      · rw [h] at hub
        simp at hub
    · intro T2 hT2
      rw [h5 T2 hT2, htt, mapFind_mapSet, if_neg hT2]
  · intro hdec hlast
    have hdec2 : ∀ r ∈ E.getLog (E.nextLSN m.se).2 ++
        (m.logtail ++ [⟨(E.nextLSN m.se).1, getLastLSN m T, T, .abort⟩]),
        (r.prevLSN = NULL_LSN ∨ r.prevLSN < r.lsn) ∧
          (getUndoNextLSN r = NULL_LSN ∨ getUndoNextLSN r < r.lsn) := by
      intro r hr
      rcases (hmemlog r).mp hr with h | h
      · exact hdec r h
      · rw [h]
        exact ⟨hlast, Or.inl rfl⟩
    obtain ⟨m2, h2⟩ := undoLoop_returns E _ hdec2
      (budget (E.getLog (E.nextLSN m.se).2 ++
        (m.logtail ++ [⟨(E.nextLSN m.se).1, getLastLSN m T, T, .abort⟩]))
        [(E.nextLSN m.se).1])
      (callGetLog E (setStatusGuarded (setLastLSN (pushTail (callNextLSN E m).2
        ⟨(E.nextLSN m.se).1, getLastLSN m T, T, .abort⟩) T (E.nextLSN m.se).1) T
          TxStatus.U)).2 [(E.nextLSN m.se).1] (le_refl _)
    exact ⟨_, m2, by rw [hab, hseed]; exact h2⟩

/-- Witness of C39: transactions 1 and 2 have each written a page; `abort(1)` on the stub
engine returns, has appended records of transaction 1 only and has left the entry of
transaction 2 as it was. -/
theorem abort_confined_witness :
    ∃ m2 : LogMgr Stub,
      abort stubEngine 5
        (write stubEngine (write stubEngine (freshMgr stubInit) 1 7 0 "new" "old").2
          2 9 0 "B" "A").2 1 = .ok m2 ∧
      (∃ new, m2.logtail =
        (write stubEngine (write stubEngine (freshMgr stubInit) 1 7 0 "new" "old").2
          2 9 0 "B" "A").2.logtail ++ new ∧ ∀ x ∈ new, x.txID = 1) ∧
      mapFind m2.tx_table 2 = some ⟨2, TxStatus.U⟩ := by
  refine ⟨_, rfl, ?_, ?_⟩
  · obtain ⟨new, cs, h1, h2, _, _, _⟩ := (abort_confined (E := stubEngine)
      (write stubEngine (write stubEngine (freshMgr stubInit) 1 7 0 "new" "old").2
        2 9 0 "B" "A").2 1 (by decide) (by decide) (by decide) (by decide)).1 5 _ rfl
    exact ⟨new, h1, h2⟩
  · obtain ⟨new, cs, _, _, _, _, h5⟩ := (abort_confined (E := stubEngine)
      (write stubEngine (write stubEngine (freshMgr stubInit) 1 7 0 "new" "old").2
        2 9 0 "B" "A").2 1 (by decide) (by decide) (by decide) (by decide)).1 5 _ rfl
    exact (h5 2 (by decide)).trans (by decide)

/-! ### Crash during a rollback -/

theorem filter_pqPush_of_false (p : Int → Bool) (q : List Int) (x : Int) (hx : p x = false) :
    (pqPush q x).filter p = q.filter p := by
  induction q with
  | nil => simp [pqPush, hx]
  | cons a q ih =>
    simp only [pqPush]
    split_ifs
    · simp [List.filter_cons, hx]
    · simp [List.filter_cons, ih]

theorem filter_pqPush_nil (p : Int → Bool) (q : List Int) (x : Int) (hq : q.filter p = [])
    (hx : p x = true) : (pqPush q x).filter p = [x] := by
  induction q with
  | nil => simp [pqPush, hx]
  | cons a q ih =>
    have ha : p a = false := by
      by_contra h
      simp only [Bool.not_eq_false] at h
      simp [List.filter_cons, h] at hq
    have hq2 : q.filter p = [] := by
      simpa [List.filter_cons, ha] using hq
    simp only [pqPush]
    split_ifs
    · simp [List.filter_cons, hx, ha, hq2]
    · simp [List.filter_cons, ha, ih hq2]

theorem pqPush_perm (q : List Int) (x : Int) : (pqPush q x).Perm (x :: q) := by
  induction q with
  | nil => simp [pqPush]
  | cons a q ih =>
    simp only [pqPush]
    split_ifs
    · exact List.Perm.refl _
    · exact (List.Perm.cons a ih).trans (List.Perm.swap x a q)

theorem seedToUndo_perm (m : LogMgr σ) :
    (seedToUndo m NULL_TX).Perm (m.tx_table.map (fun e => e.2.lastLSN)).reverse := by
  unfold seedToUndo
  rw [if_pos rfl]
  have key : ∀ (tt : List (Int × txTableEntry)) (acc : List Int),
      (tt.foldl (fun q e => pqPush q e.2.lastLSN) acc).Perm
        ((tt.map (fun e => e.2.lastLSN)).reverse ++ acc) := by
    intro tt
    induction tt with
    | nil => intro acc; simp
    | cons e tt ih =>
      intro acc
      simp only [List.foldl_cons, List.map_cons, List.reverse_cons, List.append_assoc,
        List.singleton_append]
      exact (ih _).trans (List.Perm.append_left _ (pqPush_perm acc e.2.lastLSN))
  simpa using key m.tx_table []

theorem findsTx_of_find {log : List LogRecord} {T L : Int} {r : LogRecord}
    (h : log.find? (fun x => decide (x.lsn = L)) = some r) :
    findsTx log T L = decide (r.txID = T) := by
  unfold findsTx
  rw [h]

theorem findsTx_follow {log : List LogRecord} {T : Int}
    (hconf : ∀ r ∈ log, ∀ r2 ∈ log, r2.lsn = followLSN r → r2.txID = r.txID)
    {r : LogRecord} (hr : r ∈ log) (hT : r.txID ≠ T) : findsTx log T (followLSN r) = false := by
  unfold findsTx
  cases hf : log.find? (fun x => decide (x.lsn = followLSN r)) with
  | none => rfl
  | some r2 =>
    have h2 : r2 ∈ log := List.mem_of_find?_eq_some hf
    have hl : r2.lsn = followLSN r := by simpa using List.find?_some hf
    simp only [decide_eq_false_iff_not]
    rw [hconf r hr r2 h2 hl]
    exact hT

theorem undoLoop_foreign (E : StorageEngine σ) (T : Int) (log : List LogRecord)
    (hconf : ∀ r ∈ log, ∀ r2 ∈ log, r2.lsn = followLSN r → r2.txID = r.txID) (fuel : Nat) :
    ∀ (m : LogMgr σ) (q : List Int) (m2 : LogMgr σ), q.filter (findsTx log T) = [] →
      undoLoop E log fuel m q = .ok m2 →
      ∃ new, m2.logtail = m.logtail ++ new ∧
        new.filter (fun x => decide (x.txID = T)) = [] ∧
        (undoPopped E log fuel m q).filter (fun x => decide (x.txID = T)) = [] := by
  induction fuel with
  | zero =>
    intro m q m2 _ hr
    cases q with
    | nil =>
      simp only [undoLoop, Except.ok.injEq] at hr
      subst hr
      exact ⟨[], by simp, by simp, by simp [undoPopped]⟩
    | cons a q => simp [undoLoop] at hr
  | succ n ih =>
    intro m q m2 hq hr
    cases q with
    | nil =>
      simp only [undoLoop, Except.ok.injEq] at hr
      subst hr
      exact ⟨[], by simp, by simp, by simp [undoPopped]⟩
    | cons L rest =>
      have hL : findsTx log T L = false := by
        by_contra h
        simp only [Bool.not_eq_false] at h
        simp [List.filter_cons, h] at hq
      have hrest : rest.filter (findsTx log T) = [] := by
        simpa [List.filter_cons, hL] using hq
      cases hf : log.find? (fun x => decide (x.lsn = L)) with
      | none =>
        rw [undoLoop_missing E n m rest hf] at hr
        obtain ⟨new, h1, h2, h3⟩ := ih m rest m2 hrest hr
        exact ⟨new, h1, h2, by simp only [undoPopped, hf]; exact h3⟩
      | some r =>
        rw [undoLoop_found E n m rest hf] at hr
        have hmem : r ∈ log := List.mem_of_find?_eq_some hf
        have hrT : r.txID ≠ T := by
          rw [findsTx_of_find hf] at hL
          simpa using hL
        obtain ⟨new1, cs1, g1, g2, _, _, _, g6⟩ := undoRecord_confined E m r rest
        have hn1 : new1.filter (fun x => decide (x.txID = T)) = [] := by
          rw [List.filter_eq_nil_iff]
          intro x hx
          simp only [decide_eq_true_eq]
          rw [g2 x hx]
          exact hrT
        have hpop : decide (r.txID = T) = false := by simpa using hrT
        by_cases hb : (undoRecord E m r rest).1 = true
        · rw [if_pos hb] at hr
          have hq2 : (undoRecord E m r rest).2.2.filter (findsTx log T) = [] := by
            rw [List.filter_eq_nil_iff]
            intro x hx
            rcases g6 x hx with h | h
            · exact (List.filter_eq_nil_iff.mp hrest) x h
            · rw [h, findsTx_follow hconf hmem hrT]
              simp
          obtain ⟨new, h1, h2, h3⟩ := ih _ _ m2 hq2 hr
          refine ⟨new1 ++ new, by rw [h1, g1, List.append_assoc], ?_, ?_⟩
          · rw [List.filter_append, hn1, h2]
            rfl
          · simp only [undoPopped, hf, if_pos hb, List.filter_cons, hpop]
            simpa using h3
        · rw [if_neg hb] at hr
          simp only [Except.ok.injEq] at hr
          subst hr
          refine ⟨new1, g1, hn1, ?_⟩
          simp only [undoPopped, hf, if_neg hb, List.filter_cons, hpop]
          simp

theorem undoRecord_path {E : StorageEngine σ}
    (hw : ∀ p o t l s, (E.pageWrite p o t l s).1 = true)
    (m : LogMgr σ) (r : LogRecord) (q : List Int) (hU : Undoable r) :
    (undoRecord E m r q).1 = true ∧
    ∃ clr1 ends, (undoRecord E m r q).2.1.logtail = m.logtail ++ clr1 ++ ends ∧
      List.Forall₂ IsCLROf ([r].filter (fun x => decide (x.getType = TxType.UPDATE))) clr1 ∧
      (followLSN r ≠ NULL_LSN → ends = [] ∧ (undoRecord E m r q).2.2 = pqPush q (followLSN r)) ∧
      (followLSN r = NULL_LSN →
        (∃ e1 e2, ends = [⟨e1, e2, r.txID, .endTx⟩]) ∧ (undoRecord E m r q).2.2 = q) := by
  obtain ⟨l, pv, t, body⟩ := r
  cases body with
  | update pg off bi ai =>
    have hok : ¬ ((compensate E m ⟨l, pv, t, .update pg off bi ai⟩ pg off bi).1 = false) := by
      rw [compensate_fst, hw]; decide
    have hclr : List.Forall₂ IsCLROf
        ([(⟨l, pv, t, .update pg off bi ai⟩ : LogRecord)].filter
          (fun x => decide (x.getType = TxType.UPDATE)))
        [CompensationLogRecord (E.nextLSN m.se).1 (getLastLSN m t) t pg off bi pv] := by
      have : [(⟨l, pv, t, .update pg off bi ai⟩ : LogRecord)].filter
          (fun x => decide (x.getType = TxType.UPDATE)) =
          [⟨l, pv, t, .update pg off bi ai⟩] := by
        simp [LogRecord.getType]
      rw [this]
      exact List.Forall₂.cons ⟨pg, off, bi, ai, rfl, rfl, rfl⟩ List.Forall₂.nil
    simp only [undoRecord]
    rw [if_neg hok]
    by_cases hp : pv ≠ NULL_LSN
    · rw [if_pos hp]
      refine ⟨rfl, _, [], ?_, hclr, fun _ => ⟨rfl, rfl⟩, fun h => absurd h hp⟩
      rw [List.append_nil]
      exact compensate_logtail E m _ pg off bi
    · rw [if_neg hp]
      refine ⟨rfl, _, [⟨(E.nextLSN (compensate E m ⟨l, pv, t, .update pg off bi ai⟩ pg off
        bi).2.se).1, (E.nextLSN m.se).1, t, .endTx⟩], ?_, hclr, fun h => absurd h hp,
        fun _ => ⟨⟨_, _, rfl⟩, rfl⟩⟩
      rw [appendEnd_logtail, compensate_logtail]
  | clr pg off ai un =>
    simp only [undoRecord]
    by_cases hp : un ≠ NULL_LSN
    · rw [if_pos hp]
      exact ⟨rfl, [], [], by simp, by simp [LogRecord.getType], fun _ => ⟨rfl, rfl⟩,
        fun h => absurd h hp⟩
    · rw [if_neg hp]
      refine ⟨rfl, [], [⟨(E.nextLSN m.se).1, l, t, .endTx⟩], ?_, by simp [LogRecord.getType],
        fun h => absurd h hp, fun _ => ⟨⟨_, _, rfl⟩, rfl⟩⟩
      rw [appendEnd_logtail]
      simp
  | abort =>
    simp only [undoRecord]
    by_cases hp : pv ≠ NULL_LSN
    · rw [if_pos hp]
      exact ⟨rfl, [], [], by simp, by simp [LogRecord.getType], fun _ => ⟨rfl, rfl⟩,
        fun h => absurd h hp⟩
    · rw [if_neg hp]
      refine ⟨rfl, [], [⟨(E.nextLSN m.se).1, getLastLSN m t, t, .endTx⟩], ?_,
        by simp [LogRecord.getType], fun h => absurd h hp, fun _ => ⟨⟨_, _, rfl⟩, rfl⟩⟩
      rw [appendEnd_logtail]
      simp
  | commit => rcases hU with h | h | h <;> simp [LogRecord.getType] at h
  | endTx => rcases hU with h | h | h <;> simp [LogRecord.getType] at h
  | beginCkpt => rcases hU with h | h | h <;> simp [LogRecord.getType] at h
  | endCkpt a b => rcases hU with h | h | h <;> simp [LogRecord.getType] at h

theorem undoRecord_ok {E : StorageEngine σ}
    (hw : ∀ p o t l s, (E.pageWrite p o t l s).1 = true)
    (m : LogMgr σ) (r : LogRecord) (q : List Int) : (undoRecord E m r q).1 = true := by
  obtain ⟨l, pv, t, body⟩ := r
  cases body with
  | update pg off bi ai =>
    have hok : ¬ ((compensate E m ⟨l, pv, t, .update pg off bi ai⟩ pg off bi).1 = false) := by
      rw [compensate_fst, hw]; decide
    simp only [undoRecord]
    rw [if_neg hok]
    split_ifs <;> rfl
  | clr pg off ai un => simp only [undoRecord]; split_ifs <;> rfl
  | abort => simp only [undoRecord]; split_ifs <;> rfl
  | commit => rfl
  | endTx => rfl
  | beginCkpt => rfl
  | endCkpt a b => rfl

theorem undoRecord_queue_form (E : StorageEngine σ) (m : LogMgr σ) (r : LogRecord)
    (q : List Int) :
    (undoRecord E m r q).2.2 = q ∨ (undoRecord E m r q).2.2 = pqPush q (followLSN r) := by
  obtain ⟨l, pv, t, body⟩ := r
  cases body with
  | update pg off bi ai =>
    simp only [undoRecord]
    split_ifs
    · exact Or.inl rfl
    · exact Or.inr rfl
    · exact Or.inl rfl
  | clr pg off ai un =>
    simp only [undoRecord]
    split_ifs
    · exact Or.inr rfl
    · exact Or.inl rfl
  | abort =>
    simp only [undoRecord]
    split_ifs
    · exact Or.inr rfl
    · exact Or.inl rfl
  | commit => exact Or.inl rfl
  | endTx => exact Or.inl rfl
  | beginCkpt => exact Or.inl rfl
  | endCkpt a b => exact Or.inl rfl

theorem clrs_filter_tx {T : Int} :
    ∀ {us cs : List LogRecord}, List.Forall₂ IsCLROf us cs → (∀ u ∈ us, u.txID = T) →
      cs.filter (fun x => decide (x.txID = T)) = cs := by
  intro us cs h
  induction h with
  | nil => intro _; rfl
  | @cons u c us2 cs2 hc _ ih =>
    intro hu
    obtain ⟨_, _, _, _, _, hct, _⟩ := hc
    have h1 : c.txID = T := by rw [hct]; exact hu u (List.mem_cons_self _ _)
    simp [List.filter_cons, h1, ih (fun v hv => hu v (List.mem_cons_of_mem _ hv))]

theorem undoLoop_path {E : StorageEngine σ}
    (hw : ∀ p o t l s, (E.pageWrite p o t l s).1 = true) (T : Int) (log : List LogRecord)
    (hconf : ∀ r ∈ log, ∀ r2 ∈ log, r2.lsn = followLSN r → r2.txID = r.txID) (fuel : Nat) :
    ∀ (r : LogRecord) (rest : List LogRecord) (m : LogMgr σ) (q : List Int) (m2 : LogMgr σ),
      UndoPath T log (r :: rest) → q.filter (findsTx log T) = [r.lsn] →
      undoLoop E log fuel m q = .ok m2 →
      ∃ new clrs e1 e2, m2.logtail = m.logtail ++ new ∧
        new.filter (fun x => decide (x.txID = T)) = clrs ++ [⟨e1, e2, T, .endTx⟩] ∧
        List.Forall₂ IsCLROf
          ((r :: rest).filter (fun x => decide (x.getType = TxType.UPDATE))) clrs ∧
        (undoPopped E log fuel m q).filter (fun x => decide (x.txID = T)) = r :: rest := by
  induction fuel with
  | zero =>
    intro r rest m q m2 _ hq hr
    cases q with
    | nil => simp at hq
    | cons a q => simp [undoLoop] at hr
  | succ n ih =>
    intro r rest m q m2 hpath hq hr
    cases q with
    | nil => simp at hq
    | cons L t =>
      by_cases hL : findsTx log T L = true
      · -- the record of the path is popped
        have hq2 : L = r.lsn ∧ t.filter (findsTx log T) = [] := by
          simpa [List.filter_cons, hL] using hq
        obtain ⟨hLr, ht⟩ := hq2
        subst hLr
        have hr0 : r.txID = T ∧ Undoable r ∧
            log.find? (fun x => decide (x.lsn = r.lsn)) = some r := by
          cases rest with
          | nil => exact hpath.1
          | cons s rest2 => exact hpath.1
        obtain ⟨hrT, hU, hf⟩ := hr0
        rw [undoLoop_found E n m t hf] at hr
        obtain ⟨hok, clr1, ends, g1, g2, g3, g4⟩ := undoRecord_path hw m r t hU
        rw [if_pos hok] at hr
        have hpopT : decide (r.txID = T) = true := by simpa using hrT
        have hc1 : clr1.filter (fun x => decide (x.txID = T)) = clr1 :=
          clrs_filter_tx g2 (by
            intro u hu
            have := (List.mem_filter.mp hu).1
            rw [List.mem_singleton.mp this]
            exact hrT)
        cases rest with
        | nil =>
          have hnull : followLSN r = NULL_LSN := hpath.2
          obtain ⟨⟨e1, e2, he⟩, hq3⟩ := g4 hnull
          rw [hq3] at hr
          obtain ⟨new, h1, h2, h3⟩ := undoLoop_foreign E T log hconf n _ _ m2 ht hr
          refine ⟨clr1 ++ ends ++ new, clr1, e1, e2, ?_, ?_, g2, ?_⟩
          · rw [h1, g1]
            simp only [List.append_assoc]
          · rw [List.filter_append, List.filter_append, hc1, h2, he, hrT]
            simp
          · simp only [undoPopped, hf, if_pos hok, List.filter_cons, hpopT, if_true]
            rw [hq3, h3]
        | cons s rest2 =>
          obtain ⟨_, hfol, hsn, hpath2⟩ := hpath
          have hne : followLSN r ≠ NULL_LSN := by rw [hfol]; exact hsn
          obtain ⟨he, hq3⟩ := g3 hne
          have hs0 : s.txID = T ∧ Undoable s ∧
              log.find? (fun x => decide (x.lsn = s.lsn)) = some s := by
            cases rest2 with
            | nil => exact hpath2.1
            | cons s2 rest3 => exact hpath2.1
          have hsT : findsTx log T s.lsn = true := by
            rw [findsTx_of_find hs0.2.2]
            simpa using hs0.1
          have hq4 : (undoRecord E m r t).2.2.filter (findsTx log T) = [s.lsn] := by
            rw [hq3, hfol]
            exact filter_pqPush_nil _ t s.lsn ht hsT
          obtain ⟨new, clrs, e1, e2, h1, h2, h3, h4⟩ := ih s rest2 _ _ m2 hpath2 hq4 hr
          refine ⟨clr1 ++ new, clr1 ++ clrs, e1, e2, ?_, ?_, ?_, ?_⟩
          · rw [h1, g1, he, List.append_nil, List.append_assoc]
          · rw [List.filter_append, hc1, h2, List.append_assoc]
          · have hsplit : (r :: s :: rest2).filter
                (fun x => decide (x.getType = TxType.UPDATE)) =
                [r].filter (fun x => decide (x.getType = TxType.UPDATE)) ++
                  (s :: rest2).filter (fun x => decide (x.getType = TxType.UPDATE)) := by
              rw [← List.filter_append]
              rfl
            rw [hsplit]
            exact List.rel_append g2 h3
          · simp only [undoPopped, hf, if_pos hok, List.filter_cons, hpopT, if_true]
            rw [h4]
      · -- a record of another transaction, or no record, is popped
        simp only [Bool.not_eq_true] at hL
        have ht : t.filter (findsTx log T) = [r.lsn] := by
          simpa [List.filter_cons, hL] using hq
        cases hf : log.find? (fun x => decide (x.lsn = L)) with
        | none =>
          rw [undoLoop_missing E n m t hf] at hr
          obtain ⟨new, clrs, e1, e2, h1, h2, h3, h4⟩ := ih r rest m t m2 hpath ht hr
          exact ⟨new, clrs, e1, e2, h1, h2, h3, by simp only [undoPopped, hf]; exact h4⟩
        | some r0 =>
          rw [undoLoop_found E n m t hf] at hr
          have hmem : r0 ∈ log := List.mem_of_find?_eq_some hf
          have hrT : r0.txID ≠ T := by
            rw [findsTx_of_find hf] at hL
            simpa using hL
          have hok := undoRecord_ok hw m r0 t
          rw [if_pos hok] at hr
          obtain ⟨new1, cs1, g1, g2, _, _, _, _⟩ := undoRecord_confined E m r0 t
          have hn1 : new1.filter (fun x => decide (x.txID = T)) = [] := by
            rw [List.filter_eq_nil_iff]
            intro x hx
            simp only [decide_eq_true_eq]
            rw [g2 x hx]
            exact hrT
          have hpop : decide (r0.txID = T) = false := by simpa using hrT
          have hq2 : (undoRecord E m r0 t).2.2.filter (findsTx log T) = [r.lsn] := by
            rcases undoRecord_queue_form E m r0 t with h | h
            · rw [h]; exact ht
            · rw [h, filter_pqPush_of_false _ _ _ (findsTx_follow hconf hmem hrT)]
              exact ht
          obtain ⟨new, clrs, e1, e2, h1, h2, h3, h4⟩ := ih r rest _ _ m2 hpath hq2 hr
          refine ⟨new1 ++ new, clrs, e1, e2, by rw [h1, g1, List.append_assoc], ?_, h3, ?_⟩
          · rw [List.filter_append, hn1, h2]
            rfl
          · simp only [undoPopped, hf, if_pos hok, List.filter_cons, hpop]
            simpa using h4

theorem updateChain_head {T : Int} {log : List LogRecord} {v : LogRecord}
    {rest : List LogRecord} (h : UpdateChain T log (v :: rest)) : IsUpdateOf T log v := by
  cases rest with
  | nil => exact h.1
  | cons s rest2 => exact h.1

theorem followLSN_update {u : LogRecord} (h : u.getType = TxType.UPDATE) :
    followLSN u = u.prevLSN := by
  obtain ⟨_, _, _, _, hb⟩ := getType_update h
  simp [followLSN, hb]

theorem updateChain_path {T : Int} {log : List LogRecord} :
    ∀ {chain : List LogRecord}, UpdateChain T log chain → UndoPath T log chain := by
  intro chain
  induction chain with
  | nil => intro h; exact h
  | cons v rest ih =>
    intro h
    obtain ⟨h1, h2, h3, h4⟩ := updateChain_head h
    cases rest with
    | nil => exact ⟨⟨h1, Or.inl h2, h4⟩, by rw [followLSN_update h2]; exact h.2⟩
    | cons s rest2 =>
      exact ⟨⟨h1, Or.inl h2, h4⟩, by rw [followLSN_update h2]; exact h.2.1,
        (updateChain_head h.2.2).2.2.1, ih h.2.2⟩

theorem updateChain_updates {T : Int} {log : List LogRecord} :
    ∀ {chain : List LogRecord}, UpdateChain T log chain →
      chain.filter (fun x => decide (x.getType = TxType.UPDATE)) = chain := by
  intro chain
  induction chain with
  | nil => intro _; rfl
  | cons v rest ih =>
    intro h
    have h2 := (updateChain_head h).2.1
    cases rest with
    | nil => simp [List.filter_cons, h2]
    | cons s rest2 =>
      have := ih h.2.2
      simp only [List.filter_cons, h2, decide_True, if_true]
      rw [List.filter_cons] at this
      rw [this]

theorem updateChain_le {T : Int} {log : List LogRecord}
    (hdec : ∀ r ∈ log, (r.prevLSN = NULL_LSN ∨ r.prevLSN < r.lsn) ∧
      (getUndoNextLSN r = NULL_LSN ∨ getUndoNextLSN r < r.lsn)) :
    ∀ {chain : List LogRecord} {v : LogRecord} {rest : List LogRecord},
      chain = v :: rest → UpdateChain T log chain → ∀ w ∈ chain, w.lsn ≤ v.lsn := by
  intro chain
  induction chain with
  | nil => intro v rest h; simp at h
  | cons a tl ih =>
    intro v rest he h w hw
    simp only [List.cons.injEq] at he
    obtain ⟨he1, he2⟩ := he
    subst he1
    rcases List.mem_cons.mp hw with h1 | h1
    · rw [h1]
    · cases tl with
      | nil => simp at h1
      | cons s tl2 =>
        have hs := ih rfl h.2.2 w h1
        have ha := updateChain_head h
        have hmem : a ∈ log := List.mem_of_find?_eq_some ha.2.2.2
        have hsn : s.lsn ≠ NULL_LSN := (updateChain_head h.2.2).2.2.1
        have hp := (hdec a hmem).1
        rw [h.2.1] at hp
        rcases hp with hp | hp
        · exact absurd hp hsn
        · omega

/-- C40 as stated fails when the storage engine stops responding: Undo returns at the
first failed `pageWrite`. Transaction 1 has the UPDATEs with LSN 1, 2, 3 and a CLR with
`undoNextLSN = 2`; on the engine whose `pageWrite` fails, Undo appends the CLR for the UPDATE
with LSN 2 and returns, so the UPDATE with LSN 1, reached by following `prevLSN` from 2, gets
no CLR. -/
theorem undo_resume_counterexample :
    ∃ m2 : LogMgr Stub,
      undo brokenEngine 9 ⟨[(1, ⟨4, TxStatus.U⟩)], [], [], ⟨5, [], [], [], NULL_LSN⟩, []⟩
        [UpdateLogRecord 1 NULL_LSN 1 7 0 "a" "b", UpdateLogRecord 2 1 1 7 0 "b" "c",
          UpdateLogRecord 3 2 1 7 0 "c" "d", CompensationLogRecord 4 3 1 7 0 "c" 2] NULL_TX =
        .ok m2 ∧
      m2.logtail = [CompensationLogRecord 5 4 1 7 0 "b" 1] :=
  ⟨_, rfl, by decide⟩

/-- C40, amended: let the engine accept every `pageWrite`, let `log` be a log whose
`prevLSN` and `undoNextLSN` values are `NULL_LSN` or smaller than the LSN of their record
and in which the LSN that Undo follows from a record is the LSN of records of the same
transaction only; let the CLR `c` with `undoNextLSN = u` be the record of transaction `T`
from which Undo starts (the only `lastLSN` of the transaction table that is the LSN of a
record of `T`), and let `chain` be the UPDATE records of `T` reached by following `prevLSN`
from `u`, latest first (none if `u = NULL_LSN`). Then crash-recovery Undo returns, the
records of `T` it pops are `c` and then those of `chain`, and the records of `T` it appends
are one CLR for each record of `chain`, in that order, followed by an END (only the END if
`u = NULL_LSN`); every record of `chain` has an LSN `<= u`, so no UPDATE of `T` with an LSN
above `u` is popped or compensated. -/
theorem undo_resumes_rollback {E : StorageEngine σ}
    (hw : ∀ p o t l s, (E.pageWrite p o t l s).1 = true) (log : List LogRecord) (T : Int)
    (c : LogRecord) (chain : List LogRecord) (m : LogMgr σ) (pageID offset : Int)
    (afterImage : String) (u : Int)
    (hconf : ∀ r ∈ log, ∀ r2 ∈ log, r2.lsn = followLSN r → r2.txID = r.txID)
    (hdec : ∀ r ∈ log, (r.prevLSN = NULL_LSN ∨ r.prevLSN < r.lsn) ∧
      (getUndoNextLSN r = NULL_LSN ∨ getUndoNextLSN r < r.lsn))
    (hcT : c.txID = T) (hcb : c.body = .clr pageID offset afterImage u)
    (hcf : log.find? (fun x => decide (x.lsn = c.lsn)) = some c)
    (hchain : (u = NULL_LSN ∧ chain = []) ∨
      (u ≠ NULL_LSN ∧ UpdateChain T log chain ∧ ∃ v rest, chain = v :: rest ∧ v.lsn = u))
    (htt : (m.tx_table.map (fun e => e.2.lastLSN)).filter (findsTx log T) = [c.lsn]) :
    ∃ m2 new clrs e1 e2,
      (∀ fuel, budget log (seedToUndo m NULL_TX) ≤ fuel →
        undo E fuel m log NULL_TX = .ok m2 ∧
        (undoPopped E log fuel m (seedToUndo m NULL_TX)).filter
          (fun x => decide (x.txID = T)) = c :: chain) ∧
      m2.logtail = m.logtail ++ new ∧
      new.filter (fun x => decide (x.txID = T)) = clrs ++ [⟨e1, e2, T, .endTx⟩] ∧
      List.Forall₂ IsCLROf chain clrs ∧
      ∀ v ∈ chain, v.lsn ≤ u := by
  have hfc : followLSN c = u := by simp [followLSN, hcb]
  have hcU : Undoable c := Or.inr (Or.inl (by simp [LogRecord.getType, hcb]))
  have hpath : UndoPath T log (c :: chain) := by
    rcases hchain with ⟨h1, h2⟩ | ⟨h1, h2, v, rest, h3, h4⟩
    · rw [h2]
      exact ⟨⟨hcT, hcU, hcf⟩, by rw [hfc, h1]⟩
    · rw [h3] at h2 ⊢
      exact ⟨⟨hcT, hcU, hcf⟩, by rw [hfc, h4], by rw [h4]; exact h1, updateChain_path h2⟩
  have hupd : (c :: chain).filter (fun x => decide (x.getType = TxType.UPDATE)) = chain := by
    have hc0 : decide (c.getType = TxType.UPDATE) = false := by
      simp [LogRecord.getType, hcb]
    rw [List.filter_cons, hc0]
    rcases hchain with ⟨_, h2⟩ | ⟨_, h2, _⟩
    · rw [h2]; rfl
    · exact updateChain_updates h2
  have hseed : (seedToUndo m NULL_TX).filter (findsTx log T) = [c.lsn] := by
    have hp := List.Perm.filter (findsTx log T) (seedToUndo_perm m)
    rw [List.filter_reverse, htt] at hp
    exact List.perm_singleton.mp hp
  obtain ⟨m2, hm2⟩ := undoLoop_returns E log hdec (budget log (seedToUndo m NULL_TX)) m
    (seedToUndo m NULL_TX) (le_refl _)
  obtain ⟨new, clrs, e1, e2, h1, h2, h3, _⟩ :=
    undoLoop_path hw T log hconf _ c chain m _ m2 hpath hseed hm2
  rw [hupd] at h3
  refine ⟨m2, new, clrs, e1, e2, ?_, h1, h2, h3, ?_⟩
  · intro fuel hf
    obtain ⟨extra, he⟩ := Nat.exists_eq_add_of_le hf
    have hrun : undoLoop E log fuel m (seedToUndo m NULL_TX) = .ok m2 := by
      rw [he]
      exact undoLoop_mono E log _ m _ m2 extra hm2
    obtain ⟨_, _, _, _, _, _, _, h4⟩ :=
      undoLoop_path hw T log hconf fuel c chain m _ m2 hpath hseed hrun
    exact ⟨hrun, h4⟩
  · rcases hchain with ⟨_, h2⟩ | ⟨_, h2, v, rest, h3, h4⟩
    · rw [h2]; simp
    · intro w hw2
      rw [← h4]
      exact updateChain_le hdec h3 h2 w hw2

/-- Witness of C40: transactions 1 and 2 are losers; transaction 1 has the UPDATEs with LSN
1, 2, 4 and a CLR with `undoNextLSN = 2`, transaction 2 one UPDATE. Undo on the stub engine
pops the CLR and the UPDATEs with LSN 2 and 1 of transaction 1 and appends two CLRs and an
END for it. -/
theorem undo_resumes_rollback_witness :
    ∃ (m2 : LogMgr Stub) (new clrs : List LogRecord) (e1 e2 : Int),
      (∀ fuel,
        budget [UpdateLogRecord 1 NULL_LSN 1 7 0 "a" "b", UpdateLogRecord 2 1 1 7 0 "b" "c",
            UpdateLogRecord 3 NULL_LSN 2 9 0 "x" "y", UpdateLogRecord 4 2 1 7 0 "c" "d",
            CompensationLogRecord 5 4 1 7 0 "c" 2]
          (seedToUndo (⟨[(1, ⟨5, TxStatus.U⟩), (2, ⟨3, TxStatus.U⟩)], [], [],
            ⟨6, [], [], [], NULL_LSN⟩, []⟩ : LogMgr Stub) NULL_TX) ≤ fuel →
        undo stubEngine fuel
          ⟨[(1, ⟨5, TxStatus.U⟩), (2, ⟨3, TxStatus.U⟩)], [], [], ⟨6, [], [], [], NULL_LSN⟩, []⟩
          [UpdateLogRecord 1 NULL_LSN 1 7 0 "a" "b", UpdateLogRecord 2 1 1 7 0 "b" "c",
            UpdateLogRecord 3 NULL_LSN 2 9 0 "x" "y", UpdateLogRecord 4 2 1 7 0 "c" "d",
            CompensationLogRecord 5 4 1 7 0 "c" 2] NULL_TX = .ok m2 ∧
        (undoPopped stubEngine
          [UpdateLogRecord 1 NULL_LSN 1 7 0 "a" "b", UpdateLogRecord 2 1 1 7 0 "b" "c",
            UpdateLogRecord 3 NULL_LSN 2 9 0 "x" "y", UpdateLogRecord 4 2 1 7 0 "c" "d",
            CompensationLogRecord 5 4 1 7 0 "c" 2] fuel
          ⟨[(1, ⟨5, TxStatus.U⟩), (2, ⟨3, TxStatus.U⟩)], [], [], ⟨6, [], [], [], NULL_LSN⟩, []⟩
          (seedToUndo (⟨[(1, ⟨5, TxStatus.U⟩), (2, ⟨3, TxStatus.U⟩)], [], [],
            ⟨6, [], [], [], NULL_LSN⟩, []⟩ : LogMgr Stub) NULL_TX)).filter
          (fun x => decide (x.txID = 1)) =
          CompensationLogRecord 5 4 1 7 0 "c" 2 ::
            [UpdateLogRecord 2 1 1 7 0 "b" "c", UpdateLogRecord 1 NULL_LSN 1 7 0 "a" "b"]) ∧
      m2.logtail = [] ++ new ∧
      new.filter (fun x => decide (x.txID = 1)) = clrs ++ [⟨e1, e2, 1, .endTx⟩] ∧
      List.Forall₂ IsCLROf
        [UpdateLogRecord 2 1 1 7 0 "b" "c", UpdateLogRecord 1 NULL_LSN 1 7 0 "a" "b"] clrs ∧
      ∀ v ∈ [UpdateLogRecord 2 1 1 7 0 "b" "c", UpdateLogRecord 1 NULL_LSN 1 7 0 "a" "b"],
        v.lsn ≤ 2 :=
  undo_resumes_rollback (E := stubEngine) (fun _ _ _ _ _ => rfl)
    [UpdateLogRecord 1 NULL_LSN 1 7 0 "a" "b", UpdateLogRecord 2 1 1 7 0 "b" "c",
      UpdateLogRecord 3 NULL_LSN 2 9 0 "x" "y", UpdateLogRecord 4 2 1 7 0 "c" "d",
      CompensationLogRecord 5 4 1 7 0 "c" 2] 1 (CompensationLogRecord 5 4 1 7 0 "c" 2)
    [UpdateLogRecord 2 1 1 7 0 "b" "c", UpdateLogRecord 1 NULL_LSN 1 7 0 "a" "b"]
    ⟨[(1, ⟨5, TxStatus.U⟩), (2, ⟨3, TxStatus.U⟩)], [], [], ⟨6, [], [], [], NULL_LSN⟩, []⟩
    7 0 "c" 2 (by decide) (by decide) rfl rfl (by decide)
    (Or.inr ⟨by decide, ⟨⟨rfl, rfl, by decide, by decide⟩, rfl,
      ⟨rfl, rfl, by decide, by decide⟩, rfl⟩, _, _, rfl, rfl⟩) (by decide)

end LogMgr_100

namespace LogMgr_xiabao7

open Recovery

variable {σ : Type}

/-! ### `LogMgr_xiabao7.cpp`: the ABORT branch of Undo -/

/-- C31: in `LogMgr_xiabao7.cpp` the ABORT branch of Undo tests the local variable
`prevLsn`, which holds the `prevLSN` of the UPDATE popped before (of whatever transaction),
not `R.prevLSN`. The log holds an UPDATE of transaction 1, the ABORT record `R` of
transaction 1 with `R.prevLSN = 1`, and an UPDATE of transaction 2 with `prevLSN =
NULL_LSN`. Crash recovery pops the UPDATE of transaction 2 first, then `R`: at `R` it
appends `END(prev = 2, tx 1)` and pushes nothing, so the UPDATE of transaction 1 is never
undone: the only `pageWrite` calls are the two of Redo and the one for transaction 2. On the
same state the iteration for `R` pushes `R.prevLSN` when `prevLsn` holds another value.
When `R` is the last record of the log it is popped first, and what Undo does depends on
the value that the uninitialised `prevLsn` holds: `NULL_LSN` gives the END alone, `0` gives
the CLR of the UPDATE and then the END. -/
theorem undo_abort_stale_prevLsn :
    (⟨2, 1, 1, .abort⟩ : LogRecord).prevLSN ≠ NULL_LSN ∧
    (∀ prevLsn0 : Int,
      recover LogMgr_100.stubEngine 9 (LogMgr_100.freshMgr ⟨4, [], [], [], NULL_LSN⟩)
        [UpdateLogRecord 1 NULL_LSN 1 7 0 "old" "new", ⟨2, 1, 1, .abort⟩,
          UpdateLogRecord 3 NULL_LSN 2 9 0 "x" "y"] prevLsn0 =
      recover LogMgr_100.stubEngine 9 (LogMgr_100.freshMgr ⟨4, [], [], [], NULL_LSN⟩)
        [UpdateLogRecord 1 NULL_LSN 1 7 0 "old" "new", ⟨2, 1, 1, .abort⟩,
          UpdateLogRecord 3 NULL_LSN 2 9 0 "x" "y"] 0) ∧
    (∃ m2 : LogMgr LogMgr_100.Stub,
      recover LogMgr_100.stubEngine 9 (LogMgr_100.freshMgr ⟨4, [], [], [], NULL_LSN⟩)
        [UpdateLogRecord 1 NULL_LSN 1 7 0 "old" "new", ⟨2, 1, 1, .abort⟩,
          UpdateLogRecord 3 NULL_LSN 2 9 0 "x" "y"] 0 = .ok m2 ∧
      m2.logtail = [CompensationLogRecord 4 3 2 9 0 "x" NULL_LSN, ⟨5, 4, 2, .endTx⟩,
        ⟨6, 2, 1, .endTx⟩] ∧
      LogMgr_100.pageWrites m2.calls = [Call.pageWrite 7 0 "new" 1 true,
        Call.pageWrite 9 0 "y" 3 true, Call.pageWrite 9 0 "x" 4 true]) ∧
    (undoRecord LogMgr_100.stubEngine (LogMgr_100.freshMgr ⟨4, [], [], [], NULL_LSN⟩)
      ⟨2, 1, 1, .abort⟩ [] NULL_LSN).2.2.1 = [] ∧
    (undoRecord LogMgr_100.stubEngine (LogMgr_100.freshMgr ⟨4, [], [], [], NULL_LSN⟩)
      ⟨2, 1, 1, .abort⟩ [] 7).2.2.1 = [1] ∧
    (∃ m3 : LogMgr LogMgr_100.Stub,
      recover LogMgr_100.stubEngine 9 (LogMgr_100.freshMgr ⟨3, [], [], [], NULL_LSN⟩)
        [UpdateLogRecord 1 NULL_LSN 1 7 0 "old" "new", ⟨2, 1, 1, .abort⟩] NULL_LSN = .ok m3 ∧
      m3.logtail = [⟨3, 2, 1, .endTx⟩] ∧
      LogMgr_100.pageWrites m3.calls = [Call.pageWrite 7 0 "new" 1 true]) ∧
    (∃ m4 : LogMgr LogMgr_100.Stub,
      recover LogMgr_100.stubEngine 9 (LogMgr_100.freshMgr ⟨3, [], [], [], NULL_LSN⟩)
        [UpdateLogRecord 1 NULL_LSN 1 7 0 "old" "new", ⟨2, 1, 1, .abort⟩] 0 = .ok m4 ∧
      m4.logtail = [CompensationLogRecord 3 2 1 7 0 "old" NULL_LSN, ⟨4, 3, 1, .endTx⟩] ∧
      LogMgr_100.pageWrites m4.calls =
        [Call.pageWrite 7 0 "new" 1 true, Call.pageWrite 7 0 "old" 3 true]) :=
  ⟨by decide, fun _ => rfl, ⟨_, rfl, by decide, by decide⟩, by decide, by decide,
    ⟨_, rfl, by decide, by decide⟩, ⟨_, rfl, by decide, by decide⟩⟩

/-! ### `LogMgr_xiabao7.cpp`: where the scan of `redo` starts -/

theorem foldl_min_le : ∀ (xs : List Int) (x : Int),
    xs.foldl min x ≤ x ∧ ∀ b ∈ xs, xs.foldl min x ≤ b := by
  intro xs
  induction xs with
  | nil => intro x; simp
  | cons y ys ih =>
    intro x
    simp only [List.foldl_cons]
    obtain ⟨h1, h2⟩ := ih (min x y)
    refine ⟨le_trans h1 (min_le_left _ _), ?_⟩
    intro b hb
    rcases List.mem_cons.mp hb with h | h
    · rw [h]; exact le_trans h1 (min_le_right _ _)
    · exact h2 b h

theorem min_le_of_mem (l : List Int) (a : Int) (h : l.min? = some a) (b : Int) (hb : b ∈ l) :
    a ≤ b := by
  cases l with
  | nil => simp at hb
  | cons x xs =>
    have e : (x :: xs).min? = some (xs.foldl min x) := rfl
    rw [e] at h
    simp only [Option.some.injEq] at h
    rw [← h]
    rcases List.mem_cons.mp hb with h2 | h2
    · rw [h2]; exact (foldl_min_le xs x).1
    · exact (foldl_min_le xs x).2 b h2

theorem redoScan_skip_prefix (E : StorageEngine σ) (m : LogMgr σ) (rest : List LogRecord) :
    ∀ (pre : List LogRecord),
      (∀ r ∈ pre, ∀ p o a v, LogMgr_100.redoTarget r = some (p, o, a) →
        mapFind m.dirty_page_table p = some v → r.lsn < v) →
      redoScan E m (pre ++ rest) = redoScan E m rest := by
  intro pre
  induction pre with
  | nil => intro _; rfl
  | cons r pre ih =>
    intro h
    have hrest := ih (fun r2 hr2 => h r2 (List.mem_cons_of_mem _ hr2))
    rw [List.cons_append]
    cases ht : LogMgr_100.redoTarget r with
    | none =>
      rw [redoScan]
      simp only [ht]
      exact hrest
    | some tg =>
      obtain ⟨p, o, a⟩ := tg
      cases hd : mapFind m.dirty_page_table p with
      | none =>
        rw [redoScan]
        simp only [ht, hd]
        exact hrest
      | some v =>
        have hlt := h r (List.mem_cons_self _ _) p o a v ht hd
        rw [redoScan]
        simp only [ht, hd]
        rw [if_pos (by omega)]
        exact hrest

/-- C37: for every non-empty log, every dirty page table and every engine state, the
`redo` of `LogMgr_xiabao7.cpp`, whose page-writing loop starts at the first record of the
log, returns the same result in the same final state as the redo that starts at the first
record with an LSN `>= startLSN`, the smallest `recLSN`; in particular both make the same
engine calls, hence the same `pageWrite` calls with the same arguments in the same
order. -/
theorem redo_start_immaterial (E : StorageEngine σ) (m : LogMgr σ) (log : List LogRecord)
    (hne : log ≠ []) :
    redo E m log = .ok (redoFromStartLSN E m log) ∧
    ∃ res, redo E m log = .ok res ∧ res.1 = (redoFromStartLSN E m log).1 ∧
      LogMgr_100.pageWrites res.2.calls =
        LogMgr_100.pageWrites (redoFromStartLSN E m log).2.calls := by
  have key : redo E m log = .ok (redoFromStartLSN E m log) := by
    cases log with
    | nil => exact absurd rfl hne
    | cons first rest =>
      unfold redo redoFromStartLSN
      cases hmin : (m.dirty_page_table.map Prod.snd).min? with
      | none =>
        have hd : m.dirty_page_table = [] := by
          have := List.min?_eq_none_iff.mp hmin
          simpa using this
        have hskip := redoScan_skip_prefix E m [] (first :: rest) (by
          intro r _ p o a v _ hv
          rw [hd] at hv
          simp [mapFind] at hv)
        rw [List.append_nil] at hskip
        simp only [hskip]
        rfl
      | some s =>
        have hsplit := List.takeWhile_append_dropWhile (fun r => decide (r.lsn < s))
          (first :: rest)
        have hskip := redoScan_skip_prefix E m
          ((first :: rest).dropWhile (fun r => decide (r.lsn < s)))
          ((first :: rest).takeWhile (fun r => decide (r.lsn < s))) (by
            intro r hr p o a v _ hv
            have h1 := List.mem_takeWhile_imp hr
            simp only [decide_eq_true_eq] at h1
            have h2 := min_le_of_mem _ s hmin v
              (List.mem_map.mpr ⟨(p, v), LogMgr_100.mem_of_mapFind _ _ _ hv, rfl⟩)
            omega)
        rw [hsplit] at hskip
        simp only [hskip]
        split_ifs <;> rfl
  exact ⟨key, _, key, rfl, rfl⟩

/-- Witness of C37: the dirty page table is `{7 -> 2}` and the log holds UPDATEs of page 7
with LSN 1, 2 and 3; both redos write the after-images of the records with LSN 2 and 3. -/
theorem redo_start_immaterial_witness :
    redo LogMgr_100.stubEngine
        (⟨[], [(7, 2)], [], ⟨4, [], [], [], NULL_LSN⟩, []⟩ : LogMgr LogMgr_100.Stub)
        [UpdateLogRecord 1 NULL_LSN 1 7 0 "a" "b", UpdateLogRecord 2 1 1 7 0 "b" "c",
          UpdateLogRecord 3 2 1 7 0 "c" "d"] =
      .ok (redoFromStartLSN LogMgr_100.stubEngine
        (⟨[], [(7, 2)], [], ⟨4, [], [], [], NULL_LSN⟩, []⟩ : LogMgr LogMgr_100.Stub)
        [UpdateLogRecord 1 NULL_LSN 1 7 0 "a" "b", UpdateLogRecord 2 1 1 7 0 "b" "c",
          UpdateLogRecord 3 2 1 7 0 "c" "d"]) ∧
    LogMgr_100.pageWrites (redoFromStartLSN LogMgr_100.stubEngine
        (⟨[], [(7, 2)], [], ⟨4, [], [], [], NULL_LSN⟩, []⟩ : LogMgr LogMgr_100.Stub)
        [UpdateLogRecord 1 NULL_LSN 1 7 0 "a" "b", UpdateLogRecord 2 1 1 7 0 "b" "c",
          UpdateLogRecord 3 2 1 7 0 "c" "d"]).2.calls =
      [Call.pageWrite 7 0 "c" 2 true, Call.pageWrite 7 0 "d" 3 true] :=
  ⟨(redo_start_immaterial LogMgr_100.stubEngine
    (⟨[], [(7, 2)], [], ⟨4, [], [], [], NULL_LSN⟩, []⟩ : LogMgr LogMgr_100.Stub)
    [UpdateLogRecord 1 NULL_LSN 1 7 0 "a" "b", UpdateLogRecord 2 1 1 7 0 "b" "c",
      UpdateLogRecord 3 2 1 7 0 "c" "d"] (by simp)).1, by decide⟩

end LogMgr_xiabao7

namespace LogMgr_xiabao5

open Recovery

/-! ### `LogMgr_xiabao5.cpp`: the records that `redo` acts on -/

/-- C35: on the log of scenario S1 after the crash, an UPDATE of page 7 with LSN 1 and the
COMMIT of its transaction with LSN 2, with the tables that `analyze` builds from that log
(transaction 1 committed, page 7 dirty since LSN 1), the `redo` of `LogMgr_xiabao5.cpp`
makes, whatever its uninitialised locals hold, four engine calls before the END of the
transaction: `getLSN(7)` and `pageWrite(7, 0, "new", 1)` for the UPDATE, and then
`getLSN(7)` and `pageWrite(7, 0, "new", 2)` for the COMMIT record, which is neither an
UPDATE nor a CLR and whose LSN 2 belongs to no record of page 7; the records that
`LogMgr_xiabao7.cpp`, which has the `else continue`, acts on give only the first two. -/
theorem redo_acts_on_commit :
    (⟨2, 1, 1, .commit⟩ : LogRecord).getType = TxType.COMMIT ∧
    (analyze (LogMgr_100.freshMgr (⟨3, [], [], [], NULL_LSN⟩ : LogMgr_100.Stub))
        [UpdateLogRecord 1 NULL_LSN 1 7 0 "old" "new", ⟨2, 1, 1, .commit⟩]).tx_table =
      [(1, ⟨2, TxStatus.C⟩)] ∧
    (analyze (LogMgr_100.freshMgr (⟨3, [], [], [], NULL_LSN⟩ : LogMgr_100.Stub))
        [UpdateLogRecord 1 NULL_LSN 1 7 0 "old" "new", ⟨2, 1, 1, .commit⟩]).dirty_page_table =
      [(7, 1)] ∧
    (∀ pageID0 offset0 : Int,
      redo LogMgr_100.stubEngine
          (analyze (LogMgr_100.freshMgr (⟨3, [], [], [], NULL_LSN⟩ : LogMgr_100.Stub))
            [UpdateLogRecord 1 NULL_LSN 1 7 0 "old" "new", ⟨2, 1, 1, .commit⟩])
          [UpdateLogRecord 1 NULL_LSN 1 7 0 "old" "new", ⟨2, 1, 1, .commit⟩] pageID0 offset0 =
        redo LogMgr_100.stubEngine
          (analyze (LogMgr_100.freshMgr (⟨3, [], [], [], NULL_LSN⟩ : LogMgr_100.Stub))
            [UpdateLogRecord 1 NULL_LSN 1 7 0 "old" "new", ⟨2, 1, 1, .commit⟩])
          [UpdateLogRecord 1 NULL_LSN 1 7 0 "old" "new", ⟨2, 1, 1, .commit⟩] 0 0) ∧
    (redo LogMgr_100.stubEngine
        (analyze (LogMgr_100.freshMgr (⟨3, [], [], [], NULL_LSN⟩ : LogMgr_100.Stub))
          [UpdateLogRecord 1 NULL_LSN 1 7 0 "old" "new", ⟨2, 1, 1, .commit⟩])
        [UpdateLogRecord 1 NULL_LSN 1 7 0 "old" "new", ⟨2, 1, 1, .commit⟩] 0 0).1 = true ∧
    (redo LogMgr_100.stubEngine
        (analyze (LogMgr_100.freshMgr (⟨3, [], [], [], NULL_LSN⟩ : LogMgr_100.Stub))
          [UpdateLogRecord 1 NULL_LSN 1 7 0 "old" "new", ⟨2, 1, 1, .commit⟩])
        [UpdateLogRecord 1 NULL_LSN 1 7 0 "old" "new", ⟨2, 1, 1, .commit⟩] 0 0).2.calls =
      [Call.getLSN 7 NULL_LSN, Call.pageWrite 7 0 "new" 1 true,
        Call.getLSN 7 1, Call.pageWrite 7 0 "new" 2 true, Call.nextLSN 3] ∧
    ((LogMgr_xiabao7.redoScan LogMgr_100.stubEngine
        (analyze (LogMgr_100.freshMgr (⟨3, [], [], [], NULL_LSN⟩ : LogMgr_100.Stub))
          [UpdateLogRecord 1 NULL_LSN 1 7 0 "old" "new", ⟨2, 1, 1, .commit⟩])
        [UpdateLogRecord 1 NULL_LSN 1 7 0 "old" "new", ⟨2, 1, 1, .commit⟩]).2.calls =
      [Call.getLSN 7 NULL_LSN, Call.pageWrite 7 0 "new" 1 true]) :=
  ⟨rfl, by decide, by decide, fun _ _ => rfl, by decide, by decide, by decide⟩

end LogMgr_xiabao5

namespace LogMgr_fanbao

open Recovery

/-! ### `LogMgr_fanbao.cpp`: voluntary abort -/

/-- C36: scenario S3 on `LogMgr_fanbao.cpp`. Transaction 2 writes page 9 at offset 4
("A" to "B", LSN 1) and at offset 5 ("C" to "D", LSN 2) and calls `abort(2)`. The call
returns with the ABORT record (LSN 3) appended to the tail and nothing else done: no
`pageWrite`, no CLR, no END, and transaction 2 still in the transaction table, because the
ABORT record is not in the vector that the loop of `undo` searches for the LSN 3. On the
same state the `abort` of `LogMgr_100.cpp` appends ABORT, CLR, CLR, END, writes "C" at
offset 5 and then "A" at offset 4, and removes transaction 2. -/
theorem abort_undoes_nothing :
    (∃ m2 : LogMgr LogMgr_100.Stub,
      abort LogMgr_100.stubEngine
          (write LogMgr_100.stubEngine
            (write LogMgr_100.stubEngine (LogMgr_100.freshMgr LogMgr_100.stubInit)
              2 9 4 "B" "A").2 2 9 5 "D" "C").2 2 = .ok m2 ∧
        m2.logtail =
          [UpdateLogRecord 1 NULL_LSN 2 9 4 "A" "B", UpdateLogRecord 2 1 2 9 5 "C" "D",
            ⟨3, 2, 2, .abort⟩] ∧
        LogMgr_100.pageWrites m2.calls = [] ∧
        m2.se.written = [] ∧
        m2.tx_table = [(2, ⟨3, TxStatus.U⟩)]) ∧
    (write LogMgr_100.stubEngine
        (write LogMgr_100.stubEngine (LogMgr_100.freshMgr LogMgr_100.stubInit)
          2 9 4 "B" "A").2 2 9 5 "D" "C").2 =
      (LogMgr_100.write LogMgr_100.stubEngine
        (LogMgr_100.write LogMgr_100.stubEngine (LogMgr_100.freshMgr LogMgr_100.stubInit)
          2 9 4 "B" "A").2 2 9 5 "D" "C").2 ∧
    (∃ m3 : LogMgr LogMgr_100.Stub,
      LogMgr_100.abort LogMgr_100.stubEngine 9
          (LogMgr_100.write LogMgr_100.stubEngine
            (LogMgr_100.write LogMgr_100.stubEngine (LogMgr_100.freshMgr LogMgr_100.stubInit)
              2 9 4 "B" "A").2 2 9 5 "D" "C").2 2 = .ok m3 ∧
        m3.logtail =
          [UpdateLogRecord 1 NULL_LSN 2 9 4 "A" "B", UpdateLogRecord 2 1 2 9 5 "C" "D",
            ⟨3, 2, 2, .abort⟩, CompensationLogRecord 4 3 2 9 5 "C" 1,
            CompensationLogRecord 5 4 2 9 4 "A" NULL_LSN, ⟨6, 5, 2, .endTx⟩] ∧
        m3.se.written = [(9, 5, "C"), (9, 4, "A")] ∧
        m3.tx_table = []) :=
  ⟨⟨_, rfl, by decide, by decide, by decide, by decide⟩, rfl,
    ⟨_, rfl, by decide, by decide, by decide⟩⟩

end LogMgr_fanbao

namespace LogMgr_guanglei70

open Recovery

/-! ### `LogMgr_guanglei70.cpp`: the page writes of Undo -/

/-- C34: scenario S2 on `LogMgr_guanglei70.cpp`. The log holds one UPDATE of page 7 at
offset 0 from "old" to "new" by transaction 1, which never committed. `recover` returns
with the CLR and the END of transaction 1 appended and the transaction table empty, but
its only `pageWrite` is the one of Redo, `pageWrite(7, 0, "new", 1)`: Undo compensates the
UPDATE without a `pageWrite` of the before-image, so the last text written to page 7 is
"new", and the page is stamped with LSN 1, not with the LSN 2 of the CLR. The `undoRecord`
of `LogMgr_100.cpp` makes the call `pageWrite(7, 0, "old", 2)` on the same record, and
enters page 7 in an empty dirty page table where this one leaves the table empty. -/
theorem undo_writes_no_before_image :
    (∃ m2 : LogMgr LogMgr_100.Stub,
      recover LogMgr_100.stubEngine (fun s => s.master) 9
          (LogMgr_100.freshMgr ⟨2, [UpdateLogRecord 1 NULL_LSN 1 7 0 "old" "new"], [], [],
            NULL_LSN⟩)
          [UpdateLogRecord 1 NULL_LSN 1 7 0 "old" "new"] = .ok m2 ∧
        m2.logtail =
          [CompensationLogRecord 2 1 1 7 0 "old" NULL_LSN, ⟨3, 2, 1, .endTx⟩] ∧
        m2.tx_table = [] ∧
        LogMgr_100.pageWrites m2.calls = [Call.pageWrite 7 0 "new" 1 true] ∧
        m2.se.written = [(7, 0, "new")] ∧
        m2.se.pageLSN = [(7, 1)]) ∧
    LogMgr_100.pageWrites
        (undoRecord LogMgr_100.stubEngine
          (⟨[(1, ⟨1, TxStatus.U⟩)], [], [], ⟨2, [], [], [], NULL_LSN⟩, []⟩ :
            LogMgr LogMgr_100.Stub)
          (UpdateLogRecord 1 NULL_LSN 1 7 0 "old" "new") []).1.calls = [] ∧
    (undoRecord LogMgr_100.stubEngine
        (⟨[(1, ⟨1, TxStatus.U⟩)], [], [], ⟨2, [], [], [], NULL_LSN⟩, []⟩ :
          LogMgr LogMgr_100.Stub)
        (UpdateLogRecord 1 NULL_LSN 1 7 0 "old" "new") []).1.dirty_page_table = [] ∧
    LogMgr_100.pageWrites
        (LogMgr_100.undoRecord LogMgr_100.stubEngine
          (⟨[(1, ⟨1, TxStatus.U⟩)], [], [], ⟨2, [], [], [], NULL_LSN⟩, []⟩ :
            LogMgr LogMgr_100.Stub)
          (UpdateLogRecord 1 NULL_LSN 1 7 0 "old" "new") []).2.1.calls =
      [Call.pageWrite 7 0 "old" 2 true] ∧
    (LogMgr_100.undoRecord LogMgr_100.stubEngine
        (⟨[(1, ⟨1, TxStatus.U⟩)], [], [], ⟨2, [], [], [], NULL_LSN⟩, []⟩ :
          LogMgr LogMgr_100.Stub)
        (UpdateLogRecord 1 NULL_LSN 1 7 0 "old" "new") []).2.1.dirty_page_table = [(7, 2)] :=
  ⟨⟨_, rfl, by decide, by decide, by decide, by decide, by decide⟩, by decide, by decide,
    by decide, by decide⟩

end LogMgr_guanglei70
